import Mathlib

/-!
# Verification development for `Mandimby/v3.cpp`

Shallow embedding of the planning core of the turn-based network builder:
geometry primitives, the link validator, the 0/1 deque search, the bottleneck
detector and the three committing passes of `main`.

Conventions of the embedding.

* C++ `int` and `long long` values are `Int`.  Where an `int` or `long long` operation of
  the source can leave the range of its type, the result is wrapped as the compiled
  two's-complement program does: `wrap32` after 32-bit operations, `wrap64` after 64-bit
  ones.  Operations whose operands are bounded by a preceding test, or that only count
  items of the input, are left unwrapped.
* The `double` computation of `tube_construction_cost` follows IEEE 754 binary64 with
  round-to-nearest-even; the library function `hypot` is taken to be correctly rounded.
* `pair<int,int>` is `Int × Int`.
* `std::unordered_map<K, V>` is an association list `UMap K V`; `find`, `count`,
  `at` and `operator[]` are given their library meaning, so `operator[]` on an
  absent key appends a value-initialised entry and `at` on an absent key is a
  fault.  `std::unordered_set<int>` is a list of its members.
-/

namespace V3

/-! ## Containers -/

/-- Faults a library call of the source can raise. -/
inductive Fault where
  | out_of_range
  deriving DecidableEq, Repr

/-- Association-list model of `std::unordered_map<K, V>`. -/
abbrev UMap (K V : Type) := List (K × V)

/-- Library `find`: the value stored under `k`, if any. -/
def UMap.find {K V : Type} [DecidableEq K] : UMap K V → K → Option V
  | [], _ => none
  | (k', v) :: rest, k => if k' = k then some v else UMap.find rest k

/-- Library `count`: 1 when the key is present, 0 otherwise. -/
def UMap.count {K V : Type} [DecidableEq K] (m : UMap K V) (k : K) : Nat :=
  match UMap.find m k with
  | some _ => 1
  | none => 0

/-- Library `at`: the stored value, or an `out_of_range` fault when the key is absent. -/
def UMap.at_ {K V : Type} [DecidableEq K] (m : UMap K V) (k : K) : Except Fault V :=
  match UMap.find m k with
  | some v => .ok v
  | none => .error Fault.out_of_range

/-- Assignment `m[k] = v`: overwrites the entry of `k`, or appends one. -/
def UMap.set {K V : Type} [DecidableEq K] : UMap K V → K → V → UMap K V
  | [], k, v => [(k, v)]
  | (k', v') :: rest, k, v =>
    if k' = k then (k', v) :: rest else (k', v') :: UMap.set rest k v

/-- Read through `operator[]`: the stored value and the map unchanged, or, for an absent key,
the value-initialised default together with the map extended by that entry. -/
def UMap.index {K V : Type} [DecidableEq K] [Inhabited V] (m : UMap K V) (k : K) :
    V × UMap K V :=
  match UMap.find m k with
  | some v => (v, m)
  | none => (default, m ++ [(k, default)])

/-- Insertion into a `std::unordered_set`: no effect when the element is present. -/
def uset_insert {A : Type} [DecidableEq A] (s : List A) (x : A) : List A :=
  if x ∈ s then s else s ++ [x]

/-! ## Process-wide registries -/

/-- The static registries of v3.cpp (lines 20-25). -/
structure Globals where
  building_positions : UMap Int (Int × Int)
  building_type : UMap Int String
  module_type : UMap Int Int
  landing_astronaut_types : UMap Int (List Int)
  all_buildings : List Int
  turn_number : Int
  deriving DecidableEq, Repr

/-- Read `building_positions[k]` through `operator[]`, keeping the possibly extended map. -/
def Globals.position (g : Globals) (k : Int) : (Int × Int) × Globals :=
  let r := UMap.index g.building_positions k
  (r.1, { g with building_positions := r.2 })

/-! ## Machine integers -/

/-- The value of a 32-bit `int` holding `x` modulo 2^32: the representative of `x` in
`[-2147483648, 2147483647]`. -/
def wrap32 (x : Int) : Int :=
  (x + 2147483648) % 4294967296 - 2147483648

/-- The value of a 64-bit `long long` holding `x` modulo 2^64. -/
def wrap64 (x : Int) : Int :=
  (x + 9223372036854775808) % 18446744073709551616 - 9223372036854775808

/-! ## Geometry primitives -/

/-- Source `orientation` (v3.cpp 27-32): sign of the cross product of `b - a` and `c - a`.
The four differences are `int` subtractions and wrap; the products and their difference are
`long long` and stay within 64 bits, since each factor is a 32-bit value. -/
def orientation (ax ay bx by_ cx cy : Int) : Int :=
  let value := wrap32 (bx - ax) * wrap32 (cy - ay) - wrap32 (by_ - ay) * wrap32 (cx - ax)
  if value > 0 then 1
  else if value < 0 then -1
  else 0

/-- Source `point_on_segment` (v3.cpp 34-37). -/
def point_on_segment (px py ax ay bx by_ : Int) : Bool :=
  if orientation ax ay bx by_ px py ≠ 0 then false
  else decide (min ax bx ≤ px ∧ px ≤ max ax bx ∧ min ay by_ ≤ py ∧ py ≤ max ay by_)

/-- Source `segments_intersect` (v3.cpp 39-56). -/
def segments_intersect (a b c d : Int × Int) : Bool :=
  let ax := a.1
  let ay := a.2
  let bx := b.1
  let by_ := b.2
  let cx := c.1
  let cy := c.2
  let dx := d.1
  let dy := d.2
  let o1 := orientation ax ay bx by_ cx cy
  let o2 := orientation ax ay bx by_ dx dy
  let o3 := orientation cx cy dx dy ax ay
  let o4 := orientation cx cy dx dy bx by_
  if (o1 ≠ 0 ∧ o2 ≠ 0 ∧ o3 ≠ 0 ∧ o4 ≠ 0) ∧ (o1 ≠ o2 ∧ o3 ≠ o4) then true
  else if o1 = 0 ∧ point_on_segment cx cy ax ay bx by_ = true then true
  else if o2 = 0 ∧ point_on_segment dx dy ax ay bx by_ = true then true
  else if o3 = 0 ∧ point_on_segment ax ay cx cy dx dy = true then true
  else if o4 = 0 ∧ point_on_segment bx by_ cx cy dx dy = true then true
  else false

/-- The point `p` lies on the closed segment from `a` to `b`: `p = a + t (b - a)` for a
rational `t` in `[0, 1]`. -/
def OnSegment (p a b : Int × Int) : Prop :=
  ∃ t : ℚ, 0 ≤ t ∧ t ≤ 1 ∧
    (p.1 : ℚ) = a.1 + t * (b.1 - a.1) ∧ (p.2 : ℚ) = a.2 + t * (b.2 - a.2)

/-- The closed segments `ab` and `cd` share a point: the brute-force parametric check. -/
def SegmentsMeet (a b c d : Int × Int) : Prop :=
  ∃ t s : ℚ, 0 ≤ t ∧ t ≤ 1 ∧ 0 ≤ s ∧ s ≤ 1 ∧
    (a.1 : ℚ) + t * (b.1 - a.1) = c.1 + s * (d.1 - c.1) ∧
    (a.2 : ℚ) + t * (b.2 - a.2) = c.2 + s * (d.2 - c.2)

/-- Cross product of `b - a` and `c - a`, the quantity whose sign `orientation` returns. -/
def cross (a b c : Int × Int) : Int :=
  (b.1 - a.1) * (c.2 - a.2) - (b.2 - a.2) * (c.1 - a.1)

/-! ## Link validator and link cost -/

/-- The operand `degree.count(u) && degree.at(u) >= max_deg` of the degree test
(v3.cpp 62), with the short-circuit of `&&`. -/
def degree_at_least (degree : UMap Int Int) (u max_deg : Int) : Except Fault Bool :=
  if UMap.count degree u ≠ 0 then
    match UMap.at_ degree u with
    | .ok x => .ok (decide (x ≥ max_deg))
    | .error e => .error e
  else .ok false

/-- First loop of `tube_is_geometrically_valid` (v3.cpp 63-70).  The flag is `true` when the
loop executed `return false`, i.e. some existing tube blocks the segment `pu pv`. -/
def tube_blocked_by_existing (u v : Int) (pu pv : Int × Int) :
    List (Int × Int) → Globals → Bool × Globals
  | [], g => (false, g)
  | (a, b) :: rest, g =>
    if a = u ∨ a = v ∨ b = u ∨ b = v then tube_blocked_by_existing u v pu pv rest g
    else if UMap.count g.building_positions a = 0 ∨ UMap.count g.building_positions b = 0 then
      tube_blocked_by_existing u v pu pv rest g
    else
      let ra := g.position a
      let rb := ra.2.position b
      if segments_intersect pu pv ra.1 rb.1 = true then (true, rb.2)
      else tube_blocked_by_existing u v pu pv rest rb.2

/-- Second loop of `tube_is_geometrically_valid` (v3.cpp 71-76), over the members of
`all_buildings`.  The flag is `true` when the loop executed `return false`, i.e. a third
node lies on the segment `pu pv`. -/
def tube_blocked_by_node (u v : Int) (pu pv : Int × Int) :
    List Int → Globals → Bool × Globals
  | [], g => (false, g)
  | w :: rest, g =>
    if w = u ∨ w = v then tube_blocked_by_node u v pu pv rest g
    else if UMap.count g.building_positions w = 0 then tube_blocked_by_node u v pu pv rest g
    else
      let rw := g.position w
      if point_on_segment rw.1.1 rw.1.2 pu.1 pu.2 pv.1 pv.2 = true then (true, rw.2)
      else tube_blocked_by_node u v pu pv rest rw.2

/-- Source `tube_is_geometrically_valid` (v3.cpp 58-78).  The result carries the registries
as the call leaves them; `max_deg` is the parameter whose default value is 5. -/
def tube_is_geometrically_valid (g : Globals) (u v : Int) (existing_tubes : List (Int × Int))
    (degree : UMap Int Int) (max_deg : Int) : Except Fault (Bool × Globals) :=
  if UMap.find g.building_positions u = none ∨ UMap.find g.building_positions v = none then
    .ok (false, g)
  else
    let ru := g.position u
    let rv := ru.2.position v
    let pu := ru.1
    let pv := rv.1
    match degree_at_least degree u max_deg with
    | .error e => .error e
    | .ok true => .ok (false, rv.2)
    | .ok false =>
      match degree_at_least degree v max_deg with
      | .error e => .error e
      | .ok true => .ok (false, rv.2)
      | .ok false =>
        let r1 := tube_blocked_by_existing u v pu pv existing_tubes rv.2
        if r1.1 = true then .ok (false, r1.2)
        else
          let r2 := tube_blocked_by_node u v pu pv r1.2.all_buildings r1.2
          if r2.1 = true then .ok (false, r2.2) else .ok (true, r2.2)

/-- The number of low-order bits of `n` beyond its 53 leading bits: the number of halvings
that bring `n` below `2^53`, for `n < 2^181`. -/
def excess_bits : Nat → Nat → Nat
  | 0, _ => 0
  | k + 1, n => if n < 9007199254740992 then 0 else excess_bits k (n / 2) + 1

/-- Rounding of the natural number `n` to 53 significant bits, to nearest, ties to even; the
flag `sticky` says that the rounded quantity lies strictly between `n` and `n + 1`.  This is
the rounding of a binary64 operation whose exact result is `n` (or just above) in units of a
fixed power of two. -/
def round53 (n : Nat) (sticky : Bool) : Nat :=
  let t := excess_bits 128 n
  if t = 0 then n
  else
    let q := n / 2 ^ t
    let r := n % 2 ^ t
    let half := 2 ^ (t - 1)
    if r > half ∨ (r = half ∧ (sticky = true ∨ q % 2 = 1)) then (q + 1) * 2 ^ t
    else q * 2 ^ t

/-- Bisection for the integer square root of `n`: the bits `k - 1, ..., 0` are tried from
the top and added to `r` when the square stays at most `n`. -/
def isqrt_bits (n : Nat) : Nat → Nat → Nat
  | 0, r => r
  | k + 1, r =>
    if (r + 2 ^ k) * (r + 2 ^ k) ≤ n then isqrt_bits n k (r + 2 ^ k) else isqrt_bits n k r

/-- The integer part of the square root of `n`, for `n < 2^192`. -/
def isqrt (n : Nat) : Nat :=
  isqrt_bits n 96 0

/-- The binary64 value of `hypot(double(dx), double(dy))` for `int` arguments, in units of
`2^-53`: the square root of `dx*dx + dy*dy` rounded to nearest. -/
def double_hypot (dx dy : Int) : Nat :=
  let s := (dx * dx + dy * dy).toNat
  let r := isqrt (s * 2 ^ 106)
  round53 r (decide (r * r ≠ s * 2 ^ 106))

/-- The binary64 product `d * 10.0` of a value `d` given in units of `2^-53`, in the same
units. -/
def double_times_ten (d : Nat) : Nat :=
  round53 (d * 10) false

/-- The conversion `int(x)` of a nonnegative binary64 value given in units of `2^-53`: the
integer part, or -2147483648 when the integer part does not fit an `int` (the value the
conversion instruction of the compiled program delivers). -/
def double_to_int (x : Nat) : Int :=
  if x / 2 ^ 53 < 2147483648 then ((x / 2 ^ 53 : Nat) : Int) else -2147483648

/-- Source `tube_construction_cost` (v3.cpp 80-88).  The differences are `int` subtractions
and wrap; `hypot`, the product with `10.0` and the conversion to `int` are computed in
binary64. -/
def tube_construction_cost (g : Globals) (u v : Int) : Int × Globals :=
  if UMap.find g.building_positions u = none ∨ UMap.find g.building_positions v = none then
    (1000000000, g)
  else
    let r1 := g.position u
    let r2 := r1.2.position v
    let p1 := r1.1
    let p2 := r2.1
    let dx := wrap32 (p2.1 - p1.1)
    let dy := wrap32 (p2.2 - p1.2)
    (double_to_int (double_times_ten (double_hypot dx dy)), r2.2)

/-! ## Bottleneck detector -/

/-- Source `find_bottleneck_tubes` (v3.cpp 189-205).  The products `cap * 10` and `* 20`
are `int` products and wrap.  The test `flow > effective_capacity * 0.5` compares doubles
that represent the integers and the half-integer exactly, so it is read in `ℚ`. -/
def find_bottleneck_tubes :
    List (Int × Int × Int) → UMap (Int × Int) Int → List (Int × Int × Int × Int)
  | [], _ => []
  | (b1, b2, cap) :: rest, tube_flow =>
    if cap ≤ 0 then find_bottleneck_tubes rest tube_flow
    else
      let key := (min b1 b2, max b1 b2)
      let flow : Int :=
        match UMap.find tube_flow key with
        | some f => f
        | none => 0
      let effective_capacity := wrap32 (wrap32 (cap * 10) * 20)
      if (flow : ℚ) > (effective_capacity : ℚ) * (1 / 2) then
        (b1, b2, cap, flow) :: find_bottleneck_tubes rest tube_flow
      else find_bottleneck_tubes rest tube_flow

/-! ## The committing passes of `main` -/

/-- Source `struct Candidate` (v3.cpp 12-18); `score` is a `double` in the source and is
read only by the sort that precedes the committing passes. -/
structure Candidate where
  type : String
  action : String
  score : ℚ
  cost : Int
  buildings : Int × Int
  deriving DecidableEq

/-- Local state of one turn of `main` from line 486 on.  `existing_set` and
`covered_tubes` are empty until the lines that declare them (523, 568).  The last field
`committed` is a ghost log, absent from the source: every `actions.push_back` also records
the category and the cost of the committed action there. -/
structure TurnState where
  g : Globals
  existing_tubes : List (Int × Int)
  degree : UMap Int Int
  remaining_resources : Int
  actions : List String
  actions_count : UMap String Int
  MAX_PER_TYPE : UMap String Int
  pod_id_counter : Int
  existing_set : List (Int × Int)
  covered_tubes : List (Int × Int)
  committed : List (String × Int)
  deriving DecidableEq

/-- Statement `degree[b] = degree.count(b) ? degree[b]+1 : 1` (v3.cpp 518-519, 561-562). -/
def bump_degree (degree : UMap Int Int) (b : Int) : UMap Int Int :=
  if UMap.count degree b ≠ 0 then
    let r := UMap.index degree b
    UMap.set r.2 b (r.1 + 1)
  else UMap.set degree b 1

/-- Statement `m[k] += 1` on a counter map. -/
def UMap.increment {K : Type} [DecidableEq K] (m : UMap K Int) (k : K) : UMap K Int :=
  let r := UMap.index m k
  UMap.set r.2 k (r.1 + 1)

/-- Iterations of `while (existing_pod_ids.count(pod_id_counter)) ++pod_id_counter;`,
at most `n` of them. -/
def skip_used_pod_ids (existing_pod_ids : List Int) : Nat → Int → Int
  | 0, c => c
  | n + 1, c =>
    if c ∈ existing_pod_ids then skip_used_pod_ids existing_pod_ids n (c + 1) else c

/-- The loop `while (existing_pod_ids.count(pod_id_counter)) ++pod_id_counter;`
(v3.cpp 402, 509, 602): every iteration passes a different member of the set, so the loop
leaves within `existing_pod_ids.length` iterations (`next_pod_id_not_mem`). -/
def next_pod_id (existing_pod_ids : List Int) (c : Int) : Int :=
  skip_used_pod_ids existing_pod_ids existing_pod_ids.length c

/-- Characters of `s` with the first occurrence of `key` replaced by `r`. -/
def replace_first_chars (key r : List Char) : List Char → List Char
  | [] => []
  | c :: cs =>
    if key.isPrefixOf (c :: cs) = true then r ++ (c :: cs).drop key.length
    else c :: replace_first_chars key r cs

/-- The pair `pos = s.find(key); if (pos != npos) s.replace(pos, key.size(), r)`
(v3.cpp 506-507). -/
def replace_first (s key r : String) : String :=
  String.mk (replace_first_chars key.data r.data s.data)

/-- The test `building_type.count(b) && building_type[b] == t` (v3.cpp 584-585), with the
registries as the read through `operator[]` leaves them. -/
def Globals.type_is (g : Globals) (b : Int) (t : String) : Bool × Globals :=
  if UMap.count g.building_type b ≠ 0 then
    let r := UMap.index g.building_type b
    (decide (r.1 = t), { g with building_type := r.2 })
  else (false, g)

/-- State at line 489, before the Greedy Selector loop. -/
def turn_start (g : Globals) (existing_tubes : List (Int × Int)) (degree : UMap Int Int)
    (resources pod_id_counter : Int) : TurnState :=
  { g := g
    existing_tubes := existing_tubes
    degree := degree
    remaining_resources := resources
    actions := []
    actions_count := [("TUBE", 0), ("UPGRADE", 0), ("POD", 0), ("TELEPORT", 0)]
    MAX_PER_TYPE := [("TUBE", 8), ("UPGRADE", 2), ("POD", 6), ("TELEPORT", 1)]
    pod_id_counter := pod_id_counter
    existing_set := []
    covered_tubes := []
    committed := [] }

/-- The re-validation of lines 496-502: only a `TUBE` candidate is checked again. -/
def greedy_revalidate (s : TurnState) (candidate : Candidate) : Except Fault (Bool × Globals) :=
  if candidate.type = "TUBE" then
    tube_is_geometrically_valid s.g candidate.buildings.1 candidate.buildings.2
      s.existing_tubes s.degree 5
  else .ok (true, s.g)

/-- The commit of lines 503-520; the `int` subtraction `remaining_resources -= cost`
wraps. -/
def greedy_commit (existing_pod_ids : List Int) (s : TurnState) (candidate : Candidate) :
    TurnState :=
  let ctype := candidate.type
  let cost := candidate.cost
  let action_str :=
    if ctype = "POD" then
      replace_first candidate.action "\x7bpod_id\x7d" (toString s.pod_id_counter)
    else candidate.action
  let counter :=
    if ctype = "POD" then next_pod_id existing_pod_ids (s.pod_id_counter + 1)
    else s.pod_id_counter
  let s1 : TurnState :=
    { s with
      actions := s.actions ++ [action_str]
      remaining_resources := wrap32 (s.remaining_resources - cost)
      actions_count := UMap.increment s.actions_count ctype
      pod_id_counter := counter
      committed := s.committed ++ [(ctype, cost)] }
  if ctype = "TUBE" then
    { s1 with
      existing_tubes := s1.existing_tubes ++ [candidate.buildings]
      degree := bump_degree (bump_degree s1.degree candidate.buildings.1) candidate.buildings.2 }
  else s1

/-- The Greedy Selector loop (v3.cpp 490-521) over the sorted candidates. -/
def greedy_selector (existing_pod_ids : List Int) :
    List Candidate → TurnState → Except Fault TurnState
  | [], s => .ok s
  | candidate :: rest, s =>
    if (s.actions.length : Int) ≥ 15 then .ok s
    else
      let rc := UMap.index s.actions_count candidate.type
      let rm := UMap.index s.MAX_PER_TYPE candidate.type
      let s1 : TurnState := { s with actions_count := rc.2, MAX_PER_TYPE := rm.2 }
      if rc.1 ≥ rm.1 then greedy_selector existing_pod_ids rest s1
      else if candidate.cost > s1.remaining_resources then
        greedy_selector existing_pod_ids rest s1
      else
        match greedy_revalidate s1 candidate with
        | .error e => .error e
        | .ok (valid, g1) =>
          let s2 : TurnState := { s1 with g := g1 }
          if valid = false then greedy_selector existing_pod_ids rest s2
          else greedy_selector existing_pod_ids rest (greedy_commit existing_pod_ids s2 candidate)

/-- The set built at lines 523-527 from the working link list. -/
def build_existing_set : List (Int × Int) → List (Int × Int) → List (Int × Int)
  | [], acc => acc
  | e :: rest, acc =>
    build_existing_set rest (uset_insert (uset_insert acc (e.1, e.2)) (e.2, e.1))

/-- The locals `best_neighbor`, `best_cost`, `best_dist2` of the Fallback Connector. -/
structure BestNeighbor where
  best_neighbor : Int
  best_cost : Int
  best_dist2 : Int
  deriving DecidableEq

/-- Inner loop of the Fallback Connector (v3.cpp 540-555) over the members of
`all_buildings`.  The differences of lines 547-548 are `int` subtractions, widened to
`long long` afterwards; `dist2` is a `long long` sum. -/
def fallback_scan (b : Int) (pb : Int × Int) (existing_set existing_tubes : List (Int × Int))
    (degree : UMap Int Int) (remaining_resources : Int) :
    List Int → Globals → BestNeighbor → Except Fault (BestNeighbor × Globals)
  | [], g, best => .ok (best, g)
  | other :: rest, g, best =>
    if other = b ∨ UMap.count g.building_positions other = 0 then
      fallback_scan b pb existing_set existing_tubes degree remaining_resources rest g best
    else if (b, other) ∈ existing_set then
      fallback_scan b pb existing_set existing_tubes degree remaining_resources rest g best
    else
      match tube_is_geometrically_valid g b other existing_tubes degree 5 with
      | .error e => .error e
      | .ok (valid, g1) =>
        if valid = false then
          fallback_scan b pb existing_set existing_tubes degree remaining_resources rest g1 best
        else
          let rc := tube_construction_cost g1 b other
          let cost := rc.1
          if cost > remaining_resources then
            fallback_scan b pb existing_set existing_tubes degree remaining_resources rest rc.2
              best
          else
            let rp := rc.2.position other
            let po := rp.1
            let dx := wrap32 (po.1 - pb.1)
            let dy := wrap32 (po.2 - pb.2)
            let dist2 := wrap64 (dx * dx + dy * dy)
            if dist2 < best.best_dist2 then
              fallback_scan b pb existing_set existing_tubes degree remaining_resources rest
                rp.2 { best_neighbor := other, best_cost := cost, best_dist2 := dist2 }
            else
              fallback_scan b pb existing_set existing_tubes degree remaining_resources rest
                rp.2 best

/-- The commit of the Fallback Connector (v3.cpp 556-565); the `int` subtraction
`remaining_resources -= best_cost` wraps. -/
def fallback_commit (s : TurnState) (b : Int) (best : BestNeighbor) : TurnState :=
  { s with
    actions := s.actions ++ ["TUBE " ++ toString b ++ " " ++ toString best.best_neighbor]
    existing_tubes := s.existing_tubes ++ [(b, best.best_neighbor)]
    existing_set :=
      uset_insert (uset_insert s.existing_set (b, best.best_neighbor)) (best.best_neighbor, b)
    degree := bump_degree (bump_degree s.degree b) best.best_neighbor
    remaining_resources := wrap32 (s.remaining_resources - best.best_cost)
    actions_count := UMap.increment s.actions_count "TUBE"
    committed := s.committed ++ [("TUBE", best.best_cost)] }

/-- The Fallback Connector loop (v3.cpp 529-566) over `new_buildings`. -/
def fallback_connector : List Int → TurnState → Except Fault TurnState
  | [], s => .ok s
  | b :: rest, s =>
    let rc := UMap.index s.actions_count "TUBE"
    let rm := UMap.index s.MAX_PER_TYPE "TUBE"
    let s1 : TurnState := { s with actions_count := rc.2, MAX_PER_TYPE := rm.2 }
    if rc.1 ≥ rm.1 then .ok s1
    else if s1.remaining_resources < 50 then .ok s1
    else if UMap.count s1.g.building_positions b = 0 then fallback_connector rest s1
    else if s1.existing_tubes.any (fun ec => decide (ec.1 = b ∨ ec.2 = b)) = true then
      fallback_connector rest s1
    else
      let rp := s1.g.position b
      match fallback_scan b rp.1 s1.existing_set s1.existing_tubes s1.degree
          s1.remaining_resources rp.2.all_buildings rp.2
          { best_neighbor := -1, best_cost := 0, best_dist2 := 1000000000000000000 } with
      | .error e => .error e
      | .ok (best, g1) =>
        let s2 : TurnState := { s1 with g := g1 }
        if best.best_neighbor ≠ -1 then fallback_connector rest (fallback_commit s2 b best)
        else fallback_connector rest s2

/-- Inner loop of lines 571-574: the consecutive pairs of one itinerary. -/
def cover_route : List Int → List (Int × Int) → List (Int × Int)
  | a :: b :: rest, covered => cover_route (b :: rest) (uset_insert covered (min a b, max a b))
  | _, covered => covered

/-- The set `covered_tubes` built at lines 568-575 from the input itineraries. -/
def build_covered_tubes : UMap Int (List Int) → List (Int × Int) → List (Int × Int)
  | [], covered => covered
  | pr :: rest, covered => build_covered_tubes rest (cover_route pr.2 covered)

/-- The list `tubes_needing_pods` built at lines 577-589, as `(priority, b1, b2)`. -/
def build_tubes_needing_pods (covered_tubes : List (Int × Int)) :
    List (Int × Int × Int) → Globals → List (Int × Int × Int) × Globals
  | [], g => ([], g)
  | (b1, b2, cap) :: rest, g =>
    if cap > 0 then
      let key := (min b1 b2, max b1 b2)
      if key ∉ covered_tubes then
        let t1 := g.type_is b1 "landing"
        let t2 := t1.2.type_is b2 "landing"
        let priority : Int := (if t1.1 = true then 100 else 0) + (if t2.1 = true then 100 else 0)
        let r := build_tubes_needing_pods covered_tubes rest t2.2
        ((priority, b1, b2) :: r.1, r.2)
      else build_tubes_needing_pods covered_tubes rest g
    else build_tubes_needing_pods covered_tubes rest g

/-- The `std::sort` of lines 591-593, by decreasing priority.  The standard leaves the order
of equal priorities open; the model keeps their input order. -/
def sort_by_priority (l : List (Int × Int × Int)) : List (Int × Int × Int) :=
  List.insertionSort (fun a b => a.1 ≥ b.1) l

/-- The commit of the Coverage Sweep (v3.cpp 599-605).  The loop commits only when
`remaining_resources` is at least 1000, so the subtraction stays in range. -/
def sweep_commit (existing_pod_ids : List Int) (s : TurnState) (b1 b2 : Int) : TurnState :=
  let route_str := toString b1 ++ " " ++ toString b2 ++ " " ++ toString b1 ++ " " ++
    toString b2 ++ " " ++ toString b1 ++ " " ++ toString b2 ++ " " ++ toString b1 ++ " " ++
    toString b2
  { s with
    actions := s.actions ++ ["POD " ++ toString s.pod_id_counter ++ " " ++ route_str]
    pod_id_counter := next_pod_id existing_pod_ids (s.pod_id_counter + 1)
    remaining_resources := s.remaining_resources - 1000
    actions_count := UMap.increment s.actions_count "POD"
    covered_tubes := uset_insert s.covered_tubes (min b1 b2, max b1 b2)
    committed := s.committed ++ [("POD", 1000)] }

/-- The Coverage Sweep loop (v3.cpp 595-606) over the sorted `tubes_needing_pods`. -/
def coverage_sweep_loop (existing_pod_ids : List Int) :
    List (Int × Int × Int) → TurnState → TurnState
  | [], s => s
  | (_, b1, b2) :: rest, s =>
    let rc := UMap.index s.actions_count "POD"
    let s1 : TurnState := { s with actions_count := rc.2 }
    if rc.1 ≥ 6 then s1
    else if s1.remaining_resources < 1000 then s1
    else coverage_sweep_loop existing_pod_ids rest (sweep_commit existing_pod_ids s1 b1 b2)

/-- State at line 529: the state the Greedy Selector left, with `existing_set` declared. -/
def fallback_start (s : TurnState) : TurnState :=
  { s with existing_set := build_existing_set s.existing_tubes [] }

/-- Lines 568-593: `covered_tubes` is declared and the sorted work list of the Coverage
Sweep computed, from the input routes and itineraries. -/
def sweep_start (routes : List (Int × Int × Int)) (existing_pod_routes : UMap Int (List Int))
    (s : TurnState) : List (Int × Int × Int) × TurnState :=
  let covered := build_covered_tubes existing_pod_routes []
  let r := build_tubes_needing_pods covered routes s.g
  (sort_by_priority r.1, { s with g := r.2, covered_tubes := covered })

/-- The three committing passes of one turn (v3.cpp 486-606), run in the order of the
source on the merged and sorted candidate list. -/
def commit_passes (existing_pod_ids : List Int) (routes : List (Int × Int × Int))
    (existing_pod_routes : UMap Int (List Int)) (new_buildings : List Int)
    (all_candidates : List Candidate) (s0 : TurnState) : Except Fault TurnState :=
  match greedy_selector existing_pod_ids all_candidates s0 with
  | .error e => .error e
  | .ok s1 =>
    match fallback_connector new_buildings (fallback_start s1) with
    | .error e => .error e
    | .ok s2 =>
      let w := sweep_start routes existing_pod_routes s2
      .ok (coverage_sweep_loop existing_pod_ids w.1 w.2)

/-! ## Distance model -/

/-- Statement `adj[b].push_back(e)` (v3.cpp 97-98). -/
def adjacency_push (adj : UMap Int (List (Int × Int))) (b : Int) (e : Int × Int) :
    UMap Int (List (Int × Int)) :=
  let r := UMap.index adj b
  UMap.set r.2 b (r.1 ++ [e])

/-- Source `build_adjacency` (v3.cpp 90-101): an empty list for every member of
`all_buildings`, then both directions of every route with weight 1 for a capacity-bearing
route and 0 for a shortcut. -/
def build_adjacency (all_buildings : List Int) (routes : List (Int × Int × Int)) :
    UMap Int (List (Int × Int)) :=
  let adj0 := all_buildings.foldl (fun adj b => UMap.set adj b []) []
  routes.foldl
    (fun adj t =>
      let weight : Int := if t.2.2 > 0 then 1 else 0
      adjacency_push (adjacency_push adj t.1 (t.2.1, weight)) t.2.1 (t.1, weight))
    adj0

/-- Inner loop of `bfs_distances_from` (v3.cpp 113-122) over the neighbours of the popped
node `u`; the deque is a list whose head is its front.  The sum `dist[u] + w` is an `int`
sum and wraps. -/
def bfs_relax (u : Int) : List (Int × Int) → UMap Int Int → List Int → UMap Int Int × List Int
  | [], dist, q => (dist, q)
  | (v, w) :: rest, dist, q =>
    let ru := UMap.index dist u
    let nd := wrap32 (ru.1 + w)
    let rv := UMap.index ru.2 v
    if nd < rv.1 then
      let dist1 := UMap.set rv.2 v nd
      if w = 0 then bfs_relax u rest dist1 (v :: q) else bfs_relax u rest dist1 (q ++ [v])
    else bfs_relax u rest rv.2 q

/-- The `while (!q.empty())` loop of `bfs_distances_from` (v3.cpp 109-123), run for at most
`fuel` iterations; `none` when the deque is not empty after `fuel` iterations. -/
def bfs_loop (adj : UMap Int (List (Int × Int))) : Nat → UMap Int Int → List Int →
    Option (UMap Int Int)
  | _, dist, [] => some dist
  | 0, _, _ :: _ => none
  | fuel + 1, dist, u :: q =>
    match UMap.find adj u with
    | none => bfs_loop adj fuel dist q
    | some nbrs =>
      let r := bfs_relax u nbrs dist q
      bfs_loop adj fuel r.1 r.2

/-- Lines 104-106 of `bfs_distances_from`: the sentinel for every member of
`all_buildings`, then 0 for `start`. -/
def bfs_init_dist (all_buildings : List Int) (start : Int) : UMap Int Int :=
  let dist0 : UMap Int Int :=
    all_buildings.foldl (fun dist b => UMap.set dist b 1000000000) []
  UMap.set dist0 start 0

/-- Source `bfs_distances_from` (v3.cpp 103-125) with an iteration bound on its loop. -/
def bfs_distances_from (all_buildings : List Int) (fuel : Nat) (start : Int)
    (adj : UMap Int (List (Int × Int))) : Option (UMap Int Int) :=
  bfs_loop adj fuel (bfs_init_dist all_buildings start) [start]

/-! ## Ranges of machine integers -/

/-- The value `x` is representable as a 32-bit `int`. -/
@[reducible] def InInt32 (x : Int) : Prop :=
  -2147483648 ≤ x ∧ x ≤ 2147483647

/-- The coordinate `x` lies in `[-2^30, 2^30 - 1]`: the difference of two such coordinates
is representable as a 32-bit `int`. -/
@[reducible] def Small30 (x : Int) : Prop :=
  -1073741824 ≤ x ∧ x ≤ 1073741823

/-- Both coordinates of the point `p` lie in `[-2^30, 2^30 - 1]`. -/
@[reducible] def SmallPoint (p : Int × Int) : Prop :=
  Small30 p.1 ∧ Small30 p.2

/-! ## Specification predicates for the link validator -/

/-- A tube of the list blocks the segment `pu pv`: both endpoints differ from `u` and `v`,
both are registered, and `segments_intersect` holds. -/
def BlockingTube (g : Globals) (u v : Int) (pu pv : Int × Int) (ab : Int × Int) : Prop :=
  ab.1 ≠ u ∧ ab.1 ≠ v ∧ ab.2 ≠ u ∧ ab.2 ≠ v ∧
    ∃ pa pb, UMap.find g.building_positions ab.1 = some pa ∧
      UMap.find g.building_positions ab.2 = some pb ∧ segments_intersect pu pv pa pb = true

/-- A third registered node lies on the segment `pu pv` according to `point_on_segment`. -/
def BlockingNode (g : Globals) (u v : Int) (pu pv : Int × Int) (w : Int) : Prop :=
  w ≠ u ∧ w ≠ v ∧ ∃ pw, UMap.find g.building_positions w = some pw ∧
    point_on_segment pw.1 pw.2 pu.1 pu.2 pv.1 pv.2 = true

/-- The four conditions under which the validator accepts the pair `(u, v)`: both endpoints
registered, neither with a recorded degree of `max_deg` or more, no blocking tube among
`existing_tubes`, no blocking third node among `all_buildings`. -/
def ValidLink (g : Globals) (u v : Int) (existing_tubes : List (Int × Int))
    (degree : UMap Int Int) (max_deg : Int) : Prop :=
  ∃ pu pv, UMap.find g.building_positions u = some pu ∧
    UMap.find g.building_positions v = some pv ∧
    (¬ ∃ x, UMap.find degree u = some x ∧ x ≥ max_deg) ∧
    (¬ ∃ x, UMap.find degree v = some x ∧ x ≥ max_deg) ∧
    (¬ ∃ ab ∈ existing_tubes, BlockingTube g u v pu pv ab) ∧
    (¬ ∃ w ∈ g.all_buildings, BlockingNode g u v pu pv w)

/-! ## Example inputs -/

/-- Registries of the crossing scenario: links 1-2 and 5-6 cross each other at (2,2), and
the candidate 7-8 crosses link 1-2. -/
def crossing_scenario : Globals :=
  { building_positions :=
      [(1, (0, 0)), (2, (4, 4)), (5, (0, 4)), (6, (4, 0)), (7, (1, 0)), (8, (0, 1))]
    building_type := []
    module_type := []
    landing_astronaut_types := []
    all_buildings := [1, 2, 5, 6, 7, 8]
    turn_number := 1 }


/-! ## Specification-side readings of the turn state -/

/-- The integer a read `m[k]` yields: the stored value, or 0 for an absent key. -/
def UMap.val {K : Type} [DecidableEq K] (m : UMap K Int) (k : K) : Int :=
  match UMap.find m k with
  | some v => v
  | none => 0

/-- Sum of the costs of the committed actions of a log. -/
def spent (log : List (String × Int)) : Int :=
  (log.map Prod.snd).sum

/-- Number of committed actions of category `t` in a log. -/
def committed_count (log : List (String × Int)) (t : String) : Nat :=
  (log.filter (fun e => decide (e.1 = t))).length

/-- Per-category quota table of the source (`MAX_PER_TYPE`, v3.cpp 488); a category outside
the table has quota 0. -/
def quota (t : String) : Int :=
  if t = "TUBE" then 8
  else if t = "UPGRADE" then 2
  else if t = "POD" then 6
  else if t = "TELEPORT" then 1
  else 0

/-- Counting invariant of the committing passes: the ghost log runs parallel to `actions`;
the counters of the source agree with the log; the quota table is unchanged; and every
category is within its quota. -/
structure TurnInv (s : TurnState) : Prop where
  len : s.actions.length = s.committed.length
  counts : ∀ t, UMap.val s.actions_count t = committed_count s.committed t
  maxes : ∀ t, UMap.val s.MAX_PER_TYPE t = quota t
  within : ∀ t, (committed_count s.committed t : Int) ≤ quota t

/-- Budget invariant of the committing passes for a turn whose starting budget is `B`: the
running budget is the `int` value of `B` minus the logged costs, and every prefix of the log
costs at most `B`. -/
structure BudgetInv (B : Int) (s : TurnState) : Prop where
  rem : s.remaining_resources = wrap32 (B - spent s.committed)
  within : ∀ k, spent (s.committed.take k) ≤ B

/-! ## Specification side of the distance model -/

/-- Neighbour list of `u` in an adjacency map, empty for an absent key. -/
def nbrs_of (adj : UMap Int (List (Int × Int))) (u : Int) : List (Int × Int) :=
  match UMap.find adj u with
  | some l => l
  | none => []

/-- A walk from `s` along the routes, in either direction of each route; its cost counts 1
for every traversed capacity-bearing route (`cap > 0`) and 0 for every shortcut. -/
inductive RouteWalk (routes : List (Int × Int × Int)) (s : Int) : Int → Int → Prop where
  | nil : RouteWalk routes s s 0
  | forward {u v cap c : Int} : RouteWalk routes s u c → (u, v, cap) ∈ routes →
      RouteWalk routes s v (c + (if cap > 0 then 1 else 0))
  | backward {u v cap c : Int} : RouteWalk routes s u c → (v, u, cap) ∈ routes →
      RouteWalk routes s v (c + (if cap > 0 then 1 else 0))

/-- A walk from `s` along the entries of an adjacency map, with the sum of its weights. -/
inductive AdjWalk (adj : UMap Int (List (Int × Int))) (s : Int) : Int → Int → Prop where
  | nil : AdjWalk adj s s 0
  | step {u v w c : Int} : AdjWalk adj s u c → (v, w) ∈ nbrs_of adj u →
      AdjWalk adj s v (c + w)

/-- Sum of the recorded distances over the node set `S`. -/
def potential (S : List Int) (d : UMap Int Int) : Int :=
  (S.toFinset).sum (fun x => UMap.val d x)

/-- Number of nodes of `S` whose recorded distance is below the sentinel. -/
def discovered (S : List Int) (d : UMap Int Int) : Finset Int :=
  (S.toFinset).filter (fun x => UMap.val d x < 1000000000)

/-- Invariant of the deque search from `start` over the node set `S`: recorded distances lie
between 0 and the sentinel, are 0 at `start` and outside `S`, every node of `S` has an
entry, a recorded distance below the sentinel is the cost of a walk and is smaller than the
number of discovered nodes, and the deque holds discovered nodes of `S`. -/
structure BfsCore (adj : UMap Int (List (Int × Int))) (start : Int) (S : List Int)
    (d : UMap Int Int) (q : List Int) : Prop where
  start_mem : start ∈ S
  start0 : UMap.val d start = 0
  nonneg : ∀ v, 0 ≤ UMap.val d v
  le_inf : ∀ v, UMap.val d v ≤ 1000000000
  outside : ∀ v, v ∉ S → UMap.val d v = 0
  keys : ∀ v ∈ S, UMap.find d v = some (UMap.val d v)
  realized : ∀ v ∈ S, UMap.val d v = 1000000000 ∨ AdjWalk adj start v (UMap.val d v)
  queue_in : ∀ x ∈ q, x ∈ S ∧ UMap.val d x < 1000000000
  counted : ∀ x ∈ S, UMap.val d x < 1000000000 →
    UMap.val d x + 1 ≤ ((discovered S d).card : Int)

/-- Every edge is relaxed, or its source waits in the deque, or it is one of the edges
`pend` of the node `u` being processed. -/
def Relaxed (adj : UMap Int (List (Int × Int))) (d : UMap Int Int) (q : List Int) (u : Int)
    (pend : List (Int × Int)) : Prop :=
  ∀ x y w, (y, w) ∈ nbrs_of adj x →
    x ∈ q ∨ UMap.val d y ≤ UMap.val d x + w ∨ (x = u ∧ (y, w) ∈ pend)

/-- The pair `(v, w)` is an entry of `u` contributed by the route `t`. -/
def RouteEdge (t : Int × Int × Int) (u v w : Int) : Prop :=
  ((t.1 = u ∧ t.2.1 = v) ∨ (t.1 = v ∧ t.2.1 = u)) ∧ w = if t.2.2 > 0 then 1 else 0


/-! ## Reference breadth-first search -/

/-- Reference algorithm from the spec's words, "plain breadth-first search": visit of the
neighbours of the dequeued node `u`; a neighbour whose recorded distance is still the
sentinel is discovered now: it receives the distance of `u` plus one and joins the back of
the FIFO queue; the other neighbours are left alone. -/
def plain_bfs_visit (u : Int) :
    List (Int × Int) → UMap Int Int → List Int → UMap Int Int × List Int
  | [], dist, q => (dist, q)
  | (v, _) :: rest, dist, q =>
    if UMap.val dist v = 1000000000 then
      plain_bfs_visit u rest (UMap.set dist v (UMap.val dist u + 1)) (q ++ [v])
    else plain_bfs_visit u rest dist q

/-- Reference algorithm from the spec's words: the FIFO loop of the plain breadth-first
search, for at most `fuel` dequeued nodes. -/
def plain_bfs_loop (adj : UMap Int (List (Int × Int))) :
    Nat → UMap Int Int → List Int → Option (UMap Int Int)
  | _, dist, [] => some dist
  | 0, _, _ :: _ => none
  | fuel + 1, dist, u :: q =>
    let r := plain_bfs_visit u (nbrs_of adj u) dist q
    plain_bfs_loop adj fuel r.1 r.2

/-- Reference algorithm from the spec's words: plain unweighted breadth-first search from
`start`, all distances initialised to the sentinel except 0 at `start`. -/
def plain_bfs_distances_from (all_buildings : List Int) (fuel : Nat) (start : Int)
    (adj : UMap Int (List (Int × Int))) : Option (UMap Int Int) :=
  plain_bfs_loop adj fuel (bfs_init_dist all_buildings start) [start]

/-- Level invariant of a breadth-first queue while the node `u` of level `L` is processed:
the level lies between 0 and the sentinel, the queue is sorted by recorded distance with
values `L` or `L + 1`, and every recorded distance is the sentinel or at most `L + 1`. -/
structure BfsLevel (L : Int) (u : Int) (d : UMap Int Int) (q : List Int) : Prop where
  at_u : UMap.val d u = L
  low : 0 ≤ L
  bound : L + 1 < 1000000000
  in_q : ∀ x ∈ q, L ≤ UMap.val d x ∧ UMap.val d x ≤ L + 1
  sorted : q.Pairwise (fun a b => UMap.val d a ≤ UMap.val d b)
  all : ∀ v, UMap.val d v = 1000000000 ∨ UMap.val d v ≤ L + 1

/-- The nodes `0, 1, ..., n` of a chain. -/
def chain_nodes (n : Nat) : List Int :=
  (List.range (n + 1)).map (fun (i : Nat) => (i : Int))

/-- The routes of a chain: a capacity-1 route from `i` to `i + 1` for every `i < n`. -/
def chain_routes (n : Nat) : List (Int × Int × Int) :=
  (List.range n).map (fun (i : Nat) => ((i : Int), (i : Int) + 1, (1 : Int)))

/-- Distances recorded on the chain `0 .. n` once the breadth-first search from node 0 has
discovered the nodes up to `k`: node `x ≤ k` has distance `x`, the later nodes of the chain
are at the sentinel, and nothing is recorded elsewhere. -/
def chain_profile (n k : Nat) (d : UMap Int Int) : Prop :=
  ∀ x : Int, UMap.val d x =
    if 0 ≤ x ∧ x ≤ k then x else if k < x ∧ x ≤ n then 1000000000 else 0

/-! ## Flow estimator -/

/-- Outcome that ends the embedding of a call early: a library fault, or the iteration bound
of the deque search used up. -/
inductive Halt where
  | fault (f : Fault)
  | out_of_fuel
  deriving DecidableEq, Repr

/-- Statement `m[k].push_back(x)` on a map of vectors. -/
def UMap.push_back {K V : Type} [DecidableEq K] (m : UMap K (List V)) (k : K) (x : V) :
    UMap K (List V) :=
  let r := UMap.index m k
  UMap.set r.2 k (r.1 ++ [x])

/-- Read `module_type[b]` through `operator[]`, keeping the possibly extended map. -/
def Globals.module_type_at (g : Globals) (b : Int) : Int × Globals :=
  let r := UMap.index g.module_type b
  (r.1, { g with module_type := r.2 })

/-- Read `landing_astronaut_types[b]` through `operator[]`, keeping the possibly extended
map. -/
def Globals.astronauts_at (g : Globals) (b : Int) : List Int × Globals :=
  let r := UMap.index g.landing_astronaut_types b
  (r.1, { g with landing_astronaut_types := r.2 })

/-- Loop of `get_modules_by_type` (v3.cpp 129-137) over the entries of `building_type`. -/
def get_modules_by_type_loop :
    List (Int × String) → Globals → UMap Int (List Int) → UMap Int (List Int) × Globals
  | [], g, result => (result, g)
  | (bid, bt) :: rest, g, result =>
    if bt = "module" then
      if UMap.count g.module_type bid ≠ 0 then
        let r := g.module_type_at bid
        get_modules_by_type_loop rest r.2 (UMap.push_back result r.1 bid)
      else get_modules_by_type_loop rest g result
    else get_modules_by_type_loop rest g result

/-- Source `get_modules_by_type` (v3.cpp 127-139). -/
def get_modules_by_type (g : Globals) : UMap Int (List Int) × Globals :=
  get_modules_by_type_loop g.building_type g []

/-- Iteration bound handed to the deque search inside a turn.  On an adjacency map with
weights 0 and 1 the search never uses it up (`bfs_distances_from_returns`). -/
def bfs_fuel (all_buildings : List Int) : Nat :=
  2000000000 * (all_buildings.length + 1) + 1

/-- Loop of lines 174-179 of `estimate_astronaut_flow`: the module of the list nearest to the
start of the search, as `(best_module, bestd)`.  The read `dist[m]` follows the test
`dist.count(m)`. -/
def nearest_module (dist : UMap Int Int) : List Int → Int × Int → Int × Int
  | [], best => best
  | m :: rest, best =>
    if UMap.count dist m ≠ 0 ∧ (UMap.index dist m).1 < best.2 then
      nearest_module dist rest (m, (UMap.index dist m).1)
    else nearest_module dist rest best

/-- Loop of lines 166-184 of `estimate_astronaut_flow` over the entries of `type_counts`. -/
def flow_of_landing (g : Globals) (adj : UMap Int (List (Int × Int)))
    (modules_by_type : UMap Int (List Int)) (landing_id : Int) :
    List (Int × Int) → UMap (Int × Int) Int → Except Halt (UMap (Int × Int) Int)
  | [], tube_flow => .ok tube_flow
  | (atype, count) :: rest, tube_flow =>
    match UMap.find modules_by_type atype with
    | none => flow_of_landing g adj modules_by_type landing_id rest tube_flow
    | some mods =>
      match bfs_distances_from g.all_buildings (bfs_fuel g.all_buildings) landing_id adj with
      | none => .error Halt.out_of_fuel
      | some dist =>
        let best := nearest_module dist mods (-1, 1000000000)
        if best.1 ≠ -1 ∧ best.2 < 1000000000 then
          let key := (min landing_id best.1, max landing_id best.1)
          let r := UMap.index tube_flow key
          flow_of_landing g adj modules_by_type landing_id rest (UMap.set r.2 key (r.1 + count))
        else flow_of_landing g adj modules_by_type landing_id rest tube_flow

/-- Loop of lines 160-185 of `estimate_astronaut_flow` over the entries of
`landing_astronaut_types`. -/
def estimate_astronaut_flow_loop (g : Globals) (adj : UMap Int (List (Int × Int)))
    (modules_by_type : UMap Int (List Int)) :
    List (Int × List Int) → UMap (Int × Int) Int → Except Halt (UMap (Int × Int) Int)
  | [], tube_flow => .ok tube_flow
  | (landing_id, astro_types) :: rest, tube_flow =>
    if UMap.count g.building_positions landing_id = 0 then
      estimate_astronaut_flow_loop g adj modules_by_type rest tube_flow
    else
      let type_counts : UMap Int Int := astro_types.foldl UMap.increment []
      match flow_of_landing g adj modules_by_type landing_id type_counts tube_flow with
      | .error e => .error e
      | .ok tube_flow1 => estimate_astronaut_flow_loop g adj modules_by_type rest tube_flow1

/-- Source `estimate_astronaut_flow` (v3.cpp 156-187); its parameter `routes` is not read. -/
def estimate_astronaut_flow (g : Globals) (adj : UMap Int (List (Int × Int))) :
    Except Halt (UMap (Int × Int) Int × Globals) :=
  let rm := get_modules_by_type g
  match estimate_astronaut_flow_loop rm.2 adj rm.1 rm.2.landing_astronaut_types [] with
  | .error e => .error e
  | .ok tube_flow => .ok (tube_flow, rm.2)

/-! ## Candidate generators -/

/-- Innermost loop of `generate_tube_candidates` (v3.cpp 223-241) over the modules of the
wanted type.  The `double` returned by the library function `hypot` is the parameter
`hypot`, a function of the two integer differences; scores are read in `ℚ`. -/
def tube_candidates_for_type (hypot : Int → Int → ℚ) (landing_id : Int)
    (astro_types : List Int) (wanted : Int) (existing_set existing_tubes : List (Int × Int))
    (degree : UMap Int Int) (remaining_resources : Int) :
    List Int → Globals → List Candidate → Except Fault (List Candidate × Globals)
  | [], g, candidates => .ok (candidates, g)
  | mod :: rest, g, candidates =>
    if (landing_id, mod) ∈ existing_set then
      tube_candidates_for_type hypot landing_id astro_types wanted existing_set existing_tubes
        degree remaining_resources rest g candidates
    else
      match tube_is_geometrically_valid g landing_id mod existing_tubes degree 5 with
      | .error e => .error e
      | .ok (valid, g1) =>
        if valid = false then
          tube_candidates_for_type hypot landing_id astro_types wanted existing_set
            existing_tubes degree remaining_resources rest g1 candidates
        else
          let rc := tube_construction_cost g1 landing_id mod
          let cost := rc.1
          if cost > remaining_resources then
            tube_candidates_for_type hypot landing_id astro_types wanted existing_set
              existing_tubes degree remaining_resources rest rc.2 candidates
          else
            let nb_astros : Int := (astro_types.count wanted : Nat)
            let r1 := rc.2.position landing_id
            let r2 := r1.2.position mod
            let p1 := r1.1
            let p2 := r2.1
            let dist := hypot (wrap32 (p1.1 - p2.1)) (wrap32 (p1.2 - p2.2))
            let score := (nb_astros : ℚ) * 1000 / max dist 1 - (cost : ℚ) * (1 / 10)
            let c : Candidate :=
              { type := "TUBE"
                action := "TUBE " ++ toString landing_id ++ " " ++ toString mod
                score := score
                cost := cost
                buildings := (landing_id, mod) }
            tube_candidates_for_type hypot landing_id astro_types wanted existing_set
              existing_tubes degree remaining_resources rest r2.2 (candidates ++ [c])

/-- Loop of `generate_tube_candidates` (v3.cpp 220-242) over the distinct wanted types of one
landing pad. -/
def tube_candidates_for_landing (hypot : Int → Int → ℚ) (landing_id : Int)
    (astro_types : List Int) (modules_by_type : UMap Int (List Int))
    (existing_set existing_tubes : List (Int × Int)) (degree : UMap Int Int)
    (remaining_resources : Int) :
    List Int → Globals → List Candidate → Except Fault (List Candidate × Globals)
  | [], g, candidates => .ok (candidates, g)
  | wanted :: rest, g, candidates =>
    match UMap.find modules_by_type wanted with
    | none =>
      tube_candidates_for_landing hypot landing_id astro_types modules_by_type existing_set
        existing_tubes degree remaining_resources rest g candidates
    | some mods =>
      match tube_candidates_for_type hypot landing_id astro_types wanted existing_set
          existing_tubes degree remaining_resources mods g candidates with
      | .error e => .error e
      | .ok (candidates1, g1) =>
        tube_candidates_for_landing hypot landing_id astro_types modules_by_type existing_set
          existing_tubes degree remaining_resources rest g1 candidates1

/-- Loop of `generate_tube_candidates` (v3.cpp 215-243) over the entries of
`landing_astronaut_types`. -/
def generate_tube_candidates_loop (hypot : Int → Int → ℚ)
    (modules_by_type : UMap Int (List Int)) (existing_set existing_tubes : List (Int × Int))
    (degree : UMap Int Int) (remaining_resources : Int) :
    List (Int × List Int) → Globals → List Candidate → Except Fault (List Candidate × Globals)
  | [], g, candidates => .ok (candidates, g)
  | (landing_id, astro_types) :: rest, g, candidates =>
    if UMap.count g.building_positions landing_id = 0 then
      generate_tube_candidates_loop hypot modules_by_type existing_set existing_tubes degree
        remaining_resources rest g candidates
    else
      let wanted_types := astro_types.foldl uset_insert []
      match tube_candidates_for_landing hypot landing_id astro_types modules_by_type
          existing_set existing_tubes degree remaining_resources wanted_types g candidates with
      | .error e => .error e
      | .ok (candidates1, g1) =>
        generate_tube_candidates_loop hypot modules_by_type existing_set existing_tubes degree
          remaining_resources rest g1 candidates1

/-- Source `generate_tube_candidates` (v3.cpp 207-245); its parameter `adj` is not read. -/
def generate_tube_candidates (hypot : Int → Int → ℚ) (g : Globals) (remaining_resources : Int)
    (degree : UMap Int Int) (existing_tubes : List (Int × Int)) :
    Except Fault (List Candidate × Globals) :=
  let existing_set := build_existing_set existing_tubes []
  let rm := get_modules_by_type g
  generate_tube_candidates_loop hypot rm.1 existing_set existing_tubes degree
    remaining_resources rm.2.landing_astronaut_types rm.2 []

/-- Source `generate_upgrade_candidates` (v3.cpp 247-264), as its loop over the bottlenecks;
its parameter `routes` is not read.  The sum `cap + 1` and the product with the link cost
are `int` operations and wrap. -/
def generate_upgrade_candidates (remaining_resources : Int) :
    List (Int × Int × Int × Int) → Globals → List Candidate → List Candidate × Globals
  | [], g, candidates => (candidates, g)
  | (b1, b2, cap, flow) :: rest, g, candidates =>
    let rc := tube_construction_cost g b1 b2
    let upgrade_cost := wrap32 (rc.1 * wrap32 (cap + 1))
    if upgrade_cost > remaining_resources then
      generate_upgrade_candidates remaining_resources rest rc.2 candidates
    else
      let score := (flow : ℚ) * 10 - (upgrade_cost : ℚ) * (1 / 10)
      let c : Candidate :=
        { type := "UPGRADE"
          action := "UPGRADE " ++ toString b1 ++ " " ++ toString b2
          score := score
          cost := upgrade_cost
          buildings := (b1, b2) }
      generate_upgrade_candidates remaining_resources rest rc.2 (candidates ++ [c])

/-- The itinerary text `b1 b2 b1 b2 b1 b2 b1 b2` of a new pod (v3.cpp 292, 599). -/
def route_str (b1 b2 : Int) : String :=
  toString b1 ++ " " ++ toString b2 ++ " " ++ toString b1 ++ " " ++ toString b2 ++ " " ++
    toString b1 ++ " " ++ toString b2 ++ " " ++ toString b1 ++ " " ++ toString b2

/-- The score increment of lines 284-287 (and 288-291) of `generate_pod_candidates` for the
endpoint `b`: 500 plus ten per waiting astronaut when `b` is a landing pad. -/
def pod_endpoint_score (g : Globals) (b : Int) : Int × Globals :=
  let t := g.type_is b "landing"
  if t.1 = true then
    let ra := t.2.astronauts_at b
    (500 + (ra.1.length : Int) * 10, ra.2)
  else (0, t.2)

/-- Loop of `generate_pod_candidates` (v3.cpp 278-300) over the routes. -/
def generate_pod_candidates_loop (covered_tubes : List (Int × Int)) :
    List (Int × Int × Int) → Globals → List Candidate → List Candidate × Globals
  | [], g, candidates => (candidates, g)
  | (b1, b2, cap) :: rest, g, candidates =>
    if cap ≤ 0 then generate_pod_candidates_loop covered_tubes rest g candidates
    else if (min b1 b2, max b1 b2) ∈ covered_tubes then
      generate_pod_candidates_loop covered_tubes rest g candidates
    else
      let s1 := pod_endpoint_score g b1
      let s2 := pod_endpoint_score s1.2 b2
      let score : Int := 100 + s1.1 + s2.1
      let c : Candidate :=
        { type := "POD"
          action := "POD \x7bpod_id\x7d " ++ route_str b1 b2
          score := (score : ℚ)
          cost := 1000
          buildings := (b1, b2) }
      generate_pod_candidates_loop covered_tubes rest s2.2 (candidates ++ [c])

/-- Source `generate_pod_candidates` (v3.cpp 266-302); its parameter `adj` is not read. -/
def generate_pod_candidates (g : Globals) (remaining_resources : Int)
    (routes : List (Int × Int × Int)) (existing_pod_routes : UMap Int (List Int)) :
    List Candidate × Globals :=
  if remaining_resources < 1000 then ([], g)
  else
    generate_pod_candidates_loop (build_covered_tubes existing_pod_routes []) routes g []

/-- The set `has_teleport` of `generate_teleport_candidates` (v3.cpp 308-312). -/
def build_has_teleport : List (Int × Int × Int) → List Int → List Int
  | [], acc => acc
  | (b1, b2, cap) :: rest, acc =>
    if cap = 0 then build_has_teleport rest (uset_insert (uset_insert acc b1) b2)
    else build_has_teleport rest acc

/-- The vectors `landings` and `modules` of `generate_teleport_candidates` (v3.cpp 313-317),
filled by one loop over the members of `all_buildings`. -/
def split_landings_modules (has_teleport : List Int) :
    List Int → Globals → List Int × List Int → (List Int × List Int) × Globals
  | [], g, acc => (acc, g)
  | b :: rest, g, (landings, modules) =>
    let t1 := g.type_is b "landing"
    let landings1 := if t1.1 = true ∧ b ∉ has_teleport then landings ++ [b] else landings
    let t2 := t1.2.type_is b "module"
    let modules1 := if t2.1 = true ∧ b ∉ has_teleport then modules ++ [b] else modules
    split_landings_modules has_teleport rest t2.2 (landings1, modules1)

/-- Inner loop of `generate_teleport_candidates` (v3.cpp 321-344) over `modules`, for one
landing pad and its distance map.  The value of `hypot` at line 327 is not used. -/
def teleport_candidates_for_landing (landing : Int) (distmap : UMap Int Int) :
    List Int → Globals → List Candidate → List Candidate × Globals
  | [], g, candidates => (candidates, g)
  | mod :: rest, g, candidates =>
    if UMap.count g.building_positions mod = 0 then
      teleport_candidates_for_landing landing distmap rest g candidates
    else
      let bfs_dist : Int :=
        if UMap.count distmap mod ≠ 0 then (UMap.index distmap mod).1 else 1000000000
      if bfs_dist ≥ 3 then
        let r1 := g.position landing
        let r2 := r1.2.position mod
        let rt : Int × Globals :=
          if UMap.count r2.2.module_type mod ≠ 0 then r2.2.module_type_at mod else (0, r2.2)
        let mtype := rt.1
        let ra : Int × Globals :=
          if UMap.count rt.2.landing_astronaut_types landing ≠ 0 then
            let a := rt.2.astronauts_at landing
            ((a.1.count mtype : Nat), a.2)
          else (0, rt.2)
        let astro_count := ra.1
        let score : ℚ := ((bfs_dist - 1 : Int) : ℚ) * (astro_count : ℚ) * 50 - 5000 * (1 / 100)
        if score > 0 then
          let c : Candidate :=
            { type := "TELEPORT"
              action := "TELEPORT " ++ toString landing ++ " " ++ toString mod
              score := score
              cost := 5000
              buildings := (landing, mod) }
          teleport_candidates_for_landing landing distmap rest ra.2 (candidates ++ [c])
        else teleport_candidates_for_landing landing distmap rest ra.2 candidates
      else teleport_candidates_for_landing landing distmap rest g candidates

/-- Outer loop of `generate_teleport_candidates` (v3.cpp 318-345) over `landings`. -/
def generate_teleport_candidates_loop (adj : UMap Int (List (Int × Int))) (modules : List Int) :
    List Int → Globals → List Candidate → Except Halt (List Candidate × Globals)
  | [], g, candidates => .ok (candidates, g)
  | landing :: rest, g, candidates =>
    if UMap.count g.building_positions landing = 0 then
      generate_teleport_candidates_loop adj modules rest g candidates
    else
      match bfs_distances_from g.all_buildings (bfs_fuel g.all_buildings) landing adj with
      | none => .error Halt.out_of_fuel
      | some distmap =>
        let r := teleport_candidates_for_landing landing distmap modules g candidates
        generate_teleport_candidates_loop adj modules rest r.2 r.1

/-- Source `generate_teleport_candidates` (v3.cpp 304-347). -/
def generate_teleport_candidates (g : Globals) (remaining_resources : Int)
    (routes : List (Int × Int × Int)) (adj : UMap Int (List (Int × Int))) :
    Except Halt (List Candidate × Globals) :=
  if remaining_resources < 5000 then .ok ([], g)
  else
    let has_teleport := build_has_teleport routes []
    let r := split_landings_modules has_teleport g.all_buildings g ([], [])
    generate_teleport_candidates_loop adj r.1.2 r.1.1 r.2 []

/-! ## One turn of `main` -/

/-- What one iteration of the loop of `main` reads (v3.cpp 357-453), after tokenisation and
conversion to integers: the budget, the routes `(b1, b2, capacity)`, the pod lines and the
building lines.  A pod line is the list of its tokens (pod id, number of stops, stops); a
building line is the list `ints` of its integer tokens. -/
structure TurnInput where
  resources : Int
  routes : List (Int × Int × Int)
  pod_lines : List (List Int)
  building_lines : List (List Int)
  deriving DecidableEq, Repr

/-- The locals of `main` filled while the input of a turn is read. -/
structure TurnLocals where
  routes : List (Int × Int × Int)
  existing_tubes : List (Int × Int)
  degree : UMap Int Int
  existing_pod_ids : List Int
  existing_pod_routes : UMap Int (List Int)
  new_buildings : List Int
  deriving DecidableEq, Repr

/-- Loop of lines 365-374: every route is recorded, a capacity-bearing route also in
`existing_tubes`, both endpoints join `all_buildings` and have their degree counted. -/
def read_routes : List (Int × Int × Int) → Globals → TurnLocals → Globals × TurnLocals
  | [], g, l => (g, l)
  | (b1, b2, capacity) :: rest, g, l =>
    let l1 : TurnLocals :=
      { l with
        routes := l.routes ++ [(b1, b2, capacity)]
        existing_tubes :=
          if capacity > 0 then l.existing_tubes ++ [(b1, b2)] else l.existing_tubes
        degree := bump_degree (bump_degree l.degree b1) b2 }
    let g1 : Globals :=
      { g with all_buildings := uset_insert (uset_insert g.all_buildings b1) b2 }
    read_routes rest g1 l1

/-- Loop of lines 383-399: a pod line of fewer than three tokens is skipped; otherwise its
first token is recorded as a pod id and the tokens after the second as its itinerary. -/
def read_pods : List (List Int) → TurnLocals → TurnLocals
  | [], l => l
  | parts :: rest, l =>
    match parts with
    | pod_id :: _ :: stop :: stops =>
      read_pods rest
        { l with
          existing_pod_ids := uset_insert l.existing_pod_ids pod_id
          existing_pod_routes := UMap.set l.existing_pod_routes pod_id (stop :: stops) }
    | _ => read_pods rest l

/-- Loop of lines 409-453 over the building lines: a line that starts with 0 and has at
least five integers registers a landing pad with its astronauts, a line that starts with a
positive type and has at least four integers registers a module, any other line is
skipped. -/
def read_buildings : List (List Int) → Globals → TurnLocals → Globals × TurnLocals
  | [], g, l => (g, l)
  | ints :: rest, g, l =>
    match ints with
    | first :: building_id :: x :: y :: more =>
      if first = 0 ∧ more.length ≥ 1 then
        let num_astronauts := more.headD 0
        let astro_types := (more.drop 1).take num_astronauts.toNat
        let g1 : Globals :=
          { g with
            building_positions := UMap.set g.building_positions building_id (x, y)
            building_type := UMap.set g.building_type building_id "landing"
            landing_astronaut_types :=
              UMap.set g.landing_astronaut_types building_id astro_types
            all_buildings := uset_insert g.all_buildings building_id }
        read_buildings rest g1 { l with new_buildings := l.new_buildings ++ [building_id] }
      else if first > 0 then
        let g1 : Globals :=
          { g with
            building_positions := UMap.set g.building_positions building_id (x, y)
            building_type := UMap.set g.building_type building_id "module"
            module_type := UMap.set g.module_type building_id first
            all_buildings := uset_insert g.all_buildings building_id }
        read_buildings rest g1 { l with new_buildings := l.new_buildings ++ [building_id] }
      else read_buildings rest g l
    | _ => read_buildings rest g l

/-- Lines 356-453 of `main`: the turn counter is incremented and the input of the turn is
read into the registries and the locals. -/
def read_input (g : Globals) (inp : TurnInput) : Globals × TurnLocals :=
  let g0 : Globals := { g with turn_number := g.turn_number + 1 }
  let l0 : TurnLocals :=
    { routes := []
      existing_tubes := []
      degree := []
      existing_pod_ids := []
      existing_pod_routes := []
      new_buildings := [] }
  let r1 := read_routes inp.routes g0 l0
  let l2 := read_pods inp.pod_lines r1.2
  read_buildings inp.building_lines r1.1 l2

/-- The `std::sort` of lines 482-484, by decreasing score.  The standard leaves the order of
equal scores open; the model keeps their input order. -/
def sort_by_score (l : List Candidate) : List Candidate :=
  List.insertionSort (fun a b => a.score ≥ b.score) l

/-- Lines 463-484 of `main`: the candidates of the four generators, merged in the order of
the source and sorted; the shortcut generator runs only after turn 8 and with a budget above
twice the shortcut cost. -/
def collect_candidates (hypot : Int → Int → ℚ) (g : Globals) (l : TurnLocals)
    (remaining_resources : Int) (adj : UMap Int (List (Int × Int)))
    (bottlenecks : List (Int × Int × Int × Int)) : Except Halt (List Candidate × Globals) :=
  match generate_tube_candidates hypot g remaining_resources l.degree l.existing_tubes with
  | .error e => .error (Halt.fault e)
  | .ok (v1, g1) =>
    let r2 := generate_upgrade_candidates remaining_resources bottlenecks g1 []
    let r3 := generate_pod_candidates r2.2 remaining_resources l.routes l.existing_pod_routes
    if r3.2.turn_number > 8 ∧ remaining_resources > 5000 * 2 then
      match generate_teleport_candidates r3.2 remaining_resources l.routes adj with
      | .error e => .error e
      | .ok (v4, g4) => .ok (sort_by_score (v1 ++ r2.1 ++ r3.1 ++ v4), g4)
    else .ok (sort_by_score (v1 ++ r2.1 ++ r3.1), r3.2)

/-- Lines 455-606 of `main`: the planning of one turn from the registries and the locals
that the input left, up to the final state of the three committing passes. -/
def plan_turn (hypot : Int → Int → ℚ) (g : Globals) (l : TurnLocals) (resources : Int) :
    Except Halt TurnState :=
  let pod_id_counter := next_pod_id l.existing_pod_ids 1
  let adj := build_adjacency g.all_buildings l.routes
  match estimate_astronaut_flow g adj with
  | .error e => .error e
  | .ok (tube_flow, g1) =>
    let bottlenecks := find_bottleneck_tubes l.routes tube_flow
    match collect_candidates hypot g1 l resources adj bottlenecks with
    | .error e => .error e
    | .ok (all_candidates, g2) =>
      match commit_passes l.existing_pod_ids l.routes l.existing_pod_routes l.new_buildings
          all_candidates (turn_start g2 l.existing_tubes l.degree resources pod_id_counter) with
      | .error e => .error (Halt.fault e)
      | .ok s => .ok s

/-- One iteration of the loop of `main` (v3.cpp 356-606): the final state of the turn, whose
field `actions` is the list the turn prints and whose field `g` holds the registries handed
to the next turn. -/
def main_turn (hypot : Int → Int → ℚ) (g : Globals) (inp : TurnInput) : Except Halt TurnState :=
  let r := read_input g inp
  plan_turn hypot r.1 r.2 inp.resources

/-- The registries when the process starts (v3.cpp 20-25). -/
def initial_globals : Globals :=
  { building_positions := []
    building_type := []
    module_type := []
    landing_astronaut_types := []
    all_buildings := []
    turn_number := 0 }

/-- The loop of `main` over the successive turn inputs: the action lists printed, turn by
turn, and the registries after the last turn. -/
def run_turns (hypot : Int → Int → ℚ) :
    List TurnInput → Globals → Except Halt (List (List String) × Globals)
  | [], g => .ok ([], g)
  | inp :: rest, g =>
    match main_turn hypot g inp with
    | .error e => .error e
    | .ok s =>
      match run_turns hypot rest s.g with
      | .error e => .error e
      | .ok (outs, g') => .ok (s.actions :: outs, g')

/-! ## Specification side of the committing passes -/

/-- Squared Euclidean distance between two registered nodes (0 when one is not registered). -/
def squared_distance (g : Globals) (b other : Int) : Int :=
  match UMap.find g.building_positions b, UMap.find g.building_positions other with
  | some pb, some po => (po.1 - pb.1) * (po.1 - pb.1) + (po.2 - pb.2) * (po.2 - pb.2)
  | _, _ => 0

/-- The value `dist2` that the inner loop of the Fallback Connector computes for the new node
`b` and the node `other` (v3.cpp 546-549): the differences are `int` subtractions and wrap,
the sum of squares is a `long long` (0 when one of the nodes is not registered). -/
def fallback_dist2 (g : Globals) (b other : Int) : Int :=
  match UMap.find g.building_positions b, UMap.find g.building_positions other with
  | some pb, some po =>
    wrap64 (wrap32 (po.1 - pb.1) * wrap32 (po.1 - pb.1) +
      wrap32 (po.2 - pb.2) * wrap32 (po.2 - pb.2))
  | _, _ => 0

/-- The node `other` passes every test of the inner loop of the Fallback Connector for the
new node `b` in the state `s` (v3.cpp 541-545). -/
def FallbackEligible (s : TurnState) (b other : Int) : Prop :=
  other ≠ b ∧ UMap.count s.g.building_positions other ≠ 0 ∧ (b, other) ∉ s.existing_set ∧
    ValidLink s.g b other s.existing_tubes s.degree 5 ∧
    (tube_construction_cost s.g b other).1 ≤ s.remaining_resources

/-- One step of the committing passes of a turn, for the candidate list `cands`, the new
nodes `nb` and the work list `work` of the Coverage Sweep: a read of the counters through
`operator[]`, the declaration of `existing_set` or of `covered_tubes`, or a commit of one of
the three passes together with the tests that the source makes before it. -/
inductive PassStep (existing_pod_ids : List Int) (cands : List Candidate) (nb : List Int)
    (work : List (Int × Int × Int)) : TurnState → TurnState → Prop where
  | read_counters (s : TurnState) (t : String) :
      PassStep existing_pod_ids cands nb work s
        { s with
          actions_count := (UMap.index s.actions_count t).2
          MAX_PER_TYPE := (UMap.index s.MAX_PER_TYPE t).2 }
  | read_count (s : TurnState) (t : String) :
      PassStep existing_pod_ids cands nb work s
        { s with actions_count := (UMap.index s.actions_count t).2 }
  | declare_existing_set (s : TurnState) :
      PassStep existing_pod_ids cands nb work s (fallback_start s)
  | declare_covered_tubes (s : TurnState) (covered : List (Int × Int)) :
      PassStep existing_pod_ids cands nb work s { s with covered_tubes := covered }
  | greedy (s : TurnState) (c : Candidate) :
      c ∈ cands → (s.actions.length : Int) < 15 →
      UMap.val s.actions_count c.type < UMap.val s.MAX_PER_TYPE c.type →
      c.cost ≤ s.remaining_resources →
      (c.type = "TUBE" →
        ValidLink s.g c.buildings.1 c.buildings.2 s.existing_tubes s.degree 5) →
      PassStep existing_pod_ids cands nb work s (greedy_commit existing_pod_ids s c)
  | fallback (s : TurnState) (b : Int) (best : BestNeighbor) :
      b ∈ nb → UMap.val s.actions_count "TUBE" < UMap.val s.MAX_PER_TYPE "TUBE" →
      50 ≤ s.remaining_resources → UMap.count s.g.building_positions b ≠ 0 →
      (∀ ec ∈ s.existing_tubes, ec.1 ≠ b ∧ ec.2 ≠ b) →
      best.best_neighbor ≠ -1 → best.best_neighbor ∈ s.g.all_buildings →
      FallbackEligible s b best.best_neighbor →
      best.best_cost = (tube_construction_cost s.g b best.best_neighbor).1 →
      best.best_dist2 = fallback_dist2 s.g b best.best_neighbor →
      (∀ other ∈ s.g.all_buildings, FallbackEligible s b other →
        best.best_dist2 ≤ fallback_dist2 s.g b other) →
      PassStep existing_pod_ids cands nb work s (fallback_commit s b best)
  | sweep (s : TurnState) (p b1 b2 : Int) :
      (p, b1, b2) ∈ work → UMap.val s.actions_count "POD" < 6 →
      1000 ≤ s.remaining_resources →
      PassStep existing_pod_ids cands nb work s (sweep_commit existing_pod_ids s b1 b2)

/-- The state `s'` is reached from `s` by steps of the committing passes. -/
def Reach (existing_pod_ids : List Int) (cands : List Candidate) (nb : List Int)
    (work : List (Int × Int × Int)) (s s' : TurnState) : Prop :=
  Relation.ReflTransGen (PassStep existing_pod_ids cands nb work) s s'

/-! ## Structured reading of the action list -/

/-- The actions a turn can print, as structured values. -/
inductive Action where
  | tube (a b : Int)
  | upgrade (a b : Int)
  | pod (id b1 b2 : Int)
  | teleport (a b : Int)
  deriving DecidableEq, Repr

/-- The text of an action, as the source builds it (v3.cpp 236, 257, 295 with 507, 337, 557,
600). -/
def Action.render : Action → String
  | .tube a b => "TUBE " ++ toString a ++ " " ++ toString b
  | .upgrade a b => "UPGRADE " ++ toString a ++ " " ++ toString b
  | .pod id b1 b2 => "POD " ++ toString id ++ " " ++ route_str b1 b2
  | .teleport a b => "TELEPORT " ++ toString a ++ " " ++ toString b

/-- The vehicle identifier of a `POD` action. -/
def Action.pod_id : Action → Option Int
  | .pod id _ _ => some id
  | _ => none

/-- The category label of an action. -/
def Action.category : Action → String
  | .tube _ _ => "TUBE"
  | .upgrade _ _ => "UPGRADE"
  | .pod _ _ _ => "POD"
  | .teleport _ _ => "TELEPORT"

/-- The unordered link a `POD` action serves. -/
def Action.pod_link : Action → Option (Int × Int)
  | .pod _ b1 b2 => some (min b1 b2, max b1 b2)
  | _ => none

/-- The vehicle identifiers of the `POD` actions of a list, in order. -/
def emitted_pod_ids (acts : List Action) : List Int :=
  acts.filterMap Action.pod_id

/-- The candidate has the category label, the action text and the buildings that a generator
of the source gives to its candidates. -/
def Candidate.Generated (c : Candidate) : Prop :=
  (c.type = "TUBE" ∧
      c.action = "TUBE " ++ toString c.buildings.1 ++ " " ++ toString c.buildings.2) ∨
    (c.type = "UPGRADE" ∧
      c.action = "UPGRADE " ++ toString c.buildings.1 ++ " " ++ toString c.buildings.2) ∨
    (c.type = "POD" ∧
      c.action = "POD \x7bpod_id\x7d " ++ route_str c.buildings.1 c.buildings.2) ∨
    (c.type = "TELEPORT" ∧
      c.action = "TELEPORT " ++ toString c.buildings.1 ++ " " ++ toString c.buildings.2)

/-- The list `ids` holds, in increasing order, the first positive integers that are not used:
it is strictly increasing, its members are positive and not used, and every positive integer
that is not used and lies below a member is a member. -/
def FirstUnused (used : Int → Prop) (ids : List Int) : Prop :=
  ids.Pairwise (fun a b => a < b) ∧ (∀ x ∈ ids, 0 < x ∧ ¬ used x) ∧
    ∀ x ∈ ids, ∀ y, 0 < y → y < x → ¬ used y → y ∈ ids

/-- The integer `c` is the lowest positive integer that is neither used nor in `ids`, and
lies above every member of `ids`. -/
def NextUnused (used : Int → Prop) (ids : List Int) (c : Int) : Prop :=
  0 < c ∧ ¬ used c ∧ (∀ x ∈ ids, x < c) ∧ ∀ y, 0 < y → y < c → ¬ used y → y ∈ ids

/-- Invariant of the committing passes on the action list: it is the text of a list of
structured actions whose categories are those of the commit log, the vehicle identifiers
emitted so far are the first positive integers outside `existing_pod_ids`, and
`pod_id_counter` is the next one. -/
def ActionsInv (existing_pod_ids : List Int) (s : TurnState) : Prop :=
  ∃ acts : List Action, s.actions = acts.map Action.render ∧
    s.committed.map Prod.fst = acts.map Action.category ∧
    FirstUnused (fun x => x ∈ existing_pod_ids) (emitted_pod_ids acts) ∧
    NextUnused (fun x => x ∈ existing_pod_ids) (emitted_pod_ids acts) s.pod_id_counter

/-- The vehicle identifier `x` is recorded from the pod lines of the input: it is the first
token of a line of at least three tokens (v3.cpp 391-393). -/
def InputPodId (inp : TurnInput) (x : Int) : Prop :=
  ∃ parts ∈ inp.pod_lines, 3 ≤ parts.length ∧ parts.head? = some x

/-! ## Specification side of the generators -/

/-- The candidate `c` is the one that `generate_tube_candidates` builds for the landing pad
`landing_id` and the module `mod` (v3.cpp 224-240): the pair is not in `existing_set`, the
validator accepts it, and its cost is the link cost and within the budget. -/
def TubeCandidate (g : Globals) (existing_set existing_tubes : List (Int × Int))
    (degree : UMap Int Int) (remaining_resources : Int) (landing_id mod : Int)
    (c : Candidate) : Prop :=
  c.type = "TUBE" ∧ c.action = "TUBE " ++ toString landing_id ++ " " ++ toString mod ∧
    c.buildings = (landing_id, mod) ∧ c.cost = (tube_construction_cost g landing_id mod).1 ∧
    c.cost ≤ remaining_resources ∧ (landing_id, mod) ∉ existing_set ∧
    ValidLink g landing_id mod existing_tubes degree 5

/-- The node `m` is a module of type `t`: an entry of `building_type` labels it `module` and
`module_type` records `t` for it. -/
def IsModuleOfType (g : Globals) (m t : Int) : Prop :=
  (m, "module") ∈ g.building_type ∧ UMap.find g.module_type m = some t

/-- The registries `g'` agree with `g` on everything but `landing_astronaut_types`. -/
def Globals.SameBase (g g' : Globals) : Prop :=
  g'.building_positions = g.building_positions ∧ g'.building_type = g.building_type ∧
    g'.module_type = g.module_type ∧ g'.all_buildings = g.all_buildings ∧
    g'.turn_number = g.turn_number

/-- The candidate `c` is the one that `generate_pod_candidates` builds for the route
`(b1, b2)` (v3.cpp 292-298). -/
def PodCandidate (b1 b2 : Int) (c : Candidate) : Prop :=
  c.type = "POD" ∧ c.action = "POD \x7bpod_id\x7d " ++ route_str b1 b2 ∧ c.cost = 1000 ∧
    c.buildings = (b1, b2)

/-- The hop distance that `generate_teleport_candidates` reads for `mod` (v3.cpp 323): the
entry of the distance map, or the sentinel when there is none. -/
def hop_distance (distmap : UMap Int Int) (mod : Int) : Int :=
  if UMap.count distmap mod ≠ 0 then UMap.val distmap mod else 1000000000

/-- The number of astronauts waiting at `landing` whose type is the type recorded for the
module `mod`, 0 standing for a module without a recorded type (v3.cpp 328-332). -/
def matching_astronauts (g : Globals) (landing mod : Int) : Int :=
  let mtype : Int :=
    match UMap.find g.module_type mod with
    | some t => t
    | none => 0
  match UMap.find g.landing_astronaut_types landing with
  | some l => (l.count mtype : Nat)
  | none => 0

/-- The candidate `c` is the one that `generate_teleport_candidates` builds for the landing
pad `landing` and the module `mod` with the distance map `distmap` (v3.cpp 322-341). -/
def TeleportCandidate (g : Globals) (distmap : UMap Int Int) (landing mod : Int)
    (c : Candidate) : Prop :=
  c.type = "TELEPORT" ∧ c.action = "TELEPORT " ++ toString landing ++ " " ++ toString mod ∧
    c.cost = 5000 ∧ c.buildings = (landing, mod) ∧
    UMap.count g.building_positions mod ≠ 0 ∧ hop_distance distmap mod ≥ 3 ∧
    c.score = ((hop_distance distmap mod - 1 : Int) : ℚ) *
      ((matching_astronauts g landing mod : Int) : ℚ) * 50 - 50 ∧
    0 < c.score

/-- Where a candidate of the merged list of a turn comes from: the link generator, the
upgrade generator, the vehicle generator, or the shortcut generator, which runs only after
turn 8 and with a budget above 10000 (v3.cpp 463-480).  `g` holds the registries when the
generators start and `g2` when they have all returned. -/
def CollectedCandidate (g g2 : Globals) (l : TurnLocals) (R : Int) (c : Candidate) : Prop :=
  (∃ landing_id astro_types, (landing_id, astro_types) ∈ g.landing_astronaut_types ∧
      UMap.count g.building_positions landing_id ≠ 0 ∧
      ∃ wanted ∈ astro_types, ∃ mod, IsModuleOfType g mod wanted ∧
        TubeCandidate g (build_existing_set l.existing_tubes []) l.existing_tubes l.degree R
          landing_id mod c) ∨
    (c.type = "UPGRADE" ∧
      c.action = "UPGRADE " ++ toString c.buildings.1 ++ " " ++ toString c.buildings.2 ∧
      c.cost ≤ R) ∨
    (1000 ≤ R ∧ ∃ b1 b2 cap, (b1, b2, cap) ∈ l.routes ∧ cap > 0 ∧
      (min b1 b2, max b1 b2) ∉ build_covered_tubes l.existing_pod_routes [] ∧
      PodCandidate b1 b2 c) ∨
    (g.turn_number > 8 ∧ R > 10000 ∧
      ∃ landing mod distmap, TeleportCandidate g2 distmap landing mod c)

/-! ## Specification side of the link invariants -/

/-- The links `e1` and `e2` have disjoint endpoints, their four endpoints have registered
positions, and their closed segments share a point. -/
def LinksCross (g : Globals) (e1 e2 : Int × Int) : Prop :=
  e1.1 ≠ e2.1 ∧ e1.1 ≠ e2.2 ∧ e1.2 ≠ e2.1 ∧ e1.2 ≠ e2.2 ∧
    ∃ p1 q1 p2 q2, UMap.find g.building_positions e1.1 = some p1 ∧
      UMap.find g.building_positions e1.2 = some q1 ∧
      UMap.find g.building_positions e2.1 = some p2 ∧
      UMap.find g.building_positions e2.2 = some q2 ∧ SegmentsMeet p1 q1 p2 q2

/-- No two links of the list with disjoint endpoints and registered positions have
intersecting segments. -/
def NonCrossing (g : Globals) (tubes : List (Int × Int)) : Prop :=
  ∀ e1 ∈ tubes, ∀ e2 ∈ tubes, ¬ LinksCross g e1 e2

/-- The degree counters after the links of the list have been committed one after the other
(v3.cpp 518-519, 561-562). -/
def degree_after (degree : UMap Int Int) (links : List (Int × Int)) : UMap Int Int :=
  links.foldl (fun d e => bump_degree (bump_degree d e.1) e.2) degree

/-- Invariant of the committing passes on the working link list: it is the list `et0` the
turn started with followed by the links committed so far, the degree counters are those of
`degree0` after these commits, and the validator accepted each committed link against the
links before it and the degree counters at the time of its commit. -/
def LinksInv (g0 : Globals) (et0 : List (Int × Int)) (degree0 : UMap Int Int)
    (s : TurnState) : Prop :=
  s.g = g0 ∧ ∃ new : List (Int × Int), s.existing_tubes = et0 ++ new ∧
    s.degree = degree_after degree0 new ∧
    ∀ pre e post, new = pre ++ e :: post →
      ValidLink g0 e.1 e.2 (et0 ++ pre) (degree_after degree0 pre) 5

/-! ## Scenarios -/

/-- Registries of the one-link scenario: a landing pad `a` at (0,0) where three astronauts of
type 7 wait, and a module `b` of type 7 at (10,0); `n` is the turn counter. -/
def one_link_scenario (a b n : Int) : Globals :=
  { building_positions := [(a, (0, 0)), (b, (10, 0))]
    building_type := [(a, "landing"), (b, "module")]
    module_type := [(b, 7)]
    landing_astronaut_types := [(a, [7, 7, 7])]
    all_buildings := [a, b]
    turn_number := n }

/-- Locals of a turn whose input has no route and no pod; `nb` lists the nodes that the
input of the turn introduced. -/
def no_links_locals (nb : List Int) : TurnLocals :=
  { routes := []
    existing_tubes := []
    degree := []
    existing_pod_ids := []
    existing_pod_routes := []
    new_buildings := nb }

/-! ## Scenarios of the turn loop -/

/-- Two registered nodes, 1 at (0,0) and 2 at (3,1): their distance is the square root
of 10. -/
def rounding_scenario : Globals :=
  { building_positions := [(1, (0, 0)), (2, (3, 1))]
    building_type := []
    module_type := []
    landing_astronaut_types := []
    all_buildings := [1, 2]
    turn_number := 1 }

/-- A first turn with budget 2000 whose input lists the landing pad 1 at (0,0) with one
astronaut of type 7, the module 2 of type 7 at (10,0), the link 1-2 of capacity 1 and no
pod. -/
def uncovered_link_input : TurnInput :=
  { resources := 2000
    routes := [(1, 2, 1)]
    pod_lines := []
    building_lines := [[0, 1, 0, 0, 1, 7], [7, 2, 10, 0]] }

/-- A turn with budget 1000 whose input lists the landing pad 1 at (0,0) with one astronaut
of type 7, the module 2 of type 7 at (10,0), the link 1-2 of capacity 1 and the pod 1 that
runs on it. -/
def pod_present_input : TurnInput :=
  { resources := 1000
    routes := [(1, 2, 1)]
    pod_lines := [[1, 3, 1, 2, 1]]
    building_lines := [[0, 1, 0, 0, 1, 7], [7, 2, 10, 0]] }

/-- The next turn, with budget 1000: the link 1-2 is still there, the pod 1 is gone and no
building is new. -/
def pod_absent_input : TurnInput :=
  { resources := 1000
    routes := [(1, 2, 1)]
    pod_lines := []
    building_lines := [] }

/-- A first turn with budget 2000 in which the node 5 is registered twice, as a landing pad
with one astronaut of type 7 and as a module of type 7; the modules 1 to 4 of type 3 are
each linked to it and each link has its pod, so the degree of node 5 in the input is 4. -/
def self_link_input : TurnInput :=
  { resources := 2000
    routes := [(5, 1, 1), (5, 2, 1), (5, 3, 1), (5, 4, 1)]
    pod_lines := [[1, 2, 5, 1], [2, 2, 5, 2], [3, 2, 5, 3], [4, 2, 5, 4]]
    building_lines :=
      [[0, 5, 0, 0, 1, 7], [7, 5, 0, 0], [3, 1, 10, 0], [3, 2, 0, 10], [3, 3, -10, 0],
        [3, 4, 0, -10]] }

/-- The registries after the input of `self_link_input` has been read on the first turn. -/
def self_link_globals : Globals :=
  { building_positions := [(5, (0, 0)), (1, (10, 0)), (2, (0, 10)), (3, (-10, 0)),
      (4, (0, -10))]
    building_type := [(5, "module"), (1, "module"), (2, "module"), (3, "module"),
      (4, "module")]
    module_type := [(5, 7), (1, 3), (2, 3), (3, 3), (4, 3)]
    landing_astronaut_types := [(5, [7])]
    all_buildings := [5, 1, 2, 3, 4]
    turn_number := 1 }

/-- The locals of `main` after the input of `self_link_input` has been read. -/
def self_link_locals : TurnLocals :=
  { routes := [(5, 1, 1), (5, 2, 1), (5, 3, 1), (5, 4, 1)]
    existing_tubes := [(5, 1), (5, 2), (5, 3), (5, 4)]
    degree := [(5, 4), (1, 1), (2, 1), (3, 1), (4, 1)]
    existing_pod_ids := [1, 2, 3, 4]
    existing_pod_routes := [(1, [5, 1]), (2, [5, 2]), (3, [5, 3]), (4, [5, 4])]
    new_buildings := [5, 5, 1, 2, 3, 4] }

/-! ## Specification side of the idempotence of the generators -/

/-- The node `m` is a Sink of type `t` for the generators: an entry of `building_type`
labels it `module`, and its recorded type is `t`, a missing record being read as type 0
(v3.cpp 131-134, 328). -/
def SinkOfType (g : Globals) (m t : Int) : Prop :=
  (m, "module") ∈ g.building_type ∧
    (UMap.find g.module_type m = some t ∨ (UMap.find g.module_type m = none ∧ t = 0))

/-- The landing pad 1 at (0,0) with one astronaut of type 7 and two modules of type 7, node 2
at (10,0) and node 3 at (0,10). -/
def two_sinks_scenario : Globals :=
  { building_positions := [(1, (0, 0)), (2, (10, 0)), (3, (0, 10))]
    building_type := [(1, "landing"), (2, "module"), (3, "module")]
    module_type := [(2, 7), (3, 7)]
    landing_astronaut_types := [(1, [7])]
    all_buildings := [1, 2, 3]
    turn_number := 1 }

/-- The locals of a turn whose input lists the link 1-2 of capacity 1 and the pod 1 that
runs on it. -/
def served_link_locals : TurnLocals :=
  { routes := [(1, 2, 1)]
    existing_tubes := [(1, 2)]
    degree := [(1, 1), (2, 1)]
    existing_pod_ids := [1]
    existing_pod_routes := [(1, [1, 2, 1])]
    new_buildings := [] }

/-! ## Specification side of the generators, exact form -/

/-- The candidate that `generate_upgrade_candidates` builds for the bottleneck
`(b1, b2, cap, flow)` (v3.cpp 252-261): cost `tube_construction_cost(b1, b2) * (cap + 1)` and
score `flow * 10 - cost * 0.1`. -/
def upgrade_candidate_of (g : Globals) (b : Int × Int × Int × Int) : Candidate :=
  { type := "UPGRADE"
    action := "UPGRADE " ++ toString b.1 ++ " " ++ toString b.2.1
    score := (b.2.2.2 : ℚ) * 10 -
      (((tube_construction_cost g b.1 b.2.1).1 * (b.2.2.1 + 1) : Int) : ℚ) * (1 / 10)
    cost := (tube_construction_cost g b.1 b.2.1).1 * (b.2.2.1 + 1)
    buildings := (b.1, b.2.1) }

/-- The number of astronauts waiting at the node `b`: the length of its entry of
`landing_astronaut_types`, 0 when it has none. -/
def waiting_count (g : Globals) (b : Int) : Int :=
  match UMap.find g.landing_astronaut_types b with
  | some l => (l.length : Int)
  | none => 0

/-- The score of a pod on the link `b1 b2`: 100, plus, for each endpoint that
`building_type` labels `landing`, 500 and ten per astronaut waiting there. -/
def pod_score (g : Globals) (b1 b2 : Int) : Int :=
  100 + (if UMap.find g.building_type b1 = some "landing" then 500 + 10 * waiting_count g b1
      else 0) +
    (if UMap.find g.building_type b2 = some "landing" then 500 + 10 * waiting_count g b2
      else 0)

/-- The candidate that `generate_pod_candidates` builds for the route `r` (v3.cpp 292-298). -/
def pod_candidate_of (g : Globals) (r : Int × Int × Int) : Candidate :=
  { type := "POD"
    action := "POD \x7bpod_id\x7d " ++ route_str r.1 r.2.1
    score := ((pod_score g r.1 r.2.1 : Int) : ℚ)
    cost := 1000
    buildings := (r.1, r.2.1) }

/-- The nodes `x` and `y` are two consecutive stops, in either order, of an itinerary of the
map. -/
def ConsecutiveStops (pods : UMap Int (List Int)) (x y : Int) : Prop :=
  ∃ pr ∈ pods, ∃ (pre post : List Int) (a b : Int), pr.2 = pre ++ a :: b :: post ∧
    ((a = x ∧ b = y) ∨ (a = y ∧ b = x))

/-! ## Specification side of the Coverage Sweep and of the Fallback Connector -/

/-- The priority of a link in the Coverage Sweep: 100 for each of its endpoints that
`building_type` labels `landing`. -/
def link_priority (g : Globals) (b1 b2 : Int) : Int :=
  100 * ((if UMap.find g.building_type b1 = some "landing" then 1 else 0) +
    (if UMap.find g.building_type b2 = some "landing" then 1 else 0))

/-- The actions that the Coverage Sweep pushes for the links of the list, in order, the
first with the vehicle identifier `counter`. -/
def sweep_actions (existing_pod_ids : List Int) : List (Int × Int × Int) → Int → List String
  | [], _ => []
  | (_, b1, b2) :: rest, counter =>
    ("POD " ++ toString counter ++ " " ++ route_str b1 b2) ::
      sweep_actions existing_pod_ids rest (next_pod_id existing_pod_ids (counter + 1))

/-- The node `other` is a neighbour that the Fallback Connector may link the new node `b` to
in the state `s`: a member of `all_buildings` other than `b` with a registered position, not
already linked to `b` in the working link list, accepted by the validator against the
working link list and degree counters, with a link cost within the remaining budget. -/
def FallbackNeighbour (s : TurnState) (b other : Int) : Prop :=
  other ∈ s.g.all_buildings ∧ other ≠ b ∧ UMap.count s.g.building_positions other ≠ 0 ∧
    (b, other) ∉ s.existing_tubes ∧ (other, b) ∉ s.existing_tubes ∧
    ValidLink s.g b other s.existing_tubes s.degree 5 ∧
    (tube_construction_cost s.g b other).1 ≤ s.remaining_resources

/-- One step of the Fallback Connector over the new nodes `nb`: either a step that leaves the
registries, the working link list, the degree counters, the budget and the action list as
they are, or the commit of a link from a new node `b` that has a registered position and no
link in the working link list to a neighbour of least squared distance among those the
connector may link it to (v3.cpp 530-565). -/
inductive FallbackStep (nb : List Int) : TurnState → TurnState → Prop where
  | idle (s s' : TurnState) :
      s'.g = s.g → s'.existing_tubes = s.existing_tubes → s'.degree = s.degree →
      s'.remaining_resources = s.remaining_resources → s'.actions = s.actions →
      FallbackStep nb s s'
  | link (s : TurnState) (b : Int) (best : BestNeighbor) :
      b ∈ nb → UMap.count s.g.building_positions b ≠ 0 →
      (∀ ec ∈ s.existing_tubes, ec.1 ≠ b ∧ ec.2 ≠ b) →
      UMap.val s.actions_count "TUBE" < UMap.val s.MAX_PER_TYPE "TUBE" →
      50 ≤ s.remaining_resources →
      FallbackNeighbour s b best.best_neighbor →
      best.best_cost = (tube_construction_cost s.g b best.best_neighbor).1 →
      best.best_dist2 = squared_distance s.g b best.best_neighbor →
      (∀ other, FallbackNeighbour s b other →
        squared_distance s.g b best.best_neighbor ≤ squared_distance s.g b other) →
      FallbackStep nb s (fallback_commit s b best)

/-! ## Specification side of the shortcut generator, exact form -/

/-- The distance map that `generate_teleport_candidates` computes from `landing`
(v3.cpp 320); the empty map stands for a search that used up its iteration bound, which does
not happen on an adjacency map with weights 0 and 1. -/
def turn_distmap (g : Globals) (adj : UMap Int (List (Int × Int))) (landing : Int) :
    UMap Int Int :=
  match bfs_distances_from g.all_buildings (bfs_fuel g.all_buildings) landing adj with
  | some distmap => distmap
  | none => []

/-- The score of a shortcut from `landing` to `mod` (v3.cpp 333):
`(hop distance - 1) * matching astronauts * 50 - 5000 * 0.01`. -/
def teleport_score (g : Globals) (distmap : UMap Int Int) (landing mod : Int) : ℚ :=
  ((hop_distance distmap mod - 1 : Int) : ℚ) *
    ((matching_astronauts g landing mod : Int) : ℚ) * 50 - 50

/-- The candidate that `generate_teleport_candidates` builds for the pair `(landing, mod)`
(v3.cpp 334-340). -/
def teleport_candidate_of (g : Globals) (distmap : UMap Int Int) (landing mod : Int) :
    Candidate :=
  { type := "TELEPORT"
    action := "TELEPORT " ++ toString landing ++ " " ++ toString mod
    score := teleport_score g distmap landing mod
    cost := 5000
    buildings := (landing, mod) }

/-- The node `b` touches a shortcut of the route list: it is an endpoint of a route of
capacity 0. -/
def TouchesShortcut (routes : List (Int × Int × Int)) (b : Int) : Prop :=
  ∃ t ∈ routes, t.2.2 = 0 ∧ (t.1 = b ∨ t.2.1 = b)

/-- The landing pad 1 with one astronaut of type 7 and the modules 2, 3 of type 1 and 4 of
type 7, on a line. -/
def far_module_scenario : Globals :=
  { building_positions := [(1, (0, 0)), (2, (10, 0)), (3, (20, 0)), (4, (30, 0))]
    building_type := [(1, "landing"), (2, "module"), (3, "module"), (4, "module")]
    module_type := [(2, 1), (3, 1), (4, 7)]
    landing_astronaut_types := [(1, [7])]
    all_buildings := [1, 2, 3, 4]
    turn_number := 9 }

/-- The chain of links 1-2, 2-3, 3-4: the module 4 is three hops from the pad 1. -/
def far_module_routes : List (Int × Int × Int) :=
  [(1, 2, 1), (2, 3, 1), (3, 4, 1)]

/-! ## Termination of the deque search -/

/-- Invariant of the deque search that bounds its pushes, over the node set `S`: every
recorded distance is at least the least `int`, and a node outside `S` reads as 0. -/
def DistBounded (S : List Int) (d : UMap Int Int) : Prop :=
  (∀ v, -2147483648 ≤ UMap.val d v) ∧ ∀ v, v ∉ S → UMap.val d v = 0

/-- The nodes that occur as a neighbour in some entry of the adjacency map. -/
def adjacency_targets (adj : UMap Int (List (Int × Int))) : List Int :=
  (adj.map (fun p => p.2.map (fun e => e.1))).flatten

/-- A number of iterations that the deque loop cannot exceed: each of the nodes (the start,
the members of `all_buildings`, the neighbours named by the adjacency map) starts at most at
1000000000 and cannot go below -2147483648, and every push lowers a recorded distance. -/
def deque_fuel (all_buildings : List Int) (adj : UMap Int (List (Int × Int))) : Nat :=
  6294967296 * (all_buildings.length + (adjacency_targets adj).length + 1) + 1

/-- An adjacency map whose only entry is a self-loop of weight -1 on node 0. -/
def negative_loop_adj : UMap Int (List (Int × Int)) :=
  [(0, [(0, -1)])]

/-! ## Specification side of the flow estimator -/

/-- The sum of the values of a counter map whose key satisfies `p`. -/
def UMap.wsum {K : Type} (p : K → Bool) (m : UMap K Int) : Int :=
  (m.map (fun e => if p e.1 = true then e.2 else 0)).sum

/-- The sum of all the values of a counter map. -/
def UMap.total {K : Type} (m : UMap K Int) : Int :=
  (m.map (fun e => e.2)).sum

/-- Some module of type `t` is within reach of `landing`: its hop distance in the distance
map computed from `landing` is below the sentinel 1000000000. -/
def type_is_served (g : Globals) (adj : UMap Int (List (Int × Int))) (landing t : Int) :
    Bool :=
  g.building_type.any (fun e =>
    decide (e.2 = "module" ∧ UMap.find g.module_type e.1 = some t ∧
      hop_distance (turn_distmap g adj landing) e.1 < 1000000000))

/-- The number of waiting astronauts, over all entries of `landing_astronaut_types` whose
landing pad has a registered position, whose type is served. -/
def served_passengers (g : Globals) (adj : UMap Int (List (Int × Int))) : Int :=
  ((g.landing_astronaut_types.filter
      (fun e => decide (UMap.count g.building_positions e.1 ≠ 0))).map
    (fun e => ((e.2.filter (type_is_served g adj e.1)).length : Int))).sum

/-- The pair `key` is the ordered pair `(min, max)` of a landing pad with a registered
position and a module of a type demanded at the pad, within reach of the pad, whose hop
distance from the pad is least among the modules of that type. -/
def FlowKey (g : Globals) (adj : UMap Int (List (Int × Int))) (key : Int × Int) : Prop :=
  ∃ landing types t m, (landing, types) ∈ g.landing_astronaut_types ∧
    UMap.count g.building_positions landing ≠ 0 ∧ t ∈ types ∧ IsModuleOfType g m t ∧
    key = (min landing m, max landing m) ∧
    hop_distance (turn_distmap g adj landing) m < 1000000000 ∧
    ∀ m', IsModuleOfType g m' t →
      hop_distance (turn_distmap g adj landing) m ≤
        hop_distance (turn_distmap g adj landing) m'

/-- The landing pad 1 with one astronaut of type 7 and the module -1 of type 7, linked to
it. -/
def minus_one_scenario : Globals :=
  { building_positions := [(1, (0, 0)), (-1, (10, 0))]
    building_type := [(1, "landing"), (-1, "module")]
    module_type := [(-1, 7)]
    landing_astronaut_types := [(1, [7])]
    all_buildings := [1, -1]
    turn_number := 1 }

/-- The single link between the pad 1 and the module -1. -/
def minus_one_routes : List (Int × Int × Int) :=
  [(1, -1, 1)]

/-- The pad 1 with two astronauts of type 7 and one of type 3, the pad 5 without a registered
position, and the modules 2 and 4 of type 7; no module has type 3. -/
def crowded_pad_scenario : Globals :=
  { building_positions := [(1, (0, 0)), (2, (10, 0)), (4, (20, 0))]
    building_type := [(1, "landing"), (2, "module"), (4, "module"), (5, "landing")]
    module_type := [(2, 7), (4, 7)]
    landing_astronaut_types := [(1, [7, 3, 7]), (5, [7])]
    all_buildings := [1, 2, 4, 5]
    turn_number := 3 }

/-- The chain of links 1-2, 2-4 and the link 5-4. -/
def crowded_pad_routes : List (Int × Int × Int) :=
  [(1, 2, 1), (2, 4, 1), (5, 4, 1)]

/-! ## Bounds on the registries and wide example inputs -/

/-- Every registered position has both coordinates in `[-2^30, 2^30 - 1]`. -/
@[reducible] def SmallPositions (g : Globals) : Prop :=
  ∀ e ∈ g.building_positions, SmallPoint e.2

/-- Registries of the wide crossing: the segment from node 1 at `(0, -2000000000)` to node 2
at `(10, -2000000000)` is crossed at `(5, -2000000000)` by the segment from node 3 at
`(5, 2000000000)` to node 4 at `(5, -2000000010)`. -/
def wide_crossing_scenario : Globals :=
  { building_positions :=
      [(1, (0, -2000000000)), (2, (10, -2000000000)), (3, (5, 2000000000)),
        (4, (5, -2000000010))]
    building_type := []
    module_type := []
    landing_astronaut_types := []
    all_buildings := [1, 2, 3, 4]
    turn_number := 1 }

/-- Registries of the wide segment: node 3 at `(0, 1)` is the midpoint of the segment from
node 1 at `(-2000000000, 0)` to node 2 at `(2000000000, 2)`. -/
def wide_segment_scenario : Globals :=
  { building_positions := [(1, (-2000000000, 0)), (2, (2000000000, 2)), (3, (0, 1))]
    building_type := []
    module_type := []
    landing_astronaut_types := []
    all_buildings := [1, 2, 3]
    turn_number := 1 }

/-- Registries of the wide gap: the modules 1 at `(-2147483648, 0)`, 2 at `(2147483647, 0)`
and 3 at `(-2147483643, 1)`; node 3 is next to node 1, node 2 is at the far end of the
range of `int`. -/
def wide_gap_scenario : Globals :=
  { building_positions :=
      [(1, (-2147483648, 0)), (2, (2147483647, 0)), (3, (-2147483643, 1))]
    building_type := [(1, "module"), (2, "module"), (3, "module")]
    module_type := [(1, 7), (2, 7), (3, 7)]
    landing_astronaut_types := []
    all_buildings := [1, 2, 3]
    turn_number := 1 }

/-- Input of a first turn with a budget of 10000, the route `1 2 21474836`, no pod, and the
modules 1 at `(0, 0)` and 2 at `(10, 0)`, both of type 7. -/
def wide_capacity_input : TurnInput :=
  { resources := 10000
    routes := [(1, 2, 21474836)]
    pod_lines := []
    building_lines := [[7, 1, 0, 0], [7, 2, 10, 0]] }

/-- The registries after the input `wide_capacity_input` has been read. -/
def wide_capacity_globals : Globals :=
  { building_positions := [(1, (0, 0)), (2, (10, 0))]
    building_type := [(1, "module"), (2, "module")]
    module_type := [(1, 7), (2, 7)]
    landing_astronaut_types := []
    all_buildings := [1, 2]
    turn_number := 1 }

/-- The locals of `main` after the input `wide_capacity_input` has been read. -/
def wide_capacity_locals : TurnLocals :=
  { routes := [(1, 2, 21474836)]
    existing_tubes := [(1, 2)]
    degree := [(1, 1), (2, 1)]
    existing_pod_ids := []
    existing_pod_routes := []
    new_buildings := [1, 2] }

/-- The integer `x` is the first token of a pod line of the input, whatever the length of
the line. -/
def ListedPodId (inp : TurnInput) (x : Int) : Prop :=
  ∃ parts ∈ inp.pod_lines, parts.head? = some x

/-- A first turn with budget 1000 whose input lists the landing pad 1 at (0,0) with one
astronaut of type 7, the module 2 of type 7 at (10,0), the link 1-2 of capacity 1 and the
pod line `1 0`: the pod 1 with an itinerary of no stop. -/
def short_pod_line_input : TurnInput :=
  { resources := 1000
    routes := [(1, 2, 1)]
    pod_lines := [[1, 0]]
    building_lines := [[0, 1, 0, 0, 1, 7], [7, 2, 10, 0]] }

/-- A first turn with budget 2200 whose input lists the landing pad 1 at (0,0) with no
astronaut, the modules 2 at (10,0), 3 at (0,100) and 4 at (10,100), the link 3-4 of capacity
1 and no pod. -/
def sweep_priority_input : TurnInput :=
  { resources := 2200
    routes := [(3, 4, 1)]
    pod_lines := []
    building_lines := [[0, 1, 0, 0, 0], [7, 2, 10, 0], [8, 3, 0, 100], [8, 4, 10, 100]] }

/-- The registries after the input of `sweep_priority_input` is read. -/
def sweep_priority_globals : Globals :=
  { building_positions := [(1, (0, 0)), (2, (10, 0)), (3, (0, 100)), (4, (10, 100))]
    building_type := [(1, "landing"), (2, "module"), (3, "module"), (4, "module")]
    module_type := [(2, 7), (3, 8), (4, 8)]
    landing_astronaut_types := [(1, [])]
    all_buildings := [3, 4, 1, 2]
    turn_number := 1 }

/-- The locals of the turn after the input of `sweep_priority_input` is read. -/
def sweep_priority_locals : TurnLocals :=
  { routes := [(3, 4, 1)]
    existing_tubes := [(3, 4)]
    degree := [(3, 1), (4, 1)]
    existing_pod_ids := []
    existing_pod_routes := []
    new_buildings := [1, 2, 3, 4] }

/-- A registry with the nodes 1 at (0,0) and 2 at (21215937,56509266). -/
def far_node_scenario : Globals :=
  { building_positions := [(1, (0, 0)), (2, (21215937, 56509266))]
    building_type := []
    module_type := []
    landing_astronaut_types := []
    all_buildings := [1, 2]
    turn_number := 1 }

end V3

namespace Lunar

/-!
# Verification development for `landry/lunar.cpp`

Shallow embedding of the turn loop of `main`, with the state that lasts from one turn to the
next: the building registry and the counter `nextPodId`.

Conventions of the embedding.

* C++ `int` values are `Int`; the additions and subtractions of the turn loop on
  `nextPodId` and `resources` wrap to 32 bits in two's complement (`wrap32`).
* `std::map<int, V>` is an association list `OMap V` whose entries are kept in increasing
  key order, the order in which the source iterates over it.
* The input of a turn is modelled after tokenisation and `stoi`, for lines that follow the
  protocol: a pod line carries its identifier and the stops that its announced size makes
  the source read; a building line carries its four leading integers and, for a landing
  pad, the astronaut types that its announced number makes the source read.
* The `float` results are parameters of the embedding (`FloatOps`): the distance of two
  points, the tests `pointOnSegment` and `orientation`, and the cost of a tube.
* The containers `teleporters` and `astronauts` are written and never read; they are left
  out.
* An action is kept as a structured value; `Action.render` is the string the source pushes
  on `actions`.
-/

/-- The value an `int` holds after an operation whose exact result is `x`: the
representative of `x` modulo 2^32 in the range from -2^31 to 2^31 - 1. -/
def wrap32 (x : Int) : Int := (x + 2147483648) % 4294967296 - 2147483648

/-- Class `House` (lunar.cpp 20-28). -/
structure House where
  id : Int
  type : Int
  x : Int
  y : Int
  astronautTypes : List Int
  deriving DecidableEq, Repr

instance : Inhabited House :=
  ⟨{ id := 0, type := 0, x := 0, y := 0, astronautTypes := [] }⟩

/-- Class `Tube` (lunar.cpp 30-36). -/
structure Tube where
  bId1 : Int
  bId2 : Int
  capacity : Int
  deriving DecidableEq, Repr

/-- Class `Pod` (lunar.cpp 45-50). -/
structure Pod where
  id : Int
  itinerary : List Int
  deriving DecidableEq, Repr

/-- Association-list model of `std::map<int, V>`, entries in increasing key order. -/
abbrev OMap (V : Type) := List (Int × V)

/-- Library `find`: the value stored under `k`, if any. -/
def OMap.find {V : Type} : OMap V → Int → Option V
  | [], _ => none
  | (k', v) :: rest, k => if k' = k then some v else OMap.find rest k

/-- Assignment `m[k] = v`: overwrites the entry of `k`, or inserts one at its place in the
key order. -/
def OMap.set {V : Type} : OMap V → Int → V → OMap V
  | [], k, v => [(k, v)]
  | (k', v') :: rest, k, v =>
    if k < k' then (k, v) :: (k', v') :: rest
    else if k' = k then (k, v) :: rest
    else (k', v') :: OMap.set rest k v

/-- Read through `operator[]`: the stored value and the map unchanged, or, for an absent key,
the value-initialised default together with the map extended by that entry. -/
def OMap.index {V : Type} [Inhabited V] (m : OMap V) (k : Int) : V × OMap V :=
  match OMap.find m k with
  | some v => (v, m)
  | none => (default, OMap.set m k default)

/-- The results of the `float` computations of the source, as functions of the integer
coordinates they start from: `distance` (lunar.cpp 67-69), `pointOnSegment` (71-75),
`orientation` (83-86) and the value `(int)(dist / 0.1)` of `calculateTubeCost` (121-126). -/
structure FloatOps where
  distance : Int × Int → Int × Int → ℚ
  pointOnSegment : Int × Int → Int × Int → Int × Int → Bool
  orientation : Int × Int → Int × Int → Int × Int → Int
  tubeCost : Int × Int → Int × Int → Int

/-- Source `segmentsIntersect` (lunar.cpp 88-91). -/
def segmentsIntersect (F : FloatOps) (A B C D : Int × Int) : Bool :=
  decide (F.orientation A B C * F.orientation A B D < 0) &&
    decide (F.orientation C D A * F.orientation C D B < 0)

/-- Second loop of `canBuildTube` (lunar.cpp 110-116), over the tubes; the reads
`buildings[tube.bId1]` and `buildings[tube.bId2]` go through `operator[]`. -/
def tubes_allow (F : FloatOps) (p1 p2 : Int × Int) :
    List Tube → OMap House → Bool × OMap House
  | [], buildings => (true, buildings)
  | tube :: rest, buildings =>
    let r1 := OMap.index buildings tube.bId1
    let r2 := OMap.index r1.2 tube.bId2
    if segmentsIntersect F p1 p2 (r1.1.x, r1.1.y) (r2.1.x, r2.1.y) = true then (false, r2.2)
    else tubes_allow F p1 p2 rest r2.2

/-- Source `canBuildTube` (lunar.cpp 93-119); `buildings` is passed by reference, so the map
is returned with the result. -/
def canBuildTube (F : FloatOps) (id1 id2 : Int) (buildings : OMap House)
    (tubes : List Tube) : Bool × OMap House :=
  if OMap.find buildings id1 = none ∨ OMap.find buildings id2 = none then (false, buildings)
  else
    let r1 := OMap.index buildings id1
    let r2 := OMap.index r1.2 id2
    let p1 := (r1.1.x, r1.1.y)
    let p2 := (r2.1.x, r2.1.y)
    if r2.2.any (fun building =>
        decide (building.1 ≠ id1) && decide (building.1 ≠ id2) &&
          F.pointOnSegment (building.2.x, building.2.y) p1 p2) = true then
      (false, r2.2)
    else tubes_allow F p1 p2 tubes r2.2

/-- Source `calculateTubeCost` (lunar.cpp 121-126). -/
def calculateTubeCost (F : FloatOps) (id1 id2 : Int) (buildings : OMap House) :
    Int × OMap House :=
  let r1 := OMap.index buildings id1
  let r2 := OMap.index r1.2 id2
  (F.tubeCost (r1.1.x, r1.1.y) (r2.1.x, r2.1.y), r2.2)

/-- Source `findModulesOfType` (lunar.cpp 128-136). -/
def findModulesOfType (type : Int) (buildings : OMap House) : List Int :=
  (buildings.filter (fun building => decide (building.2.type = type))).map (fun b => b.1)

/-- Source `findLandingPads` (lunar.cpp 138-146). -/
def findLandingPads (buildings : OMap House) : List Int :=
  (buildings.filter (fun building => decide (building.2.type = 0))).map (fun b => b.1)

/-- An action of a turn. -/
inductive Action where
  | tube (padId closestModule : Int)
  | pod (id padId closestModule : Int)
  deriving DecidableEq, Repr

/-- The string pushed on `actions` (lunar.cpp 270, 296-299). -/
def Action.render : Action → String
  | .tube a b => "TUBE " ++ toString a ++ " " ++ toString b
  | .pod id a b =>
    "POD " ++ toString id ++ " " ++ toString a ++ " " ++ toString b ++ " " ++ toString a

/-- The vehicle identifier of a `POD` action. -/
def Action.pod_id : Action → Option Int
  | .pod id _ _ => some id
  | .tube _ _ => none

/-- The vehicle identifiers of the `POD` actions of a list, in order. -/
def emitted_pod_ids (acts : List Action) : List Int :=
  acts.filterMap Action.pod_id

/-- The line printed at the end of a turn (lunar.cpp 307-316). -/
def output_line (actions : List Action) : String :=
  if actions.isEmpty then "WAIT" else String.intercalate ";" (actions.map Action.render)

/-- A pod line of the input: `parts[0]` and the `pod_size` stops read after `parts[1]`. -/
structure PodLine where
  id : Int
  itinerary : List Int
  deriving DecidableEq, Repr

/-- A building line of the input: its four leading integers and, read for a landing pad
only, the astronaut types. -/
structure BuildingLine where
  type : Int
  id : Int
  x : Int
  y : Int
  astronautTypes : List Int
  deriving DecidableEq, Repr

/-- What one iteration of the loop of `main` reads (lunar.cpp 163-226). -/
structure TurnInput where
  resources : Int
  routes : List (Int × Int × Int)
  pod_lines : List PodLine
  building_lines : List BuildingLine
  deriving DecidableEq, Repr

/-- The variables of `main` that last from one turn to the next (lunar.cpp 149, 155). -/
structure RunState where
  buildings : OMap House
  nextPodId : Int
  deriving DecidableEq, Repr

/-- The variables that the planning part of a turn updates. -/
structure TurnState where
  buildings : OMap House
  tubes : List Tube
  resources : Int
  actions : List Action
  nextPodId : Int
  deriving DecidableEq, Repr

/-- Loop of lines 169-184: a route of capacity 0 is a teleporter, any other one a tube with
its endpoints in increasing order. -/
def read_routes : List (Int × Int × Int) → List Tube → List Tube
  | [], tubes => tubes
  | (building_id_1, building_id_2, capacity) :: rest, tubes =>
    if capacity = 0 then read_routes rest tubes
    else
      read_routes rest
        (tubes ++ [{ bId1 := min building_id_1 building_id_2
                     bId2 := max building_id_1 building_id_2
                     capacity := capacity }])

/-- Loop of lines 188-200: every pod is stored and `nextPodId` is raised above its
identifier. -/
def read_pods : List PodLine → OMap Pod → Int → OMap Pod × Int
  | [], pods, nextPodId => (pods, nextPodId)
  | p :: rest, pods, nextPodId =>
    read_pods rest (OMap.set pods p.id { id := p.id, itinerary := p.itinerary })
      (max nextPodId (wrap32 (p.id + 1)))

/-- Loop of lines 204-226: every building line is stored under its identifier. -/
def read_buildings : List BuildingLine → OMap House → OMap House
  | [], buildings => buildings
  | h :: rest, buildings =>
    read_buildings rest
      (OMap.set buildings h.id
        { id := h.id, type := h.type, x := h.x, y := h.y
          astronautTypes := if h.type = 0 then h.astronautTypes else [] })

/-- Loop of lines 247-255: the module of the list nearest to the pad, as
`(closestModule, minDist)`. -/
def closest_module (F : FloatOps) (pad : House) :
    List Int → OMap House → Int × ℚ → (Int × ℚ) × OMap House
  | [], buildings, best => (best, buildings)
  | moduleId :: rest, buildings, best =>
    let r := OMap.index buildings moduleId
    let d := F.distance (pad.x, pad.y) (r.1.x, r.1.y)
    if d < best.2 then closest_module F pad rest r.2 (moduleId, d)
    else closest_module F pad rest r.2 best

/-- Body of the loop over `uniqueTypes` (lunar.cpp 240-303) for one astronaut type. -/
def plan_type (F : FloatOps) (padId : Int) (pad : House) (pods : OMap Pod) (type : Int)
    (s : TurnState) : TurnState :=
  let modules := findModulesOfType type s.buildings
  match modules with
  | [] => s
  | m0 :: _ =>
    let rc := closest_module F pad modules s.buildings (m0, 1000000000)
    let closestModule := rc.1.1
    let s0 : TurnState := { s with buildings := rc.2 }
    let tubeExists := s0.tubes.any (fun tube =>
      (decide (tube.bId1 = padId) && decide (tube.bId2 = closestModule)) ||
        (decide (tube.bId1 = closestModule) && decide (tube.bId2 = padId)))
    let s1 : TurnState :=
      if tubeExists = true then s0
      else
        let cb := canBuildTube F padId closestModule s0.buildings s0.tubes
        if cb.1 = true then
          let rcost := calculateTubeCost F padId closestModule cb.2
          if s0.resources ≥ rcost.1 then
            { s0 with
              buildings := rcost.2
              actions := s0.actions ++ [Action.tube padId closestModule]
              resources := wrap32 (s0.resources - rcost.1)
              tubes := s0.tubes ++
                [{ bId1 := min padId closestModule, bId2 := max padId closestModule,
                   capacity := 1 }] }
          else { s0 with buildings := rcost.2 }
        else { s0 with buildings := cb.2 }
    let podExists := pods.any (fun pod =>
      decide (padId ∈ pod.2.itinerary) && decide (closestModule ∈ pod.2.itinerary))
    if podExists = false ∧ s1.resources ≥ 1000 then
      { s1 with
        actions := s1.actions ++ [Action.pod s1.nextPodId padId closestModule]
        resources := wrap32 (s1.resources - 1000)
        nextPodId := wrap32 (s1.nextPodId + 1) }
    else s1

/-- Loop of lines 239-304 over the distinct astronaut types of a pad. -/
def plan_types (F : FloatOps) (padId : Int) (pad : House) (pods : OMap Pod) :
    List Int → TurnState → TurnState
  | [], s => s
  | type :: rest, s => plan_types F padId pad pods rest (plan_type F padId pad pods type s)

/-- The members of `uniqueTypes` (lunar.cpp 237) in the order of a `std::set<int>`. -/
def uniqueTypes (astronautTypes : List Int) : List Int :=
  (astronautTypes.dedup).insertionSort (fun a b => a ≤ b)

/-- Loop of lines 233-305 over the landing pads. -/
def plan_pads (F : FloatOps) (pods : OMap Pod) : List Int → TurnState → TurnState
  | [], s => s
  | padId :: rest, s =>
    let r := OMap.index s.buildings padId
    let pad := r.1
    plan_pads F pods rest
      (plan_types F padId pad pods (uniqueTypes pad.astronautTypes)
        { s with buildings := r.2 })

/-- One iteration of the loop of `main` (lunar.cpp 158-316): the actions of the turn and the
state handed to the next turn. -/
def main_turn (F : FloatOps) (st : RunState) (inp : TurnInput) : List Action × RunState :=
  let tubes := read_routes inp.routes []
  let rp := read_pods inp.pod_lines [] st.nextPodId
  let buildings := read_buildings inp.building_lines st.buildings
  let s := plan_pads F rp.1 (findLandingPads buildings)
    { buildings := buildings, tubes := tubes, resources := inp.resources, actions := [],
      nextPodId := rp.2 }
  (s.actions, { buildings := s.buildings, nextPodId := s.nextPodId })

/-- The state of `main` before the first turn (lunar.cpp 149-155). -/
def initial_state : RunState :=
  { buildings := [], nextPodId := 1 }

/-- The loop of `main` over the successive turn inputs: the actions of each turn and the
state after the last one. -/
def run_turns (F : FloatOps) : List TurnInput → RunState → List (List Action) × RunState
  | [], st => ([], st)
  | inp :: rest, st =>
    let r := main_turn F st inp
    let r2 := run_turns F rest r.2
    (r.1 :: r2.1, r2.2)

/-- The vehicle identifiers present in the input of a turn. -/
def input_pod_ids (inp : TurnInput) : List Int :=
  inp.pod_lines.map (fun p => p.id)

/-- The consecutive integers `n0, n0 + 1, ...` below `n`. -/
def ids_from (n0 n : Int) : List Int :=
  (List.range (n - n0).toNat).map (fun (i : Nat) => n0 + (i : Int))

/-- The values `n0, n0 + 1, ...` as `int` additions produce them, `k` of them. -/
def wrapped_ids (n0 : Int) (k : Nat) : List Int :=
  (List.range k).map (fun (i : Nat) => wrap32 (n0 + (i : Int)))

/-- Invariant of the planning part of a turn that starts with `nextPodId = n0`: the vehicle
identifiers of the `POD` actions pushed so far are, in order, the values that the successive
increments of `nextPodId` produced from `n0`, and `nextPodId` is the next such value. -/
def PodIdsInv (n0 : Int) (s : TurnState) : Prop :=
  emitted_pod_ids s.actions = wrapped_ids n0 (emitted_pod_ids s.actions).length ∧
    s.nextPodId = wrap32 (n0 + ((emitted_pod_ids s.actions).length : Int))

/-- The number of `POD` actions of a run. -/
def pods_emitted (turns : List (List Action)) : Nat :=
  ((turns.map emitted_pod_ids).flatten).length

/-- A first turn with budget 1000 whose input lists the landing pad 1 with one astronaut of
type 1, the module 2 of type 1, the module 3 of type 2, the links 1-2 and 2-3, and the pod
2147483647 that shuttles between the modules 2 and 3. -/
def largest_id_input : TurnInput :=
  { resources := 1000
    routes := [(1, 2, 1), (2, 3, 1)]
    pod_lines := [{ id := 2147483647, itinerary := [2, 3, 2] }]
    building_lines :=
      [{ type := 0, id := 1, x := 0, y := 0, astronautTypes := [1] },
       { type := 1, id := 2, x := 10, y := 0, astronautTypes := [] },
       { type := 2, id := 3, x := 20, y := 0, astronautTypes := [] }] }

/-- The same turn with the pod 5 in place of the pod 2147483647. -/
def small_id_input : TurnInput :=
  { largest_id_input with pod_lines := [{ id := 5, itinerary := [2, 3, 2] }] }

/-- The registry after the building lines of `largest_id_input` are read. -/
def three_node_registry : OMap House :=
  [(1, { id := 1, type := 0, x := 0, y := 0, astronautTypes := [1] }),
   (2, { id := 2, type := 1, x := 10, y := 0, astronautTypes := [] }),
   (3, { id := 3, type := 2, x := 20, y := 0, astronautTypes := [] })]

/-- The tubes after the routes of `largest_id_input` are read. -/
def three_node_tubes : List Tube :=
  [{ bId1 := 1, bId2 := 2, capacity := 1 }, { bId1 := 2, bId2 := 3, capacity := 1 }]

/-- Float results that are constant: distance 0, no point on a segment, orientation 0 and
tube cost 0. -/
def constant_float_ops : FloatOps :=
  { distance := fun _ _ => 0
    pointOnSegment := fun _ _ _ => false
    orientation := fun _ _ _ => 0
    tubeCost := fun _ _ => 0 }

end Lunar

/-! ## Theorems -/

namespace V3

theorem wrap32_eq_self {x : Int} (h : InInt32 x) : wrap32 x = x := by
  obtain ⟨h1, h2⟩ := h
  unfold wrap32
  omega

theorem wrap32_in_range (x : Int) : InInt32 (wrap32 x) := by
  unfold wrap32
  constructor <;> omega

theorem wrap32_sub_small {x y : Int} (hx : Small30 x) (hy : Small30 y) :
    wrap32 (x - y) = x - y := by
  obtain ⟨h1, h2⟩ := hx
  obtain ⟨h3, h4⟩ := hy
  exact wrap32_eq_self ⟨by omega, by omega⟩

/-- The 64-bit value computed by `orientation` stays in the range of `long long`. -/
theorem orientation_value_fits (ax ay bx by_ cx cy : Int) :
    wrap64 (wrap32 (bx - ax) * wrap32 (cy - ay) - wrap32 (by_ - ay) * wrap32 (cx - ax)) =
      wrap32 (bx - ax) * wrap32 (cy - ay) - wrap32 (by_ - ay) * wrap32 (cx - ax) := by
  obtain ⟨a1, a2⟩ := wrap32_in_range (bx - ax)
  obtain ⟨b1, b2⟩ := wrap32_in_range (cy - ay)
  obtain ⟨c1, c2⟩ := wrap32_in_range (by_ - ay)
  obtain ⟨d1, d2⟩ := wrap32_in_range (cx - ax)
  generalize wrap32 (bx - ax) = p at *
  generalize wrap32 (cy - ay) = q at *
  generalize wrap32 (by_ - ay) = r at *
  generalize wrap32 (cx - ax) = t at *
  have h1 : p * q ≤ 4611686018427387904 := by nlinarith
  have h2 : -4611686016279904256 ≤ p * q := by nlinarith
  have h3 : r * t ≤ 4611686018427387904 := by nlinarith
  have h4 : -4611686016279904256 ≤ r * t := by nlinarith
  unfold wrap64
  omega

/-- On points with small coordinates `orientation` computes the sign of the exact cross
product. -/
theorem orientation_of_small {ax ay bx by_ cx cy : Int} (ha : SmallPoint (ax, ay))
    (hb : SmallPoint (bx, by_)) (hc : SmallPoint (cx, cy)) :
    orientation ax ay bx by_ cx cy =
      if (bx - ax) * (cy - ay) - (by_ - ay) * (cx - ax) > 0 then 1
      else if (bx - ax) * (cy - ay) - (by_ - ay) * (cx - ax) < 0 then -1
      else 0 := by
  unfold orientation
  rw [wrap32_sub_small hb.1 ha.1, wrap32_sub_small hc.2 ha.2, wrap32_sub_small hb.2 ha.2,
    wrap32_sub_small hc.1 ha.1]

theorem orientation_eq_zero_iff (ax ay bx by_ cx cy : Int) (ha : SmallPoint (ax, ay))
    (hb : SmallPoint (bx, by_)) (hc : SmallPoint (cx, cy)) :
    orientation ax ay bx by_ cx cy = 0 ↔ (bx - ax) * (cy - ay) - (by_ - ay) * (cx - ax) = 0 := by
  rw [orientation_of_small ha hb hc]
  generalize (bx - ax) * (cy - ay) - (by_ - ay) * (cx - ax) = v
  split_ifs <;> constructor <;> intro h <;> first | omega | contradiction

theorem orientation_eq_one_iff (ax ay bx by_ cx cy : Int) (ha : SmallPoint (ax, ay))
    (hb : SmallPoint (bx, by_)) (hc : SmallPoint (cx, cy)) :
    orientation ax ay bx by_ cx cy = 1 ↔ 0 < (bx - ax) * (cy - ay) - (by_ - ay) * (cx - ax) := by
  rw [orientation_of_small ha hb hc]
  generalize (bx - ax) * (cy - ay) - (by_ - ay) * (cx - ax) = v
  split_ifs <;> constructor <;> intro h <;> first | omega | contradiction

theorem orientation_eq_neg_one_iff (ax ay bx by_ cx cy : Int) (ha : SmallPoint (ax, ay))
    (hb : SmallPoint (bx, by_)) (hc : SmallPoint (cx, cy)) :
    orientation ax ay bx by_ cx cy = -1 ↔ (bx - ax) * (cy - ay) - (by_ - ay) * (cx - ax) < 0 := by
  rw [orientation_of_small ha hb hc]
  generalize (bx - ax) * (cy - ay) - (by_ - ay) * (cx - ax) = v
  split_ifs <;> constructor <;> intro h <;> first | omega | contradiction

theorem orientation_cases (ax ay bx by_ cx cy : Int) :
    orientation ax ay bx by_ cx cy = 1 ∨ orientation ax ay bx by_ cx cy = -1 ∨
      orientation ax ay bx by_ cx cy = 0 := by
  unfold orientation
  simp only []
  split_ifs <;> simp

theorem point_on_segment_eq_true_iff (px py ax ay bx by_ : Int) (hp : SmallPoint (px, py))
    (ha : SmallPoint (ax, ay)) (hb : SmallPoint (bx, by_)) :
    point_on_segment px py ax ay bx by_ = true ↔
      ((bx - ax) * (py - ay) - (by_ - ay) * (px - ax) = 0 ∧
        min ax bx ≤ px ∧ px ≤ max ax bx ∧ min ay by_ ≤ py ∧ py ≤ max ay by_) := by
  unfold point_on_segment
  by_cases h : orientation ax ay bx by_ px py = 0
  · have h' := (orientation_eq_zero_iff ax ay bx by_ px py ha hb hp).1 h
    simp [h, h']
  · have h' : ¬ ((bx - ax) * (py - ay) - (by_ - ay) * (px - ax) = 0) :=
      fun hc => h ((orientation_eq_zero_iff ax ay bx by_ px py ha hb hp).2 hc)
    simp [h, h']


theorem convex_bounds (a b p t : ℚ) (ht0 : 0 ≤ t) (ht1 : t ≤ 1) (hp : p = a + t * (b - a)) :
    min a b ≤ p ∧ p ≤ max a b := by
  rcases le_total a b with hab | hab
  · rw [min_eq_left hab, max_eq_right hab]
    have h1 : 0 ≤ t * (b - a) := mul_nonneg ht0 (by linarith)
    have h2 : 0 ≤ (1 - t) * (b - a) := mul_nonneg (by linarith) (by linarith)
    constructor <;> nlinarith
  · rw [min_eq_right hab, max_eq_left hab]
    have h1 : 0 ≤ t * (a - b) := mul_nonneg ht0 (by linarith)
    have h2 : 0 ≤ (1 - t) * (a - b) := mul_nonneg (by linarith) (by linarith)
    constructor <;> nlinarith

theorem param_of_cross (ax ay bx by_ px py : ℚ)
    (hcross : (bx - ax) * (py - ay) - (by_ - ay) * (px - ax) = 0)
    (hlt : ax < bx) (h1 : ax ≤ px) (h2 : px ≤ bx) :
    ∃ t : ℚ, 0 ≤ t ∧ t ≤ 1 ∧ px = ax + t * (bx - ax) ∧ py = ay + t * (by_ - ay) := by
  have hpos : 0 < bx - ax := by linarith
  have hne : bx - ax ≠ 0 := ne_of_gt hpos
  refine ⟨(px - ax) / (bx - ax), div_nonneg (by linarith) hpos.le, ?_, ?_, ?_⟩
  · rw [div_le_one hpos]; linarith
  · field_simp
  · field_simp
    linarith

theorem param_of_cross_general (ax ay bx by_ px py : ℚ)
    (hcross : (bx - ax) * (py - ay) - (by_ - ay) * (px - ax) = 0)
    (hx1 : min ax bx ≤ px) (hx2 : px ≤ max ax bx)
    (hy1 : min ay by_ ≤ py) (hy2 : py ≤ max ay by_) :
    ∃ t : ℚ, 0 ≤ t ∧ t ≤ 1 ∧ px = ax + t * (bx - ax) ∧ py = ay + t * (by_ - ay) := by
  rcases lt_trichotomy ax bx with hx | hx | hx
  · rw [min_eq_left hx.le] at hx1
    rw [max_eq_right hx.le] at hx2
    exact param_of_cross ax ay bx by_ px py hcross hx hx1 hx2
  · subst hx
    rw [min_self] at hx1
    rw [max_self] at hx2
    have hpx : px = ax := le_antisymm hx2 hx1
    subst hpx
    rcases lt_trichotomy ay by_ with hy | hy | hy
    · rw [min_eq_left hy.le] at hy1
      rw [max_eq_right hy.le] at hy2
      obtain ⟨t, h0, h1, h2, h3⟩ :=
        param_of_cross ay px by_ px py px (by ring) hy hy1 hy2
      exact ⟨t, h0, h1, by ring, h2⟩
    · subst hy
      rw [min_self] at hy1
      rw [max_self] at hy2
      have hpy : py = ay := le_antisymm hy2 hy1
      subst hpy
      exact ⟨0, le_refl 0, zero_le_one, by ring, by ring⟩
    · rw [min_eq_right hy.le] at hy1
      rw [max_eq_left hy.le] at hy2
      obtain ⟨t, h0, h1, h2, h3⟩ :=
        param_of_cross by_ px ay px py px (by ring) hy hy1 hy2
      exact ⟨1 - t, by linarith, by linarith, by ring, by rw [h2]; ring⟩
  · rw [min_eq_right hx.le] at hx1
    rw [max_eq_left hx.le] at hx2
    obtain ⟨t, h0, h1, h2, h3⟩ :=
      param_of_cross bx by_ ax ay px py (by linarith) hx hx1 hx2
    exact ⟨1 - t, by linarith, by linarith, by rw [h2]; ring, by rw [h3]; ring⟩

theorem point_on_segment_iff (p a b : Int × Int) (hp : SmallPoint p) (ha : SmallPoint a)
    (hb : SmallPoint b) :
    point_on_segment p.1 p.2 a.1 a.2 b.1 b.2 = true ↔ OnSegment p a b := by
  rw [point_on_segment_eq_true_iff _ _ _ _ _ _ hp ha hb]
  constructor
  · rintro ⟨hc, hx1, hx2, hy1, hy2⟩
    have hc' : ((b.1 : ℚ) - a.1) * (p.2 - a.2) - (b.2 - a.2) * (p.1 - a.1) = 0 := by
      exact_mod_cast hc
    have hx1' : min (a.1 : ℚ) b.1 ≤ p.1 := by exact_mod_cast hx1
    have hx2' : (p.1 : ℚ) ≤ max (a.1 : ℚ) b.1 := by exact_mod_cast hx2
    have hy1' : min (a.2 : ℚ) b.2 ≤ p.2 := by exact_mod_cast hy1
    have hy2' : (p.2 : ℚ) ≤ max (a.2 : ℚ) b.2 := by exact_mod_cast hy2
    exact param_of_cross_general _ _ _ _ _ _ hc' hx1' hx2' hy1' hy2'
  · rintro ⟨t, h0, h1, hx, hy⟩
    have hbx := convex_bounds _ _ _ t h0 h1 hx
    have hby := convex_bounds _ _ _ t h0 h1 hy
    refine ⟨?_, ?_, ?_, ?_, ?_⟩
    · have : ((b.1 : ℚ) - a.1) * (p.2 - a.2) - (b.2 - a.2) * (p.1 - a.1) = 0 := by
        rw [hx, hy]; ring
      exact_mod_cast this
    · exact_mod_cast hbx.1
    · exact_mod_cast hbx.2
    · exact_mod_cast hby.1
    · exact_mod_cast hby.2


theorem OnSegment_symm {p a b : Int × Int} (h : OnSegment p a b) : OnSegment p b a := by
  obtain ⟨t, h0, h1, hx, hy⟩ := h
  exact ⟨1 - t, by linarith, by linarith, by rw [hx]; ring, by rw [hy]; ring⟩

theorem SegmentsMeet_swap_right {a b c d : Int × Int} (h : SegmentsMeet a b c d) :
    SegmentsMeet a b d c := by
  obtain ⟨t, s, ht0, ht1, hs0, hs1, hx, hy⟩ := h
  exact ⟨t, 1 - s, ht0, ht1, by linarith, by linarith, by rw [hx]; ring, by rw [hy]; ring⟩

theorem SegmentsMeet_symm {a b c d : Int × Int} (h : SegmentsMeet a b c d) :
    SegmentsMeet c d a b := by
  obtain ⟨t, s, ht0, ht1, hs0, hs1, hx, hy⟩ := h
  exact ⟨s, t, hs0, hs1, ht0, ht1, hx.symm, hy.symm⟩

theorem collinear_param (a b c : Int × Int) (hab : a ≠ b) (h : cross a b c = 0) :
    ∃ τ : ℚ, (c.1 : ℚ) = a.1 + τ * (b.1 - a.1) ∧ (c.2 : ℚ) = a.2 + τ * (b.2 - a.2) := by
  have hq : ((b.1 : ℚ) - a.1) * (c.2 - a.2) - (b.2 - a.2) * (c.1 - a.1) = 0 := by
    unfold cross at h
    exact_mod_cast h
  by_cases hx : a.1 = b.1
  · have hy : a.2 ≠ b.2 := fun hy => hab (Prod.ext hx hy)
    have hy' : (b.2 : ℚ) - a.2 ≠ 0 := by
      intro hc
      apply hy
      have : (b.2 : ℚ) = a.2 := by linarith
      exact_mod_cast this.symm
    have hx' : (b.1 : ℚ) - a.1 = 0 := by
      have : (a.1 : ℚ) = b.1 := by exact_mod_cast hx
      linarith
    refine ⟨(c.2 - a.2) / (b.2 - a.2), ?_, ?_⟩
    · rw [hx'] at hq
      have h3 : ((b.2 : ℚ) - a.2) * (c.1 - a.1) = 0 := by linarith
      rcases mul_eq_zero.1 h3 with h4 | h4
      · exact absurd h4 hy'
      · rw [hx']; linarith
    · field_simp
  · have hx' : (b.1 : ℚ) - a.1 ≠ 0 := by
      intro hc
      apply hx
      have : (b.1 : ℚ) = a.1 := by linarith
      exact_mod_cast this.symm
    refine ⟨(c.1 - a.1) / (b.1 - a.1), ?_, ?_⟩
    · field_simp
    · field_simp
      linarith

theorem param_unique (a b : Int × Int) (hab : a ≠ b) (t t' : ℚ)
    (hx : (a.1 : ℚ) + t * (b.1 - a.1) = a.1 + t' * (b.1 - a.1))
    (hy : (a.2 : ℚ) + t * (b.2 - a.2) = a.2 + t' * (b.2 - a.2)) : t = t' := by
  by_contra hne
  have hd : t - t' ≠ 0 := sub_ne_zero.2 hne
  have h1 : (t - t') * ((b.1 : ℚ) - a.1) = 0 := by linarith
  have h2 : (t - t') * ((b.2 : ℚ) - a.2) = 0 := by linarith
  have h1' : (b.1 : ℚ) - a.1 = 0 := (mul_eq_zero.1 h1).resolve_left hd
  have h2' : (b.2 : ℚ) - a.2 = 0 := (mul_eq_zero.1 h2).resolve_left hd
  apply hab
  apply Prod.ext
  · have : (a.1 : ℚ) = b.1 := by linarith
    exact_mod_cast this
  · have : (a.2 : ℚ) = b.2 := by linarith
    exact_mod_cast this

theorem meet_of_collinear (a b c d : Int × Int) (h : SegmentsMeet a b c d)
    (h1 : cross a b c = 0) :
    OnSegment c a b ∨ OnSegment d a b ∨ OnSegment a c d ∨ OnSegment b c d := by
  obtain ⟨t, s, ht0, ht1, hs0, hs1, hx, hy⟩ := h
  have hq : ((b.1 : ℚ) - a.1) * (c.2 - a.2) - (b.2 - a.2) * (c.1 - a.1) = 0 := by
    unfold cross at h1
    exact_mod_cast h1
  have hK : s * (((b.1 : ℚ) - a.1) * (d.2 - c.2) - (b.2 - a.2) * (d.1 - c.1)) = 0 := by
    linear_combination ((b.2 : ℚ) - a.2) * hx - ((b.1 : ℚ) - a.1) * hy - hq
  rcases mul_eq_zero.1 hK with hs | hK0
  · left
    subst hs
    exact ⟨t, ht0, ht1, by linarith, by linarith⟩
  · by_cases hab : a = b
    · right; right; left
      subst hab
      exact ⟨s, hs0, hs1, by linarith, by linarith⟩
    · have h2 : cross a b d = 0 := by
        have : ((b.1 : ℚ) - a.1) * (d.2 - a.2) - (b.2 - a.2) * (d.1 - a.1) = 0 := by
          linarith
        unfold cross
        exact_mod_cast this
      obtain ⟨τc, hcx, hcy⟩ := collinear_param a b c hab h1
      obtain ⟨τd, hdx, hdy⟩ := collinear_param a b d hab h2
      have ht : t = τc + s * (τd - τc) := by
        apply param_unique a b hab
        · rw [hx, hcx, hdx]; ring
        · rw [hy, hcy, hdy]; ring
      by_cases hc : 0 ≤ τc ∧ τc ≤ 1
      · left
        exact ⟨τc, hc.1, hc.2, hcx, hcy⟩
      by_cases hd : 0 ≤ τd ∧ τd ≤ 1
      · right; left
        exact ⟨τd, hd.1, hd.2, hdx, hdy⟩
      right; right; left
      have hsd : 0 ≤ s * τd ∨ s * τd ≤ 0 := le_total _ _
      have key : (τc < 0 ∧ 1 < τd) ∨ (τd < 0 ∧ 1 < τc) := by
        rcases lt_or_le τc 0 with c0 | c0
        · rcases lt_or_le 1 τd with d1 | d1
          · exact Or.inl ⟨c0, d1⟩
          · exfalso
            have d0 : τd < 0 := by
              by_contra hcon
              exact hd ⟨not_lt.1 hcon, d1⟩
            have e1 : (1 - s) * τc ≤ 0 :=
              mul_nonpos_of_nonneg_of_nonpos (by linarith) c0.le
            have e2 : s * τd ≤ 0 := mul_nonpos_of_nonneg_of_nonpos hs0 d0.le
            have e3 : t = (1 - s) * τc + s * τd := by rw [ht]; ring
            have e4 : s * τd = 0 := by linarith
            have e5 : (1 - s) * τc = 0 := by linarith
            rcases mul_eq_zero.1 e4 with z | z
            · rw [z] at e5
              linarith
            · linarith
        · have c1 : 1 < τc := by
            by_contra hcon
            exact hc ⟨c0, not_lt.1 hcon⟩
          rcases lt_or_le τd 0 with d0 | d0
          · exact Or.inr ⟨d0, c1⟩
          · exfalso
            have d1 : 1 < τd := by
              by_contra hcon
              exact hd ⟨d0, not_lt.1 hcon⟩
            have e1 : (1 - s) * 1 ≤ (1 - s) * τc :=
              mul_le_mul_of_nonneg_left c1.le (by linarith)
            have e2 : s * 1 ≤ s * τd := mul_le_mul_of_nonneg_left d1.le hs0
            have e3 : t = (1 - s) * τc + s * τd := by rw [ht]; ring
            have e4 : s * τd = s := by linarith
            have e5 : (1 - s) * τc = 1 - s := by linarith
            by_cases hs' : s = 0
            · rw [hs'] at e5
              linarith
            · have : τd = 1 := by
                have := mul_left_cancel₀ hs' (e4.trans (mul_one s).symm)
                exact this
              linarith
      rcases key with ⟨c0, d1⟩ | ⟨d0, c1⟩
      · have hpos : 0 < τd - τc := by linarith
        refine ⟨(0 - τc) / (τd - τc), div_nonneg (by linarith) hpos.le, ?_, ?_, ?_⟩
        · rw [div_le_one hpos]; linarith
        · rw [hcx, hdx]; field_simp; ring
        · rw [hcy, hdy]; field_simp; ring
      · have hpos : 0 < τc - τd := by linarith
        have hne : τd - τc ≠ 0 := by linarith
        refine ⟨τc / (τc - τd), div_nonneg (by linarith) hpos.le, ?_, ?_, ?_⟩
        · rw [div_le_one hpos]; linarith
        · rw [hcx, hdx]; field_simp; ring
        · rw [hcy, hdy]; field_simp; ring

theorem cross_cast (a b c : Int × Int) :
    ((cross a b c : Int) : ℚ) =
      ((b.1 : ℚ) - a.1) * (c.2 - a.2) - (b.2 - a.2) * (c.1 - a.1) := by
  unfold cross
  push_cast
  ring

theorem orientation_eq_cross_sign (a b c : Int × Int) (ha : SmallPoint a)
    (hb : SmallPoint b) (hc : SmallPoint c) :
    orientation a.1 a.2 b.1 b.2 c.1 c.2 = Int.sign (cross a b c) := by
  unfold cross
  rcases lt_trichotomy ((b.1 - a.1) * (c.2 - a.2) - (b.2 - a.2) * (c.1 - a.1)) 0 with h | h | h
  · rw [Int.sign_eq_neg_one_of_neg h]
    exact (orientation_eq_neg_one_iff _ _ _ _ _ _ ha hb hc).2 h
  · rw [h, Int.sign_zero]
    exact (orientation_eq_zero_iff _ _ _ _ _ _ ha hb hc).2 h
  · rw [Int.sign_eq_one_of_pos h]
    exact (orientation_eq_one_iff _ _ _ _ _ _ ha hb hc).2 h

theorem sign_opposite_iff (x y : Int) :
    (Int.sign x ≠ 0 ∧ Int.sign y ≠ 0 ∧ Int.sign x ≠ Int.sign y) ↔ x * y < 0 := by
  rcases lt_trichotomy x 0 with hx | hx | hx
  · rcases lt_trichotomy y 0 with hy | hy | hy
    · rw [Int.sign_eq_neg_one_of_neg hx, Int.sign_eq_neg_one_of_neg hy]
      have := mul_pos_of_neg_of_neg hx hy
      constructor
      · intro h; exact absurd rfl h.2.2
      · intro h; omega
    · subst hy; simp
    · rw [Int.sign_eq_neg_one_of_neg hx, Int.sign_eq_one_of_pos hy]
      have := mul_neg_of_neg_of_pos hx hy
      constructor
      · intro _; exact this
      · intro _; decide
  · subst hx; simp
  · rcases lt_trichotomy y 0 with hy | hy | hy
    · rw [Int.sign_eq_one_of_pos hx, Int.sign_eq_neg_one_of_neg hy]
      have := mul_neg_of_pos_of_neg hx hy
      constructor
      · intro _; exact this
      · intro _; decide
    · subst hy; simp
    · rw [Int.sign_eq_one_of_pos hx, Int.sign_eq_one_of_pos hy]
      have := mul_pos hx hy
      constructor
      · intro h; exact absurd rfl h.2.2
      · intro h; omega

theorem point_on_segment_cross {p a b : Int × Int} (hp : SmallPoint p) (ha : SmallPoint a)
    (hb : SmallPoint b)
    (h : point_on_segment p.1 p.2 a.1 a.2 b.1 b.2 = true) : cross a b p = 0 :=
  ((point_on_segment_eq_true_iff _ _ _ _ _ _ hp ha hb).1 h).1

/-- Unfolding of `segments_intersect` into the proper-crossing test and the four
endpoint-on-segment tests. -/
theorem segments_intersect_eq_true_iff (a b c d : Int × Int) (ha : SmallPoint a)
    (hb : SmallPoint b) (hc : SmallPoint c) (hd : SmallPoint d) :
    segments_intersect a b c d = true ↔
      ((cross a b c * cross a b d < 0 ∧ cross c d a * cross c d b < 0) ∨
        point_on_segment c.1 c.2 a.1 a.2 b.1 b.2 = true ∨
        point_on_segment d.1 d.2 a.1 a.2 b.1 b.2 = true ∨
        point_on_segment a.1 a.2 c.1 c.2 d.1 d.2 = true ∨
        point_on_segment b.1 b.2 c.1 c.2 d.1 d.2 = true) := by
  have e1 := sign_opposite_iff (cross a b c) (cross a b d)
  have e2 := sign_opposite_iff (cross c d a) (cross c d b)
  have z1 : point_on_segment c.1 c.2 a.1 a.2 b.1 b.2 = true → Int.sign (cross a b c) = 0 :=
    fun h => by rw [point_on_segment_cross hc ha hb h]; rfl
  have z2 : point_on_segment d.1 d.2 a.1 a.2 b.1 b.2 = true → Int.sign (cross a b d) = 0 :=
    fun h => by rw [point_on_segment_cross hd ha hb h]; rfl
  have z3 : point_on_segment a.1 a.2 c.1 c.2 d.1 d.2 = true → Int.sign (cross c d a) = 0 :=
    fun h => by rw [point_on_segment_cross ha hc hd h]; rfl
  have z4 : point_on_segment b.1 b.2 c.1 c.2 d.1 d.2 = true → Int.sign (cross c d b) = 0 :=
    fun h => by rw [point_on_segment_cross hb hc hd h]; rfl
  unfold segments_intersect
  simp only [orientation_eq_cross_sign a b c ha hb hc, orientation_eq_cross_sign a b d ha hb hd,
    orientation_eq_cross_sign c d a hc hd ha, orientation_eq_cross_sign c d b hc hd hb]
  rw [← e1, ← e2]
  generalize Int.sign (cross a b c) = o1 at *
  generalize Int.sign (cross a b d) = o2 at *
  generalize Int.sign (cross c d a) = o3 at *
  generalize Int.sign (cross c d b) = o4 at *
  generalize point_on_segment c.1 c.2 a.1 a.2 b.1 b.2 = p1 at *
  generalize point_on_segment d.1 d.2 a.1 a.2 b.1 b.2 = p2 at *
  generalize point_on_segment a.1 a.2 c.1 c.2 d.1 d.2 = p3 at *
  generalize point_on_segment b.1 b.2 c.1 c.2 d.1 d.2 = p4 at *
  clear e1 e2
  constructor
  · intro h
    split_ifs at h with c1 c2 c3 c4 c5
    · exact Or.inl ⟨⟨c1.1.1, c1.1.2.1, c1.2.1⟩, c1.1.2.2.1, c1.1.2.2.2, c1.2.2⟩
    · exact Or.inr (Or.inl c2.2)
    · exact Or.inr (Or.inr (Or.inl c3.2))
    · exact Or.inr (Or.inr (Or.inr (Or.inl c4.2)))
    · exact Or.inr (Or.inr (Or.inr (Or.inr c5.2)))
  · intro h
    split_ifs with c1 c2 c3 c4 c5
    · rfl
    · rfl
    · rfl
    · rfl
    · rfl
    · exfalso
      rcases h with h | h | h | h | h
      · exact c1 ⟨⟨h.1.1, h.1.2.1, h.2.1, h.2.2.1⟩, h.1.2.2, h.2.2.2⟩
      · exact c2 ⟨z1 h, h⟩
      · exact c3 ⟨z2 h, h⟩
      · exact c4 ⟨z3 h, h⟩
      · exact c5 ⟨z4 h, h⟩

theorem meet_cross_nonpos {a b c d : Int × Int} (h : SegmentsMeet a b c d) :
    cross a b c * cross a b d ≤ 0 := by
  obtain ⟨t, s, ht0, ht1, hs0, hs1, hx, hy⟩ := h
  have hrel : (1 - s) * (cross a b c : ℚ) + s * (cross a b d : ℚ) = 0 := by
    rw [cross_cast, cross_cast]
    linear_combination ((b.2 : ℚ) - a.2) * hx - ((b.1 : ℚ) - a.1) * hy
  have hprod : (cross a b c : ℚ) * (cross a b d : ℚ) =
      -((1 - s) * (cross a b c : ℚ) ^ 2 + s * (cross a b d : ℚ) ^ 2) := by
    linear_combination ((cross a b c : ℚ) + (cross a b d : ℚ)) * hrel
  have h1 : 0 ≤ (1 - s) * (cross a b c : ℚ) ^ 2 := mul_nonneg (by linarith) (sq_nonneg _)
  have h2 : 0 ≤ s * (cross a b d : ℚ) ^ 2 := mul_nonneg hs0 (sq_nonneg _)
  have h3 : (cross a b c : ℚ) * (cross a b d : ℚ) ≤ 0 := by rw [hprod]; linarith
  exact_mod_cast h3

theorem ratio_bounds (x y : ℚ) (h : x * y < 0) :
    x - y ≠ 0 ∧ 0 ≤ x / (x - y) ∧ x / (x - y) ≤ 1 := by
  rcases lt_trichotomy x 0 with hx | hx | hx
  · have hy : 0 < y := by
      by_contra hc
      have := mul_nonneg_of_nonpos_of_nonpos hx.le (not_lt.1 hc)
      linarith
    have hneg : x - y < 0 := by linarith
    refine ⟨ne_of_lt hneg, div_nonneg_of_nonpos hx.le hneg.le, ?_⟩
    rw [div_le_one_of_neg hneg]
    linarith
  · subst hx
    simp at h
  · have hy : y < 0 := by
      by_contra hc
      have := mul_nonneg hx.le (not_lt.1 hc)
      linarith
    have hpos : 0 < x - y := by linarith
    refine ⟨ne_of_gt hpos, div_nonneg hx.le hpos.le, ?_⟩
    rw [div_le_one hpos]
    linarith

theorem meet_of_proper {a b c d : Int × Int}
    (h1 : cross a b c * cross a b d < 0) (h2 : cross c d a * cross c d b < 0) :
    SegmentsMeet a b c d := by
  have q1 : (cross a b c : ℚ) * (cross a b d : ℚ) < 0 := by exact_mod_cast h1
  have q2 : (cross c d a : ℚ) * (cross c d b : ℚ) < 0 := by exact_mod_cast h2
  obtain ⟨n1, s0, s1⟩ := ratio_bounds _ _ q1
  obtain ⟨n2, t0, t1⟩ := ratio_bounds _ _ q2
  refine ⟨(cross c d a : ℚ) / ((cross c d a : ℚ) - (cross c d b : ℚ)),
    (cross a b c : ℚ) / ((cross a b c : ℚ) - (cross a b d : ℚ)), t0, t1, s0, s1, ?_, ?_⟩
  · rw [cross_cast, cross_cast] at n1 n2
    rw [cross_cast, cross_cast, cross_cast, cross_cast]
    field_simp
    ring
  · rw [cross_cast, cross_cast] at n1 n2
    rw [cross_cast, cross_cast, cross_cast, cross_cast]
    field_simp
    ring

/-- On points with small coordinates `segments_intersect` decides exactly whether the two
closed segments share a point (degenerate segments included). -/
theorem segments_intersect_iff_meet (a b c d : Int × Int) (ha : SmallPoint a)
    (hb : SmallPoint b) (hc : SmallPoint c) (hd : SmallPoint d) :
    segments_intersect a b c d = true ↔ SegmentsMeet a b c d := by
  rw [segments_intersect_eq_true_iff a b c d ha hb hc hd]
  constructor
  · rintro (⟨h1, h2⟩ | h | h | h | h)
    · exact meet_of_proper h1 h2
    · obtain ⟨t, h0, h1, hx, hy⟩ := (point_on_segment_iff c a b hc ha hb).1 h
      exact ⟨t, 0, h0, h1, le_refl 0, zero_le_one, by rw [hx]; ring, by rw [hy]; ring⟩
    · obtain ⟨t, h0, h1, hx, hy⟩ := (point_on_segment_iff d a b hd ha hb).1 h
      exact ⟨t, 1, h0, h1, zero_le_one, le_refl 1, by rw [hx]; ring, by rw [hy]; ring⟩
    · obtain ⟨s, h0, h1, hx, hy⟩ := (point_on_segment_iff a c d ha hc hd).1 h
      exact ⟨0, s, le_refl 0, zero_le_one, h0, h1, by rw [hx]; ring, by rw [hy]; ring⟩
    · obtain ⟨s, h0, h1, hx, hy⟩ := (point_on_segment_iff b c d hb hc hd).1 h
      exact ⟨1, s, zero_le_one, le_refl 1, h0, h1, by rw [hx]; ring, by rw [hy]; ring⟩
  · intro h
    have n1 := meet_cross_nonpos h
    have n2 := meet_cross_nonpos (SegmentsMeet_symm h)
    have ps : ∀ {p x y : Int × Int}, SmallPoint p → SmallPoint x → SmallPoint y →
        OnSegment p x y → point_on_segment p.1 p.2 x.1 x.2 y.1 y.2 = true :=
      fun h1 h2 h3 hp => (point_on_segment_iff _ _ _ h1 h2 h3).2 hp
    by_cases z1 : cross a b c = 0
    · right
      rcases meet_of_collinear a b c d h z1 with r | r | r | r
      · exact Or.inl (ps hc ha hb r)
      · exact Or.inr (Or.inl (ps hd ha hb r))
      · exact Or.inr (Or.inr (Or.inl (ps ha hc hd r)))
      · exact Or.inr (Or.inr (Or.inr (ps hb hc hd r)))
    by_cases z2 : cross a b d = 0
    · right
      rcases meet_of_collinear a b d c (SegmentsMeet_swap_right h) z2 with r | r | r | r
      · exact Or.inr (Or.inl (ps hd ha hb r))
      · exact Or.inl (ps hc ha hb r)
      · exact Or.inr (Or.inr (Or.inl (ps ha hc hd (OnSegment_symm r))))
      · exact Or.inr (Or.inr (Or.inr (ps hb hc hd (OnSegment_symm r))))
    by_cases z3 : cross c d a = 0
    · right
      rcases meet_of_collinear c d a b (SegmentsMeet_symm h) z3 with r | r | r | r
      · exact Or.inr (Or.inr (Or.inl (ps ha hc hd r)))
      · exact Or.inr (Or.inr (Or.inr (ps hb hc hd r)))
      · exact Or.inl (ps hc ha hb r)
      · exact Or.inr (Or.inl (ps hd ha hb r))
    by_cases z4 : cross c d b = 0
    · right
      rcases meet_of_collinear c d b a (SegmentsMeet_swap_right (SegmentsMeet_symm h)) z4
        with r | r | r | r
      · exact Or.inr (Or.inr (Or.inr (ps hb hc hd r)))
      · exact Or.inr (Or.inr (Or.inl (ps ha hc hd r)))
      · exact Or.inl (ps hc ha hb (OnSegment_symm r))
      · exact Or.inr (Or.inl (ps hd ha hb (OnSegment_symm r)))
    left
    exact ⟨lt_of_le_of_ne n1 (mul_ne_zero z1 z2), lt_of_le_of_ne n2 (mul_ne_zero z3 z4)⟩

/-- C1 (counterexample): for `a = (-2000000000, 0)`, `b = (2000000000, 1)`, `c = (0, -1)`,
`d = (0, 1)` the segments `ab` and `cd` share the point `(0, 1/2)` (`t = 1/2`, `s = 3/4`),
yet `segments_intersect` returns `false`: the `int` difference `bx - ax` wraps. -/
theorem segments_intersect_misses_wide_crossing :
    ((-2000000000, 0) : Int × Int) ≠ (2000000000, 1) ∧ ((0, -1) : Int × Int) ≠ (0, 1) ∧
      segments_intersect (-2000000000, 0) (2000000000, 1) (0, -1) (0, 1) = false ∧
      SegmentsMeet (-2000000000, 0) (2000000000, 1) (0, -1) (0, 1) := by
  refine ⟨by decide, by decide, by decide, 1 / 2, 3 / 4, ?_⟩
  norm_num

/-- C1 (amended): for all integer points `a`, `b`, `c`, `d` with coordinates in
`[-2^30, 2^30 - 1]`, `a ≠ b` and `c ≠ d`, `segments_intersect a b c d` returns `true` if
and only if the closed segments `ab` and `cd` share a point, i.e. (`SegmentsMeet`) there are
rationals `t`, `s` in `[0, 1]` with `a + t (b - a) = c + s (d - c)`.  The hypotheses
`a ≠ b` and `c ≠ d` are those of the claim; the proof does not need them. -/
theorem segments_intersect_iff_parametric (a b c d : Int × Int) (ha : SmallPoint a)
    (hb : SmallPoint b) (hc : SmallPoint c) (hd : SmallPoint d) (_hab : a ≠ b)
    (_hcd : c ≠ d) : segments_intersect a b c d = true ↔ SegmentsMeet a b c d :=
  segments_intersect_iff_meet a b c d ha hb hc hd

theorem segments_intersect_iff_parametric_witness :
    segments_intersect (0, 0) (4, 4) (1, 0) (0, 1) = true ↔
      SegmentsMeet (0, 0) (4, 4) (1, 0) (0, 1) :=
  segments_intersect_iff_parametric (0, 0) (4, 4) (1, 0) (0, 1) (by decide) (by decide)
    (by decide) (by decide) (by decide) (by decide)

/-! ### Association-list lemmas -/

theorem UMap.count_eq_zero_iff {K V : Type} [DecidableEq K] (m : UMap K V) (k : K) :
    UMap.count m k = 0 ↔ UMap.find m k = none := by
  unfold UMap.count
  cases h : UMap.find m k <;> simp

theorem UMap.index_of_find {K V : Type} [DecidableEq K] [Inhabited V] {m : UMap K V} {k : K}
    {v : V} (h : UMap.find m k = some v) : UMap.index m k = (v, m) := by
  unfold UMap.index
  rw [h]

theorem Globals.position_of_find {g : Globals} {k : Int} {p : Int × Int}
    (h : UMap.find g.building_positions k = some p) : g.position k = (p, g) := by
  unfold Globals.position
  rw [UMap.index_of_find h]

/-! ### The link validator -/

/-- Value of the degree operand: the recorded degree exists and reaches `max_deg`; the
guarded `at` never faults. -/
theorem degree_at_least_eq (degree : UMap Int Int) (u max_deg : Int) :
    degree_at_least degree u max_deg =
      .ok (decide (∃ x, UMap.find degree u = some x ∧ x ≥ max_deg)) := by
  unfold degree_at_least UMap.count UMap.at_
  cases h : UMap.find degree u <;> simp

theorem tube_blocked_by_existing_spec (u v : Int) (pu pv : Int × Int)
    (l : List (Int × Int)) (g : Globals) :
    (tube_blocked_by_existing u v pu pv l g).2 = g ∧
      ((tube_blocked_by_existing u v pu pv l g).1 = true ↔
        ∃ ab ∈ l, BlockingTube g u v pu pv ab) := by
  induction l with
  | nil => simp [tube_blocked_by_existing]
  | cons ab rest ih =>
    obtain ⟨a, b⟩ := ab
    unfold tube_blocked_by_existing
    by_cases h1 : a = u ∨ a = v ∨ b = u ∨ b = v
    · rw [if_pos h1]
      refine ⟨ih.1, ih.2.trans ?_⟩
      constructor
      · rintro ⟨x, hx, hb⟩
        exact ⟨x, List.mem_cons_of_mem _ hx, hb⟩
      · rintro ⟨x, hx, hb⟩
        rcases List.mem_cons.1 hx with rfl | hx
        · exfalso
          obtain ⟨n1, n2, n3, n4, _⟩ := hb
          rcases h1 with h | h | h | h
          · exact n1 h
          · exact n2 h
          · exact n3 h
          · exact n4 h
        · exact ⟨x, hx, hb⟩
    · rw [if_neg h1]
      by_cases h2 : UMap.count g.building_positions a = 0 ∨ UMap.count g.building_positions b = 0
      · rw [if_pos h2]
        refine ⟨ih.1, ih.2.trans ?_⟩
        constructor
        · rintro ⟨x, hx, hb⟩
          exact ⟨x, List.mem_cons_of_mem _ hx, hb⟩
        · rintro ⟨x, hx, hb⟩
          rcases List.mem_cons.1 hx with rfl | hx
          · exfalso
            obtain ⟨_, _, _, _, pa, pb, fa, fb, _⟩ := hb
            rcases h2 with h | h
            · rw [UMap.count_eq_zero_iff] at h
              simp only [] at fa
              rw [h] at fa
              exact Option.noConfusion fa
            · rw [UMap.count_eq_zero_iff] at h
              simp only [] at fb
              rw [h] at fb
              exact Option.noConfusion fb
          · exact ⟨x, hx, hb⟩
      · rw [if_neg h2]
        have ha : ∃ pa, UMap.find g.building_positions a = some pa := by
          cases h : UMap.find g.building_positions a with
          | none => exact absurd (Or.inl ((UMap.count_eq_zero_iff _ _).2 h)) h2
          | some pa => exact ⟨pa, rfl⟩
        have hb : ∃ pb, UMap.find g.building_positions b = some pb := by
          cases h : UMap.find g.building_positions b with
          | none => exact absurd (Or.inr ((UMap.count_eq_zero_iff _ _).2 h)) h2
          | some pb => exact ⟨pb, rfl⟩
        obtain ⟨pa, fa⟩ := ha
        obtain ⟨pb, fb⟩ := hb
        simp only [Globals.position_of_find fa, Globals.position_of_find fb]
        have n : a ≠ u ∧ a ≠ v ∧ b ≠ u ∧ b ≠ v := by
          refine ⟨fun h => h1 (Or.inl h), fun h => h1 (Or.inr (Or.inl h)),
            fun h => h1 (Or.inr (Or.inr (Or.inl h))), fun h => h1 (Or.inr (Or.inr (Or.inr h)))⟩
        by_cases h3 : segments_intersect pu pv pa pb = true
        · rw [if_pos h3]
          refine ⟨rfl, ?_⟩
          simp only [true_iff]
          exact ⟨(a, b), List.mem_cons_self _ _, n.1, n.2.1, n.2.2.1, n.2.2.2, pa, pb, fa, fb, h3⟩
        · rw [if_neg h3]
          refine ⟨ih.1, ih.2.trans ?_⟩
          constructor
          · rintro ⟨x, hx, hb⟩
            exact ⟨x, List.mem_cons_of_mem _ hx, hb⟩
          · rintro ⟨x, hx, hb⟩
            rcases List.mem_cons.1 hx with rfl | hx
            · exfalso
              obtain ⟨_, _, _, _, pa', pb', fa', fb', hi⟩ := hb
              simp only [] at fa' fb'
              rw [fa] at fa'
              rw [fb] at fb'
              cases fa'
              cases fb'
              exact h3 hi
            · exact ⟨x, hx, hb⟩

theorem tube_blocked_by_node_spec (u v : Int) (pu pv : Int × Int)
    (l : List Int) (g : Globals) :
    (tube_blocked_by_node u v pu pv l g).2 = g ∧
      ((tube_blocked_by_node u v pu pv l g).1 = true ↔
        ∃ w ∈ l, BlockingNode g u v pu pv w) := by
  induction l with
  | nil => simp [tube_blocked_by_node]
  | cons w rest ih =>
    unfold tube_blocked_by_node
    have lift : (∃ x ∈ rest, BlockingNode g u v pu pv x) →
        ∃ x ∈ w :: rest, BlockingNode g u v pu pv x := by
      rintro ⟨x, hx, hb⟩
      exact ⟨x, List.mem_cons_of_mem _ hx, hb⟩
    have drop : ¬ BlockingNode g u v pu pv w → (∃ x ∈ w :: rest, BlockingNode g u v pu pv x) →
        ∃ x ∈ rest, BlockingNode g u v pu pv x := by
      rintro hn ⟨x, hx, hb⟩
      rcases List.mem_cons.1 hx with rfl | hx
      · exact absurd hb hn
      · exact ⟨x, hx, hb⟩
    by_cases h1 : w = u ∨ w = v
    · rw [if_pos h1]
      refine ⟨ih.1, ih.2.trans ⟨lift, drop ?_⟩⟩
      rintro ⟨n1, n2, _⟩
      rcases h1 with h | h
      · exact n1 h
      · exact n2 h
    · rw [if_neg h1]
      by_cases h2 : UMap.count g.building_positions w = 0
      · rw [if_pos h2]
        refine ⟨ih.1, ih.2.trans ⟨lift, drop ?_⟩⟩
        rintro ⟨_, _, pw, fw, _⟩
        rw [UMap.count_eq_zero_iff] at h2
        rw [h2] at fw
        exact Option.noConfusion fw
      · rw [if_neg h2]
        have hw : ∃ pw, UMap.find g.building_positions w = some pw := by
          cases h : UMap.find g.building_positions w with
          | none => exact absurd ((UMap.count_eq_zero_iff _ _).2 h) h2
          | some pw => exact ⟨pw, rfl⟩
        obtain ⟨pw, fw⟩ := hw
        simp only [Globals.position_of_find fw]
        by_cases h3 : point_on_segment pw.1 pw.2 pu.1 pu.2 pv.1 pv.2 = true
        · rw [if_pos h3]
          refine ⟨rfl, ?_⟩
          simp only [true_iff]
          exact ⟨w, List.mem_cons_self _ _, fun h => h1 (Or.inl h), fun h => h1 (Or.inr h),
            pw, fw, h3⟩
        · rw [if_neg h3]
          refine ⟨ih.1, ih.2.trans ⟨lift, drop ?_⟩⟩
          rintro ⟨_, _, pw', fw', hp⟩
          rw [fw] at fw'
          cases fw'
          exact h3 hp

/-- The validator always returns, leaves the registries as they were, and accepts exactly
the pairs satisfying `ValidLink`. -/
theorem tube_is_geometrically_valid_spec (g : Globals) (u v : Int)
    (existing_tubes : List (Int × Int)) (degree : UMap Int Int) (max_deg : Int) :
    ∃ b : Bool, tube_is_geometrically_valid g u v existing_tubes degree max_deg = .ok (b, g) ∧
      (b = true ↔ ValidLink g u v existing_tubes degree max_deg) := by
  unfold tube_is_geometrically_valid ValidLink
  cases hu : UMap.find g.building_positions u with
  | none =>
    refine ⟨false, by simp, ?_⟩
    constructor
    · intro h; exact absurd h (by decide)
    · rintro ⟨pu, pv, h, _⟩
      exact Option.noConfusion h
  | some pu =>
    cases hv : UMap.find g.building_positions v with
    | none =>
      refine ⟨false, by simp, ?_⟩
      constructor
      · intro h; exact absurd h (by decide)
      · rintro ⟨pu, pv, _, h, _⟩
        exact Option.noConfusion h
    | some pv =>
      have e1 := tube_blocked_by_existing_spec u v pu pv existing_tubes g
      have e2 := tube_blocked_by_node_spec u v pu pv g.all_buildings g
      simp only [Globals.position_of_find hu, Globals.position_of_find hv,
        degree_at_least_eq]
      by_cases du : ∃ x, UMap.find degree u = some x ∧ x ≥ max_deg
      · refine ⟨false, by simp [du], ?_⟩
        constructor
        · intro h; exact absurd h (by decide)
        · rintro ⟨pu', pv', _, _, h, _⟩
          exact absurd du h
      by_cases dv : ∃ x, UMap.find degree v = some x ∧ x ≥ max_deg
      · refine ⟨false, by simp [du, dv], ?_⟩
        constructor
        · intro h; exact absurd h (by decide)
        · rintro ⟨pu', pv', _, _, _, h, _⟩
          exact absurd dv h
      by_cases b1 : (tube_blocked_by_existing u v pu pv existing_tubes g).1 = true
      · refine ⟨false, ?_, ?_⟩
        · simp only [du, dv, decide_False, reduceCtorEq, or_self, if_false, b1, if_true, e1.1]
        · constructor
          · intro h; exact absurd h (by decide)
          · rintro ⟨pu', pv', hu', hv', _, _, h, _⟩
            cases hu'
            cases hv'
            exact absurd (e1.2.1 b1) h
      by_cases b2 : (tube_blocked_by_node u v pu pv g.all_buildings g).1 = true
      · refine ⟨false, ?_, ?_⟩
        · simp only [du, dv, decide_False, reduceCtorEq, or_self, if_false, b1, e1.1, b2,
            if_true, e2.1]
        · constructor
          · intro h; exact absurd h (by decide)
          · rintro ⟨pu', pv', hu', hv', _, _, _, h⟩
            cases hu'
            cases hv'
            exact absurd (e2.2.1 b2) h
      · refine ⟨true, ?_, ?_⟩
        · simp only [du, dv, decide_False, reduceCtorEq, or_self, if_false, b1, e1.1, b2,
            e2.1]
        · simp only [true_iff]
          exact ⟨pu, pv, rfl, rfl, du, dv, fun h => b1 (e1.2.2 h), fun h => b2 (e2.2.2 h)⟩

/-! ### Claims on the link validator -/

theorem SmallPositions.point {g : Globals} (hs : SmallPositions g) {k : Int} {p : Int × Int}
    (h : UMap.find g.building_positions k = some p) : SmallPoint p := by
  have hmem : ∀ (m : UMap Int (Int × Int)), UMap.find m k = some p → (k, p) ∈ m := by
    intro m
    induction m with
    | nil => intro h; exact Option.noConfusion h
    | cons e rest ih =>
      obtain ⟨k', v⟩ := e
      intro h
      unfold UMap.find at h
      by_cases hk : k' = k
      · rw [if_pos hk] at h
        cases h
        rw [hk]
        exact List.mem_cons_self _ _
      · rw [if_neg hk] at h
        exact List.mem_cons_of_mem _ (ih h)
  exact hs (k, p) (hmem _ h)

/-- C2 (counterexample): in the registry of the wide crossing the existing link 3-4 has both
endpoints registered, shares no endpoint with nodes 1 and 2, and its segment crosses the
segment from node 1 to node 2 at `(5, -2000000000)` (`t = 1/2`, `s = 400000000/400000001`),
yet `tube_is_geometrically_valid` accepts the pair `(1, 2)`: the `int` differences of
`orientation` wrap. -/
theorem wide_crossing_link_is_accepted :
    ((3 : Int), (4 : Int)) ∈ [((3 : Int), (4 : Int))] ∧
      UMap.find wide_crossing_scenario.building_positions 3 = some (5, 2000000000) ∧
      UMap.find wide_crossing_scenario.building_positions 4 = some (5, -2000000010) ∧
      UMap.find wide_crossing_scenario.building_positions 1 = some (0, -2000000000) ∧
      UMap.find wide_crossing_scenario.building_positions 2 = some (10, -2000000000) ∧
      SegmentsMeet (0, -2000000000) (10, -2000000000) (5, 2000000000) (5, -2000000010) ∧
      tube_is_geometrically_valid wide_crossing_scenario 1 2 [(3, 4)] [] 5 =
        .ok (true, wide_crossing_scenario) := by
  refine ⟨by decide, by decide, by decide, by decide, by decide,
    ⟨1 / 2, 400000000 / 400000001, ?_⟩, rfl⟩
  norm_num

/-- C2 (amended): when every registered position has its coordinates in
`[-2^30, 2^30 - 1]`: whenever some existing link `(a, b)` has both endpoints registered,
shares no endpoint with `u`, `v`, and its closed segment has a point in common with the
segment from `u` to `v` (a proper crossing or a collinear overlap),
`tube_is_geometrically_valid` answers `false`, whatever the other links and the degrees
are; so a link crossing either of two mutually crossing existing links is rejected. -/
theorem crossing_link_is_rejected (g : Globals) (u v : Int)
    (existing_tubes : List (Int × Int)) (degree : UMap Int Int)
    (a b : Int) (pa pb pu pv : Int × Int)
    (hs : SmallPositions g)
    (hmem : (a, b) ∈ existing_tubes)
    (ha : UMap.find g.building_positions a = some pa)
    (hb : UMap.find g.building_positions b = some pb)
    (hau : a ≠ u) (hav : a ≠ v) (hbu : b ≠ u) (hbv : b ≠ v)
    (hu : UMap.find g.building_positions u = some pu)
    (hv : UMap.find g.building_positions v = some pv)
    (hmeet : SegmentsMeet pu pv pa pb) :
    tube_is_geometrically_valid g u v existing_tubes degree 5 = .ok (false, g) := by
  obtain ⟨r, hr, hiff⟩ := tube_is_geometrically_valid_spec g u v existing_tubes degree 5
  cases r with
  | false => exact hr
  | true =>
    exfalso
    obtain ⟨pu', pv', hu', hv', _, _, hno, _⟩ := hiff.1 rfl
    rw [hu] at hu'
    rw [hv] at hv'
    cases hu'
    cases hv'
    exact hno ⟨(a, b), hmem, hau, hav, hbu, hbv, pa, pb, ha, hb,
      (segments_intersect_iff_meet pu pv pa pb (hs.point hu) (hs.point hv) (hs.point ha)
        (hs.point hb)).2 hmeet⟩

theorem crossing_link_is_rejected_witness :
    tube_is_geometrically_valid crossing_scenario 7 8 [(1, 2), (5, 6)] [] 5 =
      .ok (false, crossing_scenario) :=
  crossing_link_is_rejected crossing_scenario 7 8 [(1, 2), (5, 6)] [] 1 2
    (0, 0) (4, 4) (1, 0) (0, 1) (by decide) (by decide) (by decide) (by decide)
    (by decide) (by decide) (by decide) (by decide) (by decide) (by decide)
    ⟨1 / 2, 1 / 8, by norm_num, by norm_num, by norm_num, by norm_num, by norm_num,
      by norm_num⟩

/-- C3 (counterexample): in the registry of the wide segment, node 3 is registered at
`(0, 1)`, the midpoint of the segment from node 1 to node 2, yet
`tube_is_geometrically_valid` accepts the pair `(1, 2)`: the collinearity test of
`point_on_segment` wraps and misses the node. -/
theorem wide_segment_through_node_is_accepted :
    tube_is_geometrically_valid wide_segment_scenario 1 2 [] [] 5 =
        .ok (true, wide_segment_scenario) ∧
      (3 : Int) ∈ wide_segment_scenario.all_buildings ∧
      UMap.find wide_segment_scenario.building_positions 1 = some (-2000000000, 0) ∧
      UMap.find wide_segment_scenario.building_positions 2 = some (2000000000, 2) ∧
      UMap.find wide_segment_scenario.building_positions 3 = some (0, 1) ∧
      OnSegment (0, 1) (-2000000000, 0) (2000000000, 2) := by
  refine ⟨rfl, by decide, by decide, by decide, by decide, 1 / 2, ?_⟩
  norm_num

/-- C3 (amended): when every registered position has its coordinates in
`[-2^30, 2^30 - 1]`, `tube_is_geometrically_valid` (with the default maximum degree 5)
returns, leaves the registries unchanged, and answers `true` exactly when: `u` and `v` both
have registered positions; neither has a recorded degree of 5 or more; no existing link
whose endpoints are registered and differ from `u` and `v` is reported by
`segments_intersect` as meeting the segment `uv`; and no node of `all_buildings` other than
`u` and `v` with a registered position lies on the closed segment `uv`. -/
theorem tube_is_geometrically_valid_iff (g : Globals) (u v : Int)
    (existing_tubes : List (Int × Int)) (degree : UMap Int Int) (hs : SmallPositions g) :
    ∃ r : Bool, tube_is_geometrically_valid g u v existing_tubes degree 5 = .ok (r, g) ∧
      (r = true ↔
        ∃ pu pv, UMap.find g.building_positions u = some pu ∧
          UMap.find g.building_positions v = some pv ∧
          (∀ x, UMap.find degree u = some x → x < 5) ∧
          (∀ x, UMap.find degree v = some x → x < 5) ∧
          (∀ a b, (a, b) ∈ existing_tubes → a ≠ u → a ≠ v → b ≠ u → b ≠ v →
            ∀ pa pb, UMap.find g.building_positions a = some pa →
              UMap.find g.building_positions b = some pb →
              segments_intersect pu pv pa pb = false) ∧
          (∀ w ∈ g.all_buildings, w ≠ u → w ≠ v →
            ∀ pw, UMap.find g.building_positions w = some pw → ¬ OnSegment pw pu pv)) := by
  obtain ⟨r, hr, hiff⟩ := tube_is_geometrically_valid_spec g u v existing_tubes degree 5
  refine ⟨r, hr, hiff.trans ?_⟩
  unfold ValidLink
  constructor
  · rintro ⟨pu, pv, hu, hv, du, dv, ht, hn⟩
    refine ⟨pu, pv, hu, hv, ?_, ?_, ?_, ?_⟩
    · intro x hx
      by_contra hc
      exact du ⟨x, hx, not_lt.1 hc⟩
    · intro x hx
      by_contra hc
      exact dv ⟨x, hx, not_lt.1 hc⟩
    · intro a b hab hau hav hbu hbv pa pb ha hb
      cases hs' : segments_intersect pu pv pa pb with
      | false => rfl
      | true => exact absurd ⟨(a, b), hab, hau, hav, hbu, hbv, pa, pb, ha, hb, hs'⟩ ht
    · intro w hw hwu hwv pw hpw hon
      exact hn ⟨w, hw, hwu, hwv, pw, hpw,
        (point_on_segment_iff pw pu pv (hs.point hpw) (hs.point hu) (hs.point hv)).2 hon⟩
  · rintro ⟨pu, pv, hu, hv, du, dv, ht, hn⟩
    refine ⟨pu, pv, hu, hv, ?_, ?_, ?_, ?_⟩
    · rintro ⟨x, hx, hge⟩
      exact absurd (du x hx) (not_lt.2 hge)
    · rintro ⟨x, hx, hge⟩
      exact absurd (dv x hx) (not_lt.2 hge)
    · rintro ⟨⟨a, b⟩, hab, hau, hav, hbu, hbv, pa, pb, ha, hb, hs'⟩
      rw [ht a b hab hau hav hbu hbv pa pb ha hb] at hs'
      exact Bool.noConfusion hs'
    · rintro ⟨w, hw, hwu, hwv, pw, hpw, hp⟩
      exact hn w hw hwu hwv pw hpw
        ((point_on_segment_iff pw pu pv (hs.point hpw) (hs.point hu) (hs.point hv)).1 hp)

theorem tube_is_geometrically_valid_iff_witness :
    ∃ r : Bool, tube_is_geometrically_valid crossing_scenario 7 6 [(1, 2)] [] 5 =
        .ok (r, crossing_scenario) ∧
      (r = true ↔
        ∃ pu pv, UMap.find crossing_scenario.building_positions 7 = some pu ∧
          UMap.find crossing_scenario.building_positions 6 = some pv ∧
          (∀ x, UMap.find ([] : UMap Int Int) 7 = some x → x < 5) ∧
          (∀ x, UMap.find ([] : UMap Int Int) 6 = some x → x < 5) ∧
          (∀ a b, (a, b) ∈ [((1 : Int), (2 : Int))] → a ≠ 7 → a ≠ 6 → b ≠ 7 → b ≠ 6 →
            ∀ pa pb, UMap.find crossing_scenario.building_positions a = some pa →
              UMap.find crossing_scenario.building_positions b = some pb →
              segments_intersect pu pv pa pb = false) ∧
          (∀ w ∈ crossing_scenario.all_buildings, w ≠ 7 → w ≠ 6 →
            ∀ pw, UMap.find crossing_scenario.building_positions w = some pw →
              ¬ OnSegment pw pu pv)) :=
  tube_is_geometrically_valid_iff crossing_scenario 7 6 [(1, 2)] [] (by decide)

/-- C4: when `u` or `v` has no entry in the position registry,
`tube_is_geometrically_valid` returns `false` for every link list, degree map and maximum
degree, `tube_construction_cost` returns the sentinel 1000000000, neither call faults, and
both leave the registries exactly as they were (no entry is added). -/
theorem unregistered_endpoint_is_invalid (g : Globals) (u v : Int)
    (existing_tubes : List (Int × Int)) (degree : UMap Int Int) (max_deg : Int)
    (h : UMap.find g.building_positions u = none ∨ UMap.find g.building_positions v = none) :
    tube_is_geometrically_valid g u v existing_tubes degree max_deg = .ok (false, g) ∧
      tube_construction_cost g u v = (1000000000, g) := by
  unfold tube_is_geometrically_valid tube_construction_cost
  rw [if_pos h, if_pos h]
  exact ⟨rfl, rfl⟩

theorem unregistered_endpoint_is_invalid_witness :
    tube_is_geometrically_valid crossing_scenario 7 99 [(1, 2), (5, 6)] [(7, 6)] 5 =
        .ok (false, crossing_scenario) ∧
      tube_construction_cost crossing_scenario 7 99 = (1000000000, crossing_scenario) :=
  unregistered_endpoint_is_invalid crossing_scenario 7 99 [(1, 2), (5, 6)] [(7, 6)] 5
    (Or.inr (by decide))

/-! ### More association-list lemmas -/

theorem UMap.find_append_single {K V : Type} [DecidableEq K] (m : UMap K V) (k k' : K) (d : V) :
    UMap.find (m ++ [(k, d)]) k' =
      match UMap.find m k' with
      | some v => some v
      | none => if k = k' then some d else none := by
  induction m with
  | nil => simp [UMap.find]
  | cons e rest ih =>
    obtain ⟨a, b⟩ := e
    simp only [List.cons_append, UMap.find]
    by_cases h : a = k'
    · simp [h]
    · simp [h, ih]

theorem UMap.find_set {K V : Type} [DecidableEq K] (m : UMap K V) (k k' : K) (v : V) :
    UMap.find (UMap.set m k v) k' = if k' = k then some v else UMap.find m k' := by
  induction m with
  | nil =>
    simp only [UMap.set, UMap.find]
    by_cases h : k = k'
    · simp [h]
    · have h' : ¬ k' = k := fun e => h e.symm
      simp [h, h']
  | cons e rest ih =>
    obtain ⟨a, b⟩ := e
    simp only [UMap.set]
    by_cases h : a = k
    · subst h
      simp only [if_true, UMap.find]
      by_cases h2 : a = k'
      · subst h2; simp
      · have h2' : ¬ k' = a := fun e => h2 e.symm
        simp [h2, h2']
    · simp only [h, if_false, UMap.find]
      by_cases h2 : a = k'
      · subst h2
        simp [h]
      · simp only [h2, if_false]
        exact ih

theorem UMap.find_index_snd {K V : Type} [DecidableEq K] [Inhabited V] (m : UMap K V)
    (k k' : K) :
    UMap.find (UMap.index m k).2 k' =
      match UMap.find m k' with
      | some v => some v
      | none => if k = k' then some default else none := by
  unfold UMap.index
  cases h : UMap.find m k with
  | some v =>
    simp only []
    cases h' : UMap.find m k' with
    | some v' => rfl
    | none =>
      have : k ≠ k' := by
        intro e
        subst e
        rw [h] at h'
        exact Option.noConfusion h'
      simp [this]
  | none =>
    simp only []
    exact UMap.find_append_single m k k' default

theorem UMap.index_fst {K : Type} [DecidableEq K] (m : UMap K Int) (k : K) :
    (UMap.index m k).1 = UMap.val m k := by
  unfold UMap.index UMap.val
  cases h : UMap.find m k <;> rfl

theorem UMap.val_index_snd {K : Type} [DecidableEq K] (m : UMap K Int) (k k' : K) :
    UMap.val (UMap.index m k).2 k' = UMap.val m k' := by
  unfold UMap.val
  rw [UMap.find_index_snd]
  cases h : UMap.find m k' with
  | some v => rfl
  | none =>
    by_cases e : k = k'
    · simp [e]
    · simp [e]

theorem UMap.val_set {K : Type} [DecidableEq K] (m : UMap K Int) (k k' : K) (v : Int) :
    UMap.val (UMap.set m k v) k' = if k' = k then v else UMap.val m k' := by
  unfold UMap.val
  rw [UMap.find_set]
  by_cases e : k' = k
  · simp [e]
  · simp [e]

theorem UMap.val_increment {K : Type} [DecidableEq K] (m : UMap K Int) (k k' : K) :
    UMap.val (UMap.increment m k) k' =
      if k' = k then UMap.val m k + 1 else UMap.val m k' := by
  unfold UMap.increment
  simp only [UMap.val_set, UMap.index_fst, UMap.val_index_snd]

/-! ### The bottleneck detector -/

theorem half_capacity_test (flow e : Int) :
    ((flow : ℚ) > (e : ℚ) * (1 / 2)) ↔ e < 2 * flow := by
  rw [gt_iff_lt]
  constructor
  · intro h
    have h' : (e : ℚ) < ((2 * flow : Int) : ℚ) := by push_cast; linarith
    exact_mod_cast h'
  · intro h
    have h' : (e : ℚ) < ((2 * flow : Int) : ℚ) := by exact_mod_cast h
    push_cast at h'
    linarith

theorem find_bottleneck_tubes_cons (c1 c2 ccap : Int) (rest : List (Int × Int × Int))
    (tube_flow : UMap (Int × Int) Int) :
    find_bottleneck_tubes ((c1, c2, ccap) :: rest) tube_flow =
      if ccap ≤ 0 then find_bottleneck_tubes rest tube_flow
      else if wrap32 (wrap32 (ccap * 10) * 20) <
          2 * UMap.val tube_flow (min c1 c2, max c1 c2) then
        (c1, c2, ccap, UMap.val tube_flow (min c1 c2, max c1 c2)) ::
          find_bottleneck_tubes rest tube_flow
      else find_bottleneck_tubes rest tube_flow := by
  rw [find_bottleneck_tubes]
  by_cases hc : ccap ≤ 0
  · rw [if_pos hc, if_pos hc]
  · rw [if_neg hc, if_neg hc]
    simp only [half_capacity_test]
    rfl

theorem effective_capacity_of_small {cap : Int} (h0 : 0 < cap) (h1 : cap ≤ 10737418)
    (flow : Int) : wrap32 (wrap32 (cap * 10) * 20) < 2 * flow ↔ 100 * cap < flow := by
  rw [wrap32_eq_self (⟨by omega, by omega⟩ : InInt32 (cap * 10)),
    wrap32_eq_self (⟨by omega, by omega⟩ : InInt32 (cap * 10 * 20))]
  omega

/-- C7 (counterexample): the route `(1, 2, 20000000)` with no recorded flow is reported as
a bottleneck with flow 0, although 0 is not greater than `100 * 20000000`: the `int`
product `cap * 10 * 20` wraps to a negative value. -/
theorem wide_capacity_flagged_at_zero_flow :
    ((1 : Int), (2 : Int), (20000000 : Int), (0 : Int)) ∈
        find_bottleneck_tubes [(1, 2, 20000000)] [] ∧
      UMap.val ([] : UMap (Int × Int) Int) (min 1 2, max 1 2) = 0 ∧
      ¬ ((100 : Int) * 20000000 < 0) := by
  refine ⟨?_, rfl, by decide⟩
  rw [find_bottleneck_tubes_cons, if_neg (by decide), if_pos (by decide)]
  exact List.mem_cons_self _ _

/-- C7 (amended): when every route has a capacity of at most 10737418, so that the `int`
product `cap * 10 * 20` does not wrap, a tuple `(b1, b2, cap, flow)` is reported by
`find_bottleneck_tubes` if and only if `(b1, b2, cap)` is a route with `cap > 0`, `flow` is
the flow recorded under the key `(min b1 b2, max b1 b2)` (0 when the table has no such key),
and `flow` is strictly greater than `100 * cap`.  So a flow of exactly `100 * cap` is not
flagged, a flow of `100 * cap + 1` is, and a route with `cap ≤ 0` never is. -/
theorem bottleneck_iff_flow_above_half_capacity (routes : List (Int × Int × Int))
    (tube_flow : UMap (Int × Int) Int) (b1 b2 cap flow : Int)
    (hcap : ∀ r ∈ routes, r.2.2 ≤ 10737418) :
    (b1, b2, cap, flow) ∈ find_bottleneck_tubes routes tube_flow ↔
      ((b1, b2, cap) ∈ routes ∧ 0 < cap ∧
        flow = UMap.val tube_flow (min b1 b2, max b1 b2) ∧ 100 * cap < flow) := by
  induction routes with
  | nil => simp [find_bottleneck_tubes]
  | cons r rest ih =>
    obtain ⟨c1, c2, ccap⟩ := r
    have ih := ih (fun r hr => hcap r (List.mem_cons_of_mem _ hr))
    have hc1 : ccap ≤ 10737418 := hcap (c1, c2, ccap) (List.mem_cons_self _ _)
    rw [find_bottleneck_tubes_cons]
    by_cases hc : ccap ≤ 0
    · rw [if_pos hc, ih]
      constructor
      · rintro ⟨h1, h2, h3, h4⟩
        exact ⟨List.mem_cons_of_mem _ h1, h2, h3, h4⟩
      · rintro ⟨h1, h2, h3, h4⟩
        rcases List.mem_cons.1 h1 with e | h1
        · simp only [Prod.mk.injEq] at e
          obtain ⟨_, _, rfl⟩ := e
          omega
        · exact ⟨h1, h2, h3, h4⟩
    · rw [if_neg hc]
      simp only [effective_capacity_of_small (not_le.1 hc) hc1]
      by_cases hf : 100 * ccap < UMap.val tube_flow (min c1 c2, max c1 c2)
      · rw [if_pos hf, List.mem_cons, ih]
        constructor
        · rintro (e | ⟨h1, h2, h3, h4⟩)
          · simp only [Prod.mk.injEq] at e
            obtain ⟨rfl, rfl, rfl, rfl⟩ := e
            exact ⟨List.mem_cons_self _ _, by omega, rfl, hf⟩
          · exact ⟨List.mem_cons_of_mem _ h1, h2, h3, h4⟩
        · rintro ⟨h1, h2, h3, h4⟩
          rcases List.mem_cons.1 h1 with e | h1
          · simp only [Prod.mk.injEq] at e
            obtain ⟨rfl, rfl, rfl⟩ := e
            left
            rw [h3]
          · exact Or.inr ⟨h1, h2, h3, h4⟩
      · rw [if_neg hf, ih]
        constructor
        · rintro ⟨h1, h2, h3, h4⟩
          exact ⟨List.mem_cons_of_mem _ h1, h2, h3, h4⟩
        · rintro ⟨h1, h2, h3, h4⟩
          rcases List.mem_cons.1 h1 with e | h1
          · simp only [Prod.mk.injEq] at e
            obtain ⟨rfl, rfl, rfl⟩ := e
            rw [h3] at h4
            exact absurd h4 hf
          · exact ⟨h1, h2, h3, h4⟩

theorem bottleneck_iff_flow_above_half_capacity_witness :
    ((1 : Int), (2 : Int), (3 : Int), (301 : Int)) ∈
        find_bottleneck_tubes [(1, 2, 3), (2, 5, 1)] [((1, 2), 301), ((2, 5), 100)] ↔
      (((1 : Int), (2 : Int), (3 : Int)) ∈ [((1 : Int), (2 : Int), (3 : Int)), (2, 5, 1)] ∧
        (0 : Int) < 3 ∧
        (301 : Int) = UMap.val [((1, 2), 301), ((2, 5), 100)] (min 1 2, max 1 2) ∧
        (100 : Int) * 3 < 301) :=
  bottleneck_iff_flow_above_half_capacity [(1, 2, 3), (2, 5, 1)]
    [((1, 2), 301), ((2, 5), 100)] 1 2 3 301 (by decide)

/-! ### The committing passes -/

theorem spent_append (l : List (String × Int)) (t : String) (c : Int) :
    spent (l ++ [(t, c)]) = spent l + c := by
  simp [spent]

theorem committed_count_append (l : List (String × Int)) (t t' : String) (c : Int) :
    committed_count (l ++ [(t, c)]) t' =
      if t' = t then committed_count l t' + 1 else committed_count l t' := by
  unfold committed_count
  rw [List.filter_append, List.length_append]
  by_cases h : t = t'
  · subst h
    simp
  · have h' : ¬ t' = t := fun e => h e.symm
    simp [h, h']

theorem spent_take_append (l : List (String × Int)) (e : String × Int) (k : Nat) :
    spent ((l ++ [e]).take k) = spent (l.take k) ∨ (l ++ [e]).take k = l ++ [e] := by
  by_cases h : k ≤ l.length
  · left
    rw [List.take_append_of_le_length h]
  · right
    apply List.take_of_length_le
    simp
    omega

theorem TurnInv.neutral {s s' : TurnState} (h : TurnInv s)
    (ha : s'.actions = s.actions) (hl : s'.committed = s.committed)
    (hc : ∀ t, UMap.val s'.actions_count t = UMap.val s.actions_count t)
    (hm : ∀ t, UMap.val s'.MAX_PER_TYPE t = UMap.val s.MAX_PER_TYPE t) : TurnInv s' where
  len := by rw [ha, hl]; exact h.len
  counts := fun t => by rw [hc, hl]; exact h.counts t
  maxes := fun t => by rw [hm]; exact h.maxes t
  within := by rw [hl]; exact h.within

theorem TurnInv.commit_step {s s' : TurnState} (h : TurnInv s) (t : String) (c : Int)
    (hq : UMap.val s.actions_count t < quota t)
    (ha : s'.actions.length = s.actions.length + 1)
    (hl : s'.committed = s.committed ++ [(t, c)])
    (hc : s'.actions_count = UMap.increment s.actions_count t)
    (hm : s'.MAX_PER_TYPE = s.MAX_PER_TYPE) : TurnInv s' where
  len := by rw [ha, hl, h.len]; simp
  counts := by
    intro t'
    rw [hc, hl, UMap.val_increment, committed_count_append]
    by_cases e : t' = t
    · subst e
      simp only [if_true]
      rw [h.counts]
      push_cast
      ring
    · simp only [e, if_false]
      exact h.counts t'
  maxes := fun t' => by rw [hm]; exact h.maxes t'
  within := by
    intro t'
    rw [hl, committed_count_append]
    by_cases e : t' = t
    · subst e
      simp only [if_true]
      have := h.counts t'
      push_cast
      omega
    · simp only [e, if_false]
      exact h.within t'

theorem TurnInv.start (g : Globals) (existing_tubes : List (Int × Int))
    (degree : UMap Int Int) (resources pod_id_counter : Int) :
    TurnInv (turn_start g existing_tubes degree resources pod_id_counter) where
  len := rfl
  counts := by
    intro t
    simp only [turn_start, committed_count, UMap.val, UMap.find, List.filter_nil,
      List.length_nil]
    split_ifs <;> rfl
  maxes := by
    intro t
    simp only [turn_start, UMap.val, UMap.find, quota]
    by_cases h1 : "TUBE" = t
    · subst h1; rfl
    by_cases h2 : "UPGRADE" = t
    · subst h2; rfl
    by_cases h3 : "POD" = t
    · subst h3; rfl
    by_cases h4 : "TELEPORT" = t
    · subst h4; rfl
    have h1' : ¬ t = "TUBE" := fun e => h1 e.symm
    have h2' : ¬ t = "UPGRADE" := fun e => h2 e.symm
    have h3' : ¬ t = "POD" := fun e => h3 e.symm
    have h4' : ¬ t = "TELEPORT" := fun e => h4 e.symm
    simp [h1, h2, h3, h4, h1', h2', h3', h4']
  within := by
    intro t
    simp only [turn_start, committed_count, List.filter_nil, List.length_nil, quota]
    split_ifs <;> simp

theorem greedy_revalidate_spec (s : TurnState) (c : Candidate) :
    ∃ b : Bool, greedy_revalidate s c = .ok (b, s.g) := by
  unfold greedy_revalidate
  by_cases h : c.type = "TUBE"
  · rw [if_pos h]
    obtain ⟨b, hb, _⟩ := tube_is_geometrically_valid_spec s.g c.buildings.1 c.buildings.2
      s.existing_tubes s.degree 5
    exact ⟨b, hb⟩
  · rw [if_neg h]
    exact ⟨true, rfl⟩

theorem greedy_commit_inv {s : TurnState} (ids : List Int) (c : Candidate)
    (h : TurnInv s)
    (hq : UMap.val s.actions_count c.type < quota c.type) :
    TurnInv (greedy_commit ids s c) ∧
      (greedy_commit ids s c).actions.length = s.actions.length + 1 := by
  unfold greedy_commit
  by_cases ht : c.type = "TUBE"
  · simp only [ht, if_true]
    rw [ht] at hq
    refine ⟨TurnInv.commit_step h "TUBE" c.cost hq ?_ rfl rfl rfl, ?_⟩ <;> simp
  · simp only [ht, if_false]
    refine ⟨TurnInv.commit_step h c.type c.cost hq ?_ rfl rfl rfl, ?_⟩ <;> simp

/-- The Greedy Selector loop always returns and keeps the turn invariant and the cap of 15
actions. -/
theorem greedy_selector_inv (ids : List Int) (cs : List Candidate) :
    ∀ s : TurnState, TurnInv s → s.actions.length ≤ 15 →
      ∃ s', greedy_selector ids cs s = .ok s' ∧ TurnInv s' ∧ s'.actions.length ≤ 15 := by
  induction cs with
  | nil =>
    intro s h hl
    exact ⟨s, rfl, h, hl⟩
  | cons c rest ih =>
    intro s h hl
    unfold greedy_selector
    by_cases hb : (s.actions.length : Int) ≥ 15
    · rw [if_pos hb]
      exact ⟨s, rfl, h, hl⟩
    rw [if_neg hb]
    have hn : TurnInv
        { s with
          actions_count := (UMap.index s.actions_count c.type).2
          MAX_PER_TYPE := (UMap.index s.MAX_PER_TYPE c.type).2 } :=
      TurnInv.neutral h rfl rfl (fun t => UMap.val_index_snd _ _ _)
        (fun t => UMap.val_index_snd _ _ _)
    simp only [UMap.index_fst]
    by_cases hq : UMap.val s.actions_count c.type ≥ UMap.val s.MAX_PER_TYPE c.type
    · rw [if_pos hq]
      exact ih _ hn hl
    rw [if_neg hq]
    by_cases hc : c.cost > s.remaining_resources
    · rw [if_pos hc]
      exact ih _ hn hl
    rw [if_neg hc]
    obtain ⟨b, hv⟩ := greedy_revalidate_spec
      { s with
        actions_count := (UMap.index s.actions_count c.type).2
        MAX_PER_TYPE := (UMap.index s.MAX_PER_TYPE c.type).2 } c
    simp only [hv]
    have hn2 : TurnInv
        { s with
          g := s.g
          actions_count := (UMap.index s.actions_count c.type).2
          MAX_PER_TYPE := (UMap.index s.MAX_PER_TYPE c.type).2 } := hn
    cases b with
    | false =>
      simp only [if_true]
      exact ih _ hn2 hl
    | true =>
      simp only [Bool.true_eq_false, if_false]
      have hq' : UMap.val (UMap.index s.actions_count c.type).2 c.type < quota c.type := by
        rw [UMap.val_index_snd, ← h.maxes]
        exact not_le.1 hq
      obtain ⟨hi, hlen⟩ := greedy_commit_inv ids c hn2 hq'
      refine ih _ hi ?_
      rw [hlen]
      simp only [] 
      have : ¬ (15 : Int) ≤ (s.actions.length : Int) := hb
      omega

theorem UMap.find_of_count_ne_zero {K V : Type} [DecidableEq K] {m : UMap K V} {k : K}
    (h : ¬ UMap.count m k = 0) : ∃ v, UMap.find m k = some v := by
  cases hf : UMap.find m k with
  | none => exact absurd ((UMap.count_eq_zero_iff m k).2 hf) h
  | some v => exact ⟨v, rfl⟩

theorem tube_construction_cost_snd (g : Globals) (u v : Int) :
    (tube_construction_cost g u v).2 = g := by
  unfold tube_construction_cost
  cases hu : UMap.find g.building_positions u with
  | none => simp
  | some pu =>
    cases hv : UMap.find g.building_positions v with
    | none => simp
    | some pv =>
      simp [Globals.position_of_find hu, Globals.position_of_find hv]

/-- The inner scan of the Fallback Connector always returns, leaves the registries
unchanged, and the cost it retains never exceeds the running budget. -/
theorem fallback_scan_spec (b : Int) (pb : Int × Int) (es et : List (Int × Int))
    (degree : UMap Int Int) (R : Int) (l : List Int) (g : Globals) :
    ∀ best : BestNeighbor, best.best_cost ≤ R →
      ∃ best', fallback_scan b pb es et degree R l g best = .ok (best', g) ∧
        best'.best_cost ≤ R := by
  induction l with
  | nil =>
    intro best h
    exact ⟨best, rfl, h⟩
  | cons other rest ih =>
    intro best h
    unfold fallback_scan
    by_cases h1 : other = b ∨ UMap.count g.building_positions other = 0
    · rw [if_pos h1]
      exact ih best h
    rw [if_neg h1]
    by_cases h2 : (b, other) ∈ es
    · rw [if_pos h2]
      exact ih best h
    rw [if_neg h2]
    obtain ⟨r, hr, _⟩ := tube_is_geometrically_valid_spec g b other et degree 5
    simp only [hr]
    cases r with
    | false =>
      simp only [if_true]
      exact ih best h
    | true =>
      simp only [Bool.true_eq_false, if_false, tube_construction_cost_snd]
      by_cases h3 : (tube_construction_cost g b other).1 > R
      · rw [if_pos h3]
        exact ih best h
      rw [if_neg h3]
      obtain ⟨po, hpo⟩ := UMap.find_of_count_ne_zero (fun e => h1 (Or.inr e))
      simp only [Globals.position_of_find hpo]
      split_ifs
      · exact ih _ (not_lt.1 h3)
      · exact ih best h

/-- The Fallback Connector loop always returns and keeps the turn invariant. -/
theorem fallback_connector_inv (nb : List Int) :
    ∀ s : TurnState, TurnInv s →
      ∃ s', fallback_connector nb s = .ok s' ∧ TurnInv s' := by
  induction nb with
  | nil =>
    intro s h
    exact ⟨s, rfl, h⟩
  | cons b rest ih =>
    intro s h
    unfold fallback_connector
    have hn : TurnInv
        { s with
          actions_count := (UMap.index s.actions_count "TUBE").2
          MAX_PER_TYPE := (UMap.index s.MAX_PER_TYPE "TUBE").2 } :=
      TurnInv.neutral h rfl rfl (fun t => UMap.val_index_snd _ _ _)
        (fun t => UMap.val_index_snd _ _ _)
    simp only [UMap.index_fst]
    by_cases hq : UMap.val s.actions_count "TUBE" ≥ UMap.val s.MAX_PER_TYPE "TUBE"
    · rw [if_pos hq]
      exact ⟨_, rfl, hn⟩
    rw [if_neg hq]
    by_cases hr : s.remaining_resources < 50
    · rw [if_pos hr]
      exact ⟨_, rfl, hn⟩
    rw [if_neg hr]
    by_cases hp : UMap.count s.g.building_positions b = 0
    · rw [if_pos hp]
      exact ih _ hn
    rw [if_neg hp]
    by_cases hcon : s.existing_tubes.any (fun ec => decide (ec.1 = b ∨ ec.2 = b)) = true
    · rw [if_pos hcon]
      exact ih _ hn
    rw [if_neg hcon]
    obtain ⟨pb, hpb⟩ := UMap.find_of_count_ne_zero hp
    simp only [Globals.position_of_find hpb]
    obtain ⟨best, hbest, hcost⟩ := fallback_scan_spec b pb s.existing_set s.existing_tubes
      s.degree s.remaining_resources s.g.all_buildings s.g
      { best_neighbor := -1, best_cost := 0, best_dist2 := 1000000000000000000 }
      (by simp only []; omega)
    simp only [hbest]
    by_cases hbn : best.best_neighbor ≠ -1
    · rw [if_pos hbn]
      apply ih
      have hq' : UMap.val (UMap.index s.actions_count "TUBE").2 "TUBE" < quota "TUBE" := by
        rw [UMap.val_index_snd, ← h.maxes]
        exact not_le.1 hq
      exact TurnInv.commit_step hn "TUBE" best.best_cost hq' (by simp [fallback_commit]) rfl
        rfl rfl
    · rw [if_neg hbn]
      exact ih _ hn

/-- The Coverage Sweep loop keeps the turn invariant. -/
theorem coverage_sweep_loop_inv (ids : List Int) (l : List (Int × Int × Int)) :
    ∀ s : TurnState, TurnInv s → TurnInv (coverage_sweep_loop ids l s) := by
  induction l with
  | nil =>
    intro s h
    exact h
  | cons t rest ih =>
    intro s h
    obtain ⟨p, b1, b2⟩ := t
    unfold coverage_sweep_loop
    have hn : TurnInv { s with actions_count := (UMap.index s.actions_count "POD").2 } :=
      TurnInv.neutral h rfl rfl (fun t => UMap.val_index_snd _ _ _) (fun t => rfl)
    simp only [UMap.index_fst]
    by_cases hq : UMap.val s.actions_count "POD" ≥ 6
    · rw [if_pos hq]
      exact hn
    rw [if_neg hq]
    by_cases hr : s.remaining_resources < 1000
    · rw [if_pos hr]
      exact hn
    rw [if_neg hr]
    apply ih
    have hq' : UMap.val (UMap.index s.actions_count "POD").2 "POD" < quota "POD" := by
      rw [UMap.val_index_snd]
      have : quota "POD" = 6 := by decide
      rw [this]
      exact not_le.1 hq
    exact TurnInv.commit_step hn "POD" 1000 hq' (by simp [sweep_commit]) rfl
      rfl rfl

theorem fallback_start_inv {s : TurnState} (h : TurnInv s) :
    TurnInv (fallback_start s) :=
  TurnInv.neutral h rfl rfl (fun _ => rfl) (fun _ => rfl)

theorem sweep_start_inv {s : TurnState} (routes : List (Int × Int × Int))
    (pods : UMap Int (List Int)) (h : TurnInv s) :
    TurnInv (sweep_start routes pods s).2 :=
  TurnInv.neutral h rfl rfl (fun _ => rfl) (fun _ => rfl)

/-- The three passes run to completion from the state at line 489, and the final state
satisfies the counting invariant. -/
theorem commit_passes_inv (ids : List Int) (routes : List (Int × Int × Int))
    (pods : UMap Int (List Int)) (nb : List Int) (cands : List Candidate)
    (g : Globals) (et : List (Int × Int)) (degree : UMap Int Int) (resources counter : Int) :
    ∃ s, commit_passes ids routes pods nb cands (turn_start g et degree resources counter) =
        .ok s ∧ TurnInv s := by
  obtain ⟨s1, h1, i1, _⟩ := greedy_selector_inv ids cands _
    (TurnInv.start g et degree resources counter) (by simp [turn_start])
  obtain ⟨s2, h2, i2⟩ := fallback_connector_inv nb _ (fallback_start_inv i1)
  refine ⟨coverage_sweep_loop ids (sweep_start routes pods s2).1 (sweep_start routes pods s2).2,
    ?_, coverage_sweep_loop_inv ids _ _ (sweep_start_inv routes pods i2)⟩
  unfold commit_passes
  simp only [h1, h2]

theorem skip_used_pod_ids_not_mem (ids : List Int) :
    ∀ (n : Nat) (c : Int), (ids.filter (fun x => decide (c ≤ x))).length ≤ n →
      skip_used_pod_ids ids n c ∉ ids := by
  intro n
  induction n with
  | zero =>
    intro c h hc
    unfold skip_used_pod_ids at hc
    have hm : c ∈ ids.filter (fun x => decide (c ≤ x)) :=
      List.mem_filter.2 ⟨hc, by simp⟩
    have := List.length_pos_of_mem hm
    omega
  | succ n ih =>
    intro c h
    unfold skip_used_pod_ids
    by_cases hc : c ∈ ids
    · rw [if_pos hc]
      apply ih
      have hm : c ∈ ids.filter (fun x => decide (c ≤ x)) :=
        List.mem_filter.2 ⟨hc, by simp⟩
      have e : ids.filter (fun x => decide (c + 1 ≤ x)) =
          (ids.filter (fun x => decide (c ≤ x))).filter (fun x => decide (c + 1 ≤ x)) := by
        rw [List.filter_filter]
        apply List.filter_congr
        intro x _
        by_cases hx : c + 1 ≤ x
        · have : c ≤ x := by omega
          simp [hx, this]
        · simp [hx]
      have hlt : ((ids.filter (fun x => decide (c ≤ x))).filter
          (fun x => decide (c + 1 ≤ x))).length <
          (ids.filter (fun x => decide (c ≤ x))).length :=
        List.length_filter_lt_length_iff_exists.2 ⟨c, hm, by simp⟩
      rw [e]
      omega
    · rw [if_neg hc]
      exact hc

/-- The loop that skips used vehicle identifiers exits on an identifier outside the set:
the iteration bound of `next_pod_id` is never the reason it stops. -/
theorem next_pod_id_not_mem (ids : List Int) (c : Int) : next_pod_id ids c ∉ ids :=
  skip_used_pod_ids_not_mem ids ids.length c (List.length_filter_le _ _)

/-- C9: for every candidate list the Greedy Selector loop, started from the state of line
489 (no action yet), returns with at most 15 committed actions. -/
theorem greedy_selector_commits_at_most_15 (ids : List Int) (cands : List Candidate)
    (g : Globals) (et : List (Int × Int)) (degree : UMap Int Int) (resources counter : Int) :
    ∃ s, greedy_selector ids cands (turn_start g et degree resources counter) = .ok s ∧
      s.actions.length ≤ 15 ∧ s.committed.length ≤ 15 := by
  obtain ⟨s, hs, inv, hl⟩ := greedy_selector_inv ids cands _
    (TurnInv.start g et degree resources counter) (by simp [turn_start])
  exact ⟨s, hs, hl, by rw [← inv.len]; exact hl⟩

/-- C10: in every turn the three passes return with the per-category counts of committed
actions within the quotas: at most 8 `TUBE` actions (Greedy Selector and Fallback Connector
together), at most 2 `UPGRADE`, at most 6 `POD` (Greedy Selector and Coverage Sweep
together), at most 1 `TELEPORT`, and none of any other category; the counters
`actions_count` of the source agree with the number of committed actions of each
category. -/
theorem committed_actions_within_quotas (ids : List Int) (routes : List (Int × Int × Int))
    (pods : UMap Int (List Int)) (nb : List Int) (cands : List Candidate)
    (g : Globals) (et : List (Int × Int)) (degree : UMap Int Int) (resources counter : Int) :
    ∃ s, commit_passes ids routes pods nb cands (turn_start g et degree resources counter) =
        .ok s ∧
      s.actions.length = s.committed.length ∧
      committed_count s.committed "TUBE" ≤ 8 ∧
      committed_count s.committed "UPGRADE" ≤ 2 ∧
      committed_count s.committed "POD" ≤ 6 ∧
      committed_count s.committed "TELEPORT" ≤ 1 ∧
      (∀ t, (committed_count s.committed t : Int) ≤ quota t) ∧
      ∀ t, UMap.val s.actions_count t = committed_count s.committed t := by
  obtain ⟨s, hs, inv⟩ := commit_passes_inv ids routes pods nb cands g et degree resources counter
  have h1 := inv.within "TUBE"
  have h2 := inv.within "UPGRADE"
  have h3 := inv.within "POD"
  have h4 := inv.within "TELEPORT"
  have q1 : quota "TUBE" = 8 := by decide
  have q2 : quota "UPGRADE" = 2 := by decide
  have q3 : quota "POD" = 6 := by decide
  have q4 : quota "TELEPORT" = 1 := by decide
  rw [q1] at h1
  rw [q2] at h2
  rw [q3] at h3
  rw [q4] at h4
  exact ⟨s, hs, inv.len, by exact_mod_cast h1, by exact_mod_cast h2, by exact_mod_cast h3,
    by exact_mod_cast h4, inv.within, inv.counts⟩

/-! ### The adjacency map -/

theorem nbrs_of_set (adj : UMap Int (List (Int × Int))) (b x : Int) (l : List (Int × Int)) :
    nbrs_of (UMap.set adj b l) x = if x = b then l else nbrs_of adj x := by
  unfold nbrs_of
  rw [UMap.find_set]
  by_cases h : x = b
  · simp [h]
  · simp [h]

theorem index_fst_eq_nbrs_of (adj : UMap Int (List (Int × Int))) (b : Int) :
    (UMap.index adj b).1 = nbrs_of adj b := by
  unfold UMap.index nbrs_of
  cases h : UMap.find adj b <;> rfl

theorem nbrs_of_index_snd (adj : UMap Int (List (Int × Int))) (b x : Int) :
    nbrs_of (UMap.index adj b).2 x = nbrs_of adj x := by
  unfold nbrs_of
  rw [UMap.find_index_snd]
  cases h : UMap.find adj x with
  | some l => rfl
  | none =>
    by_cases e : b = x
    · simp [e]
      rfl
    · simp [e]

theorem nbrs_of_adjacency_push (adj : UMap Int (List (Int × Int))) (b x : Int)
    (e : Int × Int) :
    nbrs_of (adjacency_push adj b e) x =
      if x = b then nbrs_of adj b ++ [e] else nbrs_of adj x := by
  unfold adjacency_push
  simp only [nbrs_of_set, index_fst_eq_nbrs_of, nbrs_of_index_snd]

theorem nbrs_of_init (l : List Int) :
    ∀ adj : UMap Int (List (Int × Int)), (∀ x, nbrs_of adj x = []) →
      ∀ x, nbrs_of (l.foldl (fun adj b => UMap.set adj b []) adj) x = [] := by
  induction l with
  | nil => intro adj h x; exact h x
  | cons b rest ih =>
    intro adj h x
    simp only [List.foldl_cons]
    apply ih
    intro y
    rw [nbrs_of_set]
    by_cases e : y = b
    · simp [e]
    · simp [e, h y]

theorem nbrs_of_routes_fold (routes : List (Int × Int × Int)) (u v w : Int) :
    ∀ adj : UMap Int (List (Int × Int)),
      (v, w) ∈ nbrs_of (routes.foldl
        (fun adj t =>
          adjacency_push (adjacency_push adj t.1 (t.2.1, if t.2.2 > 0 then 1 else 0)) t.2.1
            (t.1, if t.2.2 > 0 then 1 else 0)) adj) u ↔
      ((v, w) ∈ nbrs_of adj u ∨ ∃ t ∈ routes, RouteEdge t u v w) := by
  induction routes with
  | nil => intro adj; simp
  | cons t rest ih =>
    intro adj
    simp only [List.foldl_cons]
    rw [ih]
    simp only [nbrs_of_adjacency_push, List.mem_cons, exists_eq_or_imp, RouteEdge]
    constructor
    · rintro (h | h)
      · by_cases e2 : u = t.2.1
        · rw [if_pos e2] at h
          rcases List.mem_append.1 h with h | h
          · by_cases e1 : t.2.1 = t.1
            · rw [if_pos e1] at h
              rcases List.mem_append.1 h with h | h
              · left; rw [e2, e1]; exact h
              · simp only [List.mem_singleton, Prod.mk.injEq] at h
                right; left
                exact ⟨Or.inl ⟨by rw [e2, e1], h.1.symm⟩, h.2⟩
            · rw [if_neg e1] at h
              left; rw [e2]; exact h
          · simp only [List.mem_singleton, Prod.mk.injEq] at h
            right; left
            exact ⟨Or.inr ⟨h.1.symm, e2.symm⟩, h.2⟩
        · rw [if_neg e2] at h
          by_cases e1 : u = t.1
          · rw [if_pos e1] at h
            rcases List.mem_append.1 h with h | h
            · left; rw [e1]; exact h
            · simp only [List.mem_singleton, Prod.mk.injEq] at h
              right; left
              exact ⟨Or.inl ⟨e1.symm, h.1.symm⟩, h.2⟩
          · rw [if_neg e1] at h
            exact Or.inl h
      · exact Or.inr (Or.inr h)
    · rintro (h | h | h)
      · left
        by_cases e2 : u = t.2.1
        · rw [if_pos e2]
          apply List.mem_append_left
          by_cases e1 : t.2.1 = t.1
          · rw [if_pos e1]
            apply List.mem_append_left
            rw [← e1, ← e2]; exact h
          · rw [if_neg e1, ← e2]; exact h
        · rw [if_neg e2]
          by_cases e1 : u = t.1
          · rw [if_pos e1]
            apply List.mem_append_left
            rw [← e1]; exact h
          · rw [if_neg e1]; exact h
      · left
        obtain ⟨hd, hw⟩ := h
        rcases hd with ⟨h1, h2⟩ | ⟨h1, h2⟩
        · by_cases e2 : u = t.2.1
          · rw [if_pos e2]
            apply List.mem_append_left
            have e1 : t.2.1 = t.1 := by rw [← e2, h1]
            rw [if_pos e1]
            apply List.mem_append_right
            simp [h2, hw]
          · rw [if_neg e2, if_pos h1.symm]
            apply List.mem_append_right
            simp [h2, hw]
        · rw [if_pos h2.symm]
          apply List.mem_append_right
          simp [h1, hw]
      · exact Or.inr h

/-- Entries of the adjacency map built from the routes: `(v, w)` is listed under `u`
exactly when some route joins `u` and `v` (in either order) and `w` is its weight. -/
theorem build_adjacency_edges (ab : List Int) (routes : List (Int × Int × Int))
    (u v w : Int) :
    (v, w) ∈ nbrs_of (build_adjacency ab routes) u ↔ ∃ t ∈ routes, RouteEdge t u v w := by
  unfold build_adjacency
  simp only []
  rw [nbrs_of_routes_fold]
  rw [nbrs_of_init ab [] (fun x => rfl) u]
  simp

theorem adjWalk_iff_routeWalk (ab : List Int) (routes : List (Int × Int × Int))
    (s v c : Int) :
    AdjWalk (build_adjacency ab routes) s v c ↔ RouteWalk routes s v c := by
  constructor
  · intro h
    induction h with
    | nil => exact RouteWalk.nil
    | step _ he ih =>
      obtain ⟨⟨t1, t2, cap⟩, ht, hd, hw⟩ := (build_adjacency_edges ab routes _ _ _).1 he
      simp only [] at hd hw
      rw [hw]
      rcases hd with ⟨h1, h2⟩ | ⟨h1, h2⟩
      · subst h1; subst h2
        exact RouteWalk.forward ih ht
      · subst h1; subst h2
        exact RouteWalk.backward ih ht
  · intro h
    induction h with
    | nil => exact AdjWalk.nil
    | forward _ ht ih =>
      exact AdjWalk.step ih ((build_adjacency_edges ab routes _ _ _).2
        ⟨_, ht, Or.inl ⟨rfl, rfl⟩, rfl⟩)
    | backward _ ht ih =>
      exact AdjWalk.step ih ((build_adjacency_edges ab routes _ _ _).2
        ⟨_, ht, Or.inr ⟨rfl, rfl⟩, rfl⟩)

/-! ### Invariants of the deque search -/

theorem UMap.find_index_snd_of_find {K V : Type} [DecidableEq K] [Inhabited V]
    {m : UMap K V} {x : K} {a : V} (k : K) (h : UMap.find m x = some a) :
    UMap.find (UMap.index m k).2 x = some a := by
  rw [UMap.find_index_snd, h]

theorem bfs_relax_cons_wrap (u v w : Int) (rest : List (Int × Int)) (d : UMap Int Int)
    (q : List Int) :
    bfs_relax u ((v, w) :: rest) d q =
      if wrap32 (UMap.val d u + w) < UMap.val d v then
        if w = 0 then
          bfs_relax u rest
            (UMap.set (UMap.index (UMap.index d u).2 v).2 v (wrap32 (UMap.val d u + w)))
            (v :: q)
        else
          bfs_relax u rest
            (UMap.set (UMap.index (UMap.index d u).2 v).2 v (wrap32 (UMap.val d u + w)))
            (q ++ [v])
      else bfs_relax u rest (UMap.index (UMap.index d u).2 v).2 q := by
  rw [bfs_relax]
  simp only [UMap.index_fst, UMap.val_index_snd]

/-- One step of the relaxation loop when the sum `dist[u] + w` is an `int` value. -/
theorem bfs_relax_cons (u v w : Int) (rest : List (Int × Int)) (d : UMap Int Int)
    (q : List Int) (hfit : InInt32 (UMap.val d u + w)) :
    bfs_relax u ((v, w) :: rest) d q =
      if UMap.val d u + w < UMap.val d v then
        if w = 0 then
          bfs_relax u rest
            (UMap.set (UMap.index (UMap.index d u).2 v).2 v (UMap.val d u + w)) (v :: q)
        else
          bfs_relax u rest
            (UMap.set (UMap.index (UMap.index d u).2 v).2 v (UMap.val d u + w)) (q ++ [v])
      else bfs_relax u rest (UMap.index (UMap.index d u).2 v).2 q := by
  rw [bfs_relax_cons_wrap, wrap32_eq_self hfit]

theorem discovered_congr {S : List Int} {d d' : UMap Int Int}
    (hv : ∀ x, UMap.val d' x = UMap.val d x) : discovered S d' = discovered S d := by
  unfold discovered
  apply Finset.filter_congr
  intro x _
  rw [hv]

theorem potential_congr {S : List Int} {d d' : UMap Int Int}
    (hv : ∀ x, UMap.val d' x = UMap.val d x) : potential S d' = potential S d := by
  unfold potential
  apply Finset.sum_congr rfl
  intro x _
  exact hv x

theorem BfsCore.of_val_eq {adj : UMap Int (List (Int × Int))} {start : Int} {S : List Int}
    {d d' : UMap Int Int} {q : List Int} (h : BfsCore adj start S d q)
    (hv : ∀ x, UMap.val d' x = UMap.val d x)
    (hk : ∀ x a, UMap.find d x = some a → UMap.find d' x = some a) :
    BfsCore adj start S d' q where
  start_mem := h.start_mem
  start0 := by rw [hv]; exact h.start0
  nonneg := fun v => by rw [hv]; exact h.nonneg v
  le_inf := fun v => by rw [hv]; exact h.le_inf v
  outside := fun v hn => by rw [hv]; exact h.outside v hn
  keys := fun v hm => by rw [hv]; exact hk _ _ (h.keys v hm)
  realized := fun v hm => by rw [hv]; exact h.realized v hm
  queue_in := fun x hx => by rw [hv]; exact h.queue_in x hx
  counted := fun x hm hx => by
    rw [hv] at hx ⊢
    rw [discovered_congr hv]
    exact h.counted x hm hx

theorem BfsCore.update_core {adj : UMap Int (List (Int × Int))} {start : Int} {S : List Int}
    {d d' : UMap Int Int} {q : List Int} (q' : List Int) (h : BfsCore adj start S d q)
    {u v w : Int} (hu : u ∈ S) (hdu : UMap.val d u < 1000000000)
    (he : (v, w) ∈ nbrs_of adj u) (hw : w = 0 ∨ w = 1)
    (hlt : UMap.val d u + w < UMap.val d v)
    (hv : ∀ x, UMap.val d' x = if x = v then UMap.val d u + w else UMap.val d x)
    (hk : ∀ x ∈ S, UMap.find d' x = some (UMap.val d' x))
    (hq : ∀ x ∈ q', x = v ∨ x ∈ q) :
    BfsCore adj start S d' q' ∧ potential S d' + 1 ≤ potential S d := by
  have hu0 := h.nonneg u
  have hvS : v ∈ S := by
    by_contra hn
    have := h.outside v hn
    omega
  have hle : ∀ x, UMap.val d' x ≤ UMap.val d x := by
    intro x
    rw [hv]
    by_cases e : x = v
    · subst e; simp only [if_true]; omega
    · simp [e]
  have hsub : discovered S d ⊆ discovered S d' := by
    intro x hx
    unfold discovered at hx ⊢
    rw [Finset.mem_filter] at hx ⊢
    exact ⟨hx.1, lt_of_le_of_lt (hle x) hx.2⟩
  have hvd : v ∈ discovered S d' := by
    unfold discovered
    rw [Finset.mem_filter]
    refine ⟨List.mem_toFinset.2 hvS, ?_⟩
    rw [hv]
    simp only [if_true]
    have := h.le_inf v
    omega
  have hcard : (discovered S d).card ≤ (discovered S d').card := Finset.card_le_card hsub
  refine ⟨?_, ?_⟩
  · refine
      { start_mem := h.start_mem
        start0 := ?_
        nonneg := ?_
        le_inf := ?_
        outside := ?_
        keys := hk
        realized := ?_
        queue_in := ?_
        counted := ?_ }
    · rw [hv]
      by_cases e : start = v
      · exfalso
        have := h.start0
        rw [e] at this
        omega
      · simp only [e, if_false]; exact h.start0
    · intro x
      rw [hv]
      by_cases e : x = v
      · simp only [e, if_true]; omega
      · simp only [e, if_false]; exact h.nonneg x
    · intro x
      exact le_trans (hle x) (h.le_inf x)
    · intro x hn
      rw [hv]
      have e : ¬ x = v := fun e => hn (e ▸ hvS)
      simp only [e, if_false]
      exact h.outside x hn
    · intro x hm
      rw [hv]
      by_cases e : x = v
      · subst e
        simp only [if_true]
        right
        rcases h.realized u hu with hinf | hwalk
        · omega
        · exact AdjWalk.step hwalk he
      · simp only [e, if_false]
        exact h.realized x hm
    · intro x hx
      rcases hq x hx with e | hx
      · subst e
        refine ⟨hvS, ?_⟩
        rw [hv]
        simp only [if_true]
        have := h.le_inf x
        omega
      · exact ⟨(h.queue_in x hx).1, lt_of_le_of_lt (hle x) (h.queue_in x hx).2⟩
    · intro x hm hx
      have hcu := h.counted u hu hdu
      by_cases e : x = v
      · subst e
        rw [hv]
        simp only [if_true]
        by_cases hold : UMap.val d x < 1000000000
        · have := h.counted x hm hold
          omega
        · have hnot : x ∉ discovered S d := by
            unfold discovered
            rw [Finset.mem_filter]
            exact fun hc => hold hc.2
          have hss : discovered S d ⊂ discovered S d' :=
            Finset.ssubset_iff_subset_ne.2 ⟨hsub, fun e => hnot (e ▸ hvd)⟩
          have := Finset.card_lt_card hss
          omega
      · have e' : UMap.val d' x = UMap.val d x := by rw [hv]; simp [e]
        rw [e'] at hx ⊢
        have := h.counted x hm hx
        omega
  · unfold potential
    have hmem : v ∈ S.toFinset := List.mem_toFinset.2 hvS
    rw [← Finset.add_sum_erase _ _ hmem, ← Finset.add_sum_erase _ (fun x => UMap.val d x) hmem]
    have e1 : UMap.val d' v = UMap.val d u + w := by rw [hv]; simp
    have e2 : (S.toFinset.erase v).sum (fun x => UMap.val d' x) =
        (S.toFinset.erase v).sum (fun x => UMap.val d x) := by
      apply Finset.sum_congr rfl
      intro x hx
      rw [hv]
      have : ¬ x = v := (Finset.mem_erase.1 hx).1
      simp [this]
    rw [e1, e2]
    omega

theorem Relaxed.update_relaxed {adj : UMap Int (List (Int × Int))} {d d' : UMap Int Int}
    {q q' : List Int} {u v w : Int} {rest : List (Int × Int)}
    (h : Relaxed adj d q u ((v, w) :: rest))
    (hlt : UMap.val d u + w < UMap.val d v)
    (hv : ∀ x, UMap.val d' x = if x = v then UMap.val d u + w else UMap.val d x)
    (hq : ∀ x ∈ q, x ∈ q') (hvq : v ∈ q') : Relaxed adj d' q' u rest := by
  have hle : ∀ x, UMap.val d' x ≤ UMap.val d x := by
    intro x
    rw [hv]
    by_cases e : x = v
    · subst e; simp only [if_true]; omega
    · simp [e]
  intro x y w' he
  by_cases exv : x = v
  · left; rw [exv]; exact hvq
  have hx : UMap.val d' x = UMap.val d x := by rw [hv]; simp [exv]
  rcases h x y w' he with h1 | h2 | ⟨h3, h4⟩
  · exact Or.inl (hq x h1)
  · right; left
    have := hle y
    omega
  · rcases List.mem_cons.1 h4 with e | h4
    · right; left
      simp only [Prod.mk.injEq] at e
      obtain ⟨rfl, rfl⟩ := e
      subst h3
      rw [hx, hv]
      simp
    · exact Or.inr (Or.inr ⟨h3, h4⟩)

theorem Relaxed.skip {adj : UMap Int (List (Int × Int))} {d d' : UMap Int Int}
    {q : List Int} {u v w : Int} {rest : List (Int × Int)}
    (h : Relaxed adj d q u ((v, w) :: rest))
    (hlt : ¬ UMap.val d u + w < UMap.val d v)
    (hv : ∀ x, UMap.val d' x = UMap.val d x) : Relaxed adj d' q u rest := by
  intro x y w' he
  rw [hv, hv]
  rcases h x y w' he with h1 | h2 | ⟨h3, h4⟩
  · exact Or.inl h1
  · exact Or.inr (Or.inl h2)
  · rcases List.mem_cons.1 h4 with e | h4
    · right; left
      simp only [Prod.mk.injEq] at e
      obtain ⟨rfl, rfl⟩ := e
      subst h3
      omega
    · exact Or.inr (Or.inr ⟨h3, h4⟩)

/-- Processing the neighbours of a popped node keeps the invariant, does not increase the
measure `2 * potential + deque length`, and leaves every edge of the node relaxed. -/
theorem bfs_relax_inv (adj : UMap Int (List (Int × Int))) (start : Int) (S : List Int)
    (u : Int) (hu : u ∈ S) (nbrs : List (Int × Int)) :
    ∀ (d : UMap Int Int) (q : List Int), (∀ e ∈ nbrs, e ∈ nbrs_of adj u) →
      (∀ e ∈ nbrs, e.2 = 0 ∨ e.2 = 1) → BfsCore adj start S d q →
      UMap.val d u < 1000000000 →
      BfsCore adj start S (bfs_relax u nbrs d q).1 (bfs_relax u nbrs d q).2 ∧
        2 * potential S (bfs_relax u nbrs d q).1 + ((bfs_relax u nbrs d q).2.length : Int) ≤
          2 * potential S d + (q.length : Int) ∧
        (Relaxed adj d q u nbrs →
          Relaxed adj (bfs_relax u nbrs d q).1 (bfs_relax u nbrs d q).2 u []) := by
  induction nbrs with
  | nil =>
    intro d q _ _ h _
    exact ⟨h, le_refl _, fun hr => hr⟩
  | cons e rest ih =>
    intro d q hmem hw h hdu
    obtain ⟨v, w⟩ := e
    have he : (v, w) ∈ nbrs_of adj u := hmem _ (List.mem_cons_self _ _)
    have hw1 : w = 0 ∨ w = 1 := hw (v, w) (List.mem_cons_self _ _)
    have hmem' : ∀ e ∈ rest, e ∈ nbrs_of adj u := fun e he => hmem e (List.mem_cons_of_mem _ he)
    have hw' : ∀ e ∈ rest, e.2 = 0 ∨ e.2 = 1 := fun e he => hw e (List.mem_cons_of_mem _ he)
    have hv2 : ∀ x, UMap.val (UMap.index (UMap.index d u).2 v).2 x = UMap.val d x := by
      intro x
      rw [UMap.val_index_snd, UMap.val_index_snd]
    have hk2 : ∀ x a, UMap.find d x = some a →
        UMap.find (UMap.index (UMap.index d u).2 v).2 x = some a := by
      intro x a hx
      exact UMap.find_index_snd_of_find v (UMap.find_index_snd_of_find u hx)
    have hfit : InInt32 (UMap.val d u + w) := by
      have := h.nonneg u
      constructor <;> rcases hw1 with e | e <;> omega
    rw [bfs_relax_cons _ _ _ _ _ _ hfit]
    by_cases hlt : UMap.val d u + w < UMap.val d v
    · rw [if_pos hlt]
      have hv1 : ∀ x, UMap.val (UMap.set (UMap.index (UMap.index d u).2 v).2 v
          (UMap.val d u + w)) x = if x = v then UMap.val d u + w else UMap.val d x := by
        intro x
        rw [UMap.val_set, hv2]
      have hk1 : ∀ x ∈ S, UMap.find (UMap.set (UMap.index (UMap.index d u).2 v).2 v
          (UMap.val d u + w)) x = some (UMap.val (UMap.set (UMap.index (UMap.index d u).2 v).2 v
          (UMap.val d u + w)) x) := by
        intro x hx
        rw [hv1, UMap.find_set]
        by_cases e : x = v
        · simp [e]
        · simp only [e, if_false]
          exact hk2 _ _ (h.keys x hx)
      have hu1 : UMap.val (UMap.set (UMap.index (UMap.index d u).2 v).2 v
          (UMap.val d u + w)) u < 1000000000 := by
        rw [hv1]
        by_cases e : u = v
        · simp only [e, if_true]
          have := h.le_inf v
          rw [e] at hlt
          omega
        · simp only [e, if_false]; exact hdu
      by_cases hz : w = 0
      · rw [if_pos hz]
        obtain ⟨c1, p1⟩ := BfsCore.update_core (v :: q) h hu hdu he hw1 hlt hv1 hk1
          (fun x hx => by
            rcases List.mem_cons.1 hx with e | e
            · exact Or.inl e
            · exact Or.inr e)
        obtain ⟨c2, p2, r2⟩ := ih _ (v :: q) hmem' hw' c1 hu1
        refine ⟨c2, ?_, ?_⟩
        · simp only [List.length_cons] at p2
          push_cast at p2
          omega
        · intro hr
          exact r2 (Relaxed.update_relaxed hr hlt hv1 (fun x hx => List.mem_cons_of_mem _ hx)
            (List.mem_cons_self _ _))
      · rw [if_neg hz]
        obtain ⟨c1, p1⟩ := BfsCore.update_core (q ++ [v]) h hu hdu he hw1 hlt hv1 hk1
          (fun x hx => by
            rcases List.mem_append.1 hx with e | e
            · exact Or.inr e
            · exact Or.inl (List.mem_singleton.1 e))
        obtain ⟨c2, p2, r2⟩ := ih _ (q ++ [v]) hmem' hw' c1 hu1
        refine ⟨c2, ?_, ?_⟩
        · simp only [List.length_append, List.length_singleton] at p2
          push_cast at p2
          omega
        · intro hr
          exact r2 (Relaxed.update_relaxed hr hlt hv1 (fun x hx => List.mem_append_left _ hx)
            (List.mem_append_right _ (List.mem_singleton.2 rfl)))
    · rw [if_neg hlt]
      have c1 := BfsCore.of_val_eq h hv2 hk2
      have hu1 : UMap.val (UMap.index (UMap.index d u).2 v).2 u < 1000000000 := by
        rw [hv2]; exact hdu
      obtain ⟨c2, p2, r2⟩ := ih _ q hmem' hw' c1 hu1
      refine ⟨c2, ?_, ?_⟩
      · rw [potential_congr hv2] at p2
        exact p2
      · intro hr
        exact r2 (Relaxed.skip hr hlt hv2)

theorem bfs_loop_nil (adj : UMap Int (List (Int × Int))) (fuel : Nat) (d : UMap Int Int) :
    bfs_loop adj fuel d [] = some d := by
  cases fuel <;> rfl

theorem bfs_loop_succ (adj : UMap Int (List (Int × Int))) (fuel : Nat) (d : UMap Int Int)
    (u : Int) (q : List Int) :
    bfs_loop adj (fuel + 1) d (u :: q) =
      bfs_loop adj fuel (bfs_relax u (nbrs_of adj u) d q).1
        (bfs_relax u (nbrs_of adj u) d q).2 := by
  rw [bfs_loop]
  unfold nbrs_of
  cases h : UMap.find adj u <;> rfl

theorem potential_nonneg (S : List Int) {d : UMap Int Int} (h : ∀ v, 0 ≤ UMap.val d v) :
    0 ≤ potential S d :=
  Finset.sum_nonneg (fun x _ => h x)

theorem BfsCore.tail {adj : UMap Int (List (Int × Int))} {start : Int} {S : List Int}
    {d : UMap Int Int} {u : Int} {q : List Int} (h : BfsCore adj start S d (u :: q)) :
    BfsCore adj start S d q :=
  { h with queue_in := fun x hx => h.queue_in x (List.mem_cons_of_mem _ hx) }

/-- With fuel at least `2 * potential + deque length` the loop returns; the final map
satisfies the invariant with an empty deque, and every edge is relaxed if every edge with a
source outside the deque was relaxed at the beginning. -/
theorem bfs_loop_inv (adj : UMap Int (List (Int × Int))) (start : Int) (S : List Int)
    (hw : ∀ x e, e ∈ nbrs_of adj x → e.2 = 0 ∨ e.2 = 1) (fuel : Nat) :
    ∀ (d : UMap Int Int) (q : List Int), BfsCore adj start S d q →
      2 * potential S d + (q.length : Int) ≤ fuel →
      ∃ d', bfs_loop adj fuel d q = some d' ∧ BfsCore adj start S d' [] ∧
        (Relaxed adj d q 0 [] → Relaxed adj d' [] 0 []) := by
  induction fuel with
  | zero =>
    intro d q h hm
    cases q with
    | nil => exact ⟨d, rfl, h, fun hr => hr⟩
    | cons u rest =>
      exfalso
      have := potential_nonneg S h.nonneg
      simp only [List.length_cons] at hm
      push_cast at hm
      omega
  | succ fuel ih =>
    intro d q h hm
    cases q with
    | nil => exact ⟨d, bfs_loop_nil adj _ d, h, fun hr => hr⟩
    | cons u rest =>
      rw [bfs_loop_succ]
      obtain ⟨huS, hdu⟩ := h.queue_in u (List.mem_cons_self _ _)
      obtain ⟨c1, p1, r1⟩ := bfs_relax_inv adj start S u huS (nbrs_of adj u) d rest
        (fun e he => he) (fun e he => hw u e he) h.tail hdu
      have hm' : 2 * potential S (bfs_relax u (nbrs_of adj u) d rest).1 +
          ((bfs_relax u (nbrs_of adj u) d rest).2.length : Int) ≤ fuel := by
        simp only [List.length_cons] at hm
        push_cast at hm
        omega
      obtain ⟨d', hd', c2, r2⟩ := ih _ _ c1 hm'
      refine ⟨d', hd', c2, ?_⟩
      intro hr
      apply r2
      have hr1 : Relaxed adj d rest u (nbrs_of adj u) := by
        intro x y w he
        rcases hr x y w he with h1 | h2 | ⟨_, h4⟩
        · rcases List.mem_cons.1 h1 with e | e
          · subst e
            exact Or.inr (Or.inr ⟨rfl, he⟩)
          · exact Or.inl e
        · exact Or.inr (Or.inl h2)
        · exact absurd h4 (List.not_mem_nil _)
      intro x y w he
      rcases r1 hr1 x y w he with h1 | h2 | ⟨_, h4⟩
      · exact Or.inl h1
      · exact Or.inr (Or.inl h2)
      · exact absurd h4 (List.not_mem_nil _)

theorem find_init_fold (ab : List Int) (c : Int) :
    ∀ (d0 : UMap Int Int) (x : Int),
      UMap.find (ab.foldl (fun dist b => UMap.set dist b c) d0) x =
        if x ∈ ab then some c else UMap.find d0 x := by
  induction ab with
  | nil => intro d0 x; simp
  | cons b rest ih =>
    intro d0 x
    simp only [List.foldl_cons]
    rw [ih, UMap.find_set]
    by_cases h1 : x ∈ rest
    · simp [h1]
    · by_cases h2 : x = b
      · simp [h1, h2]
      · simp [h1, h2]

/-- Entries of the map with which `bfs_distances_from` enters its loop. -/
theorem find_init (ab : List Int) (start x : Int) :
    UMap.find (bfs_init_dist ab start) x =
      if x = start then some 0 else if x ∈ ab then some 1000000000 else none := by
  unfold bfs_init_dist
  simp only []
  rw [UMap.find_set, find_init_fold]
  rfl

theorem val_init (ab : List Int) (start x : Int) :
    UMap.val (bfs_init_dist ab start) x =
      if x = start then 0 else if x ∈ ab then 1000000000 else 0 := by
  unfold UMap.val
  rw [find_init]
  by_cases h1 : x = start
  · simp [h1]
  · by_cases h2 : x ∈ ab
    · simp [h1, h2]
    · simp [h1, h2]

theorem BfsCore.init_state (adj : UMap Int (List (Int × Int))) (ab : List Int) (start : Int) :
    BfsCore adj start (start :: ab) (bfs_init_dist ab start) [start] where
  start_mem := List.mem_cons_self _ _
  start0 := by rw [val_init]; simp
  nonneg := by
    intro v
    rw [val_init]
    split_ifs <;> omega
  le_inf := by
    intro v
    rw [val_init]
    split_ifs <;> omega
  outside := by
    intro v hv
    rw [val_init]
    have h1 : ¬ v = start := fun e => hv (e ▸ List.mem_cons_self _ _)
    have h2 : v ∉ ab := fun e => hv (List.mem_cons_of_mem _ e)
    simp [h1, h2]
  keys := by
    intro v hv
    rw [val_init, find_init]
    by_cases h1 : v = start
    · simp [h1]
    · have h2 : v ∈ ab := by
        rcases List.mem_cons.1 hv with e | e
        · exact absurd e h1
        · exact e
      simp [h1, h2]
  realized := by
    intro v hv
    rw [val_init]
    by_cases h1 : v = start
    · subst h1
      simp only [if_true]
      exact Or.inr AdjWalk.nil
    · have h2 : v ∈ ab := by
        rcases List.mem_cons.1 hv with e | e
        · exact absurd e h1
        · exact e
      simp [h1, h2]
  queue_in := by
    intro x hx
    rw [List.mem_singleton] at hx
    subst hx
    refine ⟨List.mem_cons_self _ _, ?_⟩
    rw [val_init]
    simp
  counted := by
    intro x hx hlt
    have hs : start ∈ discovered (start :: ab) (bfs_init_dist ab start) := by
      unfold discovered
      rw [Finset.mem_filter]
      refine ⟨List.mem_toFinset.2 (List.mem_cons_self _ _), ?_⟩
      rw [val_init]
      simp
    have hc := Finset.card_pos.2 ⟨start, hs⟩
    rw [val_init] at hlt ⊢
    by_cases h1 : x = start
    · simp only [h1, if_true]
      omega
    · have h2 : x ∈ ab := by
        rcases List.mem_cons.1 hx with e | e
        · exact absurd e h1
        · exact e
      simp [h1, h2] at hlt

theorem Relaxed.init_relaxed (adj : UMap Int (List (Int × Int))) (ab : List Int) (start : Int)
    (hw : ∀ x e, e ∈ nbrs_of adj x → e.2 = 0 ∨ e.2 = 1)
    (hS : ∀ x e, e ∈ nbrs_of adj x → x ∈ start :: ab) :
    Relaxed adj (bfs_init_dist ab start) [start] 0 [] := by
  intro x y w he
  by_cases h1 : x = start
  · left; rw [h1]; exact List.mem_singleton.2 rfl
  · right; left
    have h2 : x ∈ ab := by
      rcases List.mem_cons.1 (hS x _ he) with e | e
      · exact absurd e h1
      · exact e
    have hy := (BfsCore.init_state adj ab start).le_inf y
    have hw1 := hw x _ he
    simp only [] at hw1
    rw [val_init ab start x]
    simp only [h1, h2, if_false, if_true]
    omega

theorem discovered_card_le (S : List Int) (d : UMap Int Int) :
    (discovered S d).card ≤ S.length :=
  le_trans (Finset.card_filter_le _ _) (List.toFinset_card_le S)

/-- Correctness of the deque search on an adjacency map with weights 0 and 1 whose entries
join nodes of `start :: ab`, when `ab` has fewer than 999999999 members: with enough fuel
the search returns; every node of `start :: ab` has an entry; the entry is a lower bound of
the cost of every walk from `start`, is the cost of some walk when the node is reachable,
and is the sentinel when it is not. -/
theorem bfs_distances_from_correct (ab : List Int) (start : Int)
    (adj : UMap Int (List (Int × Int)))
    (hw : ∀ x e, e ∈ nbrs_of adj x → e.2 = 0 ∨ e.2 = 1)
    (hS : ∀ x e, e ∈ nbrs_of adj x → x ∈ start :: ab ∧ e.1 ∈ start :: ab)
    (hsize : ab.length + 1 < 1000000000) :
    ∃ fuel0 : Nat, ∀ fuel, fuel0 ≤ fuel →
      ∃ dist, bfs_distances_from ab fuel start adj = some dist ∧
        ∀ b ∈ start :: ab,
          UMap.find dist b = some (UMap.val dist b) ∧
          (∀ c, AdjWalk adj start b c → UMap.val dist b ≤ c) ∧
          ((∃ c, AdjWalk adj start b c) → AdjWalk adj start b (UMap.val dist b)) ∧
          ((¬ ∃ c, AdjWalk adj start b c) → UMap.val dist b = 1000000000) := by
  have c0 := BfsCore.init_state adj ab start
  have r0 := Relaxed.init_relaxed adj ab start hw (fun x e he => (hS x e he).1)
  refine ⟨(2 * potential (start :: ab) (bfs_init_dist ab start) + 1).toNat, ?_⟩
  intro fuel hfuel
  have hp := potential_nonneg (start :: ab) c0.nonneg
  have hm : 2 * potential (start :: ab) (bfs_init_dist ab start) +
      (([start] : List Int).length : Int) ≤ fuel := by
    simp only [List.length_singleton]
    push_cast
    omega
  obtain ⟨dist, hd, core, hr⟩ := bfs_loop_inv adj start (start :: ab) hw fuel _ _ c0 hm
  have rel := hr r0
  have hrel : ∀ x y w, (y, w) ∈ nbrs_of adj x → UMap.val dist y ≤ UMap.val dist x + w := by
    intro x y w he
    rcases rel x y w he with h1 | h2 | ⟨_, h4⟩
    · exact absurd h1 (List.not_mem_nil _)
    · exact h2
    · exact absurd h4 (List.not_mem_nil _)
  have lower : ∀ b c, AdjWalk adj start b c → UMap.val dist b ≤ c := by
    intro b c hwalk
    induction hwalk with
    | nil => rw [core.start0]
    | step _ he ih =>
      have := hrel _ _ _ he
      omega
  have reach : ∀ b c, AdjWalk adj start b c →
      b ∈ start :: ab ∧ UMap.val dist b < 1000000000 := by
    intro b c hwalk
    induction hwalk with
    | nil =>
      refine ⟨core.start_mem, ?_⟩
      rw [core.start0]
      decide
    | step _ he ih =>
      obtain ⟨hu, hlt⟩ := ih
      refine ⟨(hS _ _ he).2, ?_⟩
      have h1 := core.counted _ hu hlt
      have h2 := discovered_card_le (start :: ab) dist
      have h3 := hrel _ _ _ he
      have h4 := hw _ _ he
      simp only [List.length_cons] at h2
      simp only [] at h4
      omega
  refine ⟨dist, hd, ?_⟩
  intro b hb
  refine ⟨core.keys b hb, lower b, ?_, ?_⟩
  · rintro ⟨c, hc⟩
    rcases core.realized b hb with h | h
    · have := (reach b c hc).2
      omega
    · exact h
  · intro hn
    rcases core.realized b hb with h | h
    · exact h
    · exact absurd ⟨_, h⟩ hn

/-- The deque search on an adjacency map with weights 0 and 1 whose entries start at nodes
of `start :: ab`: with enough fuel the search returns; every node of `start :: ab` has an
entry; the entry is at most the sentinel, is a lower bound of the cost of every walk from
`start`, and is either the sentinel or the cost of some walk. -/
theorem bfs_distances_from_capped (ab : List Int) (start : Int)
    (adj : UMap Int (List (Int × Int)))
    (hw : ∀ x e, e ∈ nbrs_of adj x → e.2 = 0 ∨ e.2 = 1)
    (hS : ∀ x e, e ∈ nbrs_of adj x → x ∈ start :: ab) :
    ∃ fuel0 : Nat, ∀ fuel, fuel0 ≤ fuel →
      ∃ dist, bfs_distances_from ab fuel start adj = some dist ∧
        ∀ b ∈ start :: ab,
          UMap.find dist b = some (UMap.val dist b) ∧
          UMap.val dist b ≤ 1000000000 ∧
          (∀ c, AdjWalk adj start b c → UMap.val dist b ≤ c) ∧
          (UMap.val dist b = 1000000000 ∨ AdjWalk adj start b (UMap.val dist b)) := by
  have c0 := BfsCore.init_state adj ab start
  have r0 := Relaxed.init_relaxed adj ab start hw hS
  refine ⟨(2 * potential (start :: ab) (bfs_init_dist ab start) + 1).toNat, ?_⟩
  intro fuel hfuel
  have hp := potential_nonneg (start :: ab) c0.nonneg
  have hm : 2 * potential (start :: ab) (bfs_init_dist ab start) +
      (([start] : List Int).length : Int) ≤ fuel := by
    simp only [List.length_singleton]
    push_cast
    omega
  obtain ⟨dist, hd, core, hr⟩ := bfs_loop_inv adj start (start :: ab) hw fuel _ _ c0 hm
  have rel := hr r0
  have hrel : ∀ x y w, (y, w) ∈ nbrs_of adj x → UMap.val dist y ≤ UMap.val dist x + w := by
    intro x y w he
    rcases rel x y w he with h1 | h2 | ⟨_, h4⟩
    · exact absurd h1 (List.not_mem_nil _)
    · exact h2
    · exact absurd h4 (List.not_mem_nil _)
  have lower : ∀ b c, AdjWalk adj start b c → UMap.val dist b ≤ c := by
    intro b c hwalk
    induction hwalk with
    | nil => rw [core.start0]
    | step _ he ih =>
      have := hrel _ _ _ he
      omega
  refine ⟨dist, hd, ?_⟩
  intro b hb
  exact ⟨core.keys b hb, core.le_inf b, lower b, core.realized b hb⟩

/-- C5, amended by the cap at the sentinel: for every route list whose endpoints are all
members of the node registry and every start node, `bfs_distances_from` on the adjacency
map of `build_adjacency` returns once its loop is given enough iterations, and the returned
map has an entry for every registered node. When some walk from `start` to the node counts
fewer than 1000000000 capacity-bearing routes (shortcuts count 0), the entry is the minimum
of that count over all walks from `start` to the node. When every walk counts 1000000000 or
more, and in particular when no walk reaches the node, the entry is the sentinel
1000000000. -/
theorem bfs_distances_are_shortest_up_to_sentinel (all_buildings : List Int)
    (routes : List (Int × Int × Int)) (start : Int)
    (hreg : ∀ t ∈ routes, t.1 ∈ all_buildings ∧ t.2.1 ∈ all_buildings) :
    ∃ fuel0 : Nat, ∀ fuel, fuel0 ≤ fuel →
      ∃ dist, bfs_distances_from all_buildings fuel start
          (build_adjacency all_buildings routes) = some dist ∧
        ∀ b ∈ all_buildings, ∃ d, UMap.find dist b = some d ∧
          ((∃ c, RouteWalk routes start b c ∧ c < 1000000000) →
            RouteWalk routes start b d ∧ ∀ c, RouteWalk routes start b c → d ≤ c) ∧
          ((∀ c, RouteWalk routes start b c → 1000000000 ≤ c) → d = 1000000000) := by
  have hw : ∀ x e, e ∈ nbrs_of (build_adjacency all_buildings routes) x →
      e.2 = 0 ∨ e.2 = 1 := by
    intro x e he
    obtain ⟨t, _, _, hw⟩ := (build_adjacency_edges all_buildings routes x e.1 e.2).1 he
    rw [hw]
    split_ifs
    · exact Or.inr rfl
    · exact Or.inl rfl
  have hS : ∀ x e, e ∈ nbrs_of (build_adjacency all_buildings routes) x →
      x ∈ start :: all_buildings := by
    intro x e he
    obtain ⟨t, ht, hd, _⟩ := (build_adjacency_edges all_buildings routes x e.1 e.2).1 he
    obtain ⟨r1, r2⟩ := hreg t ht
    rcases hd with ⟨h1, _⟩ | ⟨_, h2⟩
    · exact List.mem_cons_of_mem _ (h1 ▸ r1)
    · exact List.mem_cons_of_mem _ (h2 ▸ r2)
  obtain ⟨fuel0, hf⟩ := bfs_distances_from_capped all_buildings start
    (build_adjacency all_buildings routes) hw hS
  refine ⟨fuel0, ?_⟩
  intro fuel hfuel
  obtain ⟨dist, hd, hall⟩ := hf fuel hfuel
  refine ⟨dist, hd, ?_⟩
  intro b hb
  obtain ⟨hk, hle, hlow, hreal⟩ := hall b (List.mem_cons_of_mem _ hb)
  have hlow2 : ∀ c, RouteWalk routes start b c → UMap.val dist b ≤ c := fun c hc =>
    hlow c ((adjWalk_iff_routeWalk all_buildings routes start b c).2 hc)
  refine ⟨UMap.val dist b, hk, ?_, ?_⟩
  · rintro ⟨c, hc, hlt⟩
    refine ⟨?_, hlow2⟩
    rcases hreal with h | h
    · have := hlow2 c hc
      omega
    · exact (adjWalk_iff_routeWalk all_buildings routes start b _).1 h
  · intro hall2
    rcases hreal with h | h
    · exact h
    · have := hall2 _ ((adjWalk_iff_routeWalk all_buildings routes start b _).1 h)
      omega

theorem bfs_distances_are_shortest_up_to_sentinel_witness :
    ∃ fuel0 : Nat, ∀ fuel, fuel0 ≤ fuel →
      ∃ dist, bfs_distances_from [1, 2, 3, 4, 5] fuel 1
          (build_adjacency [1, 2, 3, 4, 5] [(1, 2, 1), (2, 3, 0), (3, 4, 2), (1, 4, 1)]) =
            some dist ∧
        ∀ b ∈ [1, 2, 3, 4, 5], ∃ d, UMap.find dist b = some d ∧
          ((∃ c, RouteWalk [(1, 2, 1), (2, 3, 0), (3, 4, 2), (1, 4, 1)] 1 b c ∧
              c < 1000000000) →
            RouteWalk [(1, 2, 1), (2, 3, 0), (3, 4, 2), (1, 4, 1)] 1 b d ∧
              ∀ c, RouteWalk [(1, 2, 1), (2, 3, 0), (3, 4, 2), (1, 4, 1)] 1 b c → d ≤ c) ∧
          ((∀ c, RouteWalk [(1, 2, 1), (2, 3, 0), (3, 4, 2), (1, 4, 1)] 1 b c →
              1000000000 ≤ c) → d = 1000000000) :=
  bfs_distances_are_shortest_up_to_sentinel [1, 2, 3, 4, 5]
    [(1, 2, 1), (2, 3, 0), (3, 4, 2), (1, 4, 1)] 1 (by decide)

/-- Below the sentinel the distances are exact: when the registry has fewer than 999999999
nodes and holds every route endpoint, `bfs_distances_from` on the adjacency map of
`build_adjacency` assigns to every registered node reachable from `start` the minimum, over
all walks from `start` to it, of the number of capacity-bearing routes on the walk
(shortcuts count 0), and the sentinel 1000000000 to every registered node that no walk
reaches. -/
theorem bfs_distances_exact_on_small_registry (all_buildings : List Int)
    (routes : List (Int × Int × Int)) (start : Int)
    (hreg : ∀ t ∈ routes, t.1 ∈ all_buildings ∧ t.2.1 ∈ all_buildings)
    (hsize : all_buildings.length + 1 < 1000000000) :
    ∃ fuel0 : Nat, ∀ fuel, fuel0 ≤ fuel →
      ∃ dist, bfs_distances_from all_buildings fuel start
          (build_adjacency all_buildings routes) = some dist ∧
        ∀ b ∈ all_buildings,
          ((∃ c, RouteWalk routes start b c) →
            ∃ d, UMap.find dist b = some d ∧ RouteWalk routes start b d ∧
              ∀ c, RouteWalk routes start b c → d ≤ c) ∧
          ((¬ ∃ c, RouteWalk routes start b c) → UMap.find dist b = some 1000000000) := by
  have hw : ∀ x e, e ∈ nbrs_of (build_adjacency all_buildings routes) x →
      e.2 = 0 ∨ e.2 = 1 := by
    intro x e he
    obtain ⟨t, _, _, hw⟩ := (build_adjacency_edges all_buildings routes x e.1 e.2).1 he
    rw [hw]
    split_ifs
    · exact Or.inr rfl
    · exact Or.inl rfl
  have hS : ∀ x e, e ∈ nbrs_of (build_adjacency all_buildings routes) x →
      x ∈ start :: all_buildings ∧ e.1 ∈ start :: all_buildings := by
    intro x e he
    obtain ⟨t, ht, hd, _⟩ := (build_adjacency_edges all_buildings routes x e.1 e.2).1 he
    obtain ⟨r1, r2⟩ := hreg t ht
    rcases hd with ⟨h1, h2⟩ | ⟨h1, h2⟩
    · exact ⟨List.mem_cons_of_mem _ (h1 ▸ r1), List.mem_cons_of_mem _ (h2 ▸ r2)⟩
    · exact ⟨List.mem_cons_of_mem _ (h2 ▸ r2), List.mem_cons_of_mem _ (h1 ▸ r1)⟩
  obtain ⟨fuel0, hf⟩ := bfs_distances_from_correct all_buildings start
    (build_adjacency all_buildings routes) hw hS hsize
  refine ⟨fuel0, ?_⟩
  intro fuel hfuel
  obtain ⟨dist, hd, hall⟩ := hf fuel hfuel
  refine ⟨dist, hd, ?_⟩
  intro b hb
  obtain ⟨hk, hlow, hreach, hun⟩ := hall b (List.mem_cons_of_mem _ hb)
  constructor
  · rintro ⟨c, hc⟩
    refine ⟨UMap.val dist b, hk, ?_, ?_⟩
    · exact (adjWalk_iff_routeWalk all_buildings routes start b _).1
        (hreach ⟨c, (adjWalk_iff_routeWalk all_buildings routes start b c).2 hc⟩)
    · intro c' hc'
      exact hlow c' ((adjWalk_iff_routeWalk all_buildings routes start b c').2 hc')
  · intro hn
    rw [hk, hun]
    rintro ⟨c, hc⟩
    exact hn ⟨c, (adjWalk_iff_routeWalk all_buildings routes start b c).1 hc⟩

theorem bfs_distances_exact_on_small_registry_example :
    ∃ fuel0 : Nat, ∀ fuel, fuel0 ≤ fuel →
      ∃ dist, bfs_distances_from [1, 2, 3, 4, 5] fuel 1
          (build_adjacency [1, 2, 3, 4, 5] [(1, 2, 1), (2, 3, 0), (3, 4, 2), (1, 4, 1)]) =
            some dist ∧
        ∀ b ∈ [1, 2, 3, 4, 5],
          ((∃ c, RouteWalk [(1, 2, 1), (2, 3, 0), (3, 4, 2), (1, 4, 1)] 1 b c) →
            ∃ d, UMap.find dist b = some d ∧
              RouteWalk [(1, 2, 1), (2, 3, 0), (3, 4, 2), (1, 4, 1)] 1 b d ∧
              ∀ c, RouteWalk [(1, 2, 1), (2, 3, 0), (3, 4, 2), (1, 4, 1)] 1 b c → d ≤ c) ∧
          ((¬ ∃ c, RouteWalk [(1, 2, 1), (2, 3, 0), (3, 4, 2), (1, 4, 1)] 1 b c) →
            UMap.find dist b = some 1000000000) :=
  bfs_distances_exact_on_small_registry [1, 2, 3, 4, 5] [(1, 2, 1), (2, 3, 0), (3, 4, 2), (1, 4, 1)] 1
    (by decide) (by decide)

/-! ### The deque search against plain breadth-first search -/

/-- On neighbour lists of weight 1 the relaxation loop of the deque search and the visit of
the plain search take the same decisions: same queue, same recorded distances. -/
theorem relax_lockstep (L u : Int) (nbrs : List (Int × Int)) :
    ∀ (d1 d2 : UMap Int Int) (q : List Int), (∀ e ∈ nbrs, e.2 = 1) →
      (∀ x, UMap.val d1 x = UMap.val d2 x) → BfsLevel L u d1 q →
      (bfs_relax u nbrs d1 q).2 = (plain_bfs_visit u nbrs d2 q).2 ∧
        (∀ x, UMap.val (bfs_relax u nbrs d1 q).1 x =
          UMap.val (plain_bfs_visit u nbrs d2 q).1 x) ∧
        BfsLevel L u (bfs_relax u nbrs d1 q).1 (bfs_relax u nbrs d1 q).2 := by
  induction nbrs with
  | nil =>
    intro d1 d2 q _ hv hl
    exact ⟨rfl, hv, hl⟩
  | cons e rest ih =>
    intro d1 d2 q hw hv hl
    obtain ⟨v, w⟩ := e
    have hw1 : w = 1 := hw (v, w) (List.mem_cons_self _ _)
    subst hw1
    have hw' : ∀ e ∈ rest, e.2 = 1 := fun e he => hw e (List.mem_cons_of_mem _ he)
    have hv2 : ∀ x, UMap.val (UMap.index (UMap.index d1 u).2 v).2 x = UMap.val d1 x := by
      intro x
      rw [UMap.val_index_snd, UMap.val_index_snd]
    have hfit : InInt32 (UMap.val d1 u + 1) := by
      have h1 := hl.at_u
      have h2 := hl.low
      have h3 := hl.bound
      constructor <;> omega
    rw [bfs_relax_cons _ _ _ _ _ _ hfit, plain_bfs_visit]
    rw [← hv v, ← hv u]
    by_cases hinf : UMap.val d1 v = 1000000000
    · have hlt : UMap.val d1 u + 1 < UMap.val d1 v := by
        rw [hinf, hl.at_u]
        exact hl.bound
      rw [if_pos hlt, if_neg (by decide), if_pos hinf]
      have huv : u ≠ v := by
        intro e
        rw [e] at hlt
        omega
      have hv1 : ∀ x, UMap.val (UMap.set (UMap.index (UMap.index d1 u).2 v).2 v
          (UMap.val d1 u + 1)) x = if x = v then UMap.val d1 u + 1 else UMap.val d1 x := by
        intro x
        rw [UMap.val_set, hv2]
      have hq : ∀ x ∈ q, x ≠ v := by
        intro x hx e
        have := (hl.in_q x hx).2
        have hb := hl.bound
        rw [e, hinf] at this
        omega
      apply ih _ _ _ hw'
      · intro x
        rw [hv1, UMap.val_set, hv x]
      · refine
          { at_u := ?_
            low := hl.low
            bound := hl.bound
            in_q := ?_
            sorted := ?_
            all := ?_ }
        · rw [hv1]
          simp only [huv, if_false]
          exact hl.at_u
        · intro x hx
          rw [hv1]
          rcases List.mem_append.1 hx with hx | hx
          · simp only [hq x hx, if_false]
            exact hl.in_q x hx
          · rw [List.mem_singleton] at hx
            simp only [hx, if_true]
            rw [hl.at_u]
            omega
        · rw [List.pairwise_append]
          refine ⟨?_, List.pairwise_singleton _ _, ?_⟩
          · apply hl.sorted.imp_of_mem
            intro a b ha hb hab
            rw [hv1, hv1]
            simp only [hq a ha, hq b hb, if_false]
            exact hab
          · intro a ha b hb
            rw [List.mem_singleton] at hb
            rw [hv1, hv1]
            simp only [hq a ha, hb, if_false, if_true]
            have := (hl.in_q a ha).2
            rw [hl.at_u]
            exact this
        · intro x
          rw [hv1]
          by_cases e : x = v
          · simp only [e, if_true]
            right
            rw [hl.at_u]
          · simp only [e, if_false]
            exact hl.all x
    · have hlt : ¬ UMap.val d1 u + 1 < UMap.val d1 v := by
        rcases hl.all v with h | h
        · exact absurd h hinf
        · rw [hl.at_u]
          omega
      rw [if_neg hlt, if_neg hinf]
      apply ih _ _ _ hw'
      · intro x
        rw [hv2, hv x]
      · exact
          { at_u := by rw [hv2]; exact hl.at_u
            low := hl.low
            bound := hl.bound
            in_q := fun x hx => by rw [hv2]; exact hl.in_q x hx
            sorted := by
              apply hl.sorted.imp
              intro a b hab
              rw [hv2, hv2]
              exact hab
            all := fun x => by rw [hv2]; exact hl.all x }

theorem plain_bfs_loop_nil (adj : UMap Int (List (Int × Int))) (fuel : Nat)
    (d : UMap Int Int) : plain_bfs_loop adj fuel d [] = some d := by
  cases fuel <;> rfl

theorem UMap.val_of_find {K : Type} [DecidableEq K] {m : UMap K Int} {k : K} {a : Int}
    (h : UMap.find m k = some a) : UMap.val m k = a := by
  unfold UMap.val
  rw [h]

theorem plain_bfs_visit_keys (u : Int) (nbrs : List (Int × Int)) :
    ∀ (d : UMap Int Int) (q : List Int) (x : Int), (∃ a, UMap.find d x = some a) →
      ∃ a, UMap.find (plain_bfs_visit u nbrs d q).1 x = some a := by
  induction nbrs with
  | nil => intro d q x h; exact h
  | cons e rest ih =>
    intro d q x h
    obtain ⟨v, w⟩ := e
    rw [plain_bfs_visit]
    split_ifs
    · apply ih
      rw [UMap.find_set]
      by_cases e : x = v
      · exact ⟨UMap.val d u + 1, by simp [e]⟩
      · simp only [e, if_false]
        exact h
    · exact ih _ _ _ h

theorem plain_bfs_loop_keys (adj : UMap Int (List (Int × Int))) (fuel : Nat) :
    ∀ (d : UMap Int Int) (q : List Int) (r : UMap Int Int),
      plain_bfs_loop adj fuel d q = some r →
      ∀ x, (∃ a, UMap.find d x = some a) → ∃ a, UMap.find r x = some a := by
  induction fuel with
  | zero =>
    intro d q r hr x h
    cases q with
    | nil =>
      rw [plain_bfs_loop_nil] at hr
      cases hr
      exact h
    | cons u rest => exact Option.noConfusion hr
  | succ fuel ih =>
    intro d q r hr x h
    cases q with
    | nil =>
      rw [plain_bfs_loop_nil] at hr
      cases hr
      exact h
    | cons u rest =>
      rw [plain_bfs_loop] at hr
      exact ih _ _ r hr x (plain_bfs_visit_keys u _ d rest x h)

/-- On an adjacency map whose weights are all 1, the deque search and the plain
breadth-first search started from related states return the same recorded distances. -/
theorem loop_lockstep (adj : UMap Int (List (Int × Int))) (start : Int) (S : List Int)
    (hw1 : ∀ x e, e ∈ nbrs_of adj x → e.2 = 1) (hsize : S.length < 1000000000)
    (fuel : Nat) :
    ∀ (d1 d2 : UMap Int Int) (q : List Int), BfsCore adj start S d1 q →
      (∃ L : Int, (∀ x ∈ q, L ≤ UMap.val d1 x ∧ UMap.val d1 x ≤ L + 1) ∧
        q.Pairwise (fun a b => UMap.val d1 a ≤ UMap.val d1 b) ∧
        ∀ v, UMap.val d1 v = 1000000000 ∨ UMap.val d1 v ≤ L + 1) →
      (∀ x, UMap.val d1 x = UMap.val d2 x) →
      ∀ r1, bfs_loop adj fuel d1 q = some r1 →
        ∃ r2, plain_bfs_loop adj fuel d2 q = some r2 ∧
          ∀ x, UMap.val r1 x = UMap.val r2 x := by
  induction fuel with
  | zero =>
    intro d1 d2 q _ _ hv r1 hr
    cases q with
    | nil =>
      rw [bfs_loop_nil] at hr
      cases hr
      exact ⟨d2, plain_bfs_loop_nil adj _ d2, hv⟩
    | cons u rest => exact Option.noConfusion hr
  | succ fuel ih =>
    intro d1 d2 q core hlev hv r1 hr
    cases q with
    | nil =>
      rw [bfs_loop_nil] at hr
      cases hr
      exact ⟨d2, plain_bfs_loop_nil adj _ d2, hv⟩
    | cons u rest =>
      obtain ⟨L, hin, hsorted, hall⟩ := hlev
      obtain ⟨huS, hdu⟩ := core.queue_in u (List.mem_cons_self _ _)
      have hLu := hin u (List.mem_cons_self _ _)
      have hbound : UMap.val d1 u + 1 < 1000000000 := by
        have h1 := core.counted u huS hdu
        have h2 := discovered_card_le S d1
        omega
      have hlevel : BfsLevel (UMap.val d1 u) u d1 rest :=
        { at_u := rfl
          low := core.nonneg u
          bound := hbound
          in_q := by
            intro x hx
            have h1 := (List.pairwise_cons.1 hsorted).1 x hx
            have h2 := (hin x (List.mem_cons_of_mem _ hx)).2
            omega
          sorted := (List.pairwise_cons.1 hsorted).2
          all := by
            intro v
            rcases hall v with h | h
            · exact Or.inl h
            · right; omega }
      obtain ⟨c1, _, _⟩ := bfs_relax_inv adj start S u huS (nbrs_of adj u) d1 rest
        (fun e he => he) (fun e he => Or.inr (hw1 u e he)) core.tail hdu
      obtain ⟨hq, hv', hl'⟩ := relax_lockstep (UMap.val d1 u) u (nbrs_of adj u) d1 d2 rest
        (fun e he => hw1 u e he) hv hlevel
      rw [bfs_loop_succ] at hr
      rw [plain_bfs_loop, ← hq]
      exact ih _ _ _ c1 ⟨UMap.val d1 u, hl'.in_q, hl'.sorted, hl'.all⟩ hv' r1 hr

/-- C6, amended by a bound on the size of the registry: when every route has capacity
above 0 (every edge weight is 1) and the registry has fewer than 999999999 nodes, the deque-based `bfs_distances_from` and the plain
unweighted breadth-first search (FIFO queue, each distance set once on first discovery)
from the same start both return once given enough iterations, and their distances are
identical node for node: the same value is read under every node, and every member of
`all_buildings` and the start have the same entry in both maps. -/
theorem deque_search_equals_plain_bfs (all_buildings : List Int)
    (routes : List (Int × Int × Int)) (start : Int)
    (hcap : ∀ t ∈ routes, t.2.2 > 0)
    (hsize : all_buildings.length + 1 < 1000000000) :
    ∃ fuel0 : Nat, ∀ fuel, fuel0 ≤ fuel →
      ∃ d1 d2,
        bfs_distances_from all_buildings fuel start
          (build_adjacency all_buildings routes) = some d1 ∧
        plain_bfs_distances_from all_buildings fuel start
          (build_adjacency all_buildings routes) = some d2 ∧
        (∀ b, UMap.val d1 b = UMap.val d2 b) ∧
        ∀ b ∈ start :: all_buildings, ∃ x, UMap.find d1 b = some x ∧ UMap.find d2 b = some x := by
  have hw1 : ∀ x e, e ∈ nbrs_of (build_adjacency all_buildings routes) x → e.2 = 1 := by
    intro x e he
    obtain ⟨t, ht, _, hw⟩ := (build_adjacency_edges all_buildings routes x e.1 e.2).1 he
    rw [hw, if_pos (hcap t ht)]
  have c0 := BfsCore.init_state (build_adjacency all_buildings routes) all_buildings start
  refine ⟨(2 * potential (start :: all_buildings) (bfs_init_dist all_buildings start)
    + 1).toNat, ?_⟩
  intro fuel hfuel
  have hp := potential_nonneg (start :: all_buildings) c0.nonneg
  have hm : 2 * potential (start :: all_buildings) (bfs_init_dist all_buildings start) +
      (([start] : List Int).length : Int) ≤ fuel := by
    simp only [List.length_singleton]
    push_cast
    omega
  obtain ⟨d1, hd1, core, _⟩ := bfs_loop_inv (build_adjacency all_buildings routes) start
    (start :: all_buildings) (fun x e he => Or.inr (hw1 x e he)) fuel _ _ c0 hm
  have hlev : ∃ L : Int,
      (∀ x ∈ [start], L ≤ UMap.val (bfs_init_dist all_buildings start) x ∧
        UMap.val (bfs_init_dist all_buildings start) x ≤ L + 1) ∧
      [start].Pairwise (fun a b => UMap.val (bfs_init_dist all_buildings start) a ≤
        UMap.val (bfs_init_dist all_buildings start) b) ∧
      ∀ v, UMap.val (bfs_init_dist all_buildings start) v = 1000000000 ∨
        UMap.val (bfs_init_dist all_buildings start) v ≤ L + 1 := by
    refine ⟨0, ?_, List.pairwise_singleton _ _, ?_⟩
    · intro x hx
      rw [List.mem_singleton] at hx
      rw [hx, c0.start0]
      omega
    · intro v
      rw [val_init]
      split_ifs
      · right; omega
      · left; rfl
      · right; omega
  obtain ⟨d2, hd2, hv⟩ := loop_lockstep (build_adjacency all_buildings routes) start
    (start :: all_buildings) hw1 (by simp only [List.length_cons]; omega) fuel _
    (bfs_init_dist all_buildings start) _ c0 hlev (fun _ => rfl) d1 hd1
  refine ⟨d1, d2, hd1, hd2, hv, ?_⟩
  intro b hb
  obtain ⟨a, ha⟩ := plain_bfs_loop_keys _ fuel _ _ d2 hd2 b ⟨_, c0.keys b hb⟩
  refine ⟨UMap.val d1 b, core.keys b hb, ?_⟩
  rw [ha, hv b, UMap.val_of_find ha]

theorem deque_search_equals_plain_bfs_witness :
    ∃ fuel0 : Nat, ∀ fuel, fuel0 ≤ fuel →
      ∃ d1 d2,
        bfs_distances_from [1, 2, 3, 4, 5] fuel 3
          (build_adjacency [1, 2, 3, 4, 5] [(1, 2, 1), (2, 3, 1), (3, 4, 2), (1, 4, 1)]) =
            some d1 ∧
        plain_bfs_distances_from [1, 2, 3, 4, 5] fuel 3
          (build_adjacency [1, 2, 3, 4, 5] [(1, 2, 1), (2, 3, 1), (3, 4, 2), (1, 4, 1)]) =
            some d2 ∧
        (∀ b, UMap.val d1 b = UMap.val d2 b) ∧
        ∀ b ∈ (3 : Int) :: [1, 2, 3, 4, 5],
          ∃ x, UMap.find d1 b = some x ∧ UMap.find d2 b = some x :=
  deque_search_equals_plain_bfs [1, 2, 3, 4, 5] [(1, 2, 1), (2, 3, 1), (3, 4, 2), (1, 4, 1)] 3
    (by decide) (by decide)

/-! ### The sentinel on a long chain -/

theorem mem_chain_nodes (n : Nat) (x : Int) : x ∈ chain_nodes n ↔ 0 ≤ x ∧ x ≤ n := by
  unfold chain_nodes
  rw [List.mem_map]
  constructor
  · rintro ⟨i, hi, rfl⟩
    rw [List.mem_range] at hi
    constructor
    · exact Int.ofNat_nonneg i
    · have : (i : Int) < (n : Int) + 1 := by exact_mod_cast hi
      omega
  · rintro ⟨h0, h1⟩
    refine ⟨x.toNat, ?_, ?_⟩
    · rw [List.mem_range]
      omega
    · exact Int.toNat_of_nonneg h0

theorem mem_chain_routes (n : Nat) (u v c : Int) :
    (u, v, c) ∈ chain_routes n ↔ ∃ i : Nat, i < n ∧ u = i ∧ v = (i : Int) + 1 ∧ c = 1 := by
  unfold chain_routes
  rw [List.mem_map]
  constructor
  · rintro ⟨i, hi, he⟩
    rw [List.mem_range] at hi
    simp only [Prod.mk.injEq] at he
    exact ⟨i, hi, he.1.symm, he.2.1.symm, he.2.2.symm⟩
  · rintro ⟨i, hi, h1, h2, h3⟩
    refine ⟨i, List.mem_range.2 hi, ?_⟩
    rw [h1, h2, h3]

theorem chain_routes_registered (n : Nat) :
    ∀ t ∈ chain_routes n, t.1 ∈ chain_nodes n ∧ t.2.1 ∈ chain_nodes n := by
  rintro ⟨u, v, c⟩ ht
  obtain ⟨i, hi, rfl, rfl, rfl⟩ := (mem_chain_routes n u v c).1 ht
  simp only [mem_chain_nodes]
  omega

/-- On a chain every walk from node 0 to node `v` costs at least `v`. -/
theorem chain_walk_lower (n : Nat) (v c : Int) (h : RouteWalk (chain_routes n) 0 v c) :
    v ≤ c := by
  induction h with
  | nil => exact le_refl _
  | forward _ ht ih =>
    obtain ⟨i, _, h1, h2, h3⟩ := (mem_chain_routes n _ _ _).1 ht
    subst h3
    simp only [gt_iff_lt, zero_lt_one, if_true]
    omega
  | backward _ ht ih =>
    obtain ⟨i, _, h1, h2, h3⟩ := (mem_chain_routes n _ _ _).1 ht
    subst h3
    simp only [gt_iff_lt, zero_lt_one, if_true]
    omega

theorem chain_walk_reach (n : Nat) : ∀ k : Nat, k ≤ n →
    RouteWalk (chain_routes n) 0 (k : Int) (k : Int) := by
  intro k
  induction k with
  | zero => intro _; exact RouteWalk.nil
  | succ k ih =>
    intro hk
    have h1 := ih (by omega)
    have hm : ((k : Int), (k : Int) + 1, (1 : Int)) ∈ chain_routes n :=
      (mem_chain_routes n _ _ _).2 ⟨k, by omega, rfl, rfl, rfl⟩
    have h2 := RouteWalk.forward h1 hm
    simp only [gt_iff_lt, zero_lt_one, if_true] at h2
    push_cast
    exact h2

theorem build_adjacency_weights (ab : List Int) (routes : List (Int × Int × Int)) :
    ∀ x e, e ∈ nbrs_of (build_adjacency ab routes) x → e.2 = 0 ∨ e.2 = 1 := by
  intro x e he
  obtain ⟨t, _, _, hw⟩ := (build_adjacency_edges ab routes x e.1 e.2).1 he
  rw [hw]
  split_ifs
  · exact Or.inr rfl
  · exact Or.inl rfl

/-- Whatever the size of the graph, the deque search returns with enough fuel and its result
satisfies the invariant of the search. -/
theorem bfs_distances_from_core (ab : List Int) (routes : List (Int × Int × Int))
    (start : Int) :
    ∃ fuel0 : Nat, ∀ fuel, fuel0 ≤ fuel →
      ∃ dist, bfs_distances_from ab fuel start (build_adjacency ab routes) = some dist ∧
        BfsCore (build_adjacency ab routes) start (start :: ab) dist [] := by
  have c0 := BfsCore.init_state (build_adjacency ab routes) ab start
  refine ⟨(2 * potential (start :: ab) (bfs_init_dist ab start) + 1).toNat, ?_⟩
  intro fuel hfuel
  have hp := potential_nonneg (start :: ab) c0.nonneg
  have hm : 2 * potential (start :: ab) (bfs_init_dist ab start) +
      (([start] : List Int).length : Int) ≤ fuel := by
    simp only [List.length_singleton]
    push_cast
    omega
  obtain ⟨dist, hd, core, _⟩ := bfs_loop_inv (build_adjacency ab routes) start (start :: ab)
    (build_adjacency_weights ab routes) fuel _ _ c0 hm
  exact ⟨dist, hd, core⟩

/-- On the chain `0 .. 1000000001` the deque search from node 0 returns the sentinel for the
last node. -/
theorem bfs_chain_last_entry :
    ∃ fuel0 : Nat, ∀ fuel, fuel0 ≤ fuel →
      ∃ dist, bfs_distances_from (chain_nodes 1000000001) fuel 0
          (build_adjacency (chain_nodes 1000000001) (chain_routes 1000000001)) = some dist ∧
        UMap.find dist 1000000001 = some 1000000000 := by
  obtain ⟨fuel0, h⟩ := bfs_distances_from_core (chain_nodes 1000000001)
    (chain_routes 1000000001) 0
  refine ⟨fuel0, ?_⟩
  intro fuel hfuel
  obtain ⟨dist, hd, core⟩ := h fuel hfuel
  refine ⟨dist, hd, ?_⟩
  have hmem : (1000000001 : Int) ∈ (0 : Int) :: chain_nodes 1000000001 :=
    List.mem_cons_of_mem _ ((mem_chain_nodes _ _).2 ⟨by decide, by decide⟩)
  rw [core.keys _ hmem]
  rcases core.realized _ hmem with h1 | h1
  · rw [h1]
  · exfalso
    have h2 := chain_walk_lower _ _ _ ((adjWalk_iff_routeWalk _ _ _ _ _).1 h1)
    have h3 := core.le_inf 1000000001
    omega

/-- Counterexample to C5 as stated: on the chain `0 - 1 - ... - 1000000001` (all route
endpoints registered, all capacities 1) searched from node 0, the last node is registered
and reachable, every walk to it costs at least 1000000001, yet the search returns the
sentinel 1000000000 for it; so the statement of C5 fails on this input. -/
theorem bfs_sentinel_counterexample :
    (∀ t ∈ chain_routes 1000000001,
        t.1 ∈ chain_nodes 1000000001 ∧ t.2.1 ∈ chain_nodes 1000000001) ∧
      (1000000001 : Int) ∈ chain_nodes 1000000001 ∧
      RouteWalk (chain_routes 1000000001) 0 1000000001 1000000001 ∧
      (∀ c, RouteWalk (chain_routes 1000000001) 0 1000000001 c → 1000000001 ≤ c) ∧
      (∃ fuel0 : Nat, ∀ fuel, fuel0 ≤ fuel →
        ∃ dist, bfs_distances_from (chain_nodes 1000000001) fuel 0
            (build_adjacency (chain_nodes 1000000001) (chain_routes 1000000001)) = some dist ∧
          UMap.find dist 1000000001 = some 1000000000) ∧
      ¬ ∃ fuel0 : Nat, ∀ fuel, fuel0 ≤ fuel →
        ∃ dist, bfs_distances_from (chain_nodes 1000000001) fuel 0
            (build_adjacency (chain_nodes 1000000001) (chain_routes 1000000001)) = some dist ∧
          ∀ b ∈ chain_nodes 1000000001,
            ((∃ c, RouteWalk (chain_routes 1000000001) 0 b c) →
              ∃ d, UMap.find dist b = some d ∧ RouteWalk (chain_routes 1000000001) 0 b d ∧
                ∀ c, RouteWalk (chain_routes 1000000001) 0 b c → d ≤ c) ∧
            ((¬ ∃ c, RouteWalk (chain_routes 1000000001) 0 b c) →
              UMap.find dist b = some 1000000000) := by
  have hmem : (1000000001 : Int) ∈ chain_nodes 1000000001 :=
    (mem_chain_nodes _ _).2 ⟨by decide, by decide⟩
  have hreach : RouteWalk (chain_routes 1000000001) 0 1000000001 1000000001 :=
    chain_walk_reach 1000000001 1000000001 (le_refl _)
  refine ⟨chain_routes_registered _, hmem, hreach, fun c hc => chain_walk_lower _ _ _ hc,
    bfs_chain_last_entry, ?_⟩
  rintro ⟨fuel0, h⟩
  obtain ⟨fuel1, h1⟩ := bfs_chain_last_entry
  obtain ⟨dist, hd, hall⟩ := h (max fuel0 fuel1) (le_max_left _ _)
  obtain ⟨dist', hd', hlast⟩ := h1 (max fuel0 fuel1) (le_max_right _ _)
  rw [hd] at hd'
  cases hd'
  obtain ⟨d, hfind, hwalk, _⟩ := (hall _ hmem).1 ⟨_, hreach⟩
  have hlow := chain_walk_lower _ _ _ hwalk
  rw [hlast] at hfind
  cases hfind
  exact absurd hlow (by decide)

theorem chain_routes_succ (n : Nat) :
    chain_routes (n + 1) = chain_routes n ++ [((n : Int), (n : Int) + 1, 1)] := by
  unfold chain_routes
  rw [List.range_succ, List.map_append]
  rfl

theorem chain_fold_nbrs (n : Nat) :
    ∀ adj : UMap Int (List (Int × Int)), (∀ x, nbrs_of adj x = []) → ∀ k : Nat,
      nbrs_of ((chain_routes n).foldl
        (fun adj t =>
          adjacency_push (adjacency_push adj t.1 (t.2.1, if t.2.2 > 0 then 1 else 0)) t.2.1
            (t.1, if t.2.2 > 0 then 1 else 0)) adj) (k : Int) =
        (if 1 ≤ k ∧ k ≤ n then [((k : Int) - 1, (1 : Int))] else []) ++
          (if k < n then [((k : Int) + 1, (1 : Int))] else []) := by
  induction n with
  | zero =>
    intro adj h k
    have e : chain_routes 0 = [] := rfl
    rw [e]
    simp only [List.foldl_nil, h]
    have h1 : ¬ (1 ≤ k ∧ k ≤ 0) := by omega
    have h2 : ¬ k < 0 := by omega
    rw [if_neg h1, if_neg h2]
    rfl
  | succ n ih =>
    intro adj h k
    rw [chain_routes_succ, List.foldl_append]
    simp only [List.foldl_cons, List.foldl_nil, nbrs_of_adjacency_push]
    have in_n := ih adj h n
    have in_n1 := ih adj h (n + 1)
    have in_k := ih adj h k
    have one : (if (1 : Int) > 0 then (1 : Int) else 0) = 1 := by decide
    simp only [one]
    by_cases e1 : k = n + 1
    · subst e1
      have c1 : ((n + 1 : Nat) : Int) = (n : Int) + 1 := by push_cast; rfl
      have c2 : ¬ ((n : Int) + 1 = (n : Int)) := by omega
      rw [if_pos c1, if_neg c2]
      have hh := in_n1
      rw [c1] at hh ⊢
      rw [hh]
      have a1 : ¬ (1 ≤ n + 1 ∧ n + 1 ≤ n) := by omega
      have a2 : ¬ (n + 1 < n) := by omega
      have a3 : (1 ≤ n + 1 ∧ n + 1 ≤ n + 1) := by omega
      have a4 : ¬ (n + 1 < n + 1) := by omega
      simp [a1, a2, a3, a4]
    · have c1 : ¬ ((k : Int) = (n : Int) + 1) := by
        intro e
        apply e1
        have : (k : Int) = ((n + 1 : Nat) : Int) := by push_cast; exact e
        exact_mod_cast this
      rw [if_neg c1]
      by_cases e2 : k = n
      · subst e2
        rw [if_pos rfl, in_k]
        have a2 : ¬ (k < k) := by omega
        have a4 : k < k + 1 := by omega
        by_cases a1 : 1 ≤ k
        · have a1' : 1 ≤ k ∧ k ≤ k := ⟨a1, le_refl _⟩
          have a3 : 1 ≤ k ∧ k ≤ k + 1 := by omega
          simp [a1', a2, a3, a4]
        · have a1' : ¬ (1 ≤ k ∧ k ≤ k) := by omega
          have a3 : ¬ (1 ≤ k ∧ k ≤ k + 1) := by omega
          simp [a1', a2, a3, a4]
      · have c2 : ¬ ((k : Int) = (n : Int)) := by
          intro e
          apply e2
          exact_mod_cast e
        rw [if_neg c2, in_k]
        by_cases a1 : 1 ≤ k ∧ k ≤ n
        · have a3 : 1 ≤ k ∧ k ≤ n + 1 := by omega
          have a2 : k < n := by omega
          have a4 : k < n + 1 := by omega
          simp [a1, a2, a3, a4]
        · have a3 : ¬ (1 ≤ k ∧ k ≤ n + 1) := by omega
          by_cases a2 : k < n
          · have a4 : k < n + 1 := by omega
            simp [a1, a2, a3, a4]
          · have a4 : ¬ k < n + 1 := by omega
            simp [a1, a2, a3, a4]

/-- Neighbour lists of the adjacency map of a chain: the predecessor, then the successor. -/
theorem chain_nbrs (ab : List Int) (n k : Nat) :
    nbrs_of (build_adjacency ab (chain_routes n)) (k : Int) =
      (if 1 ≤ k ∧ k ≤ n then [((k : Int) - 1, (1 : Int))] else []) ++
        (if k < n then [((k : Int) + 1, (1 : Int))] else []) := by
  unfold build_adjacency
  simp only []
  exact chain_fold_nbrs n _ (nbrs_of_init ab [] (fun x => rfl)) k

theorem plain_bfs_visit_cons (u v w : Int) (rest : List (Int × Int)) (d : UMap Int Int)
    (q : List Int) :
    plain_bfs_visit u ((v, w) :: rest) d q =
      if UMap.val d v = 1000000000 then
        plain_bfs_visit u rest (UMap.set d v (UMap.val d u + 1)) (q ++ [v])
      else plain_bfs_visit u rest d q := by
  rw [plain_bfs_visit]

theorem plain_bfs_loop_cons (adj : UMap Int (List (Int × Int))) (fuel : Nat)
    (d : UMap Int Int) (u : Int) (q : List Int) :
    plain_bfs_loop adj (fuel + 1) d (u :: q) =
      plain_bfs_loop adj fuel (plain_bfs_visit u (nbrs_of adj u) d q).1
        (plain_bfs_visit u (nbrs_of adj u) d q).2 := by
  rw [plain_bfs_loop]

/-- One round of the plain search on a chain: dequeuing node `k` discovers node `k + 1` at
distance `k + 1`. -/
theorem plain_chain_step (ab : List Int) (n k : Nat) (hkn : k < n)
    (hk : k ≤ 1000000000) (d : UMap Int Int) (f : Nat) (hp : chain_profile n k d) :
    plain_bfs_loop (build_adjacency ab (chain_routes n)) (f + 1) d [(k : Int)] =
        plain_bfs_loop (build_adjacency ab (chain_routes n)) f
          (UMap.set d ((k : Int) + 1) ((k : Int) + 1)) [((k + 1 : Nat) : Int)] ∧
      chain_profile n (k + 1) (UMap.set d ((k : Int) + 1) ((k : Int) + 1)) := by
  have c : ((k + 1 : Nat) : Int) = (k : Int) + 1 := by push_cast; rfl
  have vk : UMap.val d (k : Int) = k := by
    rw [hp]
    have : 0 ≤ (k : Int) ∧ (k : Int) ≤ k := ⟨Int.ofNat_nonneg k, le_refl _⟩
    rw [if_pos this]
  have vk1 : UMap.val d ((k : Int) + 1) = 1000000000 := by
    rw [hp]
    have h1 : ¬ (0 ≤ (k : Int) + 1 ∧ (k : Int) + 1 ≤ k) := by omega
    have h2 : (k : Int) < (k : Int) + 1 ∧ (k : Int) + 1 ≤ n := by omega
    rw [if_neg h1, if_pos h2]
  constructor
  · rw [plain_bfs_loop_cons, chain_nbrs, if_pos hkn, c]
    by_cases h1 : 1 ≤ k ∧ k ≤ n
    · have vkm : UMap.val d ((k : Int) - 1) ≠ 1000000000 := by
        rw [hp]
        have : 0 ≤ (k : Int) - 1 ∧ (k : Int) - 1 ≤ k := by omega
        rw [if_pos this]
        omega
      rw [if_pos h1]
      simp only [List.singleton_append, plain_bfs_visit_cons, if_neg vkm, if_pos vk1,
        plain_bfs_visit, vk, List.nil_append]
    · rw [if_neg h1]
      simp only [List.nil_append, plain_bfs_visit_cons, if_pos vk1, plain_bfs_visit, vk]
  · intro x
    rw [UMap.val_set, hp]
    by_cases e : x = (k : Int) + 1
    · subst e
      have h1 : 0 ≤ (k : Int) + 1 ∧ (k : Int) + 1 ≤ ((k + 1 : Nat) : Int) := by
        rw [c]; omega
      rw [if_pos rfl, if_pos h1]
    · rw [if_neg e]
      by_cases h1 : 0 ≤ x ∧ x ≤ (k : Int)
      · have h2 : 0 ≤ x ∧ x ≤ ((k + 1 : Nat) : Int) := by rw [c]; omega
        rw [if_pos h1, if_pos h2]
      · have h2 : ¬ (0 ≤ x ∧ x ≤ ((k + 1 : Nat) : Int)) := by rw [c]; omega
        rw [if_neg h1, if_neg h2]
        by_cases h3 : (k : Int) < x ∧ x ≤ n
        · have h4 : ((k + 1 : Nat) : Int) < x ∧ x ≤ n := by rw [c]; omega
          rw [if_pos h3, if_pos h4]
        · have h4 : ¬ (((k + 1 : Nat) : Int) < x ∧ x ≤ n) := by rw [c]; omega
          rw [if_neg h3, if_neg h4]

/-- The last two rounds of the plain search on the chain `0 .. 1000000001`: dequeuing the
last node finds its predecessor at distance 1000000000, which is the sentinel, and sets it
again; the last node keeps the distance 1000000001. -/
theorem plain_chain_tail (ab : List Int) (n : Nat) (hn : n = 1000000001)
    (d : UMap Int Int) (hp : chain_profile n n d) (f : Nat) :
    ∃ d', plain_bfs_loop (build_adjacency ab (chain_routes n)) (f + 2) d [(n : Int)] =
        some d' ∧ UMap.val d' (n : Int) = n := by
  have c : (n : Int) - 1 = ((n - 1 : Nat) : Int) := by omega
  have vn : UMap.val d (n : Int) = n := by
    rw [hp]
    have : 0 ≤ (n : Int) ∧ (n : Int) ≤ n := ⟨Int.ofNat_nonneg n, le_refl _⟩
    rw [if_pos this]
  have vn1 : UMap.val d ((n : Int) - 1) = 1000000000 := by
    rw [hp]
    have : 0 ≤ (n : Int) - 1 ∧ (n : Int) - 1 ≤ n := by omega
    rw [if_pos this]
    omega
  have vn2 : UMap.val d ((n : Int) - 1 - 1) ≠ 1000000000 := by
    rw [hp]
    have : 0 ≤ (n : Int) - 1 - 1 ∧ (n : Int) - 1 - 1 ≤ n := by omega
    rw [if_pos this]
    omega
  have a1 : 1 ≤ n ∧ n ≤ n := by omega
  have a2 : ¬ n < n := by omega
  have a3 : 1 ≤ n - 1 ∧ n - 1 ≤ n := by omega
  have a4 : n - 1 < n := by omega
  have w1 : UMap.val (UMap.set d ((n : Int) - 1) ((n : Int) + 1)) ((n : Int) - 1 - 1) ≠
      1000000000 := by
    rw [UMap.val_set]
    have : ¬ ((n : Int) - 1 - 1 = (n : Int) - 1) := by omega
    rw [if_neg this]
    exact vn2
  have w2 : UMap.val (UMap.set d ((n : Int) - 1) ((n : Int) + 1)) ((n : Int) - 1 + 1) ≠
      1000000000 := by
    rw [UMap.val_set]
    have : ¬ ((n : Int) - 1 + 1 = (n : Int) - 1) := by omega
    have e : (n : Int) - 1 + 1 = n := by omega
    rw [if_neg this, e, vn]
    omega
  refine ⟨UMap.set d ((n : Int) - 1) ((n : Int) + 1), ?_, ?_⟩
  · rw [plain_bfs_loop_cons, chain_nbrs, if_pos a1, if_neg a2]
    simp only [List.append_nil, plain_bfs_visit_cons, if_pos vn1, plain_bfs_visit, vn,
      List.nil_append]
    rw [c, plain_bfs_loop_cons, chain_nbrs, if_pos a3, if_pos a4, ← c]
    simp only [List.singleton_append, plain_bfs_visit_cons, if_neg w1, if_neg w2,
      plain_bfs_visit]
    exact plain_bfs_loop_nil _ _ _
  · rw [UMap.val_set]
    have : ¬ ((n : Int) = (n : Int) - 1) := by omega
    rw [if_neg this, vn]

/-- The plain search on the chain `0 .. 1000000001`, resumed when node `k` has just been
discovered, returns with distance 1000000001 at the last node. -/
theorem plain_chain_run (ab : List Int) (n : Nat) (hn : n = 1000000001) (m : Nat) :
    ∀ (k : Nat) (d : UMap Int Int) (fuel : Nat), k + m = n → chain_profile n k d →
      m + 2 ≤ fuel →
      ∃ d', plain_bfs_loop (build_adjacency ab (chain_routes n)) fuel d [(k : Int)] =
          some d' ∧ UMap.val d' (n : Int) = n := by
  induction m with
  | zero =>
    intro k d fuel hk hp hf
    have e : k = n := by omega
    subst e
    obtain ⟨f, rfl⟩ : ∃ f, fuel = f + 2 := ⟨fuel - 2, by omega⟩
    exact plain_chain_tail ab k hn d hp f
  | succ m ih =>
    intro k d fuel hk hp hf
    obtain ⟨f, rfl⟩ : ∃ f, fuel = f + 1 := ⟨fuel - 1, by omega⟩
    obtain ⟨hstep, hprof⟩ := plain_chain_step ab n k (by omega) (by omega) d f hp
    rw [hstep]
    exact ih (k + 1) _ f (by omega) hprof (by omega)

theorem chain_profile_init (n : Nat) : chain_profile n 0 (bfs_init_dist (chain_nodes n) 0) := by
  intro x
  rw [val_init]
  by_cases h0 : x = 0
  · subst h0
    simp
  · rw [if_neg h0]
    have h1 : ¬ (0 ≤ x ∧ x ≤ ((0 : Nat) : Int)) := by
      push_cast
      omega
    rw [if_neg h1]
    by_cases h2 : x ∈ chain_nodes n
    · have h3 := (mem_chain_nodes n x).1 h2
      have h4 : ((0 : Nat) : Int) < x ∧ x ≤ n := by push_cast; omega
      rw [if_pos h2, if_pos h4]
    · have h4 : ¬ (((0 : Nat) : Int) < x ∧ x ≤ n) := by
        intro hc
        apply h2
        rw [mem_chain_nodes]
        push_cast at hc
        omega
      rw [if_neg h2, if_neg h4]

/-- On the chain `0 .. 1000000001` the plain breadth-first search from node 0 returns with
the distance 1000000001 at the last node. -/
theorem plain_chain_last_entry (fuel : Nat) (hf : 1000000003 ≤ fuel) :
    ∃ d2, plain_bfs_distances_from (chain_nodes 1000000001) fuel 0
        (build_adjacency (chain_nodes 1000000001) (chain_routes 1000000001)) = some d2 ∧
      UMap.val d2 1000000001 = 1000000001 :=
  plain_chain_run (chain_nodes 1000000001) 1000000001 rfl 1000000001 0
    (bfs_init_dist (chain_nodes 1000000001) 0) fuel (by omega) (chain_profile_init _) hf

/-- Counterexample to C6 as stated: on the chain `0 - 1 - ... - 1000000001`, whose routes
all have capacity 1, both searches from node 0 return, the deque search with the sentinel
1000000000 at the last node and the plain breadth-first search with 1000000001 there; so
the two do not return identical distances and the statement of C6 fails on this input. -/
theorem deque_search_differs_on_long_chain :
    (∀ t ∈ chain_routes 1000000001, t.2.2 > 0) ∧
      (∃ fuel0 : Nat, ∀ fuel, fuel0 ≤ fuel →
        ∃ d1 d2,
          bfs_distances_from (chain_nodes 1000000001) fuel 0
            (build_adjacency (chain_nodes 1000000001) (chain_routes 1000000001)) = some d1 ∧
          plain_bfs_distances_from (chain_nodes 1000000001) fuel 0
            (build_adjacency (chain_nodes 1000000001) (chain_routes 1000000001)) = some d2 ∧
          UMap.val d1 1000000001 = 1000000000 ∧ UMap.val d2 1000000001 = 1000000001) ∧
      ¬ ∃ fuel0 : Nat, ∀ fuel, fuel0 ≤ fuel →
        ∃ d1 d2,
          bfs_distances_from (chain_nodes 1000000001) fuel 0
            (build_adjacency (chain_nodes 1000000001) (chain_routes 1000000001)) = some d1 ∧
          plain_bfs_distances_from (chain_nodes 1000000001) fuel 0
            (build_adjacency (chain_nodes 1000000001) (chain_routes 1000000001)) = some d2 ∧
          (∀ b, UMap.val d1 b = UMap.val d2 b) ∧
          ∀ b ∈ (0 : Int) :: chain_nodes 1000000001,
            ∃ x, UMap.find d1 b = some x ∧ UMap.find d2 b = some x := by
  obtain ⟨fuel1, h1⟩ := bfs_chain_last_entry
  have both : ∀ fuel, max fuel1 1000000003 ≤ fuel →
      ∃ d1 d2,
        bfs_distances_from (chain_nodes 1000000001) fuel 0
          (build_adjacency (chain_nodes 1000000001) (chain_routes 1000000001)) = some d1 ∧
        plain_bfs_distances_from (chain_nodes 1000000001) fuel 0
          (build_adjacency (chain_nodes 1000000001) (chain_routes 1000000001)) = some d2 ∧
        UMap.val d1 1000000001 = 1000000000 ∧ UMap.val d2 1000000001 = 1000000001 := by
    intro fuel hfuel
    obtain ⟨d1, hd1, hlast⟩ := h1 fuel (le_trans (le_max_left _ _) hfuel)
    obtain ⟨d2, hd2, hval⟩ := plain_chain_last_entry fuel (le_trans (le_max_right _ _) hfuel)
    exact ⟨d1, d2, hd1, hd2, UMap.val_of_find hlast, hval⟩
  refine ⟨?_, ⟨max fuel1 1000000003, both⟩, ?_⟩
  · rintro ⟨u, v, c⟩ ht
    obtain ⟨i, _, _, _, h3⟩ := (mem_chain_routes _ u v c).1 ht
    simp only [h3]
    exact Int.one_pos
  · rintro ⟨fuel0, h⟩
    obtain ⟨d1, d2, hd1, hd2, hv, _⟩ :=
      h (max fuel0 (max fuel1 1000000003)) (le_max_left _ _)
    obtain ⟨d1', d2', hd1', hd2', e1, e2⟩ :=
      both (max fuel0 (max fuel1 1000000003)) (le_max_right _ _)
    rw [hd1] at hd1'
    rw [hd2] at hd2'
    cases hd1'
    cases hd2'
    have h2 := hv 1000000001
    rw [e1, e2] at h2
    exact absurd h2 (by decide)

/-! ### Fields of the state after a commit of the Greedy Selector -/

theorem greedy_commit_g (ids : List Int) (s : TurnState) (c : Candidate) :
    (greedy_commit ids s c).g = s.g := by
  unfold greedy_commit
  by_cases h : c.type = "TUBE" <;> simp [h]

theorem greedy_commit_existing_tubes (ids : List Int) (s : TurnState) (c : Candidate) :
    (greedy_commit ids s c).existing_tubes =
      if c.type = "TUBE" then s.existing_tubes ++ [c.buildings] else s.existing_tubes := by
  unfold greedy_commit
  by_cases h : c.type = "TUBE" <;> simp [h]

theorem greedy_commit_degree (ids : List Int) (s : TurnState) (c : Candidate) :
    (greedy_commit ids s c).degree =
      if c.type = "TUBE" then bump_degree (bump_degree s.degree c.buildings.1) c.buildings.2
      else s.degree := by
  unfold greedy_commit
  by_cases h : c.type = "TUBE" <;> simp [h]

theorem greedy_commit_actions (ids : List Int) (s : TurnState) (c : Candidate) :
    (greedy_commit ids s c).actions =
      s.actions ++ [if c.type = "POD" then
        replace_first c.action "\x7bpod_id\x7d" (toString s.pod_id_counter) else c.action] := by
  unfold greedy_commit
  by_cases h : c.type = "TUBE" <;> simp [h]

theorem greedy_commit_pod_id_counter (ids : List Int) (s : TurnState) (c : Candidate) :
    (greedy_commit ids s c).pod_id_counter =
      if c.type = "POD" then next_pod_id ids (s.pod_id_counter + 1) else s.pod_id_counter := by
  unfold greedy_commit
  by_cases h : c.type = "TUBE" <;> simp [h]

theorem greedy_commit_actions_count (ids : List Int) (s : TurnState) (c : Candidate) :
    (greedy_commit ids s c).actions_count = UMap.increment s.actions_count c.type := by
  unfold greedy_commit
  by_cases h : c.type = "TUBE" <;> simp [h]

theorem greedy_commit_committed (ids : List Int) (s : TurnState) (c : Candidate) :
    (greedy_commit ids s c).committed = s.committed ++ [(c.type, c.cost)] := by
  unfold greedy_commit
  by_cases h : c.type = "TUBE" <;> simp [h]

theorem greedy_commit_remaining_resources (ids : List Int) (s : TurnState) (c : Candidate) :
    (greedy_commit ids s c).remaining_resources =
      wrap32 (s.remaining_resources - c.cost) := by
  unfold greedy_commit
  by_cases h : c.type = "TUBE" <;> simp [h]

theorem greedy_commit_existing_set (ids : List Int) (s : TurnState) (c : Candidate) :
    (greedy_commit ids s c).existing_set = s.existing_set := by
  unfold greedy_commit
  by_cases h : c.type = "TUBE" <;> simp [h]

theorem greedy_commit_MAX_PER_TYPE (ids : List Int) (s : TurnState) (c : Candidate) :
    (greedy_commit ids s c).MAX_PER_TYPE = s.MAX_PER_TYPE := by
  unfold greedy_commit
  by_cases h : c.type = "TUBE" <;> simp [h]

/-! ### The committing passes as a sequence of steps -/

theorem Reach.step_then {ids : List Int} {cands : List Candidate} {nb : List Int}
    {work : List (Int × Int × Int)} {s s1 s2 : TurnState}
    (h1 : PassStep ids cands nb work s s1) (h2 : Reach ids cands nb work s1 s2) :
    Reach ids cands nb work s s2 :=
  Relation.ReflTransGen.head h1 h2

/-- A property kept by every step of the passes holds in every state they reach. -/
theorem Reach.invariant {ids : List Int} {cands : List Candidate} {nb : List Int}
    {work : List (Int × Int × Int)} (P : TurnState → Prop)
    (hstep : ∀ s s', P s → PassStep ids cands nb work s s' → P s') {s s' : TurnState}
    (h : Reach ids cands nb work s s') (hs : P s) : P s' := by
  induction h with
  | refl => exact hs
  | tail _ hst ih => exact hstep _ _ ih hst

/-- Every step of the passes leaves the registries as they were. -/
theorem PassStep.g_eq {ids : List Int} {cands : List Candidate} {nb : List Int}
    {work : List (Int × Int × Int)} {s s' : TurnState}
    (h : PassStep ids cands nb work s s') : s'.g = s.g := by
  cases h with
  | read_counters t => rfl
  | read_count t => rfl
  | declare_existing_set => rfl
  | declare_covered_tubes c => rfl
  | greedy c h1 h2 h3 h4 h5 => exact greedy_commit_g ids _ c
  | fallback b best => rfl
  | sweep p b1 b2 => rfl

theorem Reach.registries_eq {ids : List Int} {cands : List Candidate} {nb : List Int}
    {work : List (Int × Int × Int)} {s s' : TurnState}
    (h : Reach ids cands nb work s s') : s'.g = s.g :=
  Reach.invariant (fun x => x.g = s.g) (fun _ _ hp hst => (PassStep.g_eq hst).trans hp) h rfl

/-! ### The Greedy Selector as a sequence of steps -/

theorem greedy_revalidate_valid (s : TurnState) (c : Candidate) (g1 : Globals)
    (h : greedy_revalidate s c = .ok (true, g1)) :
    c.type = "TUBE" → ValidLink s.g c.buildings.1 c.buildings.2 s.existing_tubes s.degree 5 := by
  intro ht
  unfold greedy_revalidate at h
  rw [if_pos ht] at h
  obtain ⟨b, hb, hv⟩ := tube_is_geometrically_valid_spec s.g c.buildings.1 c.buildings.2
    s.existing_tubes s.degree 5
  rw [hb] at h
  have hbt : b = true := by
    cases h
    rfl
  exact hv.1 hbt

/-- The Greedy Selector loop returns a state reached by steps of the passes. -/
theorem greedy_selector_reach (ids : List Int) (cands : List Candidate) (nb : List Int)
    (work : List (Int × Int × Int)) (cs : List Candidate) :
    (∀ c ∈ cs, c ∈ cands) → ∀ s : TurnState,
      ∃ s', greedy_selector ids cs s = .ok s' ∧ Reach ids cands nb work s s' := by
  induction cs with
  | nil =>
    intro _ s
    exact ⟨s, rfl, Relation.ReflTransGen.refl⟩
  | cons c rest ih =>
    intro hsub s
    have hrest : ∀ x ∈ rest, x ∈ cands := fun x hx => hsub x (List.mem_cons_of_mem _ hx)
    unfold greedy_selector
    by_cases hb : (s.actions.length : Int) ≥ 15
    · rw [if_pos hb]
      exact ⟨s, rfl, Relation.ReflTransGen.refl⟩
    rw [if_neg hb]
    have st : PassStep ids cands nb work s
        { s with
          actions_count := (UMap.index s.actions_count c.type).2
          MAX_PER_TYPE := (UMap.index s.MAX_PER_TYPE c.type).2 } :=
      PassStep.read_counters s c.type
    simp only [UMap.index_fst]
    by_cases hq : UMap.val s.actions_count c.type ≥ UMap.val s.MAX_PER_TYPE c.type
    · rw [if_pos hq]
      obtain ⟨s', h1, h2⟩ := ih hrest _
      exact ⟨s', h1, Reach.step_then st h2⟩
    rw [if_neg hq]
    by_cases hc : c.cost > s.remaining_resources
    · rw [if_pos hc]
      obtain ⟨s', h1, h2⟩ := ih hrest _
      exact ⟨s', h1, Reach.step_then st h2⟩
    rw [if_neg hc]
    obtain ⟨b, hv⟩ := greedy_revalidate_spec
      { s with
        actions_count := (UMap.index s.actions_count c.type).2
        MAX_PER_TYPE := (UMap.index s.MAX_PER_TYPE c.type).2 } c
    have hvalid := greedy_revalidate_valid
      { s with
        actions_count := (UMap.index s.actions_count c.type).2
        MAX_PER_TYPE := (UMap.index s.MAX_PER_TYPE c.type).2 } c
    simp only [hv]
    cases b with
    | false =>
      simp only [if_true]
      obtain ⟨s', h1, h2⟩ := ih hrest _
      exact ⟨s', h1, Reach.step_then st h2⟩
    | true =>
      simp only [Bool.true_eq_false, if_false]
      obtain ⟨s', h1, h2⟩ := ih hrest
        (greedy_commit ids
          { s with
            actions_count := (UMap.index s.actions_count c.type).2
            MAX_PER_TYPE := (UMap.index s.MAX_PER_TYPE c.type).2 } c)
      refine ⟨s', h1, Reach.step_then st (Reach.step_then ?_ h2)⟩
      refine PassStep.greedy _ c (hsub c (List.mem_cons_self _ _)) (not_le.1 hb) ?_
        (not_lt.1 hc) (hvalid _ hv)
      simp only [UMap.val_index_snd]
      exact not_le.1 hq

/-! ### The Fallback Connector as a sequence of steps -/

theorem squared_distance_of_find {g : Globals} {b other : Int} {pb po : Int × Int}
    (hb : UMap.find g.building_positions b = some pb)
    (ho : UMap.find g.building_positions other = some po) :
    squared_distance g b other =
      (po.1 - pb.1) * (po.1 - pb.1) + (po.2 - pb.2) * (po.2 - pb.2) := by
  unfold squared_distance
  rw [hb, ho]

theorem fallback_dist2_of_find {g : Globals} {b other : Int} {pb po : Int × Int}
    (hb : UMap.find g.building_positions b = some pb)
    (ho : UMap.find g.building_positions other = some po) :
    fallback_dist2 g b other =
      wrap64 (wrap32 (po.1 - pb.1) * wrap32 (po.1 - pb.1) +
        wrap32 (po.2 - pb.2) * wrap32 (po.2 - pb.2)) := by
  unfold fallback_dist2
  rw [hb, ho]

/-- What the inner scan of the Fallback Connector retains: the record it started with, or a
node of the list that passes every test, with its cost and squared distance; the retained
squared distance is at most that of every node of the list that passes every test. -/
theorem fallback_scan_result (b : Int) (pb : Int × Int) (es et : List (Int × Int))
    (degree : UMap Int Int) (R : Int) (g : Globals)
    (hb : UMap.find g.building_positions b = some pb) (l : List Int) :
    ∀ best : BestNeighbor,
      ∃ best', fallback_scan b pb es et degree R l g best = .ok (best', g) ∧
        (best' = best ∨
          (best'.best_neighbor ∈ l ∧ best'.best_neighbor ≠ b ∧
            UMap.count g.building_positions best'.best_neighbor ≠ 0 ∧
            (b, best'.best_neighbor) ∉ es ∧ ValidLink g b best'.best_neighbor et degree 5 ∧
            (tube_construction_cost g b best'.best_neighbor).1 ≤ R ∧
            best'.best_cost = (tube_construction_cost g b best'.best_neighbor).1 ∧
            best'.best_dist2 = fallback_dist2 g b best'.best_neighbor)) ∧
        best'.best_dist2 ≤ best.best_dist2 ∧
        ∀ other ∈ l, other ≠ b → UMap.count g.building_positions other ≠ 0 →
          (b, other) ∉ es → ValidLink g b other et degree 5 →
          (tube_construction_cost g b other).1 ≤ R →
          best'.best_dist2 ≤ fallback_dist2 g b other := by
  induction l with
  | nil =>
    intro best
    exact ⟨best, rfl, Or.inl rfl, le_refl _, fun _ h => absurd h (List.not_mem_nil _)⟩
  | cons other rest ih =>
    intro best
    unfold fallback_scan
    by_cases h1 : other = b ∨ UMap.count g.building_positions other = 0
    · rw [if_pos h1]
      obtain ⟨best', e, hor, hle, hall⟩ := ih best
      refine ⟨best', e, ?_, hle, ?_⟩
      · rcases hor with h | ⟨hm, h⟩
        · exact Or.inl h
        · exact Or.inr ⟨List.mem_cons_of_mem _ hm, h⟩
      · intro o ho hne hc
        rcases List.mem_cons.1 ho with e1 | e1
        · subst e1
          rcases h1 with h1 | h1
          · exact absurd h1 hne
          · exact absurd h1 hc
        · exact hall o e1 hne hc
    rw [if_neg h1]
    by_cases h2 : (b, other) ∈ es
    · rw [if_pos h2]
      obtain ⟨best', e, hor, hle, hall⟩ := ih best
      refine ⟨best', e, ?_, hle, ?_⟩
      · rcases hor with h | ⟨hm, h⟩
        · exact Or.inl h
        · exact Or.inr ⟨List.mem_cons_of_mem _ hm, h⟩
      · intro o ho hne hc hes
        rcases List.mem_cons.1 ho with e1 | e1
        · subst e1
          exact absurd h2 hes
        · exact hall o e1 hne hc hes
    rw [if_neg h2]
    obtain ⟨r, hr, hrv⟩ := tube_is_geometrically_valid_spec g b other et degree 5
    simp only [hr]
    cases r with
    | false =>
      simp only [if_true]
      obtain ⟨best', e, hor, hle, hall⟩ := ih best
      refine ⟨best', e, ?_, hle, ?_⟩
      · rcases hor with h | ⟨hm, h⟩
        · exact Or.inl h
        · exact Or.inr ⟨List.mem_cons_of_mem _ hm, h⟩
      · intro o ho hne hc hes hv
        rcases List.mem_cons.1 ho with e1 | e1
        · subst e1
          exact absurd (hrv.2 hv) (by decide)
        · exact hall o e1 hne hc hes hv
    | true =>
      have hvalid : ValidLink g b other et degree 5 := hrv.1 rfl
      simp only [Bool.true_eq_false, if_false, tube_construction_cost_snd]
      by_cases h3 : (tube_construction_cost g b other).1 > R
      · rw [if_pos h3]
        obtain ⟨best', e, hor, hle, hall⟩ := ih best
        refine ⟨best', e, ?_, hle, ?_⟩
        · rcases hor with h | ⟨hm, h⟩
          · exact Or.inl h
          · exact Or.inr ⟨List.mem_cons_of_mem _ hm, h⟩
        · intro o ho hne hc hes hv hcost
          rcases List.mem_cons.1 ho with e1 | e1
          · subst e1
            exact absurd hcost (not_le.2 h3)
          · exact hall o e1 hne hc hes hv hcost
      rw [if_neg h3]
      obtain ⟨po, hpo⟩ := UMap.find_of_count_ne_zero (fun e => h1 (Or.inr e))
      simp only [Globals.position_of_find hpo]
      have hd := fallback_dist2_of_find hb hpo
      by_cases h4 : wrap64 (wrap32 (po.1 - pb.1) * wrap32 (po.1 - pb.1) +
            wrap32 (po.2 - pb.2) * wrap32 (po.2 - pb.2)) <
          best.best_dist2
      · rw [if_pos h4]
        obtain ⟨best', e, hor, hle, hall⟩ := ih
          { best_neighbor := other
            best_cost := (tube_construction_cost g b other).1
            best_dist2 := wrap64 (wrap32 (po.1 - pb.1) * wrap32 (po.1 - pb.1) +
            wrap32 (po.2 - pb.2) * wrap32 (po.2 - pb.2)) }
        simp only [] at hle
        refine ⟨best', e, Or.inr ?_, by omega, ?_⟩
        · rcases hor with h | ⟨hm, h⟩
          · subst h
            exact ⟨List.mem_cons_self _ _, fun e => h1 (Or.inl e), fun e => h1 (Or.inr e), h2,
              hvalid, not_lt.1 h3, rfl, hd.symm⟩
          · exact ⟨List.mem_cons_of_mem _ hm, h⟩
        · intro o ho hne hc hes hv hcost
          rcases List.mem_cons.1 ho with e1 | e1
          · subst e1
            rw [hd]
            exact hle
          · exact hall o e1 hne hc hes hv hcost
      · rw [if_neg h4]
        obtain ⟨best', e, hor, hle, hall⟩ := ih best
        refine ⟨best', e, ?_, hle, ?_⟩
        · rcases hor with h | ⟨hm, h⟩
          · exact Or.inl h
          · exact Or.inr ⟨List.mem_cons_of_mem _ hm, h⟩
        · intro o ho hne hc hes hv hcost
          rcases List.mem_cons.1 ho with e1 | e1
          · subst e1
            rw [hd]
            omega
          · exact hall o e1 hne hc hes hv hcost

/-- The Fallback Connector loop returns a state reached by steps of the passes. -/
theorem fallback_connector_reach (ids : List Int) (cands : List Candidate) (nb : List Int)
    (work : List (Int × Int × Int)) (l : List Int) :
    (∀ b ∈ l, b ∈ nb) → ∀ s : TurnState,
      ∃ s', fallback_connector l s = .ok s' ∧ Reach ids cands nb work s s' := by
  induction l with
  | nil =>
    intro _ s
    exact ⟨s, rfl, Relation.ReflTransGen.refl⟩
  | cons b rest ih =>
    intro hsub s
    have hrest : ∀ x ∈ rest, x ∈ nb := fun x hx => hsub x (List.mem_cons_of_mem _ hx)
    unfold fallback_connector
    have st : PassStep ids cands nb work s
        { s with
          actions_count := (UMap.index s.actions_count "TUBE").2
          MAX_PER_TYPE := (UMap.index s.MAX_PER_TYPE "TUBE").2 } :=
      PassStep.read_counters s "TUBE"
    simp only [UMap.index_fst]
    by_cases hq : UMap.val s.actions_count "TUBE" ≥ UMap.val s.MAX_PER_TYPE "TUBE"
    · rw [if_pos hq]
      exact ⟨_, rfl, Reach.step_then st Relation.ReflTransGen.refl⟩
    rw [if_neg hq]
    by_cases hr : s.remaining_resources < 50
    · rw [if_pos hr]
      exact ⟨_, rfl, Reach.step_then st Relation.ReflTransGen.refl⟩
    rw [if_neg hr]
    by_cases hp : UMap.count s.g.building_positions b = 0
    · rw [if_pos hp]
      obtain ⟨s', h1, h2⟩ := ih hrest _
      exact ⟨s', h1, Reach.step_then st h2⟩
    rw [if_neg hp]
    by_cases hcon : s.existing_tubes.any (fun ec => decide (ec.1 = b ∨ ec.2 = b)) = true
    · rw [if_pos hcon]
      obtain ⟨s', h1, h2⟩ := ih hrest _
      exact ⟨s', h1, Reach.step_then st h2⟩
    rw [if_neg hcon]
    obtain ⟨pb, hpb⟩ := UMap.find_of_count_ne_zero hp
    simp only [Globals.position_of_find hpb]
    obtain ⟨best, hbest, hor, _, hall⟩ := fallback_scan_result b pb s.existing_set
      s.existing_tubes s.degree s.remaining_resources s.g hpb s.g.all_buildings
      { best_neighbor := -1, best_cost := 0, best_dist2 := 1000000000000000000 }
    simp only [hbest]
    by_cases hbn : best.best_neighbor ≠ -1
    · rw [if_pos hbn]
      obtain ⟨s', h1, h2⟩ := ih hrest
        (fallback_commit
          { s with
            actions_count := (UMap.index s.actions_count "TUBE").2
            MAX_PER_TYPE := (UMap.index s.MAX_PER_TYPE "TUBE").2 } b best)
      refine ⟨s', h1, Reach.step_then st (Reach.step_then ?_ h2)⟩
      rcases hor with h | ⟨hm, hne, hc, hes, hv, hcost, hbc, hbd⟩
      · rw [h] at hbn
        exact absurd rfl hbn
      · refine PassStep.fallback _ b best (hsub b (List.mem_cons_self _ _)) ?_ (not_lt.1 hr) hp
          ?_ hbn hm ⟨hne, hc, hes, hv, hcost⟩ hbc hbd ?_
        · simp only [UMap.val_index_snd]
          exact not_le.1 hq
        · intro ec hec
          have hnot : ¬ (ec.1 = b ∨ ec.2 = b) := by
            intro hx
            apply hcon
            rw [List.any_eq_true]
            exact ⟨ec, hec, by simpa using hx⟩
          exact ⟨fun e => hnot (Or.inl e), fun e => hnot (Or.inr e)⟩
        · intro other ho ⟨e1, e2, e3, e4, e5⟩
          exact hall other ho e1 e2 e3 e4 e5
    · rw [if_neg hbn]
      obtain ⟨s', h1, h2⟩ := ih hrest _
      exact ⟨s', h1, Reach.step_then st h2⟩

/-- The Coverage Sweep loop returns a state reached by steps of the passes. -/
theorem coverage_sweep_loop_reach (ids : List Int) (cands : List Candidate) (nb : List Int)
    (work : List (Int × Int × Int)) (l : List (Int × Int × Int)) :
    (∀ t ∈ l, t ∈ work) → ∀ s : TurnState,
      Reach ids cands nb work s (coverage_sweep_loop ids l s) := by
  induction l with
  | nil =>
    intro _ s
    exact Relation.ReflTransGen.refl
  | cons t rest ih =>
    intro hsub s
    obtain ⟨p, b1, b2⟩ := t
    have hrest : ∀ x ∈ rest, x ∈ work := fun x hx => hsub x (List.mem_cons_of_mem _ hx)
    unfold coverage_sweep_loop
    have st : PassStep ids cands nb work s
        { s with actions_count := (UMap.index s.actions_count "POD").2 } :=
      PassStep.read_count s "POD"
    simp only [UMap.index_fst]
    by_cases hq : UMap.val s.actions_count "POD" ≥ 6
    · rw [if_pos hq]
      exact Reach.step_then st Relation.ReflTransGen.refl
    rw [if_neg hq]
    by_cases hr : s.remaining_resources < 1000
    · rw [if_pos hr]
      exact Reach.step_then st Relation.ReflTransGen.refl
    rw [if_neg hr]
    refine Reach.step_then st (Reach.step_then ?_ (ih hrest _))
    refine PassStep.sweep _ p b1 b2 (hsub _ (List.mem_cons_self _ _)) ?_ (not_lt.1 hr)
    simp only [UMap.val_index_snd]
    exact not_le.1 hq

theorem Reach.trans {ids : List Int} {cands : List Candidate} {nb : List Int}
    {work : List (Int × Int × Int)} {s1 s2 s3 : TurnState}
    (h1 : Reach ids cands nb work s1 s2) (h2 : Reach ids cands nb work s2 s3) :
    Reach ids cands nb work s1 s3 :=
  Relation.ReflTransGen.trans h1 h2

theorem Globals.type_is_snd (g : Globals) (b : Int) (t : String) : (g.type_is b t).2 = g := by
  unfold Globals.type_is
  by_cases h : UMap.count g.building_type b ≠ 0
  · rw [if_pos h]
    obtain ⟨v, hv⟩ := UMap.find_of_count_ne_zero h
    simp only [UMap.index_of_find hv]
  · rw [if_neg h]

theorem build_tubes_needing_pods_snd (covered : List (Int × Int))
    (routes : List (Int × Int × Int)) (g : Globals) :
    (build_tubes_needing_pods covered routes g).2 = g := by
  induction routes with
  | nil => rfl
  | cons t rest ih =>
    obtain ⟨b1, b2, cap⟩ := t
    unfold build_tubes_needing_pods
    by_cases h1 : cap > 0
    · rw [if_pos h1]
      by_cases h2 : (min b1 b2, max b1 b2) ∉ covered
      · rw [if_pos h2]
        simp only [Globals.type_is_snd]
        exact ih
      · rw [if_neg h2]
        exact ih
    · rw [if_neg h1]
      exact ih

/-- The three passes run to completion, and the state they return is reached from the
starting state by steps of the passes, for the work list that the Coverage Sweep computes
from the input routes and itineraries. -/
theorem commit_passes_reach (ids : List Int) (routes : List (Int × Int × Int))
    (pods : UMap Int (List Int)) (nb : List Int) (cands : List Candidate) (s0 : TurnState) :
    ∃ s, commit_passes ids routes pods nb cands s0 = .ok s ∧
      Reach ids cands nb (sweep_start routes pods s0).1 s0 s := by
  obtain ⟨s1, h1, r1⟩ := greedy_selector_reach ids cands nb (sweep_start routes pods s0).1
    cands (fun _ h => h) s0
  obtain ⟨s2, h2, r2⟩ := fallback_connector_reach ids cands nb (sweep_start routes pods s0).1
    nb (fun _ h => h) (fallback_start s1)
  have r12 : Reach ids cands nb (sweep_start routes pods s0).1 s0 s2 :=
    Reach.trans r1 (Reach.step_then (PassStep.declare_existing_set s1) r2)
  have hg : s2.g = s0.g := Reach.registries_eq r12
  have hw : (sweep_start routes pods s2).1 = (sweep_start routes pods s0).1 := by
    unfold sweep_start
    simp only [hg]
  have h2g : (sweep_start routes pods s2).2 =
      { s2 with covered_tubes := build_covered_tubes pods [] } := by
    unfold sweep_start
    simp only [build_tubes_needing_pods_snd]
  refine ⟨coverage_sweep_loop ids (sweep_start routes pods s2).1 (sweep_start routes pods s2).2,
    ?_, ?_⟩
  · unfold commit_passes
    simp only [h1, h2]
  · refine Reach.trans r12 ?_
    rw [h2g]
    refine Reach.step_then (PassStep.declare_covered_tubes s2 (build_covered_tubes pods [])) ?_
    apply coverage_sweep_loop_reach
    intro t ht
    rw [← hw]
    exact ht

/-! ### The action list as structured actions -/

theorem replace_first_pod_id (r s : String) :
    replace_first ("POD \x7bpod_id\x7d " ++ s) "\x7bpod_id\x7d" r = "POD " ++ r ++ " " ++ s := by
  unfold replace_first
  apply String.ext
  simp only [String.data_append]
  show replace_first_chars _ _ ('P' :: 'O' :: 'D' :: ' ' :: '\x7b' :: 'p' :: 'o' :: 'd' ::
    '_' :: 'i' :: 'd' :: '\x7d' :: ' ' :: s.data) = _
  simp [replace_first_chars, List.isPrefixOf]

/-- The loop that skips used vehicle identifiers passes only used identifiers. -/
theorem skip_used_pod_ids_least (ids : List Int) :
    ∀ (n : Nat) (c : Int), c ≤ skip_used_pod_ids ids n c ∧
      ∀ y, c ≤ y → y < skip_used_pod_ids ids n c → y ∈ ids := by
  intro n
  induction n with
  | zero =>
    intro c
    unfold skip_used_pod_ids
    exact ⟨le_refl _, fun y h1 h2 => absurd h1 (not_le.2 h2)⟩
  | succ n ih =>
    intro c
    unfold skip_used_pod_ids
    by_cases hc : c ∈ ids
    · rw [if_pos hc]
      obtain ⟨h1, h2⟩ := ih (c + 1)
      refine ⟨by omega, ?_⟩
      intro y hy hlt
      by_cases e : y = c
      · rw [e]
        exact hc
      · exact h2 y (by omega) hlt
    · rw [if_neg hc]
      exact ⟨le_refl _, fun y h1 h2 => absurd h1 (not_le.2 h2)⟩

theorem next_pod_id_least (ids : List Int) (c : Int) :
    c ≤ next_pod_id ids c ∧ ∀ y, c ≤ y → y < next_pod_id ids c → y ∈ ids :=
  skip_used_pod_ids_least ids ids.length c

theorem NextUnused.at_start (ids : List Int) :
    NextUnused (fun x => x ∈ ids) [] (next_pod_id ids 1) := by
  obtain ⟨h1, h2⟩ := next_pod_id_least ids 1
  refine ⟨by omega, next_pod_id_not_mem ids 1, fun x hx => absurd hx (List.not_mem_nil _), ?_⟩
  intro y hy hlt hn
  exact absurd (h2 y (by omega) hlt) hn

/-- Emitting the identifier `c` and advancing the counter keeps the identifiers emitted so
far the first unused ones. -/
theorem FirstUnused.emit {used : List Int} {ids : List Int} {c : Int}
    (h : FirstUnused (fun x => x ∈ used) ids) (hc : NextUnused (fun x => x ∈ used) ids c) :
    FirstUnused (fun x => x ∈ used) (ids ++ [c]) ∧
      NextUnused (fun x => x ∈ used) (ids ++ [c]) (next_pod_id used (c + 1)) := by
  obtain ⟨hp, hm, hd⟩ := h
  obtain ⟨c0, cn, cl, cd⟩ := hc
  obtain ⟨n1, n2⟩ := next_pod_id_least used (c + 1)
  refine ⟨⟨?_, ?_, ?_⟩, ?_, next_pod_id_not_mem used (c + 1), ?_, ?_⟩
  · rw [List.pairwise_append]
    refine ⟨hp, List.pairwise_singleton _ _, ?_⟩
    intro a ha b hb
    rw [List.mem_singleton] at hb
    rw [hb]
    exact cl a ha
  · intro x hx
    rcases List.mem_append.1 hx with h1 | h1
    · exact hm x h1
    · rw [List.mem_singleton] at h1
      rw [h1]
      exact ⟨c0, cn⟩
  · intro x hx y hy hlt hn
    rcases List.mem_append.1 hx with h1 | h1
    · exact List.mem_append_left _ (hd x h1 y hy hlt hn)
    · rw [List.mem_singleton] at h1
      rw [h1] at hlt
      exact List.mem_append_left _ (cd y hy hlt hn)
  · omega
  · intro x hx
    rcases List.mem_append.1 hx with h1 | h1
    · have := cl x h1
      omega
    · rw [List.mem_singleton] at h1
      omega
  · intro y hy hlt hn
    by_cases e1 : y < c
    · exact List.mem_append_left _ (cd y hy e1 hn)
    · by_cases e2 : y = c
      · rw [e2]
        exact List.mem_append_right _ (List.mem_singleton.2 rfl)
      · exact absurd (n2 y (by omega) hlt) hn

theorem emitted_pod_ids_append (acts : List Action) (a : Action) :
    emitted_pod_ids (acts ++ [a]) =
      emitted_pod_ids acts ++ (match a.pod_id with | some id => [id] | none => []) := by
  unfold emitted_pod_ids
  rw [List.filterMap_append]
  cases h : a.pod_id <;> simp [List.filterMap, h]

/-- Appending an action that is not a `POD` action keeps the invariant of the action
list. -/
theorem ActionsInv.push_other {ids : List Int} {s s' : TurnState} (h : ActionsInv ids s)
    (a : Action) (cost : Int) (ha : a.pod_id = none)
    (h1 : s'.actions = s.actions ++ [a.render])
    (h2 : s'.committed = s.committed ++ [(a.category, cost)])
    (h3 : s'.pod_id_counter = s.pod_id_counter) : ActionsInv ids s' := by
  obtain ⟨acts, e1, e2, e3, e4⟩ := h
  refine ⟨acts ++ [a], ?_, ?_, ?_, ?_⟩
  · rw [h1, e1]
    simp
  · rw [h2]
    simp [e2]
  · rw [emitted_pod_ids_append, ha]
    simpa using e3
  · rw [emitted_pod_ids_append, ha, h3]
    simpa using e4

/-- Appending a `POD` action that carries the current counter, and advancing the counter,
keeps the invariant of the action list. -/
theorem ActionsInv.push_pod {ids : List Int} {s s' : TurnState} (h : ActionsInv ids s)
    (b1 b2 cost : Int)
    (h1 : s'.actions = s.actions ++ [(Action.pod s.pod_id_counter b1 b2).render])
    (h2 : s'.committed = s.committed ++ [("POD", cost)])
    (h3 : s'.pod_id_counter = next_pod_id ids (s.pod_id_counter + 1)) : ActionsInv ids s' := by
  obtain ⟨acts, e1, e2, e3, e4⟩ := h
  obtain ⟨f1, f2⟩ := FirstUnused.emit e3 e4
  refine ⟨acts ++ [Action.pod s.pod_id_counter b1 b2], ?_, ?_, ?_, ?_⟩
  · rw [h1, e1]
    simp
  · rw [h2]
    simp [e2, Action.category]
  · rw [emitted_pod_ids_append]
    exact f1
  · rw [emitted_pod_ids_append, h3]
    exact f2

theorem ActionsInv.keep {ids : List Int} {s s' : TurnState} (h : ActionsInv ids s)
    (h1 : s'.actions = s.actions) (h2 : s'.committed = s.committed)
    (h3 : s'.pod_id_counter = s.pod_id_counter) : ActionsInv ids s' := by
  obtain ⟨acts, e1, e2, e3, e4⟩ := h
  exact ⟨acts, by rw [h1, e1], by rw [h2, e2], e3, by rw [h3]; exact e4⟩

/-- Every step of the passes keeps the invariant of the action list, when the candidates
are those of the generators. -/
theorem ActionsInv.pass_step {ids : List Int} {cands : List Candidate} {nb : List Int}
    {work : List (Int × Int × Int)} (hgen : ∀ c ∈ cands, c.Generated) {s s' : TurnState}
    (h : ActionsInv ids s) (hst : PassStep ids cands nb work s s') : ActionsInv ids s' := by
  cases hst with
  | read_counters t => exact h.keep rfl rfl rfl
  | read_count t => exact h.keep rfl rfl rfl
  | declare_existing_set => exact h.keep rfl rfl rfl
  | declare_covered_tubes c => exact h.keep rfl rfl rfl
  | greedy c hc _ _ _ _ =>
    rcases hgen c hc with ⟨ht, ha⟩ | ⟨ht, ha⟩ | ⟨ht, ha⟩ | ⟨ht, ha⟩
    · refine h.push_other (Action.tube c.buildings.1 c.buildings.2) c.cost rfl ?_ ?_ ?_
      · rw [greedy_commit_actions, ht, ha]
        rfl
      · rw [greedy_commit_committed, ht]
        rfl
      · rw [greedy_commit_pod_id_counter, ht]
        rfl
    · refine h.push_other (Action.upgrade c.buildings.1 c.buildings.2) c.cost rfl ?_ ?_ ?_
      · rw [greedy_commit_actions, ht, ha]
        rfl
      · rw [greedy_commit_committed, ht]
        rfl
      · rw [greedy_commit_pod_id_counter, ht]
        rfl
    · refine h.push_pod c.buildings.1 c.buildings.2 c.cost ?_ ?_ ?_
      · rw [greedy_commit_actions, ht, ha, if_pos rfl, replace_first_pod_id]
        rfl
      · rw [greedy_commit_committed, ht]
      · rw [greedy_commit_pod_id_counter, ht, if_pos rfl]
    · refine h.push_other (Action.teleport c.buildings.1 c.buildings.2) c.cost rfl ?_ ?_ ?_
      · rw [greedy_commit_actions, ht, ha]
        rfl
      · rw [greedy_commit_committed, ht]
        rfl
      · rw [greedy_commit_pod_id_counter, ht]
        rfl
  | fallback b best =>
    exact h.push_other (Action.tube b best.best_neighbor) best.best_cost rfl rfl rfl rfl
  | sweep p b1 b2 =>
    exact h.push_pod b1 b2 1000 rfl rfl rfl

/-! ### The generators and the flow estimator run to completion -/

theorem potential_le (S : List Int) {d : UMap Int Int} (h : ∀ v, UMap.val d v ≤ 1000000000) :
    potential S d ≤ 1000000000 * (S.length : Int) := by
  unfold potential
  have h1 := Finset.sum_le_card_nsmul S.toFinset (fun x => UMap.val d x) 1000000000
    (fun x _ => h x)
  have h2 : (S.toFinset.card : Int) ≤ (S.length : Int) := by
    exact_mod_cast List.toFinset_card_le S
  rw [nsmul_eq_mul] at h1
  nlinarith

/-- On an adjacency map with weights 0 and 1 the deque search returns within the iteration
bound `bfs_fuel`. -/
theorem bfs_distances_from_returns (ab : List Int) (start : Int)
    (adj : UMap Int (List (Int × Int)))
    (hw : ∀ x e, e ∈ nbrs_of adj x → e.2 = 0 ∨ e.2 = 1) :
    ∃ dist, bfs_distances_from ab (bfs_fuel ab) start adj = some dist ∧
      BfsCore adj start (start :: ab) dist [] := by
  have c0 := BfsCore.init_state adj ab start
  have hp := potential_le (start :: ab) c0.le_inf
  have hm : 2 * potential (start :: ab) (bfs_init_dist ab start) +
      (([start] : List Int).length : Int) ≤ (bfs_fuel ab : Nat) := by
    unfold bfs_fuel
    simp only [List.length_singleton, List.length_cons, List.length_nil] at hp ⊢
    push_cast at hp ⊢
    omega
  obtain ⟨dist, hd, core, _⟩ := bfs_loop_inv adj start (start :: ab) hw (bfs_fuel ab) _ _ c0 hm
  exact ⟨dist, hd, core⟩

theorem Globals.module_type_at_of_count (g : Globals) (b : Int)
    (h : UMap.count g.module_type b ≠ 0) : (g.module_type_at b).2 = g := by
  obtain ⟨v, hv⟩ := UMap.find_of_count_ne_zero h
  unfold Globals.module_type_at
  simp only [UMap.index_of_find hv]

theorem Globals.astronauts_at_of_count (g : Globals) (b : Int)
    (h : UMap.count g.landing_astronaut_types b ≠ 0) : (g.astronauts_at b).2 = g := by
  obtain ⟨v, hv⟩ := UMap.find_of_count_ne_zero h
  unfold Globals.astronauts_at
  simp only [UMap.index_of_find hv]

theorem get_modules_by_type_loop_snd (l : List (Int × String)) :
    ∀ (g : Globals) (result : UMap Int (List Int)),
      (get_modules_by_type_loop l g result).2 = g := by
  induction l with
  | nil => intro g result; rfl
  | cons e rest ih =>
    intro g result
    obtain ⟨bid, bt⟩ := e
    unfold get_modules_by_type_loop
    by_cases h1 : bt = "module"
    · rw [if_pos h1]
      by_cases h2 : UMap.count g.module_type bid ≠ 0
      · rw [if_pos h2]
        simp only [Globals.module_type_at_of_count g bid h2]
        exact ih _ _
      · rw [if_neg h2]
        exact ih _ _
    · rw [if_neg h1]
      exact ih _ _

/-- The registries are unchanged by `get_modules_by_type`. -/
theorem get_modules_by_type_snd (g : Globals) : (get_modules_by_type g).2 = g :=
  get_modules_by_type_loop_snd _ _ _

theorem flow_of_landing_returns (g : Globals) (adj : UMap Int (List (Int × Int)))
    (hw : ∀ x e, e ∈ nbrs_of adj x → e.2 = 0 ∨ e.2 = 1)
    (modules_by_type : UMap Int (List Int)) (landing_id : Int) (l : List (Int × Int)) :
    ∀ tube_flow, ∃ tube_flow',
      flow_of_landing g adj modules_by_type landing_id l tube_flow = .ok tube_flow' := by
  induction l with
  | nil => intro tf; exact ⟨tf, rfl⟩
  | cons e rest ih =>
    intro tf
    obtain ⟨atype, count⟩ := e
    unfold flow_of_landing
    cases hm : UMap.find modules_by_type atype with
    | none => exact ih tf
    | some mods =>
      obtain ⟨dist, hd, _⟩ := bfs_distances_from_returns g.all_buildings landing_id adj hw
      simp only [hd]
      split_ifs
      · exact ih _
      · exact ih _

theorem estimate_astronaut_flow_loop_returns (g : Globals) (adj : UMap Int (List (Int × Int)))
    (hw : ∀ x e, e ∈ nbrs_of adj x → e.2 = 0 ∨ e.2 = 1)
    (modules_by_type : UMap Int (List Int)) (l : List (Int × List Int)) :
    ∀ tube_flow, ∃ tube_flow',
      estimate_astronaut_flow_loop g adj modules_by_type l tube_flow = .ok tube_flow' := by
  induction l with
  | nil => intro tf; exact ⟨tf, rfl⟩
  | cons e rest ih =>
    intro tf
    obtain ⟨landing_id, astro_types⟩ := e
    unfold estimate_astronaut_flow_loop
    by_cases h : UMap.count g.building_positions landing_id = 0
    · rw [if_pos h]
      exact ih tf
    · rw [if_neg h]
      obtain ⟨tf1, h1⟩ := flow_of_landing_returns g adj hw modules_by_type landing_id
        (astro_types.foldl UMap.increment []) tf
      simp only [h1]
      exact ih tf1

/-- On an adjacency map with weights 0 and 1 the flow estimator returns, and leaves the
registries unchanged. -/
theorem estimate_astronaut_flow_returns (g : Globals) (adj : UMap Int (List (Int × Int)))
    (hw : ∀ x e, e ∈ nbrs_of adj x → e.2 = 0 ∨ e.2 = 1) :
    ∃ tube_flow, estimate_astronaut_flow g adj = .ok (tube_flow, g) := by
  unfold estimate_astronaut_flow
  simp only [get_modules_by_type_snd]
  obtain ⟨tf, h⟩ := estimate_astronaut_flow_loop_returns g adj hw (get_modules_by_type g).1
    g.landing_astronaut_types []
  exact ⟨tf, by simp only [h]⟩

/-! ### What the generators return -/

theorem UMap.find_push_back {K V : Type} [DecidableEq K] (m : UMap K (List V)) (k t : K)
    (x : V) :
    UMap.find (UMap.push_back m k x) t =
      if t = k then some ((UMap.index m k).1 ++ [x]) else UMap.find m t := by
  unfold UMap.push_back
  simp only [UMap.find_set]
  by_cases h : t = k
  · rw [if_pos h, if_pos h]
  · rw [if_neg h, if_neg h, UMap.find_index_snd]
    cases hf : UMap.find m t with
    | some v => rfl
    | none =>
      have : ¬ k = t := fun e => h e.symm
      simp [this]

theorem UMap.index_fst_mem {K V : Type} [DecidableEq K] (m : UMap K (List V)) (k : K) (x : V)
    (h : x ∈ (UMap.index m k).1) : ∃ l, UMap.find m k = some l ∧ x ∈ l := by
  unfold UMap.index at h
  cases hf : UMap.find m k with
  | some l =>
    rw [hf] at h
    exact ⟨l, rfl, h⟩
  | none =>
    rw [hf] at h
    exact absurd h (List.not_mem_nil _)

theorem get_modules_by_type_loop_mem (g0 : Globals) (l : List (Int × String)) :
    ∀ (g : Globals) (result : UMap Int (List Int)), g.module_type = g0.module_type →
      (∀ e ∈ l, e ∈ g0.building_type) →
      (∀ t mods, UMap.find result t = some mods → ∀ m ∈ mods, IsModuleOfType g0 m t) →
      ∀ t mods, UMap.find (get_modules_by_type_loop l g result).1 t = some mods →
        ∀ m ∈ mods, IsModuleOfType g0 m t := by
  induction l with
  | nil =>
    intro g result _ _ h
    exact h
  | cons e rest ih =>
    intro g result hg hsub h
    obtain ⟨bid, bt⟩ := e
    have hrest : ∀ e ∈ rest, e ∈ g0.building_type :=
      fun e he => hsub e (List.mem_cons_of_mem _ he)
    unfold get_modules_by_type_loop
    by_cases h1 : bt = "module"
    · rw [if_pos h1]
      by_cases h2 : UMap.count g.module_type bid ≠ 0
      · rw [if_pos h2]
        simp only [Globals.module_type_at_of_count g bid h2]
        apply ih g _ hg hrest
        intro t mods hf m hm
        rw [UMap.find_push_back] at hf
        by_cases ht : t = (g.module_type_at bid).1
        · rw [if_pos ht] at hf
          cases hf
          rcases List.mem_append.1 hm with hm | hm
          · obtain ⟨l0, hl0, hml⟩ := UMap.index_fst_mem _ _ _ hm
            rw [← ht] at hl0
            exact h t l0 hl0 m hml
          · rw [List.mem_singleton] at hm
            subst hm
            refine ⟨?_, ?_⟩
            · have := hsub (m, bt) (List.mem_cons_self _ _)
              rw [h1] at this
              exact this
            · obtain ⟨v, hv⟩ := UMap.find_of_count_ne_zero h2
              rw [ht]
              unfold Globals.module_type_at
              simp only [UMap.index_of_find hv]
              rw [← hg]
              exact hv
        · rw [if_neg ht] at hf
          exact h t mods hf m hm
      · rw [if_neg h2]
        exact ih g result hg hrest h
    · rw [if_neg h1]
      exact ih g result hg hrest h

/-- Every member of a list of `get_modules_by_type` is a module of the type the list is
stored under. -/
theorem get_modules_by_type_mem (g : Globals) (t : Int) (mods : List Int)
    (h : UMap.find (get_modules_by_type g).1 t = some mods) :
    ∀ m ∈ mods, IsModuleOfType g m t :=
  get_modules_by_type_loop_mem g g.building_type g [] rfl (fun _ he => he)
    (fun _ _ hf => absurd hf (by simp [UMap.find])) t mods h

theorem tube_candidates_for_type_spec (hypot : Int → Int → ℚ) (landing_id : Int)
    (astro_types : List Int) (wanted : Int) (es et : List (Int × Int))
    (degree : UMap Int Int) (R : Int) (g : Globals) (mods : List Int) :
    ∀ cands : List Candidate,
      ∃ cands', tube_candidates_for_type hypot landing_id astro_types wanted es et degree R
          mods g cands = .ok (cands', g) ∧
        ∀ c ∈ cands', c ∈ cands ∨
          ∃ mod ∈ mods, TubeCandidate g es et degree R landing_id mod c := by
  induction mods with
  | nil =>
    intro cands
    exact ⟨cands, rfl, fun c hc => Or.inl hc⟩
  | cons mod rest ih =>
    intro cands
    have lift : ∀ cands0 : List Candidate,
        (∃ cands', tube_candidates_for_type hypot landing_id astro_types wanted es et degree R
            rest g cands0 = .ok (cands', g) ∧
          ∀ c ∈ cands', c ∈ cands0 ∨
            ∃ m ∈ rest, TubeCandidate g es et degree R landing_id m c) →
        (∀ c ∈ cands0, c ∈ cands ∨
            ∃ m ∈ mod :: rest, TubeCandidate g es et degree R landing_id m c) →
        ∃ cands', tube_candidates_for_type hypot landing_id astro_types wanted es et degree R
            rest g cands0 = .ok (cands', g) ∧
          ∀ c ∈ cands', c ∈ cands ∨
            ∃ m ∈ mod :: rest, TubeCandidate g es et degree R landing_id m c := by
      rintro cands0 ⟨cands', e, hall⟩ h0
      refine ⟨cands', e, ?_⟩
      intro c hc
      rcases hall c hc with h | ⟨m, hm, ht⟩
      · exact h0 c h
      · exact Or.inr ⟨m, List.mem_cons_of_mem _ hm, ht⟩
    unfold tube_candidates_for_type
    by_cases h1 : (landing_id, mod) ∈ es
    · rw [if_pos h1]
      exact lift cands (ih cands) (fun c hc => Or.inl hc)
    rw [if_neg h1]
    obtain ⟨r, hr, hrv⟩ := tube_is_geometrically_valid_spec g landing_id mod et degree 5
    simp only [hr]
    cases r with
    | false =>
      simp only [if_true]
      exact lift cands (ih cands) (fun c hc => Or.inl hc)
    | true =>
      have hvalid : ValidLink g landing_id mod et degree 5 := hrv.1 rfl
      simp only [Bool.true_eq_false, if_false, tube_construction_cost_snd]
      by_cases h3 : (tube_construction_cost g landing_id mod).1 > R
      · rw [if_pos h3]
        exact lift cands (ih cands) (fun c hc => Or.inl hc)
      rw [if_neg h3]
      obtain ⟨pu, pv, hpu, hpv, _⟩ := hvalid
      simp only [Globals.position_of_find hpu, Globals.position_of_find hpv]
      refine lift _ (ih _) ?_
      intro c hc
      rcases List.mem_append.1 hc with h | h
      · exact Or.inl h
      · rw [List.mem_singleton] at h
        refine Or.inr ⟨mod, List.mem_cons_self _ _, ?_⟩
        rw [h]
        exact ⟨rfl, rfl, rfl, rfl, not_lt.1 h3, h1, hrv.1 rfl⟩

theorem tube_candidates_for_landing_spec (hypot : Int → Int → ℚ) (landing_id : Int)
    (astro_types : List Int) (mbt : UMap Int (List Int)) (es et : List (Int × Int))
    (degree : UMap Int Int) (R : Int) (g : Globals) (wl : List Int) :
    ∀ cands : List Candidate,
      ∃ cands', tube_candidates_for_landing hypot landing_id astro_types mbt es et degree R
          wl g cands = .ok (cands', g) ∧
        ∀ c ∈ cands', c ∈ cands ∨
          ∃ wanted ∈ wl, ∃ mods, UMap.find mbt wanted = some mods ∧
            ∃ mod ∈ mods, TubeCandidate g es et degree R landing_id mod c := by
  induction wl with
  | nil =>
    intro cands
    exact ⟨cands, rfl, fun c hc => Or.inl hc⟩
  | cons wanted rest ih =>
    intro cands
    unfold tube_candidates_for_landing
    cases hm : UMap.find mbt wanted with
    | none =>
      obtain ⟨cands', e, hall⟩ := ih cands
      refine ⟨cands', e, ?_⟩
      intro c hc
      rcases hall c hc with h | ⟨w, hw, h⟩
      · exact Or.inl h
      · exact Or.inr ⟨w, List.mem_cons_of_mem _ hw, h⟩
    | some mods =>
      obtain ⟨cands1, e1, hall1⟩ := tube_candidates_for_type_spec hypot landing_id astro_types
        wanted es et degree R g mods cands
      simp only [e1]
      obtain ⟨cands', e, hall⟩ := ih cands1
      refine ⟨cands', e, ?_⟩
      intro c hc
      rcases hall c hc with h | ⟨w, hw, h⟩
      · rcases hall1 c h with h' | h'
        · exact Or.inl h'
        · exact Or.inr ⟨wanted, List.mem_cons_self _ _, mods, hm, h'⟩
      · exact Or.inr ⟨w, List.mem_cons_of_mem _ hw, h⟩

theorem mem_foldl_uset_insert {A : Type} [DecidableEq A] (l : List A) :
    ∀ (acc : List A) (x : A), x ∈ l.foldl uset_insert acc ↔ x ∈ acc ∨ x ∈ l := by
  induction l with
  | nil => intro acc x; simp
  | cons a rest ih =>
    intro acc x
    simp only [List.foldl_cons, ih, List.mem_cons]
    unfold uset_insert
    by_cases h : a ∈ acc
    · rw [if_pos h]
      constructor
      · rintro (h1 | h1)
        · exact Or.inl h1
        · exact Or.inr (Or.inr h1)
      · rintro (h1 | h1 | h1)
        · exact Or.inl h1
        · exact Or.inl (h1 ▸ h)
        · exact Or.inr h1
    · rw [if_neg h]
      simp only [List.mem_append, List.mem_singleton]
      tauto

theorem generate_tube_candidates_loop_spec (hypot : Int → Int → ℚ)
    (mbt : UMap Int (List Int)) (es et : List (Int × Int)) (degree : UMap Int Int) (R : Int)
    (g : Globals) (l : List (Int × List Int)) :
    ∀ cands : List Candidate,
      ∃ cands', generate_tube_candidates_loop hypot mbt es et degree R l g cands =
          .ok (cands', g) ∧
        ∀ c ∈ cands', c ∈ cands ∨
          ∃ landing_id astro_types, (landing_id, astro_types) ∈ l ∧
            UMap.count g.building_positions landing_id ≠ 0 ∧
            ∃ wanted ∈ astro_types, ∃ mods, UMap.find mbt wanted = some mods ∧
              ∃ mod ∈ mods, TubeCandidate g es et degree R landing_id mod c := by
  induction l with
  | nil =>
    intro cands
    exact ⟨cands, rfl, fun c hc => Or.inl hc⟩
  | cons e rest ih =>
    intro cands
    obtain ⟨landing_id, astro_types⟩ := e
    unfold generate_tube_candidates_loop
    by_cases h1 : UMap.count g.building_positions landing_id = 0
    · rw [if_pos h1]
      obtain ⟨cands', e, hall⟩ := ih cands
      refine ⟨cands', e, ?_⟩
      intro c hc
      rcases hall c hc with h | ⟨a, b, hm, h⟩
      · exact Or.inl h
      · exact Or.inr ⟨a, b, List.mem_cons_of_mem _ hm, h⟩
    rw [if_neg h1]
    obtain ⟨cands1, e1, hall1⟩ := tube_candidates_for_landing_spec hypot landing_id
      astro_types mbt es et degree R g (astro_types.foldl uset_insert []) cands
    simp only [e1]
    obtain ⟨cands', e, hall⟩ := ih cands1
    refine ⟨cands', e, ?_⟩
    intro c hc
    rcases hall c hc with h | ⟨a, b, hm, h⟩
    · rcases hall1 c h with h' | ⟨w, hw, h'⟩
      · exact Or.inl h'
      · refine Or.inr ⟨landing_id, astro_types, List.mem_cons_self _ _, h1, w, ?_, h'⟩
        rcases (mem_foldl_uset_insert astro_types [] w).1 hw with hx | hx
        · exact absurd hx (List.not_mem_nil _)
        · exact hx
    · exact Or.inr ⟨a, b, List.mem_cons_of_mem _ hm, h⟩

/-- The link generator returns, leaves the registries unchanged, and each of its candidates
joins a landing pad with a registered position to a module of a type that an astronaut of
the pad wants, by a pair outside the existing links that the validator accepts and whose
cost is within the budget. -/
theorem generate_tube_candidates_spec (hypot : Int → Int → ℚ) (g : Globals) (R : Int)
    (degree : UMap Int Int) (et : List (Int × Int)) :
    ∃ cands, generate_tube_candidates hypot g R degree et = .ok (cands, g) ∧
      ∀ c ∈ cands, ∃ landing_id astro_types, (landing_id, astro_types) ∈
          g.landing_astronaut_types ∧ UMap.count g.building_positions landing_id ≠ 0 ∧
        ∃ wanted ∈ astro_types, ∃ mod, IsModuleOfType g mod wanted ∧
          TubeCandidate g (build_existing_set et []) et degree R landing_id mod c := by
  unfold generate_tube_candidates
  simp only [get_modules_by_type_snd]
  obtain ⟨cands, e, hall⟩ := generate_tube_candidates_loop_spec hypot (get_modules_by_type g).1
    (build_existing_set et []) et degree R g g.landing_astronaut_types []
  refine ⟨cands, e, ?_⟩
  intro c hc
  rcases hall c hc with h | ⟨a, b, hm, hp, w, hw, mods, hf, mod, hmod, ht⟩
  · exact absurd h (List.not_mem_nil _)
  · exact ⟨a, b, hm, hp, w, hw, mod, get_modules_by_type_mem g w mods hf mod hmod, ht⟩

/-! ### Completeness of the link generator -/

theorem UMap.index_fst_of_find {K V : Type} [DecidableEq K] [Inhabited V] {m : UMap K V}
    {k : K} {v : V} (h : UMap.find m k = some v) : (UMap.index m k).1 = v := by
  rw [UMap.index_of_find h]

theorem get_modules_by_type_loop_grows (l : List (Int × String)) :
    ∀ (g : Globals) (result : UMap Int (List Int)) (t m : Int) (mods : List Int),
      UMap.find result t = some mods → m ∈ mods →
      ∃ mods', UMap.find (get_modules_by_type_loop l g result).1 t = some mods' ∧ m ∈ mods' := by
  induction l with
  | nil =>
    intro g result t m mods hf hm
    exact ⟨mods, hf, hm⟩
  | cons e rest ih =>
    intro g result t m mods hf hm
    obtain ⟨bid, bt⟩ := e
    unfold get_modules_by_type_loop
    by_cases h1 : bt = "module"
    · rw [if_pos h1]
      by_cases h2 : UMap.count g.module_type bid ≠ 0
      · rw [if_pos h2]
        by_cases ht : t = (g.module_type_at bid).1
        · apply ih _ _ t m (mods ++ [bid])
          · rw [UMap.find_push_back, if_pos ht, ← ht, UMap.index_fst_of_find hf]
          · exact List.mem_append_left _ hm
        · apply ih _ _ t m mods
          · rw [UMap.find_push_back, if_neg ht]
            exact hf
          · exact hm
      · rw [if_neg h2]
        exact ih g result t m mods hf hm
    · rw [if_neg h1]
      exact ih g result t m mods hf hm

theorem get_modules_by_type_loop_complete (g0 : Globals) (l : List (Int × String)) :
    ∀ (g : Globals) (result : UMap Int (List Int)), g.module_type = g0.module_type →
      ∀ t m, (m, "module") ∈ l → UMap.find g0.module_type m = some t →
      ∃ mods', UMap.find (get_modules_by_type_loop l g result).1 t = some mods' ∧ m ∈ mods' := by
  induction l with
  | nil =>
    intro g result _ t m hm
    exact absurd hm (List.not_mem_nil _)
  | cons e rest ih =>
    intro g result hg t m hm hf
    obtain ⟨bid, bt⟩ := e
    unfold get_modules_by_type_loop
    rcases List.mem_cons.1 hm with e1 | e1
    · have hb : bid = m := (Prod.mk.inj e1).1.symm
      have hbt : bt = "module" := (Prod.mk.inj e1).2.symm
      subst hb
      rw [if_pos hbt]
      have hf' : UMap.find g.module_type bid = some t := by rw [hg]; exact hf
      have h2 : UMap.count g.module_type bid ≠ 0 := fun e => by
        rw [UMap.count_eq_zero_iff, hf'] at e
        exact Option.noConfusion e
      rw [if_pos h2]
      have ht : (g.module_type_at bid).1 = t := by
        unfold Globals.module_type_at
        simp only [UMap.index_of_find hf']
      apply get_modules_by_type_loop_grows rest _ _ t bid ((UMap.index result t).1 ++ [bid])
      · rw [UMap.find_push_back, ht, if_pos rfl]
      · exact List.mem_append_right _ (List.mem_singleton.2 rfl)
    · by_cases h1 : bt = "module"
      · rw [if_pos h1]
        by_cases h2 : UMap.count g.module_type bid ≠ 0
        · rw [if_pos h2]
          simp only [Globals.module_type_at_of_count g bid h2]
          exact ih g _ hg t m e1 hf
        · rw [if_neg h2]
          exact ih g result hg t m e1 hf
      · rw [if_neg h1]
        exact ih g result hg t m e1 hf

/-- Every module of type `t` is a member of the list that `get_modules_by_type` stores under
`t`. -/
theorem get_modules_by_type_complete (g : Globals) (t m : Int) (h : IsModuleOfType g m t) :
    ∃ mods, UMap.find (get_modules_by_type g).1 t = some mods ∧ m ∈ mods :=
  get_modules_by_type_loop_complete g g.building_type g [] rfl t m h.1 h.2

/-- The candidate that the link generator builds for an accepted pair. -/
theorem tube_candidates_for_type_complete (hypot : Int → Int → ℚ) (landing_id : Int)
    (astro_types : List Int) (wanted : Int) (es et : List (Int × Int))
    (degree : UMap Int Int) (R : Int) (g : Globals) (mods : List Int) :
    ∀ cands cands', tube_candidates_for_type hypot landing_id astro_types wanted es et degree R
        mods g cands = .ok (cands', g) →
      (∀ c ∈ cands, c ∈ cands') ∧
        ∀ mod ∈ mods, (landing_id, mod) ∉ es → ValidLink g landing_id mod et degree 5 →
          (tube_construction_cost g landing_id mod).1 ≤ R →
          ∃ c ∈ cands', TubeCandidate g es et degree R landing_id mod c := by
  induction mods with
  | nil =>
    intro cands cands' h
    unfold tube_candidates_for_type at h
    cases h
    exact ⟨fun c hc => hc, fun mod hm => absurd hm (List.not_mem_nil _)⟩
  | cons mod rest ih =>
    intro cands cands' h
    unfold tube_candidates_for_type at h
    by_cases h1 : (landing_id, mod) ∈ es
    · rw [if_pos h1] at h
      obtain ⟨i1, i2⟩ := ih cands cands' h
      refine ⟨i1, ?_⟩
      intro m hm hes hv hc
      rcases List.mem_cons.1 hm with e | e
      · rw [e] at hes
        exact absurd h1 hes
      · exact i2 m e hes hv hc
    rw [if_neg h1] at h
    obtain ⟨r, hr, hrv⟩ := tube_is_geometrically_valid_spec g landing_id mod et degree 5
    simp only [hr] at h
    cases r with
    | false =>
      simp only [if_true] at h
      obtain ⟨i1, i2⟩ := ih cands cands' h
      refine ⟨i1, ?_⟩
      intro m hm hes hv hc
      rcases List.mem_cons.1 hm with e | e
      · rw [e] at hv
        exact absurd (hrv.2 hv) (by decide)
      · exact i2 m e hes hv hc
    | true =>
      have hvalid : ValidLink g landing_id mod et degree 5 := hrv.1 rfl
      simp only [Bool.true_eq_false, if_false, tube_construction_cost_snd] at h
      by_cases h3 : (tube_construction_cost g landing_id mod).1 > R
      · rw [if_pos h3] at h
        obtain ⟨i1, i2⟩ := ih cands cands' h
        refine ⟨i1, ?_⟩
        intro m hm hes hv hc
        rcases List.mem_cons.1 hm with e | e
        · rw [e] at hc
          exact absurd hc (not_le.2 h3)
        · exact i2 m e hes hv hc
      rw [if_neg h3] at h
      obtain ⟨pu, pv, hpu, hpv, _⟩ := hvalid
      simp only [Globals.position_of_find hpu, Globals.position_of_find hpv] at h
      obtain ⟨i1, i2⟩ := ih _ cands' h
      refine ⟨fun c hc => i1 c (List.mem_append_left _ hc), ?_⟩
      intro m hm hes hv hc
      rcases List.mem_cons.1 hm with e | e
      · refine ⟨_, i1 _ (List.mem_append_right _ (List.mem_singleton.2 rfl)), ?_⟩
        rw [e]
        exact ⟨rfl, rfl, rfl, rfl, not_lt.1 h3, h1, hrv.1 rfl⟩
      · exact i2 m e hes hv hc

theorem tube_candidates_for_landing_complete (hypot : Int → Int → ℚ) (landing_id : Int)
    (astro_types : List Int) (mbt : UMap Int (List Int)) (es et : List (Int × Int))
    (degree : UMap Int Int) (R : Int) (g : Globals) (wl : List Int) :
    ∀ cands cands', tube_candidates_for_landing hypot landing_id astro_types mbt es et degree R
        wl g cands = .ok (cands', g) →
      (∀ c ∈ cands, c ∈ cands') ∧
        ∀ wanted ∈ wl, ∀ mods, UMap.find mbt wanted = some mods → ∀ mod ∈ mods,
          (landing_id, mod) ∉ es → ValidLink g landing_id mod et degree 5 →
          (tube_construction_cost g landing_id mod).1 ≤ R →
          ∃ c ∈ cands', TubeCandidate g es et degree R landing_id mod c := by
  induction wl with
  | nil =>
    intro cands cands' h
    unfold tube_candidates_for_landing at h
    cases h
    exact ⟨fun c hc => hc, fun w hw => absurd hw (List.not_mem_nil _)⟩
  | cons wanted rest ih =>
    intro cands cands' h
    unfold tube_candidates_for_landing at h
    cases hm : UMap.find mbt wanted with
    | none =>
      simp only [hm] at h
      obtain ⟨i1, i2⟩ := ih cands cands' h
      refine ⟨i1, ?_⟩
      intro w hw mods hf
      rcases List.mem_cons.1 hw with e | e
      · rw [e, hm] at hf
        exact Option.noConfusion hf
      · exact i2 w e mods hf
    | some mods0 =>
      simp only [hm] at h
      obtain ⟨cands1, e1, _⟩ := tube_candidates_for_type_spec hypot landing_id astro_types
        wanted es et degree R g mods0 cands
      simp only [e1] at h
      obtain ⟨j1, j2⟩ := tube_candidates_for_type_complete hypot landing_id astro_types
        wanted es et degree R g mods0 cands cands1 e1
      obtain ⟨i1, i2⟩ := ih cands1 cands' h
      refine ⟨fun c hc => i1 c (j1 c hc), ?_⟩
      intro w hw mods hf mod hmod hes hv hc
      rcases List.mem_cons.1 hw with e | e
      · rw [e, hm] at hf
        cases hf
        obtain ⟨c, hc1, hc2⟩ := j2 mod hmod hes hv hc
        exact ⟨c, i1 c hc1, hc2⟩
      · exact i2 w e mods hf mod hmod hes hv hc

theorem generate_tube_candidates_loop_complete (hypot : Int → Int → ℚ)
    (mbt : UMap Int (List Int)) (es et : List (Int × Int)) (degree : UMap Int Int) (R : Int)
    (g : Globals) (l : List (Int × List Int)) :
    ∀ cands cands', generate_tube_candidates_loop hypot mbt es et degree R l g cands =
        .ok (cands', g) →
      (∀ c ∈ cands, c ∈ cands') ∧
        ∀ landing_id astro_types, (landing_id, astro_types) ∈ l →
          UMap.count g.building_positions landing_id ≠ 0 →
          ∀ wanted ∈ astro_types, ∀ mods, UMap.find mbt wanted = some mods → ∀ mod ∈ mods,
            (landing_id, mod) ∉ es → ValidLink g landing_id mod et degree 5 →
            (tube_construction_cost g landing_id mod).1 ≤ R →
            ∃ c ∈ cands', TubeCandidate g es et degree R landing_id mod c := by
  induction l with
  | nil =>
    intro cands cands' h
    unfold generate_tube_candidates_loop at h
    cases h
    exact ⟨fun c hc => hc, fun a b hm => absurd hm (List.not_mem_nil _)⟩
  | cons e rest ih =>
    intro cands cands' h
    obtain ⟨landing_id, astro_types⟩ := e
    unfold generate_tube_candidates_loop at h
    by_cases h1 : UMap.count g.building_positions landing_id = 0
    · rw [if_pos h1] at h
      obtain ⟨i1, i2⟩ := ih cands cands' h
      refine ⟨i1, ?_⟩
      intro a b hm hp
      rcases List.mem_cons.1 hm with e | e
      · rw [(Prod.mk.inj e).1] at hp
        exact absurd h1 hp
      · exact i2 a b e hp
    rw [if_neg h1] at h
    obtain ⟨cands1, e1, _⟩ := tube_candidates_for_landing_spec hypot landing_id
      astro_types mbt es et degree R g (astro_types.foldl uset_insert []) cands
    simp only [e1] at h
    obtain ⟨j1, j2⟩ := tube_candidates_for_landing_complete hypot landing_id astro_types mbt
      es et degree R g (astro_types.foldl uset_insert []) cands cands1 e1
    obtain ⟨i1, i2⟩ := ih cands1 cands' h
    refine ⟨fun c hc => i1 c (j1 c hc), ?_⟩
    intro a b hm hp w hw mods hf mod hmod hes hv hc
    rcases List.mem_cons.1 hm with e | e
    · obtain ⟨ea, eb⟩ := Prod.mk.inj e
      rw [ea] at hes hv hc ⊢
      rw [eb] at hw
      obtain ⟨c, hc1, hc2⟩ := j2 w ((mem_foldl_uset_insert astro_types [] w).2 (Or.inr hw))
        mods hf mod hmod hes hv hc
      exact ⟨c, i1 c hc1, hc2⟩
    · exact i2 a b e hp w hw mods hf mod hmod hes hv hc

/-- The link generator proposes every pair of a registered landing pad and a module of a
type wanted at the pad that is not an existing link, that the validator accepts and whose
cost is within the budget. -/
theorem generate_tube_candidates_complete (hypot : Int → Int → ℚ) (g : Globals) (R : Int)
    (degree : UMap Int Int) (et : List (Int × Int)) (landing_id : Int)
    (astro_types : List Int) (wanted mod : Int)
    (hl : (landing_id, astro_types) ∈ g.landing_astronaut_types)
    (hp : UMap.count g.building_positions landing_id ≠ 0) (hw : wanted ∈ astro_types)
    (hm : IsModuleOfType g mod wanted) (hes : (landing_id, mod) ∉ build_existing_set et [])
    (hv : ValidLink g landing_id mod et degree 5)
    (hc : (tube_construction_cost g landing_id mod).1 ≤ R) :
    ∃ cands, generate_tube_candidates hypot g R degree et = .ok (cands, g) ∧
      ∃ c ∈ cands, TubeCandidate g (build_existing_set et []) et degree R landing_id mod c := by
  obtain ⟨cands, e, _⟩ := generate_tube_candidates_spec hypot g R degree et
  refine ⟨cands, e, ?_⟩
  unfold generate_tube_candidates at e
  simp only [get_modules_by_type_snd] at e
  obtain ⟨mods, hf, hmm⟩ := get_modules_by_type_complete g wanted mod hm
  exact (generate_tube_candidates_loop_complete hypot _ _ et degree R g _ [] cands e).2
    landing_id astro_types hl hp wanted hw mods hf mod hmm hes hv hc

/-! ### The upgrade, vehicle and shortcut generators -/

theorem generate_upgrade_candidates_spec (R : Int) (l : List (Int × Int × Int × Int))
    (g : Globals) :
    ∀ cands : List Candidate,
      (generate_upgrade_candidates R l g cands).2 = g ∧
        ∀ c ∈ (generate_upgrade_candidates R l g cands).1, c ∈ cands ∨
          ∃ b1 b2 cap flow, (b1, b2, cap, flow) ∈ l ∧ c.type = "UPGRADE" ∧
            c.action = "UPGRADE " ++ toString b1 ++ " " ++ toString b2 ∧
            c.buildings = (b1, b2) ∧
            c.cost = wrap32 ((tube_construction_cost g b1 b2).1 * wrap32 (cap + 1)) ∧ c.cost ≤ R ∧
            c.score = (flow : ℚ) * 10 - (c.cost : ℚ) * (1 / 10) := by
  induction l with
  | nil =>
    intro cands
    exact ⟨rfl, fun c hc => Or.inl hc⟩
  | cons e rest ih =>
    intro cands
    obtain ⟨b1, b2, cap, flow⟩ := e
    unfold generate_upgrade_candidates
    simp only [tube_construction_cost_snd]
    by_cases h : wrap32 ((tube_construction_cost g b1 b2).1 * wrap32 (cap + 1)) > R
    · rw [if_pos h]
      obtain ⟨e1, e2⟩ := ih cands
      refine ⟨e1, ?_⟩
      intro c hc
      rcases e2 c hc with h' | ⟨x1, x2, x3, x4, hm, hr⟩
      · exact Or.inl h'
      · exact Or.inr ⟨x1, x2, x3, x4, List.mem_cons_of_mem _ hm, hr⟩
    · rw [if_neg h]
      obtain ⟨e1, e2⟩ := ih
        (cands ++ [{ type := "UPGRADE"
                     action := "UPGRADE " ++ toString b1 ++ " " ++ toString b2
                     score := (flow : ℚ) * 10 -
                       ((wrap32 ((tube_construction_cost g b1 b2).1 * wrap32 (cap + 1)) : Int) : ℚ) * (1 / 10)
                     cost := wrap32 ((tube_construction_cost g b1 b2).1 * wrap32 (cap + 1))
                     buildings := (b1, b2) }])
      refine ⟨e1, ?_⟩
      intro c hc
      rcases e2 c hc with h' | ⟨x1, x2, x3, x4, hm, hr⟩
      · rcases List.mem_append.1 h' with h'' | h''
        · exact Or.inl h''
        · rw [List.mem_singleton] at h''
          refine Or.inr ⟨b1, b2, cap, flow, List.mem_cons_self _ _, ?_⟩
          rw [h'']
          exact ⟨rfl, rfl, rfl, rfl, not_lt.1 h, rfl⟩
      · exact Or.inr ⟨x1, x2, x3, x4, List.mem_cons_of_mem _ hm, hr⟩

theorem Globals.SameBase.refl (g : Globals) : g.SameBase g :=
  ⟨rfl, rfl, rfl, rfl, rfl⟩

theorem Globals.SameBase.compose {g1 g2 g3 : Globals} (h1 : g1.SameBase g2)
    (h2 : g2.SameBase g3) : g1.SameBase g3 :=
  ⟨h2.1.trans h1.1, h2.2.1.trans h1.2.1, h2.2.2.1.trans h1.2.2.1,
    h2.2.2.2.1.trans h1.2.2.2.1, h2.2.2.2.2.trans h1.2.2.2.2⟩

theorem pod_endpoint_score_same (g : Globals) (b : Int) :
    g.SameBase (pod_endpoint_score g b).2 := by
  unfold pod_endpoint_score
  simp only [Globals.type_is_snd]
  split_ifs
  · exact ⟨rfl, rfl, rfl, rfl, rfl⟩
  · exact Globals.SameBase.refl g

theorem generate_pod_candidates_loop_spec (covered : List (Int × Int))
    (routes : List (Int × Int × Int)) :
    ∀ (g : Globals) (cands : List Candidate),
      g.SameBase (generate_pod_candidates_loop covered routes g cands).2 ∧
        ∀ c ∈ (generate_pod_candidates_loop covered routes g cands).1, c ∈ cands ∨
          ∃ b1 b2 cap, (b1, b2, cap) ∈ routes ∧ cap > 0 ∧
            (min b1 b2, max b1 b2) ∉ covered ∧ PodCandidate b1 b2 c := by
  induction routes with
  | nil =>
    intro g cands
    exact ⟨Globals.SameBase.refl g, fun c hc => Or.inl hc⟩
  | cons e rest ih =>
    intro g cands
    obtain ⟨b1, b2, cap⟩ := e
    have lift : ∀ (g0 : Globals) (cands0 : List Candidate), g.SameBase g0 →
        (∀ c ∈ cands0, c ∈ cands ∨ ∃ x1 x2 x3, (x1, x2, x3) ∈ (b1, b2, cap) :: rest ∧ x3 > 0 ∧
          (min x1 x2, max x1 x2) ∉ covered ∧ PodCandidate x1 x2 c) →
        g.SameBase (generate_pod_candidates_loop covered rest g0 cands0).2 ∧
          ∀ c ∈ (generate_pod_candidates_loop covered rest g0 cands0).1, c ∈ cands ∨
            ∃ x1 x2 x3, (x1, x2, x3) ∈ (b1, b2, cap) :: rest ∧ x3 > 0 ∧
              (min x1 x2, max x1 x2) ∉ covered ∧ PodCandidate x1 x2 c := by
      intro g0 cands0 hs h0
      obtain ⟨e1, e2⟩ := ih g0 cands0
      refine ⟨hs.compose e1, ?_⟩
      intro c hc
      rcases e2 c hc with h' | ⟨x1, x2, x3, hm, hr⟩
      · exact h0 c h'
      · exact Or.inr ⟨x1, x2, x3, List.mem_cons_of_mem _ hm, hr⟩
    unfold generate_pod_candidates_loop
    by_cases h1 : cap ≤ 0
    · rw [if_pos h1]
      exact lift g cands (Globals.SameBase.refl g) (fun c hc => Or.inl hc)
    rw [if_neg h1]
    by_cases h2 : (min b1 b2, max b1 b2) ∈ covered
    · rw [if_pos h2]
      exact lift g cands (Globals.SameBase.refl g) (fun c hc => Or.inl hc)
    rw [if_neg h2]
    refine lift _ _ ((pod_endpoint_score_same g b1).compose (pod_endpoint_score_same _ b2)) ?_
    intro c hc
    rcases List.mem_append.1 hc with h | h
    · exact Or.inl h
    · rw [List.mem_singleton] at h
      refine Or.inr ⟨b1, b2, cap, List.mem_cons_self _ _, not_le.1 h1, h2, ?_⟩
      rw [h]
      exact ⟨rfl, rfl, rfl, rfl⟩

/-- The vehicle generator changes at most `landing_astronaut_types`, and each of its
candidates serves a capacity-bearing route that no input itinerary covers. -/
theorem generate_pod_candidates_spec (g : Globals) (R : Int) (routes : List (Int × Int × Int))
    (pods : UMap Int (List Int)) :
    g.SameBase (generate_pod_candidates g R routes pods).2 ∧
      ∀ c ∈ (generate_pod_candidates g R routes pods).1, 1000 ≤ R ∧
        ∃ b1 b2 cap, (b1, b2, cap) ∈ routes ∧ cap > 0 ∧
          (min b1 b2, max b1 b2) ∉ build_covered_tubes pods [] ∧ PodCandidate b1 b2 c := by
  unfold generate_pod_candidates
  by_cases h : R < 1000
  · rw [if_pos h]
    exact ⟨Globals.SameBase.refl g, fun c hc => absurd hc (List.not_mem_nil _)⟩
  · rw [if_neg h]
    obtain ⟨e1, e2⟩ := generate_pod_candidates_loop_spec (build_covered_tubes pods []) routes g []
    refine ⟨e1, ?_⟩
    intro c hc
    rcases e2 c hc with h' | h'
    · exact absurd h' (List.not_mem_nil _)
    · exact ⟨not_lt.1 h, h'⟩

theorem Globals.type_is_fst (g : Globals) (b : Int) (t : String) :
    (g.type_is b t).1 = true ↔ UMap.find g.building_type b = some t := by
  unfold Globals.type_is
  cases hf : UMap.find g.building_type b with
  | none =>
    have : UMap.count g.building_type b = 0 := (UMap.count_eq_zero_iff _ _).2 hf
    simp [this]
  | some v =>
    have : UMap.count g.building_type b ≠ 0 := fun e => by
      rw [UMap.count_eq_zero_iff, hf] at e
      exact Option.noConfusion e
    simp [this, UMap.index_of_find hf]

theorem split_landings_modules_spec (ht : List Int) (l : List Int) (g : Globals) :
    ∀ acc : List Int × List Int,
      (split_landings_modules ht l g acc).2 = g ∧
        (∀ b ∈ (split_landings_modules ht l g acc).1.1, b ∈ acc.1 ∨
          (b ∈ l ∧ UMap.find g.building_type b = some "landing" ∧ b ∉ ht)) ∧
        ∀ b ∈ (split_landings_modules ht l g acc).1.2, b ∈ acc.2 ∨
          (b ∈ l ∧ UMap.find g.building_type b = some "module" ∧ b ∉ ht) := by
  induction l with
  | nil =>
    intro acc
    exact ⟨rfl, fun b hb => Or.inl hb, fun b hb => Or.inl hb⟩
  | cons a rest ih =>
    intro acc
    obtain ⟨landings, modules⟩ := acc
    unfold split_landings_modules
    simp only [Globals.type_is_snd]
    obtain ⟨e1, e2, e3⟩ := ih
      (if (g.type_is a "landing").1 = true ∧ a ∉ ht then landings ++ [a] else landings,
        if (g.type_is a "module").1 = true ∧ a ∉ ht then modules ++ [a] else modules)
    refine ⟨e1, ?_, ?_⟩
    · intro b hb
      rcases e2 b hb with h | ⟨h1, h2⟩
      · simp only [] at h
        by_cases hc : (g.type_is a "landing").1 = true ∧ a ∉ ht
        · rw [if_pos hc] at h
          rcases List.mem_append.1 h with h' | h'
          · exact Or.inl h'
          · rw [List.mem_singleton] at h'
            rw [h']
            exact Or.inr ⟨List.mem_cons_self _ _, (Globals.type_is_fst g a _).1 hc.1, hc.2⟩
        · rw [if_neg hc] at h
          exact Or.inl h
      · exact Or.inr ⟨List.mem_cons_of_mem _ h1, h2⟩
    · intro b hb
      rcases e3 b hb with h | ⟨h1, h2⟩
      · simp only [] at h
        by_cases hc : (g.type_is a "module").1 = true ∧ a ∉ ht
        · rw [if_pos hc] at h
          rcases List.mem_append.1 h with h' | h'
          · exact Or.inl h'
          · rw [List.mem_singleton] at h'
            rw [h']
            exact Or.inr ⟨List.mem_cons_self _ _, (Globals.type_is_fst g a _).1 hc.1, hc.2⟩
        · rw [if_neg hc] at h
          exact Or.inl h
      · exact Or.inr ⟨List.mem_cons_of_mem _ h1, h2⟩

theorem teleport_reads (g : Globals) (landing mod : Int) :
    ((if UMap.count ((if UMap.count g.module_type mod ≠ 0 then g.module_type_at mod
          else (0, g)) : Int × Globals).2.landing_astronaut_types landing ≠ 0 then
        (((((if UMap.count g.module_type mod ≠ 0 then g.module_type_at mod
          else (0, g)) : Int × Globals).2.astronauts_at landing).1.count
            ((if UMap.count g.module_type mod ≠ 0 then g.module_type_at mod
              else (0, g)) : Int × Globals).1 : Nat),
          (((if UMap.count g.module_type mod ≠ 0 then g.module_type_at mod
            else (0, g)) : Int × Globals).2.astronauts_at landing).2)
      else (0, ((if UMap.count g.module_type mod ≠ 0 then g.module_type_at mod
          else (0, g)) : Int × Globals).2)) : Int × Globals) =
      (matching_astronauts g landing mod, g) := by
  unfold matching_astronauts
  have hm : ((if UMap.count g.module_type mod ≠ 0 then g.module_type_at mod
      else (0, g)) : Int × Globals) =
      ((match UMap.find g.module_type mod with
        | some t => t
        | none => 0), g) := by
    cases hf : UMap.find g.module_type mod with
    | none =>
      have : UMap.count g.module_type mod = 0 := (UMap.count_eq_zero_iff _ _).2 hf
      simp [this]
    | some v =>
      have : UMap.count g.module_type mod ≠ 0 := fun e => by
        rw [UMap.count_eq_zero_iff, hf] at e
        exact Option.noConfusion e
      simp [this, Globals.module_type_at, UMap.index_of_find hf]
  rw [hm]
  cases hf : UMap.find g.landing_astronaut_types landing with
  | none =>
    have : UMap.count g.landing_astronaut_types landing = 0 :=
      (UMap.count_eq_zero_iff _ _).2 hf
    simp [this]
  | some v =>
    have : UMap.count g.landing_astronaut_types landing ≠ 0 := fun e => by
      rw [UMap.count_eq_zero_iff, hf] at e
      exact Option.noConfusion e
    simp only [ne_eq, this, not_false_eq_true, if_true, Globals.astronauts_at,
      UMap.index_of_find hf]
    try rfl

theorem teleport_candidates_for_landing_spec (landing : Int) (distmap : UMap Int Int)
    (g : Globals) (hl : UMap.count g.building_positions landing ≠ 0) (mods : List Int) :
    ∀ cands : List Candidate,
      (teleport_candidates_for_landing landing distmap mods g cands).2 = g ∧
        ∀ c ∈ (teleport_candidates_for_landing landing distmap mods g cands).1, c ∈ cands ∨
          ∃ mod ∈ mods, TeleportCandidate g distmap landing mod c := by
  induction mods with
  | nil =>
    intro cands
    exact ⟨rfl, fun c hc => Or.inl hc⟩
  | cons mod rest ih =>
    intro cands
    have lift : ∀ cands0 : List Candidate,
        (∀ c ∈ cands0, c ∈ cands ∨
          ∃ m ∈ mod :: rest, TeleportCandidate g distmap landing m c) →
        (teleport_candidates_for_landing landing distmap rest g cands0).2 = g ∧
          ∀ c ∈ (teleport_candidates_for_landing landing distmap rest g cands0).1, c ∈ cands ∨
            ∃ m ∈ mod :: rest, TeleportCandidate g distmap landing m c := by
      intro cands0 h0
      obtain ⟨e1, e2⟩ := ih cands0
      refine ⟨e1, ?_⟩
      intro c hc
      rcases e2 c hc with h | ⟨m, hm, ht⟩
      · exact h0 c h
      · exact Or.inr ⟨m, List.mem_cons_of_mem _ hm, ht⟩
    unfold teleport_candidates_for_landing
    by_cases h1 : UMap.count g.building_positions mod = 0
    · rw [if_pos h1]
      exact lift cands (fun c hc => Or.inl hc)
    rw [if_neg h1]
    have hd : (if UMap.count distmap mod ≠ 0 then (UMap.index distmap mod).1
        else 1000000000) = hop_distance distmap mod := by
      unfold hop_distance
      rw [UMap.index_fst]
    simp only [hd]
    by_cases h2 : hop_distance distmap mod ≥ 3
    · rw [if_pos h2]
      obtain ⟨pl, hpl⟩ := UMap.find_of_count_ne_zero hl
      obtain ⟨pm, hpm⟩ := UMap.find_of_count_ne_zero h1
      simp only [Globals.position_of_find hpl, Globals.position_of_find hpm, teleport_reads]
      have hs : ((hop_distance distmap mod - 1 : Int) : ℚ) *
          ((matching_astronauts g landing mod : Int) : ℚ) * 50 - 5000 * (1 / 100) =
          ((hop_distance distmap mod - 1 : Int) : ℚ) *
            ((matching_astronauts g landing mod : Int) : ℚ) * 50 - 50 := by
        norm_num
      by_cases h3 : ((hop_distance distmap mod - 1 : Int) : ℚ) *
          ((matching_astronauts g landing mod : Int) : ℚ) * 50 - 5000 * (1 / 100) > 0
      · rw [if_pos h3]
        refine lift _ ?_
        intro c hc
        rcases List.mem_append.1 hc with h | h
        · exact Or.inl h
        · rw [List.mem_singleton] at h
          refine Or.inr ⟨mod, List.mem_cons_self _ _, ?_⟩
          rw [h]
          exact ⟨rfl, rfl, rfl, rfl, h1, h2, hs, h3⟩
      · rw [if_neg h3]
        exact lift cands (fun c hc => Or.inl hc)
    · rw [if_neg h2]
      exact lift cands (fun c hc => Or.inl hc)

theorem generate_teleport_candidates_loop_spec (adj : UMap Int (List (Int × Int)))
    (hw : ∀ x e, e ∈ nbrs_of adj x → e.2 = 0 ∨ e.2 = 1) (modules : List Int) (g : Globals)
    (l : List Int) :
    ∀ cands : List Candidate,
      ∃ cands', generate_teleport_candidates_loop adj modules l g cands = .ok (cands', g) ∧
        ∀ c ∈ cands', c ∈ cands ∨
          ∃ landing ∈ l, UMap.count g.building_positions landing ≠ 0 ∧
            ∃ distmap, bfs_distances_from g.all_buildings (bfs_fuel g.all_buildings) landing
                adj = some distmap ∧
              ∃ mod ∈ modules, TeleportCandidate g distmap landing mod c := by
  induction l with
  | nil =>
    intro cands
    exact ⟨cands, rfl, fun c hc => Or.inl hc⟩
  | cons landing rest ih =>
    intro cands
    unfold generate_teleport_candidates_loop
    by_cases h1 : UMap.count g.building_positions landing = 0
    · rw [if_pos h1]
      obtain ⟨cands', e, hall⟩ := ih cands
      refine ⟨cands', e, ?_⟩
      intro c hc
      rcases hall c hc with h | ⟨x, hx, hr⟩
      · exact Or.inl h
      · exact Or.inr ⟨x, List.mem_cons_of_mem _ hx, hr⟩
    rw [if_neg h1]
    obtain ⟨dist, hd, _⟩ := bfs_distances_from_returns g.all_buildings landing adj hw
    simp only [hd]
    obtain ⟨e1, e2⟩ := teleport_candidates_for_landing_spec landing dist g h1 modules cands
    rw [e1]
    obtain ⟨cands', e, hall⟩ := ih (teleport_candidates_for_landing landing dist modules g cands).1
    refine ⟨cands', e, ?_⟩
    intro c hc
    rcases hall c hc with h | ⟨x, hx, hr⟩
    · rcases e2 c h with h' | h'
      · exact Or.inl h'
      · exact Or.inr ⟨landing, List.mem_cons_self _ _, h1, dist, hd, h'⟩
    · exact Or.inr ⟨x, List.mem_cons_of_mem _ hx, hr⟩

theorem mem_build_has_teleport (routes : List (Int × Int × Int)) :
    ∀ (acc : List Int) (x : Int), x ∈ build_has_teleport routes acc ↔
      x ∈ acc ∨ ∃ t ∈ routes, t.2.2 = 0 ∧ (t.1 = x ∨ t.2.1 = x) := by
  induction routes with
  | nil =>
    intro acc x
    simp [build_has_teleport]
  | cons t rest ih =>
    intro acc x
    obtain ⟨b1, b2, cap⟩ := t
    unfold build_has_teleport
    by_cases h : cap = 0
    · rw [if_pos h, ih]
      have e1 : ∀ (s : List Int) (a : Int), x ∈ uset_insert s a ↔ x ∈ s ∨ x = a := by
        intro s a
        unfold uset_insert
        by_cases hs : a ∈ s
        · rw [if_pos hs]
          constructor
          · exact fun hx => Or.inl hx
          · rintro (hx | hx)
            · exact hx
            · rw [hx]
              exact hs
        · rw [if_neg hs]
          simp
      rw [e1, e1]
      constructor
      · rintro (((h1 | h1) | h1) | ⟨t, ht, hr⟩)
        · exact Or.inl h1
        · exact Or.inr ⟨(b1, b2, cap), List.mem_cons_self _ _, h, Or.inl h1.symm⟩
        · exact Or.inr ⟨(b1, b2, cap), List.mem_cons_self _ _, h, Or.inr h1.symm⟩
        · exact Or.inr ⟨t, List.mem_cons_of_mem _ ht, hr⟩
      · rintro (h1 | ⟨t, ht, h0, hr⟩)
        · exact Or.inl (Or.inl (Or.inl h1))
        · rcases List.mem_cons.1 ht with e | e
          · subst e
            rcases hr with hr | hr
            · exact Or.inl (Or.inl (Or.inr hr.symm))
            · exact Or.inl (Or.inr hr.symm)
          · exact Or.inr ⟨t, e, h0, hr⟩
    · rw [if_neg h, ih]
      constructor
      · rintro (h1 | ⟨t, ht, hr⟩)
        · exact Or.inl h1
        · exact Or.inr ⟨t, List.mem_cons_of_mem _ ht, hr⟩
      · rintro (h1 | ⟨t, ht, h0, hr⟩)
        · exact Or.inl h1
        · rcases List.mem_cons.1 ht with e | e
          · subst e
            exact absurd h0 h
          · exact Or.inr ⟨t, e, h0, hr⟩

/-- On an adjacency map with weights 0 and 1 the shortcut generator returns and leaves the
registries unchanged; each of its candidates joins a landing pad to a module, both
registered and neither touching a shortcut, at a hop distance of at least 3, with a
positive score. -/
theorem generate_teleport_candidates_spec (g : Globals) (R : Int)
    (routes : List (Int × Int × Int)) (adj : UMap Int (List (Int × Int)))
    (hw : ∀ x e, e ∈ nbrs_of adj x → e.2 = 0 ∨ e.2 = 1) :
    ∃ cands, generate_teleport_candidates g R routes adj = .ok (cands, g) ∧
      ∀ c ∈ cands, 5000 ≤ R ∧ ∃ landing mod distmap,
        landing ∈ g.all_buildings ∧ UMap.find g.building_type landing = some "landing" ∧
        mod ∈ g.all_buildings ∧ UMap.find g.building_type mod = some "module" ∧
        (∀ t ∈ routes, t.2.2 = 0 → t.1 ≠ landing ∧ t.2.1 ≠ landing ∧ t.1 ≠ mod ∧ t.2.1 ≠ mod) ∧
        UMap.count g.building_positions landing ≠ 0 ∧
        bfs_distances_from g.all_buildings (bfs_fuel g.all_buildings) landing adj =
          some distmap ∧
        TeleportCandidate g distmap landing mod c := by
  unfold generate_teleport_candidates
  by_cases h : R < 5000
  · rw [if_pos h]
    exact ⟨[], rfl, fun c hc => absurd hc (List.not_mem_nil _)⟩
  rw [if_neg h]
  obtain ⟨e1, e2, e3⟩ := split_landings_modules_spec (build_has_teleport routes [])
    g.all_buildings g ([], [])
  simp only [e1]
  obtain ⟨cands, e, hall⟩ := generate_teleport_candidates_loop_spec adj hw
    (split_landings_modules (build_has_teleport routes []) g.all_buildings g ([], [])).1.2 g
    (split_landings_modules (build_has_teleport routes []) g.all_buildings g ([], [])).1.1 []
  refine ⟨cands, e, ?_⟩
  intro c hc
  rcases hall c hc with h' | ⟨landing, hl, hpl, distmap, hd, mod, hm, ht⟩
  · exact absurd h' (List.not_mem_nil _)
  · rcases e2 landing hl with h' | ⟨l1, l2, l3⟩
    · exact absurd h' (List.not_mem_nil _)
    rcases e3 mod hm with h' | ⟨m1, m2, m3⟩
    · exact absurd h' (List.not_mem_nil _)
    refine ⟨not_lt.1 h, landing, mod, distmap, l1, l2, m1, m2, ?_, hpl, hd, ht⟩
    intro t htr h0
    refine ⟨?_, ?_, ?_, ?_⟩
    · intro e'
      exact l3 ((mem_build_has_teleport routes [] landing).2 (Or.inr ⟨t, htr, h0, Or.inl e'⟩))
    · intro e'
      exact l3 ((mem_build_has_teleport routes [] landing).2 (Or.inr ⟨t, htr, h0, Or.inr e'⟩))
    · intro e'
      exact m3 ((mem_build_has_teleport routes [] mod).2 (Or.inr ⟨t, htr, h0, Or.inl e'⟩))
    · intro e'
      exact m3 ((mem_build_has_teleport routes [] mod).2 (Or.inr ⟨t, htr, h0, Or.inr e'⟩))

/-! ### The planning of a turn runs to completion -/

theorem mem_sort_by_score (l : List Candidate) (c : Candidate) :
    c ∈ sort_by_score l ↔ c ∈ l :=
  (List.perm_insertionSort _ l).mem_iff

/-- The merged candidate list of a turn is produced, the registries change at most in
`landing_astronaut_types`, and every candidate comes from one of the four generators. -/
theorem collect_candidates_spec (hypot : Int → Int → ℚ) (g : Globals) (l : TurnLocals)
    (R : Int) (adj : UMap Int (List (Int × Int)))
    (hw : ∀ x e, e ∈ nbrs_of adj x → e.2 = 0 ∨ e.2 = 1)
    (bottlenecks : List (Int × Int × Int × Int)) :
    ∃ cands g2, collect_candidates hypot g l R adj bottlenecks = .ok (cands, g2) ∧
      g.SameBase g2 ∧ ∀ c ∈ cands, CollectedCandidate g g2 l R c := by
  unfold collect_candidates
  obtain ⟨v1, e1, h1⟩ := generate_tube_candidates_spec hypot g R l.degree l.existing_tubes
  simp only [e1]
  obtain ⟨e2, h2⟩ := generate_upgrade_candidates_spec R bottlenecks g []
  simp only [e2]
  obtain ⟨e3, h3⟩ := generate_pod_candidates_spec g R l.routes l.existing_pod_routes
  have hfirst : ∀ c ∈ v1 ++ (generate_upgrade_candidates R bottlenecks g []).1 ++
      (generate_pod_candidates g R l.routes l.existing_pod_routes).1,
      ∀ g2, CollectedCandidate g g2 l R c := by
    intro c hc g2
    rcases List.mem_append.1 hc with hc | hc
    · rcases List.mem_append.1 hc with hc | hc
      · exact Or.inl (h1 c hc)
      · rcases h2 c hc with h | ⟨b1, b2, cap, flow, _, ht, ha, hb, _, hle, _⟩
        · exact absurd h (List.not_mem_nil _)
        · refine Or.inr (Or.inl ⟨ht, ?_, hle⟩)
          rw [ha, hb]
    · exact Or.inr (Or.inr (Or.inl (h3 c hc)))
  by_cases hgate : (generate_pod_candidates g R l.routes l.existing_pod_routes).2.turn_number
      > 8 ∧ R > 5000 * 2
  · rw [if_pos hgate]
    obtain ⟨v4, e4, h4⟩ := generate_teleport_candidates_spec
      (generate_pod_candidates g R l.routes l.existing_pod_routes).2 R l.routes adj hw
    simp only [e4]
    refine ⟨_, _, rfl, e3, ?_⟩
    intro c hc
    rw [mem_sort_by_score] at hc
    rcases List.mem_append.1 hc with hc | hc
    · exact hfirst c hc _
    · obtain ⟨_, landing, mod, distmap, _, _, _, _, _, _, _, ht⟩ := h4 c hc
      refine Or.inr (Or.inr (Or.inr ⟨?_, ?_, landing, mod, distmap, ht⟩))
      · rw [← e3.2.2.2.2]
        exact hgate.1
      · have := hgate.2
        omega
  · rw [if_neg hgate]
    refine ⟨_, _, rfl, e3, ?_⟩
    intro c hc
    rw [mem_sort_by_score] at hc
    exact hfirst c hc _

theorem CollectedCandidate.generated {g g2 : Globals} {l : TurnLocals} {R : Int}
    {c : Candidate} (h : CollectedCandidate g g2 l R c) : c.Generated := by
  rcases h with ⟨_, _, _, _, _, _, _, _, ht, ha, hb, _⟩ | ⟨ht, ha, _⟩ |
    ⟨_, _, _, _, _, _, _, ht, ha, _, hb⟩ | ⟨_, _, _, _, _, ht, ha, _, hb, _⟩
  · exact Or.inl ⟨ht, by rw [ha, hb]⟩
  · exact Or.inr (Or.inl ⟨ht, ha⟩)
  · exact Or.inr (Or.inr (Or.inl ⟨ht, by rw [ha, hb]⟩))
  · exact Or.inr (Or.inr (Or.inr ⟨ht, by rw [ha, hb]⟩))

/-- The planning of a turn runs to completion: it returns the state that the three
committing passes reach, by steps of the passes, from the state at line 489 on a candidate
list whose members all come from the generators. -/
theorem plan_turn_reach (hypot : Int → Int → ℚ) (g : Globals) (l : TurnLocals) (R : Int) :
    ∃ cands g2 s, g.SameBase g2 ∧ (∀ c ∈ cands, CollectedCandidate g g2 l R c) ∧
      plan_turn hypot g l R = .ok s ∧
      Reach l.existing_pod_ids cands l.new_buildings
        (sweep_start l.routes l.existing_pod_routes
          (turn_start g2 l.existing_tubes l.degree R (next_pod_id l.existing_pod_ids 1))).1
        (turn_start g2 l.existing_tubes l.degree R (next_pod_id l.existing_pod_ids 1)) s := by
  have hw := build_adjacency_weights g.all_buildings l.routes
  obtain ⟨tf, e1⟩ := estimate_astronaut_flow_returns g
    (build_adjacency g.all_buildings l.routes) hw
  obtain ⟨cands, g2, e2, hs, hc⟩ := collect_candidates_spec hypot g l R
    (build_adjacency g.all_buildings l.routes) hw (find_bottleneck_tubes l.routes tf)
  obtain ⟨s, e3, hr⟩ := commit_passes_reach l.existing_pod_ids l.routes l.existing_pod_routes
    l.new_buildings cands
    (turn_start g2 l.existing_tubes l.degree R (next_pod_id l.existing_pod_ids 1))
  refine ⟨cands, g2, s, hs, hc, ?_, hr⟩
  unfold plan_turn
  simp only [e1, e2, e3]

theorem ActionsInv.at_turn_start (ids : List Int) (g : Globals) (et : List (Int × Int))
    (degree : UMap Int Int) (R : Int) :
    ActionsInv ids (turn_start g et degree R (next_pod_id ids 1)) :=
  ⟨[], rfl, rfl, ⟨List.Pairwise.nil, fun _ h => absurd h (List.not_mem_nil _),
    fun _ h => absurd h (List.not_mem_nil _)⟩, NextUnused.at_start ids⟩

/-- The planning of a turn returns a state whose action list is the text of structured
actions, with the vehicle identifiers of its `POD` actions the first positive integers
outside `existing_pod_ids`. -/
theorem plan_turn_actions (hypot : Int → Int → ℚ) (g : Globals) (l : TurnLocals) (R : Int) :
    ∃ s, plan_turn hypot g l R = .ok s ∧ ActionsInv l.existing_pod_ids s := by
  obtain ⟨cands, g2, s, _, hc, e, hr⟩ := plan_turn_reach hypot g l R
  refine ⟨s, e, ?_⟩
  exact Reach.invariant (ActionsInv l.existing_pod_ids)
    (fun _ _ hp hst => ActionsInv.pass_step (fun c hc' => (hc c hc').generated) hp hst) hr
    (ActionsInv.at_turn_start _ _ _ _ _)

/-! ### Vehicle identifiers -/

theorem read_routes_pod_ids (routes : List (Int × Int × Int)) :
    ∀ (g : Globals) (l : TurnLocals),
      (read_routes routes g l).2.existing_pod_ids = l.existing_pod_ids := by
  induction routes with
  | nil => intro g l; rfl
  | cons t rest ih =>
    intro g l
    obtain ⟨b1, b2, cap⟩ := t
    unfold read_routes
    rw [ih]

theorem read_buildings_pod_ids (lines : List (List Int)) :
    ∀ (g : Globals) (l : TurnLocals),
      (read_buildings lines g l).2.existing_pod_ids = l.existing_pod_ids := by
  induction lines with
  | nil => intro g l; rfl
  | cons ints rest ih =>
    intro g l
    unfold read_buildings
    split
    · split_ifs
      · rw [ih]
      · rw [ih]
      · rw [ih]
    · rw [ih]

theorem mem_uset_insert {A : Type} [DecidableEq A] (s : List A) (a x : A) :
    x ∈ uset_insert s a ↔ x ∈ s ∨ x = a := by
  unfold uset_insert
  by_cases hs : a ∈ s
  · rw [if_pos hs]
    constructor
    · exact fun hx => Or.inl hx
    · rintro (hx | hx)
      · exact hx
      · rw [hx]
        exact hs
  · rw [if_neg hs]
    simp

theorem read_pods_pod_ids (lines : List (List Int)) :
    ∀ (l : TurnLocals) (x : Int), x ∈ (read_pods lines l).existing_pod_ids ↔
      x ∈ l.existing_pod_ids ∨ ∃ parts ∈ lines, 3 ≤ parts.length ∧ parts.head? = some x := by
  induction lines with
  | nil =>
    intro l x
    simp [read_pods]
  | cons parts rest ih =>
    intro l x
    unfold read_pods
    split
    · rename_i pod_id n stop stops
      rw [ih]
      simp only [mem_uset_insert]
      constructor
      · rintro ((h | h) | ⟨p, hp, hr⟩)
        · exact Or.inl h
        · refine Or.inr ⟨_, List.mem_cons_self _ _, ?_, ?_⟩
          · simp
          · simp [h]
        · exact Or.inr ⟨p, List.mem_cons_of_mem _ hp, hr⟩
      · rintro (h | ⟨p, hp, h3, hh⟩)
        · exact Or.inl (Or.inl h)
        · rcases List.mem_cons.1 hp with e | e
          · subst e
            simp only [List.head?_cons, Option.some.injEq] at hh
            exact Or.inl (Or.inr hh.symm)
          · exact Or.inr ⟨p, e, h3, hh⟩
    · rename_i hshort
      rw [ih]
      constructor
      · rintro (h | ⟨p, hp, hr⟩)
        · exact Or.inl h
        · exact Or.inr ⟨p, List.mem_cons_of_mem _ hp, hr⟩
      · rintro (h | ⟨p, hp, h3, hh⟩)
        · exact Or.inl h
        · rcases List.mem_cons.1 hp with e | e
          · subst e
            exfalso
            match p, h3, hshort with
            | a :: b :: c :: d, _, hs => exact hs a b c d rfl
          · exact Or.inr ⟨p, e, h3, hh⟩

/-- The vehicle identifiers that a turn records are those of the pod lines of its input
with at least three tokens. -/
theorem read_input_pod_ids (g : Globals) (inp : TurnInput) (x : Int) :
    x ∈ (read_input g inp).2.existing_pod_ids ↔ InputPodId inp x := by
  unfold read_input InputPodId
  simp only [read_buildings_pod_ids]
  rw [read_pods_pod_ids, read_routes_pod_ids]
  simp

theorem FirstUnused.congr {used used' : Int → Prop} (h : ∀ x, used x ↔ used' x)
    {ids : List Int} (hf : FirstUnused used ids) : FirstUnused used' ids := by
  obtain ⟨h1, h2, h3⟩ := hf
  refine ⟨h1, ?_, ?_⟩
  · intro x hx
    exact ⟨(h2 x hx).1, fun hu => (h2 x hx).2 ((h x).2 hu)⟩
  · intro x hx y hy hlt hn
    exact h3 x hx y hy hlt (fun hu => hn ((h y).1 hu))

/-- Every turn runs to completion; its action list is the text of structured actions, and
the vehicle identifiers of its `POD` actions are, in order, the first positive integers that
the input of the turn does not record. -/
theorem main_turn_actions (hypot : Int → Int → ℚ) (g : Globals) (inp : TurnInput) :
    ∃ s acts, main_turn hypot g inp = .ok s ∧ s.actions = acts.map Action.render ∧
      s.committed.map Prod.fst = acts.map Action.category ∧
      FirstUnused (InputPodId inp) (emitted_pod_ids acts) := by
  unfold main_turn
  obtain ⟨s, e, acts, h1, h2, h3, _⟩ := plan_turn_actions hypot (read_input g inp).1
    (read_input g inp).2 inp.resources
  exact ⟨s, acts, e, h1, h2, h3.congr (read_input_pod_ids g inp)⟩

/-- C15 (amended): every turn of v3.cpp runs to completion, and the vehicle identifiers of
the `POD` actions it prints (those of the Greedy Selector, then those of the Coverage Sweep)
are, in the order of the action list, the first positive integers that do not occur among
the vehicle identifiers the turn records from its input, which are the first tokens of the
pod lines of at least three tokens (`InputPodId`; shorter lines are skipped): the list of
emitted identifiers is strictly increasing, each member is positive and not a recorded
identifier, and every positive integer below a member that is not a recorded identifier is
itself a member. -/
theorem emitted_pod_ids_are_lowest_unused (hypot : Int → Int → ℚ) (g : Globals)
    (inp : TurnInput) :
    ∃ s acts, main_turn hypot g inp = .ok s ∧ s.actions = acts.map Action.render ∧
      (emitted_pod_ids acts).Pairwise (fun a b => a < b) ∧
      (∀ x ∈ emitted_pod_ids acts, 0 < x ∧ ¬ InputPodId inp x) ∧
      ∀ x ∈ emitted_pod_ids acts, ∀ y, 0 < y → y < x → ¬ InputPodId inp y →
        y ∈ emitted_pod_ids acts := by
  obtain ⟨s, acts, e, h1, _, h3⟩ := main_turn_actions hypot g inp
  exact ⟨s, acts, e, h1, h3.1, h3.2.1, h3.2.2⟩

/-- C14, amended to the identifiers the turn itself records: every sequence of turns of
v3.cpp runs to completion, and in each turn every vehicle identifier of a printed `POD`
action differs from every vehicle identifier recorded from the input of that turn, that is,
from the first token of every pod line of at least three tokens (`InputPodId`). -/
theorem emitted_pod_ids_not_in_turn_input (hypot : Int → Int → ℚ) (inputs : List TurnInput) :
    ∀ g : Globals, ∃ outs g', run_turns hypot inputs g = .ok (outs, g') ∧
      List.Forall₂
        (fun inp out => ∃ acts : List Action, out = acts.map Action.render ∧
          ∀ x ∈ emitted_pod_ids acts, ¬ InputPodId inp x)
        inputs outs := by
  induction inputs with
  | nil =>
    intro g
    exact ⟨[], g, rfl, List.Forall₂.nil⟩
  | cons inp rest ih =>
    intro g
    obtain ⟨s, acts, e, h1, _, h3⟩ := main_turn_actions hypot g inp
    obtain ⟨outs, g', e2, hall⟩ := ih s.g
    refine ⟨s.actions :: outs, g', ?_, List.Forall₂.cons ⟨acts, h1, fun x hx => (h3.2.1 x hx).2⟩
      hall⟩
    unfold run_turns
    simp only [e, e2]

/-! ### The shortcut gate -/

/-- Every step of the passes keeps the counting invariant. -/
theorem TurnInv.count_step {ids : List Int} {cands : List Candidate} {nb : List Int}
    {work : List (Int × Int × Int)} {s s' : TurnState} (h : TurnInv s)
    (hst : PassStep ids cands nb work s s') : TurnInv s' := by
  cases hst with
  | read_counters t =>
    exact h.neutral rfl rfl (fun _ => UMap.val_index_snd _ _ _)
      (fun _ => UMap.val_index_snd _ _ _)
  | read_count t => exact h.neutral rfl rfl (fun _ => UMap.val_index_snd _ _ _) (fun _ => rfl)
  | declare_existing_set => exact h.neutral rfl rfl (fun _ => rfl) (fun _ => rfl)
  | declare_covered_tubes c => exact h.neutral rfl rfl (fun _ => rfl) (fun _ => rfl)
  | greedy c _ _ hq hcost _ =>
    refine h.commit_step c.type c.cost ?_ ?_ (greedy_commit_committed _ _ _)
      (greedy_commit_actions_count _ _ _) (greedy_commit_MAX_PER_TYPE _ _ _)
    · rw [← h.maxes]
      exact hq
    · rw [greedy_commit_actions]
      simp
  | fallback b best _ hq _ _ _ _ _ hel _ _ _ =>
    refine h.commit_step "TUBE" best.best_cost ?_ ?_ rfl rfl rfl
    · rw [← h.maxes]
      exact hq
    · simp [fallback_commit]
  | sweep p b1 b2 _ hq hr =>
    refine h.commit_step "POD" 1000 ?_ ?_ rfl rfl rfl
    · have : quota "POD" = 6 := by decide
      rw [this]
      exact hq
    · simp [sweep_commit]

/-- Every entry of the commit log has the category of a link, of a vehicle, or of a
candidate of the list. -/
theorem committed_categories_step {ids : List Int} {cands : List Candidate} {nb : List Int}
    {work : List (Int × Int × Int)} {s s' : TurnState}
    (h : ∀ e ∈ s.committed, e.1 = "TUBE" ∨ e.1 = "POD" ∨ ∃ c ∈ cands, c.type = e.1)
    (hst : PassStep ids cands nb work s s') :
    ∀ e ∈ s'.committed, e.1 = "TUBE" ∨ e.1 = "POD" ∨ ∃ c ∈ cands, c.type = e.1 := by
  cases hst with
  | read_counters t => exact h
  | read_count t => exact h
  | declare_existing_set => exact h
  | declare_covered_tubes c => exact h
  | greedy c hc _ _ _ _ =>
    intro e he
    rw [greedy_commit_committed] at he
    rcases List.mem_append.1 he with h1 | h1
    · exact h e h1
    · rw [List.mem_singleton] at h1
      rw [h1]
      exact Or.inr (Or.inr ⟨c, hc, rfl⟩)
  | fallback b best =>
    intro e he
    rcases List.mem_append.1 he with h1 | h1
    · exact h e h1
    · rw [List.mem_singleton] at h1
      rw [h1]
      exact Or.inl rfl
  | sweep p b1 b2 =>
    intro e he
    rcases List.mem_append.1 he with h1 | h1
    · exact h e h1
    · rw [List.mem_singleton] at h1
      rw [h1]
      exact Or.inr (Or.inl rfl)

theorem committed_count_eq_zero (log : List (String × Int)) (t : String)
    (h : ∀ e ∈ log, e.1 ≠ t) : committed_count log t = 0 := by
  unfold committed_count
  rw [List.length_eq_zero, List.filter_eq_nil_iff]
  intro e he
  simpa using h e he

theorem Action.render_not_teleport (a : Action) (h : a.category ≠ "TELEPORT") :
    ¬ ("TELEPORT".data <+: a.render.data) := by
  cases a with
  | tube x y =>
    intro hp
    simp [Action.render, String.data_append] at hp
  | upgrade x y =>
    intro hp
    simp [Action.render, String.data_append] at hp
  | pod i x y =>
    intro hp
    simp [Action.render, String.data_append] at hp
  | teleport x y => exact absurd rfl h

theorem read_routes_turn_number (routes : List (Int × Int × Int)) :
    ∀ (g : Globals) (l : TurnLocals),
      (read_routes routes g l).1.turn_number = g.turn_number := by
  induction routes with
  | nil => intro g l; rfl
  | cons t rest ih =>
    intro g l
    obtain ⟨b1, b2, cap⟩ := t
    unfold read_routes
    rw [ih]

theorem read_buildings_turn_number (lines : List (List Int)) :
    ∀ (g : Globals) (l : TurnLocals),
      (read_buildings lines g l).1.turn_number = g.turn_number := by
  induction lines with
  | nil => intro g l; rfl
  | cons ints rest ih =>
    intro g l
    unfold read_buildings
    split
    · split_ifs
      · rw [ih]
      · rw [ih]
      · rw [ih]
    · rw [ih]

/-- The turn counter that a turn works with is one more than the counter it found. -/
theorem read_input_turn_number (g : Globals) (inp : TurnInput) :
    (read_input g inp).1.turn_number = g.turn_number + 1 := by
  unfold read_input
  simp only [read_buildings_turn_number, read_routes_turn_number]

/-- C17: every turn runs to completion, and a turn whose turn counter (the counter after the
increment of line 356) is 8 or less, or whose starting budget is not above 10000, commits no
`TELEPORT` action: the counter `actions_count["TELEPORT"]` is 0 at the end of the turn, the
commit log has no entry of that category, and no printed action starts with
`TELEPORT`. -/
theorem no_teleport_before_turn_nine_or_low_budget (hypot : Int → Int → ℚ) (g : Globals)
    (inp : TurnInput) (h : g.turn_number + 1 ≤ 8 ∨ inp.resources ≤ 10000) :
    ∃ s, main_turn hypot g inp = .ok s ∧ UMap.val s.actions_count "TELEPORT" = 0 ∧
      committed_count s.committed "TELEPORT" = 0 ∧
      ∀ a ∈ s.actions, ¬ ("TELEPORT".data <+: a.data) := by
  unfold main_turn
  obtain ⟨cands, g2, s, _, hc, e, hr⟩ := plan_turn_reach hypot (read_input g inp).1
    (read_input g inp).2 inp.resources
  have hno : ∀ c ∈ cands, c.type ≠ "TELEPORT" := by
    intro c hcm
    rcases hc c hcm with ⟨_, _, _, _, _, _, _, _, ht, _⟩ | ⟨ht, _⟩ |
      ⟨_, _, _, _, _, _, _, ht, _⟩ | ⟨h1, h2, _⟩
    · rw [ht]; decide
    · rw [ht]; decide
    · rw [ht]; decide
    · rw [read_input_turn_number] at h1
      omega
  have hinv : TurnInv s :=
    Reach.invariant TurnInv (fun _ _ hp hst => TurnInv.count_step hp hst) hr
      (TurnInv.start _ _ _ _ _)
  have hcat : ∀ e ∈ s.committed, e.1 = "TUBE" ∨ e.1 = "POD" ∨ ∃ c ∈ cands, c.type = e.1 :=
    Reach.invariant
      (fun x => ∀ e ∈ x.committed, e.1 = "TUBE" ∨ e.1 = "POD" ∨ ∃ c ∈ cands, c.type = e.1)
      (fun _ _ hp hst => committed_categories_step hp hst) hr
      (fun _ he => absurd he (List.not_mem_nil _))
  have hlog : ∀ e ∈ s.committed, e.1 ≠ "TELEPORT" := by
    intro e he
    rcases hcat e he with h1 | h1 | ⟨c, hcm, h1⟩
    · rw [h1]; decide
    · rw [h1]; decide
    · rw [← h1]
      exact hno c hcm
  have hzero := committed_count_eq_zero s.committed "TELEPORT" hlog
  obtain ⟨acts, a1, a2, _, _⟩ : ActionsInv (read_input g inp).2.existing_pod_ids s :=
    Reach.invariant (ActionsInv (read_input g inp).2.existing_pod_ids)
      (fun _ _ hp hst => ActionsInv.pass_step (fun c hc' => (hc c hc').generated) hp hst) hr
      (ActionsInv.at_turn_start _ _ _ _ _)
  refine ⟨s, e, ?_, hzero, ?_⟩
  · rw [hinv.counts, hzero]
    rfl
  · intro a ha
    rw [a1] at ha
    obtain ⟨act, hact, rfl⟩ := List.mem_map.1 ha
    apply Action.render_not_teleport
    have hm : act.category ∈ s.committed.map Prod.fst := by
      rw [a2]
      exact List.mem_map_of_mem _ hact
    obtain ⟨e', he', h1⟩ := List.mem_map.1 hm
    rw [← h1]
    exact hlog e' he'

theorem no_teleport_before_turn_nine_or_low_budget_witness :
    ∃ s, main_turn (fun _ _ => 0) initial_globals
        { resources := 20000, routes := [], pod_lines := [],
          building_lines := [[0, 1, 0, 0, 3, 7, 7, 7], [7, 2, 10, 0]] } = .ok s ∧
      UMap.val s.actions_count "TELEPORT" = 0 ∧
      committed_count s.committed "TELEPORT" = 0 ∧
      ∀ a ∈ s.actions, ¬ ("TELEPORT".data <+: a.data) :=
  no_teleport_before_turn_nine_or_low_budget (fun _ _ => 0) initial_globals
    { resources := 20000, routes := [], pod_lines := [],
      building_lines := [[0, 1, 0, 0, 3, 7, 7, 7], [7, 2, 10, 0]] } (Or.inl (by decide))

/-! ### The working link list -/

theorem append_singleton_eq_append_cons {A : Type} (new pre post : List A) (b e : A)
    (h : new ++ [b] = pre ++ e :: post) :
    (post = [] ∧ pre = new ∧ e = b) ∨ ∃ post', post = post' ++ [b] ∧ new = pre ++ e :: post' := by
  rcases List.eq_nil_or_concat post with hp | ⟨post', x, hp⟩
  · left
    subst hp
    have h1 : new ++ [b] = pre ++ [e] := h
    have := List.append_inj' h1 rfl
    exact ⟨rfl, this.1.symm, (List.singleton_inj.1 this.2).symm⟩
  · right
    subst hp
    have h1 : new ++ [b] = (pre ++ e :: post') ++ [x] := by
      rw [h]
      simp
    have := List.append_inj' h1 rfl
    have hx : b = x := List.singleton_inj.1 this.2
    exact ⟨post', by rw [hx, List.concat_eq_append], this.1⟩

theorem degree_after_append (degree : UMap Int Int) (new : List (Int × Int)) (e : Int × Int) :
    degree_after degree (new ++ [e]) =
      bump_degree (bump_degree (degree_after degree new) e.1) e.2 := by
  unfold degree_after
  rw [List.foldl_append]
  rfl

/-- Committing a link that the validator accepts keeps the invariant of the working link
list. -/
theorem LinksInv.push {g0 : Globals} {et0 : List (Int × Int)} {degree0 : UMap Int Int}
    {s s' : TurnState} (h : LinksInv g0 et0 degree0 s) (b : Int × Int)
    (hv : ValidLink s.g b.1 b.2 s.existing_tubes s.degree 5) (hg : s'.g = s.g)
    (ht : s'.existing_tubes = s.existing_tubes ++ [b])
    (hd : s'.degree = bump_degree (bump_degree s.degree b.1) b.2) :
    LinksInv g0 et0 degree0 s' := by
  obtain ⟨e1, new, e2, e3, e4⟩ := h
  refine ⟨hg.trans e1, new ++ [b], ?_, ?_, ?_⟩
  · rw [ht, e2, List.append_assoc]
  · rw [hd, e3, degree_after_append]
  · intro pre e post hdec
    rcases append_singleton_eq_append_cons new pre post b e hdec with ⟨_, h2, h3⟩ |
      ⟨post', _, h2⟩
    · rw [h2, h3, ← e1, ← e2, ← e3]
      exact hv
    · exact e4 pre e post' h2

theorem LinksInv.unchanged {g0 : Globals} {et0 : List (Int × Int)} {degree0 : UMap Int Int}
    {s s' : TurnState} (h : LinksInv g0 et0 degree0 s) (hg : s'.g = s.g)
    (ht : s'.existing_tubes = s.existing_tubes) (hd : s'.degree = s.degree) :
    LinksInv g0 et0 degree0 s' := by
  obtain ⟨e1, new, e2, e3, e4⟩ := h
  exact ⟨hg.trans e1, new, ht.trans e2, hd.trans e3, e4⟩

/-- Every step of the passes keeps the invariant of the working link list. -/
theorem LinksInv.link_step {g0 : Globals} {et0 : List (Int × Int)} {degree0 : UMap Int Int}
    {ids : List Int} {cands : List Candidate} {nb : List Int}
    {work : List (Int × Int × Int)} {s s' : TurnState} (h : LinksInv g0 et0 degree0 s)
    (hst : PassStep ids cands nb work s s') : LinksInv g0 et0 degree0 s' := by
  cases hst with
  | read_counters t => exact h.unchanged rfl rfl rfl
  | read_count t => exact h.unchanged rfl rfl rfl
  | declare_existing_set => exact h.unchanged rfl rfl rfl
  | declare_covered_tubes c => exact h.unchanged rfl rfl rfl
  | greedy c _ _ _ _ hv =>
    by_cases ht : c.type = "TUBE"
    · refine h.push c.buildings (hv ht) (greedy_commit_g _ _ _) ?_ ?_
      · rw [greedy_commit_existing_tubes, if_pos ht]
      · rw [greedy_commit_degree, if_pos ht]
    · refine h.unchanged (greedy_commit_g _ _ _) ?_ ?_
      · rw [greedy_commit_existing_tubes, if_neg ht]
      · rw [greedy_commit_degree, if_neg ht]
  | fallback b best _ _ _ _ _ _ _ hel _ _ _ =>
    exact h.push (b, best.best_neighbor) hel.2.2.2.1 rfl rfl rfl
  | sweep p b1 b2 => exact h.unchanged rfl rfl rfl

theorem LinksInv.at_pass_start (s : TurnState) : LinksInv s.g s.existing_tubes s.degree s :=
  ⟨rfl, [], by simp, rfl, fun pre e post h => absurd h (by simp)⟩

theorem LinksCross.symm {g : Globals} {e1 e2 : Int × Int} (h : LinksCross g e1 e2) :
    LinksCross g e2 e1 := by
  obtain ⟨h1, h2, h3, h4, p1, q1, p2, q2, f1, f2, f3, f4, hm⟩ := h
  exact ⟨fun e => h1 e.symm, fun e => h3 e.symm, fun e => h2 e.symm, fun e => h4 e.symm,
    p2, q2, p1, q1, f3, f4, f1, f2, SegmentsMeet_symm hm⟩

/-- When the registered positions are small, a link that the validator accepts crosses none
of the links it was checked against. -/
theorem ValidLink.not_cross {g : Globals} {u v : Int} {tubes : List (Int × Int)}
    {degree : UMap Int Int} {max_deg : Int} (hs : SmallPositions g)
    (h : ValidLink g u v tubes degree max_deg)
    (ab : Int × Int) (hab : ab ∈ tubes) : ¬ LinksCross g (u, v) ab := by
  obtain ⟨pu, pv, fu, fv, _, _, hb, _⟩ := h
  rintro ⟨h1, h2, h3, h4, p1, q1, p2, q2, f1, f2, f3, f4, hm⟩
  apply hb
  refine ⟨ab, hab, fun e => h1 e.symm, fun e => h3 e.symm, fun e => h2 e.symm,
    fun e => h4 e.symm, p2, q2, f3, f4, ?_⟩
  simp only [] at f1 f2
  rw [fu] at f1
  rw [fv] at f2
  cases f1
  cases f2
  exact (segments_intersect_iff_meet _ _ _ _ (hs.point fu) (hs.point fv) (hs.point f3)
    (hs.point f4)).2 hm

theorem NonCrossing.of_validated (g : Globals) (hs : SmallPositions g)
    (et0 : List (Int × Int))
    (degree0 : UMap Int Int) (h0 : NonCrossing g et0) (new : List (Int × Int)) :
    (∀ pre e post, new = pre ++ e :: post →
      ValidLink g e.1 e.2 (et0 ++ pre) (degree_after degree0 pre) 5) →
    NonCrossing g (et0 ++ new) := by
  induction new using List.reverseRecOn with
  | nil =>
    intro _
    simpa using h0
  | append_singleton new b ih =>
    intro hall
    have hprev := ih (fun pre e post hdec => hall pre e (post ++ [b]) (by rw [hdec]; simp))
    have hb := hall new b [] rfl
    have hself : ¬ LinksCross g b b := fun h => h.1 rfl
    intro e1 h1 e2 h2
    rw [← List.append_assoc] at h1 h2
    rcases List.mem_append.1 h1 with h1 | h1
    · rcases List.mem_append.1 h2 with h2 | h2
      · exact hprev e1 h1 e2 h2
      · rw [List.mem_singleton] at h2
        rw [h2]
        exact fun hc => ValidLink.not_cross hs hb e1 h1 hc.symm
    · rw [List.mem_singleton] at h1
      rw [h1]
      rcases List.mem_append.1 h2 with h2 | h2
      · exact ValidLink.not_cross hs hb e2 h2
      · rw [List.mem_singleton] at h2
        rw [h2]
        exact hself

/-- C19 (counterexample): in the registry of the wide crossing, with the single input link
3-4 (so that no two input links cross) and the candidate `TUBE 1 2`, the Greedy Selector
commits the link 1-2 and the Fallback Connector adds nothing; the working link list is then
`[(3, 4), (1, 2)]`, whose two links have disjoint endpoints and segments that cross at
`(5, -2000000000)`. -/
theorem wide_link_committed_across_input_link :
    NonCrossing wide_crossing_scenario [(3, 4)] ∧
      LinksCross wide_crossing_scenario (1, 2) (3, 4) ∧
      ∃ s1 s2,
        greedy_selector []
            [{ type := "TUBE", action := "TUBE 1 2", score := 0, cost := 100,
               buildings := (1, 2) }]
            (turn_start wide_crossing_scenario [(3, 4)] [(3, 1), (4, 1)] 10000 1) = .ok s1 ∧
          fallback_connector [] (fallback_start s1) = .ok s2 ∧
          s2.existing_tubes = [(3, 4), (1, 2)] ∧
          ¬ NonCrossing s2.g s2.existing_tubes := by
  have hc : LinksCross wide_crossing_scenario (1, 2) (3, 4) :=
    ⟨by decide, by decide, by decide, by decide, (0, -2000000000), (10, -2000000000),
      (5, 2000000000), (5, -2000000010), by decide, by decide, by decide, by decide,
      1 / 2, 400000000 / 400000001, by norm_num⟩
  refine ⟨?_, hc, _, _, rfl, rfl, rfl, ?_⟩
  · intro e1 h1 e2 h2 h
    rw [List.mem_singleton] at h1 h2
    rw [h1, h2] at h
    exact h.1 rfl
  · intro h
    exact h (1, 2) (by decide) (3, 4) (by decide) hc

/-- C19 (amended): when every registered position has its coordinates in
`[-2^30, 2^30 - 1]`, the Greedy Selector and then the Fallback Connector run to completion
from every state and for every candidate list; the working link list they leave is the one
they started with followed by the links committed in the turn; the validator accepted every
committed link against all the links before it in that list, the earlier commits of the turn
included; and if no two links of the starting list with disjoint endpoints and registered
positions have intersecting segments, the same holds of the whole working link list. -/
theorem working_links_stay_non_crossing (ids : List Int) (cands : List Candidate)
    (nb : List Int) (s0 : TurnState) (hs : SmallPositions s0.g)
    (h : NonCrossing s0.g s0.existing_tubes) :
    ∃ s1 s2, greedy_selector ids cands s0 = .ok s1 ∧
      fallback_connector nb (fallback_start s1) = .ok s2 ∧ s2.g = s0.g ∧
      NonCrossing s2.g s2.existing_tubes ∧
      ∃ new : List (Int × Int), s2.existing_tubes = s0.existing_tubes ++ new ∧
        ∀ pre e post, new = pre ++ e :: post →
          ValidLink s0.g e.1 e.2 (s0.existing_tubes ++ pre) (degree_after s0.degree pre) 5 := by
  obtain ⟨s1, e1, r1⟩ := greedy_selector_reach ids cands nb [] cands (fun _ hc => hc) s0
  obtain ⟨s2, e2, r2⟩ := fallback_connector_reach ids cands nb [] nb (fun _ hb => hb)
    (fallback_start s1)
  have r12 : Reach ids cands nb [] s0 s2 :=
    Reach.trans r1 (Reach.step_then (PassStep.declare_existing_set s1) r2)
  obtain ⟨hg, new, h1, _, h3⟩ : LinksInv s0.g s0.existing_tubes s0.degree s2 :=
    Reach.invariant (LinksInv s0.g s0.existing_tubes s0.degree)
      (fun _ _ hp hst => LinksInv.link_step hp hst) r12 (LinksInv.at_pass_start s0)
  refine ⟨s1, s2, e1, e2, hg, ?_, new, h1, h3⟩
  rw [hg, h1]
  exact NonCrossing.of_validated s0.g hs s0.existing_tubes s0.degree h new h3

theorem working_links_stay_non_crossing_witness :
    ∃ s1 s2,
      greedy_selector []
          [{ type := "TUBE", action := "TUBE 5 6", score := 0, cost := 56,
             buildings := (5, 6) }]
          (turn_start crossing_scenario [(1, 2)] [(1, 1), (2, 1)] 10000 1) = .ok s1 ∧
        fallback_connector [7] (fallback_start s1) = .ok s2 ∧
        s2.g = (turn_start crossing_scenario [(1, 2)] [(1, 1), (2, 1)] 10000 1).g ∧
        NonCrossing s2.g s2.existing_tubes ∧
        ∃ new : List (Int × Int),
          s2.existing_tubes =
              (turn_start crossing_scenario [(1, 2)] [(1, 1), (2, 1)] 10000 1).existing_tubes ++
                new ∧
            ∀ pre e post, new = pre ++ e :: post →
              ValidLink (turn_start crossing_scenario [(1, 2)] [(1, 1), (2, 1)] 10000 1).g
                e.1 e.2
                ((turn_start crossing_scenario [(1, 2)] [(1, 1), (2, 1)] 10000
                  1).existing_tubes ++ pre)
                (degree_after
                  (turn_start crossing_scenario [(1, 2)] [(1, 1), (2, 1)] 10000 1).degree pre)
                5 :=
  working_links_stay_non_crossing []
    [{ type := "TUBE", action := "TUBE 5 6", score := 0, cost := 56, buildings := (5, 6) }]
    [7] (turn_start crossing_scenario [(1, 2)] [(1, 1), (2, 1)] 10000 1)
    (by decide)
    (by
      intro e1 h1 e2 h2 hc
      simp only [turn_start, List.mem_singleton] at h1 h2
      rw [h1, h2] at hc
      exact hc.1 rfl)

/-! ### The degree counters -/

theorem UMap.val_bump_degree (degree : UMap Int Int) (b v : Int) :
    UMap.val (bump_degree degree b) v =
      if v = b then UMap.val degree b + 1 else UMap.val degree v := by
  unfold bump_degree
  by_cases h : UMap.count degree b ≠ 0
  · rw [if_pos h]
    simp only [UMap.val_set, UMap.index_fst, UMap.val_index_snd]
  · rw [if_neg h, UMap.val_set]
    have h0 : UMap.find degree b = none := (UMap.count_eq_zero_iff _ _).1 (not_not.1 h)
    have : UMap.val degree b = 0 := by
      unfold UMap.val
      rw [h0]
    rw [this]
    rfl

/-- A node that the validator accepts as an endpoint has a degree counter below the
maximum. -/
theorem ValidLink.degree_lt {g : Globals} {u v : Int} {tubes : List (Int × Int)}
    {degree : UMap Int Int} {max_deg : Int} (h : ValidLink g u v tubes degree max_deg)
    (hpos : 0 < max_deg) : UMap.val degree u < max_deg ∧ UMap.val degree v < max_deg := by
  obtain ⟨_, _, _, _, hu, hv, _, _⟩ := h
  constructor
  · unfold UMap.val
    cases hf : UMap.find degree u with
    | none => exact hpos
    | some x => exact not_le.1 (fun hx => hu ⟨x, hf, hx⟩)
  · unfold UMap.val
    cases hf : UMap.find degree v with
    | none => exact hpos
    | some x => exact not_le.1 (fun hx => hv ⟨x, hf, hx⟩)

/-- Invariant of the committing passes: every link of the working list beyond the first
`n` joins two different nodes. -/
theorem distinct_endpoints_step {n : Nat} {ids : List Int} {cands : List Candidate}
    {nb : List Int} {work : List (Int × Int × Int)}
    (hne : ∀ c ∈ cands, c.type = "TUBE" → c.buildings.1 ≠ c.buildings.2) {s s' : TurnState}
    (h : ∀ e ∈ s.existing_tubes.drop n, e.1 ≠ e.2) (hlen : n ≤ s.existing_tubes.length)
    (hst : PassStep ids cands nb work s s') :
    (∀ e ∈ s'.existing_tubes.drop n, e.1 ≠ e.2) ∧ n ≤ s'.existing_tubes.length := by
  have push : ∀ b : Int × Int, b.1 ≠ b.2 →
      (∀ e ∈ (s.existing_tubes ++ [b]).drop n, e.1 ≠ e.2) ∧
        n ≤ (s.existing_tubes ++ [b]).length := by
    intro b hb
    constructor
    · intro e he
      rw [List.drop_append_of_le_length hlen] at he
      rcases List.mem_append.1 he with h1 | h1
      · exact h e h1
      · rw [List.mem_singleton] at h1
        rw [h1]
        exact hb
    · rw [List.length_append]
      omega
  cases hst with
  | read_counters t => exact ⟨h, hlen⟩
  | read_count t => exact ⟨h, hlen⟩
  | declare_existing_set => exact ⟨h, hlen⟩
  | declare_covered_tubes c => exact ⟨h, hlen⟩
  | greedy c hc _ _ _ _ =>
    rw [greedy_commit_existing_tubes]
    by_cases ht : c.type = "TUBE"
    · rw [if_pos ht]
      exact push c.buildings (hne c hc ht)
    · rw [if_neg ht]
      exact ⟨h, hlen⟩
  | fallback b best _ _ _ _ _ _ _ hel _ _ _ =>
    exact push (b, best.best_neighbor) (fun e => hel.1 e.symm)
  | sweep p b1 b2 => exact ⟨h, hlen⟩

theorem degree_after_le_five (degree0 : UMap Int Int) (g : Globals) (et0 : List (Int × Int))
    (hdeg : ∀ v, UMap.val degree0 v ≤ 5) (new : List (Int × Int)) :
    (∀ e ∈ new, e.1 ≠ e.2) →
    (∀ pre e post, new = pre ++ e :: post →
      ValidLink g e.1 e.2 (et0 ++ pre) (degree_after degree0 pre) 5) →
    ∀ v, UMap.val (degree_after degree0 new) v ≤ 5 := by
  induction new using List.reverseRecOn with
  | nil =>
    intro _ _
    exact hdeg
  | append_singleton new b ih =>
    intro hne hall v
    have hprev := ih (fun e he => hne e (List.mem_append_left _ he))
      (fun pre e post hdec => hall pre e (post ++ [b]) (by rw [hdec]; simp))
    have hb := (hall new b [] rfl).degree_lt (by decide)
    have hbne := hne b (List.mem_append_right _ (List.mem_singleton.2 rfl))
    simp only [degree_after_append, UMap.val_bump_degree]
    have := hprev v
    have hbne' : ¬ b.2 = b.1 := fun e => hbne e.symm
    by_cases h1 : v = b.2
    · rw [if_pos h1, if_neg hbne']
      omega
    · rw [if_neg h1]
      by_cases h2 : v = b.1
      · rw [if_pos h2]
        omega
      · rw [if_neg h2]
        exact this

/-- C20, amended by the condition that no candidate link joins a node to itself: the Greedy
Selector and then the Fallback Connector run to completion; the working link list they
leave is the starting one followed by the links committed in the turn, and the degree
counters are the starting ones after these commits; when every node starts with a degree
counter of at most 5, every node has a degree counter of at most 5 after every commit (after
each prefix of the committed links); and the degree counters of both endpoints of a
committed link are below 5 at the time of its commit. -/
theorem degree_counters_stay_within_five (ids : List Int) (cands : List Candidate)
    (nb : List Int) (s0 : TurnState) (hdeg : ∀ v, UMap.val s0.degree v ≤ 5)
    (hne : ∀ c ∈ cands, c.type = "TUBE" → c.buildings.1 ≠ c.buildings.2) :
    ∃ s1 s2, greedy_selector ids cands s0 = .ok s1 ∧
      fallback_connector nb (fallback_start s1) = .ok s2 ∧
      ∃ new : List (Int × Int), s2.existing_tubes = s0.existing_tubes ++ new ∧
        s2.degree = degree_after s0.degree new ∧
        (∀ k v, UMap.val (degree_after s0.degree (new.take k)) v ≤ 5) ∧
        ∀ pre e post, new = pre ++ e :: post →
          UMap.val (degree_after s0.degree pre) e.1 < 5 ∧
            UMap.val (degree_after s0.degree pre) e.2 < 5 := by
  obtain ⟨s1, e1, r1⟩ := greedy_selector_reach ids cands nb [] cands (fun _ hc => hc) s0
  obtain ⟨s2, e2, r2⟩ := fallback_connector_reach ids cands nb [] nb (fun _ hb => hb)
    (fallback_start s1)
  have r12 : Reach ids cands nb [] s0 s2 :=
    Reach.trans r1 (Reach.step_then (PassStep.declare_existing_set s1) r2)
  obtain ⟨_, new, h1, h2, h3⟩ : LinksInv s0.g s0.existing_tubes s0.degree s2 :=
    Reach.invariant (LinksInv s0.g s0.existing_tubes s0.degree)
      (fun _ _ hp hst => LinksInv.link_step hp hst) r12 (LinksInv.at_pass_start s0)
  obtain ⟨hd, _⟩ := Reach.invariant
    (fun x => (∀ e ∈ x.existing_tubes.drop s0.existing_tubes.length, e.1 ≠ e.2) ∧
      s0.existing_tubes.length ≤ x.existing_tubes.length)
    (fun _ _ hp hst => distinct_endpoints_step hne hp.1 hp.2 hst) r12
    ⟨by simp, le_refl _⟩
  have hnew : ∀ e ∈ new, e.1 ≠ e.2 := by
    intro e he
    apply hd e
    rw [h1, List.drop_left]
    exact he
  refine ⟨s1, s2, e1, e2, new, h1, h2, ?_, ?_⟩
  · intro k v
    apply degree_after_le_five s0.degree s0.g s0.existing_tubes hdeg (new.take k)
    · exact fun e he => hnew e (List.mem_of_mem_take he)
    · intro pre e post hdec
      apply h3 pre e (post ++ new.drop k)
      conv_lhs => rw [← List.take_append_drop k new]
      rw [hdec]
      simp
  · intro pre e post hdec
    exact (h3 pre e post hdec).degree_lt (by decide)

theorem degree_counters_stay_within_five_witness :
    ∃ s1 s2,
      greedy_selector []
          [{ type := "TUBE", action := "TUBE 5 6", score := 0, cost := 56,
             buildings := (5, 6) }]
          (turn_start crossing_scenario [(1, 2)] [(1, 1), (2, 1)] 10000 1) = .ok s1 ∧
        fallback_connector [7] (fallback_start s1) = .ok s2 ∧
        ∃ new : List (Int × Int),
          s2.existing_tubes =
              (turn_start crossing_scenario [(1, 2)] [(1, 1), (2, 1)] 10000 1).existing_tubes ++
                new ∧
            s2.degree =
              degree_after
                (turn_start crossing_scenario [(1, 2)] [(1, 1), (2, 1)] 10000 1).degree new ∧
            (∀ k v,
              UMap.val
                (degree_after
                  (turn_start crossing_scenario [(1, 2)] [(1, 1), (2, 1)] 10000 1).degree
                  (new.take k)) v ≤ 5) ∧
            ∀ pre e post, new = pre ++ e :: post →
              UMap.val
                  (degree_after
                    (turn_start crossing_scenario [(1, 2)] [(1, 1), (2, 1)] 10000 1).degree pre)
                  e.1 < 5 ∧
                UMap.val
                  (degree_after
                    (turn_start crossing_scenario [(1, 2)] [(1, 1), (2, 1)] 10000 1).degree pre)
                  e.2 < 5 :=
  degree_counters_stay_within_five []
    [{ type := "TUBE", action := "TUBE 5 6", score := 0, cost := 56, buildings := (5, 6) }]
    [7] (turn_start crossing_scenario [(1, 2)] [(1, 1), (2, 1)] 10000 1)
    (by
      intro v
      simp only [turn_start, UMap.val, UMap.find, List.find?]
      by_cases h1 : v = 1
      · subst h1
        decide
      by_cases h2 : v = 2
      · subst h2
        decide
      simp [Ne.symm h1, Ne.symm h2])
    (by
      intro c hc _
      rw [List.mem_singleton] at hc
      rw [hc]
      decide)

/-! ### The one-link scenario -/

/-- The Greedy Selector commits the first candidate of its list when the action cap, the
quota of its category and the budget allow it and, for a link, the validator accepts it. -/
theorem greedy_selector_head (ids : List Int) (c : Candidate) (rest : List Candidate)
    (s : TurnState) (h1 : (s.actions.length : Int) < 15)
    (h2 : UMap.val s.actions_count c.type < UMap.val s.MAX_PER_TYPE c.type)
    (h3 : c.cost ≤ s.remaining_resources)
    (h4 : c.type = "TUBE" →
      ValidLink s.g c.buildings.1 c.buildings.2 s.existing_tubes s.degree 5) :
    greedy_selector ids (c :: rest) s =
      greedy_selector ids rest
        (greedy_commit ids
          { s with
            actions_count := (UMap.index s.actions_count c.type).2
            MAX_PER_TYPE := (UMap.index s.MAX_PER_TYPE c.type).2 } c) := by
  conv_lhs => unfold greedy_selector
  rw [if_neg (not_le.2 h1)]
  simp only [UMap.index_fst]
  rw [if_neg (not_le.2 h2), if_neg (not_lt.2 h3)]
  have hv : greedy_revalidate
      { s with
        actions_count := (UMap.index s.actions_count c.type).2
        MAX_PER_TYPE := (UMap.index s.MAX_PER_TYPE c.type).2 } c = .ok (true, s.g) := by
    unfold greedy_revalidate
    by_cases ht : c.type = "TUBE"
    · rw [if_pos ht]
      obtain ⟨b, hb, hbv⟩ := tube_is_geometrically_valid_spec s.g c.buildings.1 c.buildings.2
        s.existing_tubes s.degree 5
      have : b = true := hbv.2 (h4 ht)
      rw [this] at hb
      exact hb
    · rw [if_neg ht]
  simp only [hv, Bool.true_eq_false, if_false]

/-- The steps of the passes only append to the action list. -/
theorem actions_grow_step {ids : List Int} {cands : List Candidate} {nb : List Int}
    {work : List (Int × Int × Int)} {s s' : TurnState} (a : String) (h : a ∈ s.actions)
    (hst : PassStep ids cands nb work s s') : a ∈ s'.actions := by
  cases hst with
  | read_counters t => exact h
  | read_count t => exact h
  | declare_existing_set => exact h
  | declare_covered_tubes c => exact h
  | greedy c =>
    rw [greedy_commit_actions]
    exact List.mem_append_left _ h
  | fallback b best => exact List.mem_append_left _ h
  | sweep p b1 b2 => exact List.mem_append_left _ h

theorem commit_passes_head (ids : List Int) (routes : List (Int × Int × Int))
    (pods : UMap Int (List Int)) (nb : List Int) (c : Candidate) (rest : List Candidate)
    (s : TurnState) (h1 : (s.actions.length : Int) < 15)
    (h2 : UMap.val s.actions_count c.type < UMap.val s.MAX_PER_TYPE c.type)
    (h3 : c.cost ≤ s.remaining_resources)
    (h4 : c.type = "TUBE" →
      ValidLink s.g c.buildings.1 c.buildings.2 s.existing_tubes s.degree 5) :
    commit_passes ids routes pods nb (c :: rest) s =
      commit_passes ids routes pods nb rest
        (greedy_commit ids
          { s with
            actions_count := (UMap.index s.actions_count c.type).2
            MAX_PER_TYPE := (UMap.index s.MAX_PER_TYPE c.type).2 } c) := by
  unfold commit_passes
  rw [greedy_selector_head ids c rest s h1 h2 h3 h4]

/-- An action committed before the passes run on is in the final action list. -/
theorem commit_passes_keeps_actions (ids : List Int) (routes : List (Int × Int × Int))
    (pods : UMap Int (List Int)) (nb : List Int) (s1 : TurnState) (a : String)
    (h : a ∈ s1.actions) (rest : List Candidate) :
    ∃ s, commit_passes ids routes pods nb rest s1 = .ok s ∧ a ∈ s.actions := by
  obtain ⟨s, e, hr⟩ := commit_passes_reach ids routes pods nb rest s1
  refine ⟨s, e, ?_⟩
  exact Reach.invariant (fun x => a ∈ x.actions) (fun _ _ hp hst => actions_grow_step a hp hst)
    hr h

theorem one_link_find_a (a b n : Int) :
    UMap.find (one_link_scenario a b n).building_positions a = some (0, 0) := by
  simp [one_link_scenario, UMap.find]

theorem one_link_find_b (a b n : Int) (hab : a ≠ b) :
    UMap.find (one_link_scenario a b n).building_positions b = some (10, 0) := by
  simp [one_link_scenario, UMap.find, hab]

theorem one_link_valid (a b n : Int) (hab : a ≠ b) :
    ValidLink (one_link_scenario a b n) a b [] [] 5 := by
  refine ⟨(0, 0), (10, 0), one_link_find_a a b n, one_link_find_b a b n hab, ?_, ?_, ?_, ?_⟩
  · rintro ⟨x, hx, _⟩
    simp [UMap.find] at hx
  · rintro ⟨x, hx, _⟩
    simp [UMap.find] at hx
  · rintro ⟨ab, hm, _⟩
    exact absurd hm (List.not_mem_nil _)
  · rintro ⟨w, hm, h1, h2, _⟩
    simp only [one_link_scenario, List.mem_cons, List.mem_singleton, List.not_mem_nil,
      or_false] at hm
    rcases hm with e | e
    · exact h1 e
    · exact h2 e

theorem one_link_cost (a b n : Int) (hab : a ≠ b) :
    tube_construction_cost (one_link_scenario a b n) a b = (100, one_link_scenario a b n) := by
  have h : double_to_int (double_times_ten (double_hypot (wrap32 (10 - 0))
      (wrap32 (0 - 0)))) = 100 := by decide
  unfold tube_construction_cost
  simp only [one_link_find_a, one_link_find_b a b n hab, reduceCtorEq, or_self, if_false,
    Globals.position_of_find (one_link_find_a a b n),
    Globals.position_of_find (one_link_find_b a b n hab), h]

theorem one_link_module (a b n : Int) : IsModuleOfType (one_link_scenario a b n) b 7 := by
  constructor
  · simp [one_link_scenario]
  · simp [one_link_scenario, UMap.find]

theorem one_link_candidates (hypot : Int → Int → ℚ) (a b n : Int) (hab : a ≠ b) :
    ∃ cands, generate_tube_candidates hypot (one_link_scenario a b n) 10000 [] [] =
        .ok (cands, one_link_scenario a b n) ∧ cands ≠ [] ∧
      ∀ c ∈ cands, c.type = "TUBE" ∧ c.buildings = (a, b) ∧ c.cost = 100 ∧
        c.action = (Action.tube a b).render := by
  obtain ⟨cands, e, ⟨c0, hc0, _⟩⟩ := generate_tube_candidates_complete hypot
    (one_link_scenario a b n) 10000 [] [] a [7, 7, 7] 7 b (by simp [one_link_scenario])
    (by
      intro h
      rw [UMap.count_eq_zero_iff, one_link_find_a] at h
      exact Option.noConfusion h)
    (by simp) (one_link_module a b n) (by simp [build_existing_set])
    (one_link_valid a b n hab) (by rw [one_link_cost a b n hab]; norm_num)
  obtain ⟨cands', e', hall⟩ := generate_tube_candidates_spec hypot (one_link_scenario a b n)
    10000 [] []
  rw [e] at e'
  cases e'
  refine ⟨cands, e, List.ne_nil_of_mem hc0, ?_⟩
  intro c hc
  obtain ⟨l, at_, hl, _, w, _, m, hm, ht, ha, hb, hcost, _⟩ := hall c hc
  have el : l = a := by
    simp only [one_link_scenario, List.mem_singleton, Prod.mk.injEq] at hl
    exact hl.1
  have em : m = b := by
    have := hm.1
    simp only [one_link_scenario, List.mem_cons, Prod.mk.injEq, List.mem_singleton,
      List.not_mem_nil, or_false] at this
    rcases this with ⟨_, h⟩ | ⟨h, _⟩
    · exact absurd h (by decide)
    · exact h
  subst el
  subst em
  refine ⟨ht, hb, ?_, ha⟩
  rw [hcost, one_link_cost l m n hab]

/-- C11: for every pair of different node identifiers `a` and `b`, in the state whose only
nodes are the landing pad `a` at (0,0) with three waiting astronauts of type 7 and the
module `b` of type 7 at (10,0), with no route, no pod and a budget of 10000:
`tube_is_geometrically_valid` accepts the link, `tube_construction_cost` returns 100,
`generate_tube_candidates` returns a non-empty list whose members are all `TUBE` candidates
for the pair `(a, b)` with cost 100, and the turn runs to completion with the action
`TUBE a b` in its action list. -/
theorem one_link_scenario_commits_link (hypot : Int → Int → ℚ) (a b n : Int) (nb : List Int)
    (hab : a ≠ b) :
    tube_is_geometrically_valid (one_link_scenario a b n) a b [] [] 5 =
        .ok (true, one_link_scenario a b n) ∧
      tube_construction_cost (one_link_scenario a b n) a b = (100, one_link_scenario a b n) ∧
      (∃ cands, generate_tube_candidates hypot (one_link_scenario a b n) 10000 [] [] =
          .ok (cands, one_link_scenario a b n) ∧ cands ≠ [] ∧
        ∀ c ∈ cands, c.type = "TUBE" ∧ c.buildings = (a, b) ∧ c.cost = 100) ∧
      ∃ s, plan_turn hypot (one_link_scenario a b n) (no_links_locals nb) 10000 = .ok s ∧
        (Action.tube a b).render ∈ s.actions := by
  obtain ⟨cands, e, hne, hall⟩ := one_link_candidates hypot a b n hab
  refine ⟨?_, one_link_cost a b n hab, ⟨cands, e, hne, fun c hc =>
    ⟨(hall c hc).1, (hall c hc).2.1, (hall c hc).2.2.1⟩⟩, ?_⟩
  · obtain ⟨r, hr, hrv⟩ := tube_is_geometrically_valid_spec (one_link_scenario a b n) a b [] []
      5
    have : r = true := hrv.2 (one_link_valid a b n hab)
    rw [this] at hr
    exact hr
  · obtain ⟨tf, e1⟩ := estimate_astronaut_flow_returns (one_link_scenario a b n)
      (build_adjacency (one_link_scenario a b n).all_buildings (no_links_locals nb).routes)
      (build_adjacency_weights _ _)
    have e2 : collect_candidates hypot (one_link_scenario a b n) (no_links_locals nb) 10000
        (build_adjacency (one_link_scenario a b n).all_buildings (no_links_locals nb).routes)
        (find_bottleneck_tubes (no_links_locals nb).routes tf) =
        .ok (sort_by_score cands, one_link_scenario a b n) := by
      unfold collect_candidates
      have e' : generate_tube_candidates hypot (one_link_scenario a b n) 10000
          (no_links_locals nb).degree (no_links_locals nb).existing_tubes =
          .ok (cands, one_link_scenario a b n) := e
      simp only [e']
      have hg : ¬ ((generate_pod_candidates
          (generate_upgrade_candidates 10000
            (find_bottleneck_tubes (no_links_locals nb).routes tf)
            (one_link_scenario a b n) []).2 10000 (no_links_locals nb).routes
          (no_links_locals nb).existing_pod_routes).2.turn_number > 8 ∧
          (10000 : Int) > 5000 * 2) := fun h => absurd h.2 (by decide)
      rw [if_neg hg]
      have hu : generate_upgrade_candidates 10000
          (find_bottleneck_tubes (no_links_locals nb).routes tf)
          (one_link_scenario a b n) [] = ([], one_link_scenario a b n) := rfl
      rw [hu]
      have hp : generate_pod_candidates (one_link_scenario a b n) 10000
          (no_links_locals nb).routes (no_links_locals nb).existing_pod_routes =
          ([], one_link_scenario a b n) := rfl
      rw [hp]
      simp
    obtain ⟨c, rest, hs⟩ : ∃ c rest, sort_by_score cands = c :: rest := by
      cases hsort : sort_by_score cands with
      | nil =>
        exfalso
        obtain ⟨c0, hc0⟩ := List.exists_mem_of_ne_nil cands hne
        have := (mem_sort_by_score cands c0).2 hc0
        rw [hsort] at this
        exact absurd this (List.not_mem_nil _)
      | cons c rest => exact ⟨c, rest, rfl⟩
    have hc : c ∈ cands := (mem_sort_by_score cands c).1 (by rw [hs]; exact List.mem_cons_self _ _)
    obtain ⟨ht, hb, hcost, hact⟩ := hall c hc
    have hhead := commit_passes_head (no_links_locals nb).existing_pod_ids
      (no_links_locals nb).routes (no_links_locals nb).existing_pod_routes
      (no_links_locals nb).new_buildings c rest
      (turn_start (one_link_scenario a b n) (no_links_locals nb).existing_tubes
        (no_links_locals nb).degree 10000
        (next_pod_id (no_links_locals nb).existing_pod_ids 1))
      (by simp [turn_start])
      (by rw [ht]; simp [turn_start, UMap.val, UMap.find])
      (by rw [hcost]; simp [turn_start])
      (by
        intro _
        rw [hb]
        exact one_link_valid a b n hab)
    obtain ⟨s1, hs1⟩ : ∃ s1, s1 = greedy_commit (no_links_locals nb).existing_pod_ids
        { turn_start (one_link_scenario a b n) (no_links_locals nb).existing_tubes
            (no_links_locals nb).degree 10000
            (next_pod_id (no_links_locals nb).existing_pod_ids 1) with
          actions_count := (UMap.index (turn_start (one_link_scenario a b n)
            (no_links_locals nb).existing_tubes (no_links_locals nb).degree 10000
            (next_pod_id (no_links_locals nb).existing_pod_ids 1)).actions_count c.type).2
          MAX_PER_TYPE := (UMap.index (turn_start (one_link_scenario a b n)
            (no_links_locals nb).existing_tubes (no_links_locals nb).degree 10000
            (next_pod_id (no_links_locals nb).existing_pod_ids 1)).MAX_PER_TYPE c.type).2 }
        c := ⟨_, rfl⟩
    rw [← hs1] at hhead
    have hin : (Action.tube a b).render ∈ s1.actions := by
      rw [hs1, greedy_commit_actions, ht, ← hact]
      simp
    obtain ⟨s, es, hmem⟩ := commit_passes_keeps_actions (no_links_locals nb).existing_pod_ids
      (no_links_locals nb).routes (no_links_locals nb).existing_pod_routes
      (no_links_locals nb).new_buildings s1 (Action.tube a b).render hin rest
    refine ⟨s, ?_, hmem⟩
    unfold plan_turn
    simp only [e1, e2, hs, hhead, es]

theorem one_link_scenario_commits_link_witness :
    tube_is_geometrically_valid (one_link_scenario 1 2 1) 1 2 [] [] 5 =
        .ok (true, one_link_scenario 1 2 1) ∧
      tube_construction_cost (one_link_scenario 1 2 1) 1 2 = (100, one_link_scenario 1 2 1) ∧
      (∃ cands, generate_tube_candidates (fun _ _ => 10) (one_link_scenario 1 2 1) 10000 [] [] =
          .ok (cands, one_link_scenario 1 2 1) ∧ cands ≠ [] ∧
        ∀ c ∈ cands, c.type = "TUBE" ∧ c.buildings = (1, 2) ∧ c.cost = 100) ∧
      ∃ s, plan_turn (fun _ _ => 10) (one_link_scenario 1 2 1) (no_links_locals [1, 2]) 10000 =
          .ok s ∧ (Action.tube 1 2).render ∈ s.actions :=
  one_link_scenario_commits_link (fun _ _ => 10) 1 2 1 [1, 2] (by decide)

/-! ### The link cost -/

/-- The halvings counted by `excess_bits` do not exceed `T` when `n < 2^(53+T)`. -/
theorem excess_bits_le : ∀ (k n T : Nat), n < 2 ^ (53 + T) → excess_bits k n ≤ T
  | 0, _, _, _ => Nat.zero_le _
  | k + 1, n, T, h => by
    unfold excess_bits
    split_ifs with hn
    · exact Nat.zero_le _
    · cases T with
      | zero =>
        exfalso
        apply hn
        simpa using h
      | succ T =>
        have h2 : n / 2 < 2 ^ (53 + T) := by
          rw [Nat.div_lt_iff_lt_mul (by norm_num)]
          calc n < 2 ^ (53 + (T + 1)) := h
            _ = 2 ^ (53 + T) * 2 := by rw [← Nat.add_assoc, pow_succ]
        have := excess_bits_le k (n / 2) T h2
        omega

/-- Rounding to 53 bits moves `n < 2^(53+T)` by at most `2^T / 2`. -/
theorem round53_near (n T : Nat) (st : Bool) (h : n < 2 ^ (53 + T)) :
    2 * round53 n st ≤ 2 * n + 2 ^ T ∧ 2 * n ≤ 2 * round53 n st + 2 ^ T := by
  unfold round53
  have ht := excess_bits_le 128 n T h
  generalize excess_bits 128 n = t at ht
  simp only
  split_ifs with h0 hup
  · exact ⟨Nat.le_add_right _ _, Nat.le_add_right _ _⟩
  · have hpos : 1 ≤ t := Nat.one_le_iff_ne_zero.2 h0
    have e2 : 2 ^ t = 2 * 2 ^ (t - 1) := by
      conv_lhs => rw [show t = (t - 1) + 1 by omega]
      rw [pow_succ, mul_comm]
    have hmono : 2 ^ t ≤ 2 ^ T := Nat.pow_le_pow_right (by norm_num) ht
    have hdm := Nat.div_add_mod n (2 ^ t)
    have hlt := Nat.mod_lt n (show 0 < 2 ^ t from Nat.two_pow_pos _)
    have hge : 2 ^ (t - 1) ≤ n % 2 ^ t := by
      rcases hup with h1 | ⟨h1, _⟩
      · exact le_of_lt h1
      · exact le_of_eq h1.symm
    have hm : (n / 2 ^ t + 1) * 2 ^ t = 2 ^ t * (n / 2 ^ t) + 2 ^ t := by ring
    rw [hm]
    constructor <;> omega
  · have hpos : 1 ≤ t := Nat.one_le_iff_ne_zero.2 h0
    have e2 : 2 ^ t = 2 * 2 ^ (t - 1) := by
      conv_lhs => rw [show t = (t - 1) + 1 by omega]
      rw [pow_succ, mul_comm]
    have hmono : 2 ^ t ≤ 2 ^ T := Nat.pow_le_pow_right (by norm_num) ht
    have hdm := Nat.div_add_mod n (2 ^ t)
    have hle : n % 2 ^ t ≤ 2 ^ (t - 1) := by
      by_contra hc
      exact hup (Or.inl (not_le.1 hc))
    have hm : n / 2 ^ t * 2 ^ t = 2 ^ t * (n / 2 ^ t) := by ring
    rw [hm]
    constructor <;> omega

/-- Rounding to 53 bits keeps a multiple of `2^T` below `2^(53+T)`. -/
theorem round53_exact (n T : Nat) (st : Bool) (h : n < 2 ^ (53 + T)) (hd : 2 ^ T ∣ n) :
    round53 n st = n := by
  unfold round53
  have ht := excess_bits_le 128 n T h
  generalize excess_bits 128 n = t at ht
  simp only
  split_ifs with h0 hup
  · rfl
  · exfalso
    have hpos : 1 ≤ t := Nat.one_le_iff_ne_zero.2 h0
    have hdt : 2 ^ t ∣ n := dvd_trans (pow_dvd_pow 2 ht) hd
    have hz : n % 2 ^ t = 0 := Nat.mod_eq_zero_of_dvd hdt
    have hh : 0 < 2 ^ (t - 1) := Nat.two_pow_pos _
    rw [hz] at hup
    rcases hup with h1 | ⟨h1, _⟩ <;> omega
  · have hdt : 2 ^ t ∣ n := dvd_trans (pow_dvd_pow 2 ht) hd
    exact Nat.div_mul_cancel hdt

/-- Invariant of the bisection: the result `r'` satisfies `r'^2 ≤ n < (r' + 1)^2`. -/
theorem isqrt_bits_spec (n : Nat) : ∀ (k r : Nat), r * r ≤ n → n < (r + 2 ^ k) * (r + 2 ^ k) →
    isqrt_bits n k r * isqrt_bits n k r ≤ n ∧
      n < (isqrt_bits n k r + 1) * (isqrt_bits n k r + 1)
  | 0, r, h1, h2 => by
    simpa [isqrt_bits] using And.intro h1 h2
  | k + 1, r, h1, h2 => by
    unfold isqrt_bits
    split_ifs with hc
    · apply isqrt_bits_spec n k _ hc
      have e : r + 2 ^ k + 2 ^ k = r + 2 ^ (k + 1) := by rw [pow_succ]; ring
      rw [e]
      exact h2
    · exact isqrt_bits_spec n k r h1 (not_le.1 hc)

theorem isqrt_eq_sqrt (n : Nat) (h : n < 2 ^ 192) : isqrt n = Nat.sqrt n := by
  unfold isqrt
  rw [Nat.eq_sqrt]
  apply isqrt_bits_spec n 96 0 (Nat.zero_le _)
  calc n < 2 ^ 192 := h
    _ = (0 + 2 ^ 96) * (0 + 2 ^ 96) := by norm_num

theorem ten_dvd_of_sq (m s : Nat) (h : m * m = 100 * s) : ∃ k, m = 10 * k ∧ s = k * k := by
  have h2 : 2 ∣ m := by
    have : 2 ∣ m * m := ⟨50 * s, by rw [h]; ring⟩
    rcases (Nat.Prime.dvd_mul Nat.prime_two).1 this with h | h <;> exact h
  have h5 : 5 ∣ m := by
    have : 5 ∣ m * m := ⟨20 * s, by rw [h]; ring⟩
    rcases (Nat.Prime.dvd_mul Nat.prime_five).1 this with h | h <;> exact h
  have h10 : 2 * 5 ∣ m := Nat.Coprime.mul_dvd_of_dvd_of_dvd (by norm_num) h2 h5
  obtain ⟨k, hk⟩ := h10
  refine ⟨k, by omega, ?_⟩
  subst hk
  have : 100 * (k * k) = 100 * s := by rw [← h]; ring
  omega

/-- The binary64 computation of the cost, for a squared distance `s` up to 8 * 10^12: the
integer part of the square root of `100 * s`. -/
theorem double_cost_eq_sqrt (s : Nat) (hs : s ≤ 8000000000000) :
    double_to_int (double_times_ten
      (round53 (isqrt (s * 2 ^ 106))
        (decide (isqrt (s * 2 ^ 106) * isqrt (s * 2 ^ 106) ≠ s * 2 ^ 106)))) =
      ((Nat.sqrt (100 * s) : Nat) : Int) := by
  have hn : s * 2 ^ 106 < 2 ^ 192 := by
    calc s * 2 ^ 106 ≤ 8000000000000 * 2 ^ 106 := Nat.mul_le_mul_right _ hs
      _ < 2 ^ 192 := by norm_num
  rw [isqrt_eq_sqrt _ hn]
  obtain ⟨r, hr⟩ : ∃ r, r = Nat.sqrt (s * 2 ^ 106) := ⟨_, rfl⟩
  obtain ⟨m, hm⟩ : ∃ m, m = Nat.sqrt (100 * s) := ⟨_, rfl⟩
  rw [← hr, ← hm]
  obtain ⟨r1, r2⟩ := Nat.eq_sqrt.1 hr
  obtain ⟨m1, m2⟩ := Nat.eq_sqrt.1 hm
  have hm25 : m < 33554432 := by
    by_contra hc
    have : 33554432 * 33554432 ≤ m * m := Nat.mul_self_le_mul_self (not_lt.1 hc)
    omega
  have key : m * 9007199254740992 ≤ double_times_ten (round53 r (decide (r * r ≠ s * 2 ^ 106))) ∧
      double_times_ten (round53 r (decide (r * r ≠ s * 2 ^ 106))) <
        (m + 1) * 9007199254740992 := by
    by_cases hsq : m * m = 100 * s
    · obtain ⟨k, hk, hks⟩ := ten_dvd_of_sq m s hsq
      have hrk : r = k * 9007199254740992 := by
        rw [hr, hks]
        have : k * k * 2 ^ 106 = (k * 9007199254740992) * (k * 9007199254740992) := by
          norm_num
          ring
        rw [this, Nat.sqrt_eq]
      have hst : decide (r * r ≠ s * 2 ^ 106) = false := by
        rw [decide_eq_false_iff_not, not_not, hrk, hks]
        norm_num
        ring
      rw [hst]
      have e1 : round53 r false = r := by
        apply round53_exact r 22
        · rw [hrk]
          have : k < 4194304 := by omega
          calc k * 9007199254740992 < 4194304 * 9007199254740992 :=
                Nat.mul_lt_mul_of_pos_right this (by norm_num)
            _ = 2 ^ (53 + 22) := by norm_num
        · rw [hrk]
          exact Dvd.dvd.mul_left (by norm_num) k
      unfold double_times_ten
      rw [e1]
      have e2 : r * 10 = m * 9007199254740992 := by
        rw [hrk, hk]
        ring
      rw [e2]
      have e3 : round53 (m * 9007199254740992) false = m * 9007199254740992 := by
        apply round53_exact _ 25
        · calc m * 9007199254740992 < 33554432 * 9007199254740992 :=
                Nat.mul_lt_mul_of_pos_right hm25 (by norm_num)
            _ = 2 ^ (53 + 25) := by norm_num
        · exact Dvd.dvd.mul_left (by norm_num) m
      rw [e3]
      constructor <;> omega
    · have hlt : m * m + 1 ≤ 100 * s := by omega
      have hr75 : r < 2 ^ (53 + 22) := by
        by_contra hc
        have : 2 ^ (53 + 22) * 2 ^ (53 + 22) ≤ r * r := Nat.mul_self_le_mul_self (not_lt.1 hc)
        have h3 : s * 2 ^ 106 ≤ 8000000000000 * 2 ^ 106 := Nat.mul_le_mul_right _ hs
        norm_num at this h3 r1
        omega
      obtain ⟨n1, n2⟩ := round53_near r 22 (decide (r * r ≠ s * 2 ^ 106)) hr75
      generalize round53 r (decide (r * r ≠ s * 2 ^ 106)) = H at n1 n2 ⊢
      have hL : m * 9007199254740992 + 37748736 ≤ 10 * r := by
        by_contra hc
        have h1 : 10 * (r + 1) ≤ m * 9007199254740992 + 37748745 := by omega
        have h2 := Nat.mul_self_le_mul_self h1
        have h3 : (m * m + 1) * 2 ^ 106 ≤ 100 * s * 2 ^ 106 := Nat.mul_le_mul_right _ hlt
        have h4 : 100 * (s * 2 ^ 106) < 100 * ((r + 1) * (r + 1)) := by omega
        norm_num at h2 h3 h4
        nlinarith
      have hU : 10 * r + 37748736 < (m + 1) * 9007199254740992 := by
        by_contra hc
        have h1 : (m + 1) * 9007199254740992 - 37748736 ≤ 10 * r := by omega
        have h2 := Nat.mul_self_le_mul_self h1
        have h3 : 100 * s * 2 ^ 106 < (m + 1) * (m + 1) * 2 ^ 106 := by
          apply Nat.mul_lt_mul_of_pos_right m2 (by norm_num)
        have h4 : 100 * (r * r) ≤ 100 * (s * 2 ^ 106) := by omega
        obtain ⟨d, hd⟩ : ∃ d, (m + 1) * 9007199254740992 = d + 37748736 :=
          ⟨(m + 1) * 9007199254740992 - 37748736, by omega⟩
        rw [hd, Nat.add_sub_cancel] at h2
        norm_num at h2 h3 h4
        nlinarith
      have hT : H * 10 < 2 ^ (53 + 25) := by
        have : (m + 1) * 9007199254740992 ≤ 33554432 * 9007199254740992 :=
          Nat.mul_le_mul_right _ hm25
        norm_num at this n1 ⊢
        omega
      obtain ⟨p1, p2⟩ := round53_near (H * 10) 25 false hT
      unfold double_times_ten
      generalize round53 (H * 10) false = P at p1 p2 ⊢
      norm_num at n1 n2 p1 p2
      constructor <;> omega
  obtain ⟨k1, k2⟩ := key
  have e53 : (2 : Nat) ^ 53 = 9007199254740992 := by norm_num
  have hdiv : double_times_ten (round53 r (decide (r * r ≠ s * 2 ^ 106))) / 2 ^ 53 = m := by
    rw [e53]
    exact Nat.div_eq_of_lt_le k1 k2
  unfold double_to_int
  rw [hdiv, if_pos (by omega)]

/-- The integer square root of `100 * n` is the integer part of ten times the real square
root of `n`. -/
theorem sqrt_hundred_eq_floor (n : Nat) :
    ((Nat.sqrt (100 * n) : Nat) : Int) = ⌊Real.sqrt (n : ℝ) * 10⌋ := by
  have h : Real.sqrt (n : ℝ) * 10 = Real.sqrt (((100 * n : Nat) : ℝ)) := by
    have h100 : ((100 * n : Nat) : ℝ) = 10 ^ 2 * (n : ℝ) := by push_cast; ring
    rw [h100, Real.sqrt_mul (by positivity), Real.sqrt_sq (by norm_num)]
    ring
  rw [h, Real.floor_real_sqrt_eq_nat_sqrt]

/-- C12, the claim as written fails: for the registered nodes 1 at (0,0) and 2 at (3,1)
`tube_construction_cost` returns 31, while ten times their Euclidean distance, rounded to
the nearest integer, is 32.  Nor is the cost the integer part of ten times the distance for
all `int` positions: for the nodes 1 at (0,0) and 2 at (21215937,56509266) the binary64
computation returns 603606919, while the integer part of ten times the distance is
603606918. -/
theorem cost_rounding_counterexample :
    UMap.find rounding_scenario.building_positions 1 = some (0, 0) ∧
      UMap.find rounding_scenario.building_positions 2 = some (3, 1) ∧
      (tube_construction_cost rounding_scenario 1 2).1 = 31 ∧
      round (Real.sqrt ((((3 - 0 : Int) : ℝ)) ^ 2 + (((1 - 0 : Int) : ℝ)) ^ 2) * 10) = 32 ∧
      (tube_construction_cost rounding_scenario 1 2).1 ≠
        round (Real.sqrt ((((3 - 0 : Int) : ℝ)) ^ 2 + (((1 - 0 : Int) : ℝ)) ^ 2) * 10) ∧
      UMap.find far_node_scenario.building_positions 1 = some (0, 0) ∧
      UMap.find far_node_scenario.building_positions 2 = some (21215937, 56509266) ∧
      (tube_construction_cost far_node_scenario 1 2).1 = 603606919 ∧
      ⌊Real.sqrt ((((21215937 - 0 : Int) : ℝ)) ^ 2 + (((56509266 - 0 : Int) : ℝ)) ^ 2) * 10⌋ =
        603606918 := by
  have f1 : UMap.find rounding_scenario.building_positions 1 = some (0, 0) := by decide
  have f2 : UMap.find rounding_scenario.building_positions 2 = some (3, 1) := by decide
  have hc : (tube_construction_cost rounding_scenario 1 2).1 = 31 := by
    have h : double_to_int (double_times_ten (double_hypot (wrap32 (3 - 0))
        (wrap32 (1 - 0)))) = 31 := by decide
    unfold tube_construction_cost
    simp only [f1, f2, reduceCtorEq, or_self, if_false, Globals.position_of_find f1,
      Globals.position_of_find f2, h]
  have hr : round (Real.sqrt ((((3 - 0 : Int) : ℝ)) ^ 2 + (((1 - 0 : Int) : ℝ)) ^ 2) * 10) =
      32 := by
    have e : Real.sqrt ((((3 - 0 : Int) : ℝ)) ^ 2 + (((1 - 0 : Int) : ℝ)) ^ 2) * 10 =
        Real.sqrt 1000 := by
      have : ((((3 - 0 : Int) : ℝ)) ^ 2 + (((1 - 0 : Int) : ℝ)) ^ 2) = 10 := by norm_num
      rw [this]
      have h1000 : (1000 : ℝ) = 10 * 10 ^ 2 := by norm_num
      rw [h1000, Real.sqrt_mul (by norm_num), Real.sqrt_sq (by norm_num)]
    rw [e, round_eq, Int.floor_eq_iff]
    constructor
    · have : (31.5 : ℝ) ≤ Real.sqrt 1000 := by
        rw [Real.le_sqrt (by norm_num)]
        all_goals norm_num
      push_cast
      linarith
    · have : Real.sqrt 1000 < 32 := by
        rw [Real.sqrt_lt' (by norm_num)]
        all_goals norm_num
      push_cast
      linarith
  have g1 : UMap.find far_node_scenario.building_positions 1 = some (0, 0) := by decide
  have g2 : UMap.find far_node_scenario.building_positions 2 =
      some (21215937, 56509266) := by decide
  have hd : (tube_construction_cost far_node_scenario 1 2).1 = 603606919 := by
    have h : double_to_int (double_times_ten (double_hypot (wrap32 (21215937 - 0))
        (wrap32 (56509266 - 0)))) = 603606919 := by decide
    unfold tube_construction_cost
    simp only [g1, g2, reduceCtorEq, or_self, if_false, Globals.position_of_find g1,
      Globals.position_of_find g2, h]
  have hf : ⌊Real.sqrt ((((21215937 - 0 : Int) : ℝ)) ^ 2 +
      (((56509266 - 0 : Int) : ℝ)) ^ 2) * 10⌋ = 603606918 := by
    have e : ((((21215937 - 0 : Int) : ℝ)) ^ 2 + (((56509266 - 0 : Int) : ℝ)) ^ 2) =
        ((3643413126646725 : Nat) : ℝ) := by norm_num
    rw [e, ← sqrt_hundred_eq_floor]
    have hs : Nat.sqrt (100 * 3643413126646725) = 603606918 := by
      symm
      rw [Nat.eq_sqrt]
      norm_num
    rw [hs]
    rfl
  exact ⟨f1, f2, hc, hr, by rw [hc, hr]; decide, g1, g2, hd, hf⟩

/-- C12, amended: for every pair of registered nodes `u`, `v` at integer positions `p1`, `p2`
whose coordinates lie between -1000000 and 1000000, `tube_construction_cost` returns the
integer part (floor) of ten times the exact Euclidean distance between the two positions,
and leaves the registries as they were. -/
theorem cost_is_floor_of_ten_times_distance (g : Globals) (u v : Int) (p1 p2 : Int × Int)
    (hu : UMap.find g.building_positions u = some p1)
    (hv : UMap.find g.building_positions v = some p2)
    (h1 : (-1000000 ≤ p1.1 ∧ p1.1 ≤ 1000000) ∧ (-1000000 ≤ p1.2 ∧ p1.2 ≤ 1000000))
    (h2 : (-1000000 ≤ p2.1 ∧ p2.1 ≤ 1000000) ∧ (-1000000 ≤ p2.2 ∧ p2.2 ≤ 1000000)) :
    (tube_construction_cost g u v).1 =
        ⌊Real.sqrt ((((p2.1 - p1.1 : Int) : ℝ)) ^ 2 + (((p2.2 - p1.2 : Int) : ℝ)) ^ 2) * 10⌋ ∧
      (tube_construction_cost g u v).2 = g := by
  refine ⟨?_, tube_construction_cost_snd g u v⟩
  obtain ⟨⟨a1, a2⟩, a3, a4⟩ := h1
  obtain ⟨⟨b1, b2⟩, b3, b4⟩ := h2
  have wx : wrap32 (p2.1 - p1.1) = p2.1 - p1.1 := wrap32_eq_self ⟨by omega, by omega⟩
  have wy : wrap32 (p2.2 - p1.2) = p2.2 - p1.2 := wrap32_eq_self ⟨by omega, by omega⟩
  unfold tube_construction_cost
  simp only [hu, hv, reduceCtorEq, or_self, if_false, Globals.position_of_find hu,
    Globals.position_of_find hv, wx, wy]
  have hnn : 0 ≤ (p2.1 - p1.1) * (p2.1 - p1.1) + (p2.2 - p1.2) * (p2.2 - p1.2) :=
    add_nonneg (mul_self_nonneg _) (mul_self_nonneg _)
  have hle : ((p2.1 - p1.1) * (p2.1 - p1.1) + (p2.2 - p1.2) * (p2.2 - p1.2)).toNat ≤
      8000000000000 := by
    have hx : (p2.1 - p1.1) * (p2.1 - p1.1) ≤ 2000000 * 2000000 := by
      have := abs_le.2 (⟨by omega, by omega⟩ : -2000000 ≤ p2.1 - p1.1 ∧ p2.1 - p1.1 ≤ 2000000)
      nlinarith [abs_mul_abs_self (p2.1 - p1.1), abs_nonneg (p2.1 - p1.1)]
    have hy : (p2.2 - p1.2) * (p2.2 - p1.2) ≤ 2000000 * 2000000 := by
      have := abs_le.2 (⟨by omega, by omega⟩ : -2000000 ≤ p2.2 - p1.2 ∧ p2.2 - p1.2 ≤ 2000000)
      nlinarith [abs_mul_abs_self (p2.2 - p1.2), abs_nonneg (p2.2 - p1.2)]
    omega
  have hcast : ((((p2.1 - p1.1) * (p2.1 - p1.1) + (p2.2 - p1.2) * (p2.2 - p1.2)).toNat : Nat) :
      ℝ) = (((p2.1 - p1.1 : Int) : ℝ)) ^ 2 + (((p2.2 - p1.2 : Int) : ℝ)) ^ 2 := by
    have h := Int.toNat_of_nonneg hnn
    have h2 : ((((p2.1 - p1.1) * (p2.1 - p1.1) + (p2.2 - p1.2) * (p2.2 - p1.2)).toNat : Int) :
        ℝ) = (((p2.1 - p1.1) * (p2.1 - p1.1) + (p2.2 - p1.2) * (p2.2 - p1.2) : Int) : ℝ) := by
      rw [h]
    rw [Int.cast_natCast] at h2
    rw [h2]
    push_cast
    ring
  rw [← hcast, ← sqrt_hundred_eq_floor]
  unfold double_hypot
  exact double_cost_eq_sqrt _ hle

theorem cost_is_floor_of_ten_times_distance_witness :
    (tube_construction_cost rounding_scenario 1 2).1 =
        ⌊Real.sqrt ((((((3 : Int), (1 : Int)).1 - ((0 : Int), (0 : Int)).1 : Int) : ℝ)) ^ 2 +
          (((((3 : Int), (1 : Int)).2 - ((0 : Int), (0 : Int)).2 : Int) : ℝ)) ^ 2) * 10⌋ ∧
      (tube_construction_cost rounding_scenario 1 2).2 = rounding_scenario :=
  cost_is_floor_of_ten_times_distance rounding_scenario 1 2 (0, 0) (3, 1) (by decide)
    (by decide) (by decide) (by decide)

/-! ### Runs of the turn loop on concrete inputs -/

/-- The Greedy Selector never reads the score of a candidate (the scores only order the
list before it runs). -/
theorem greedy_selector_ignores_score (ids : List Int) :
    ∀ (cs : List Candidate) (s : TurnState),
      greedy_selector ids (cs.map (fun c => { c with score := 0 })) s =
        greedy_selector ids cs s
  | [], _ => rfl
  | c :: rest, s => by
    rw [List.map_cons, greedy_selector, greedy_selector]
    simp only [greedy_selector_ignores_score ids rest]
    rfl

theorem commit_passes_ignores_score (ids : List Int) (routes : List (Int × Int × Int))
    (pods : UMap Int (List Int)) (nb : List Int) (cs : List Candidate) (s : TurnState) :
    commit_passes ids routes pods nb (cs.map (fun c => { c with score := 0 })) s =
      commit_passes ids routes pods nb cs s := by
  unfold commit_passes
  rw [greedy_selector_ignores_score]

/-- C13, evaluation at the failing input: on a first turn with budget 2000 whose input lists
the landing pad 1, the module 2, the link 1-2 of capacity 1 and no pod, the turn runs to
completion and its action list holds two POD actions for the same link 1-2: the first
committed by the Greedy Selector, the second by the Coverage Sweep, which computes coverage
from the input itineraries alone. -/
theorem sweep_repeats_greedy_pod (hypot : Int → Int → ℚ) :
    ∃ s, main_turn hypot initial_globals uncovered_link_input = .ok s ∧
      s.actions = ["POD 1 1 2 1 2 1 2 1 2", "POD 2 1 2 1 2 1 2 1 2"] := by
  have hr : read_input initial_globals uncovered_link_input =
      ({ building_positions := [(1, (0, 0)), (2, (10, 0))]
         building_type := [(1, "landing"), (2, "module")]
         module_type := [(2, 7)]
         landing_astronaut_types := [(1, [7])]
         all_buildings := [1, 2]
         turn_number := 1 },
       { routes := [(1, 2, 1)]
         existing_tubes := [(1, 2)]
         degree := [(1, 1), (2, 1)]
         existing_pod_ids := []
         existing_pod_routes := []
         new_buildings := [1, 2] }) := by decide
  obtain ⟨g, hg⟩ : ∃ g : Globals, g =
      { building_positions := [(1, (0, 0)), (2, (10, 0))]
        building_type := [(1, "landing"), (2, "module")]
        module_type := [(2, 7)]
        landing_astronaut_types := [(1, [7])]
        all_buildings := [1, 2]
        turn_number := 1 } := ⟨_, rfl⟩
  obtain ⟨l, hl⟩ : ∃ l : TurnLocals, l =
      { routes := [(1, 2, 1)]
        existing_tubes := [(1, 2)]
        degree := [(1, 1), (2, 1)]
        existing_pod_ids := []
        existing_pod_routes := []
        new_buildings := [1, 2] } := ⟨_, rfl⟩
  rw [← hg, ← hl] at hr
  have he : estimate_astronaut_flow g (build_adjacency g.all_buildings l.routes) =
      .ok ([((1, 2), 1)], g) := by
    rw [hg, hl]
    rfl
  have hb : find_bottleneck_tubes l.routes [((1, 2), 1)] = [] := by
    rw [hl]
    show find_bottleneck_tubes [(1, 2, 1)] [((1, 2), 1)] = []
    rw [find_bottleneck_tubes_cons]
    rfl
  have hc : collect_candidates hypot g l 2000 (build_adjacency g.all_buildings l.routes) [] =
      .ok ([{ type := "POD"
              action := "POD \x7bpod_id\x7d 1 2 1 2 1 2 1 2"
              score := ((610 : Int) : ℚ)
              cost := 1000
              buildings := (1, 2) }], g) := by
    rw [hg, hl]
    rfl
  have hp : ∃ s, commit_passes l.existing_pod_ids l.routes l.existing_pod_routes
      l.new_buildings
      [{ type := "POD"
         action := "POD \x7bpod_id\x7d 1 2 1 2 1 2 1 2"
         score := ((610 : Int) : ℚ)
         cost := 1000
         buildings := (1, 2) }]
      (turn_start g l.existing_tubes l.degree 2000 (next_pod_id l.existing_pod_ids 1)) =
        .ok s ∧ s.actions = ["POD 1 1 2 1 2 1 2 1 2", "POD 2 1 2 1 2 1 2 1 2"] := by
    rw [hg, hl]
    exact ⟨_, rfl, by decide⟩
  obtain ⟨s, hs, ha⟩ := hp
  refine ⟨s, ?_, ha⟩
  unfold main_turn
  rw [hr]
  unfold plan_turn
  simp only [he, hb, hc]
  have hres : uncovered_link_input.resources = 2000 := rfl
  simp only [hres, hc, hs]

/-- The turn whose input holds the pod line `1 0`: the line has fewer than three tokens and
is skipped (v3.cpp 391), and the turn prints a `POD` action with the identifier 1. -/
theorem short_pod_line_turn (hypot : Int → Int → ℚ) :
    ∃ s, main_turn hypot initial_globals short_pod_line_input = .ok s ∧
      s.actions = [(Action.pod 1 1 2).render] := by
  obtain ⟨g, hg⟩ : ∃ g : Globals, g =
      { building_positions := [(1, (0, 0)), (2, (10, 0))]
        building_type := [(1, "landing"), (2, "module")]
        module_type := [(2, 7)]
        landing_astronaut_types := [(1, [7])]
        all_buildings := [1, 2]
        turn_number := 1 } := ⟨_, rfl⟩
  obtain ⟨l, hl⟩ : ∃ l : TurnLocals, l =
      { routes := [(1, 2, 1)]
        existing_tubes := [(1, 2)]
        degree := [(1, 1), (2, 1)]
        existing_pod_ids := []
        existing_pod_routes := []
        new_buildings := [1, 2] } := ⟨_, rfl⟩
  have hr : read_input initial_globals short_pod_line_input = (g, l) := by
    rw [hg, hl]
    decide
  have he : estimate_astronaut_flow g (build_adjacency g.all_buildings l.routes) =
      .ok ([((1, 2), 1)], g) := by
    rw [hg, hl]
    rfl
  have hb : find_bottleneck_tubes l.routes [((1, 2), 1)] = [] := by
    rw [hl]
    show find_bottleneck_tubes [(1, 2, 1)] [((1, 2), 1)] = []
    rw [find_bottleneck_tubes_cons]
    rfl
  have hc : collect_candidates hypot g l 1000 (build_adjacency g.all_buildings l.routes) [] =
      .ok ([{ type := "POD"
              action := "POD \x7bpod_id\x7d 1 2 1 2 1 2 1 2"
              score := ((610 : Int) : ℚ)
              cost := 1000
              buildings := (1, 2) }], g) := by
    rw [hg, hl]
    rfl
  have hp : ∃ s, commit_passes l.existing_pod_ids l.routes l.existing_pod_routes
      l.new_buildings
      [{ type := "POD"
         action := "POD \x7bpod_id\x7d 1 2 1 2 1 2 1 2"
         score := ((610 : Int) : ℚ)
         cost := 1000
         buildings := (1, 2) }]
      (turn_start g l.existing_tubes l.degree 1000 (next_pod_id l.existing_pod_ids 1)) =
        .ok s ∧ s.actions = [(Action.pod 1 1 2).render] := by
    rw [hg, hl]
    exact ⟨_, rfl, by decide⟩
  obtain ⟨s, hs, ha⟩ := hp
  refine ⟨s, ?_, ha⟩
  unfold main_turn
  rw [hr]
  unfold plan_turn
  have hres : short_pod_line_input.resources = 1000 := rfl
  simp only [he, hb, hres, hc, hs]

/-- C15 (counterexample): in the turn whose input holds the pod line `1 0`, the identifier 1
occurs among the vehicle identifiers of the input, yet the turn prints the action
`POD 1 1 2 1 2 1 2 1 2`: the line has fewer than three tokens, so the program skips it and
does not record its identifier. -/
theorem short_pod_line_id_emitted :
    ListedPodId short_pod_line_input 1 ∧ ¬ InputPodId short_pod_line_input 1 ∧
      (Action.pod 1 1 2).render = "POD 1 1 2 1 2 1 2 1 2" ∧
      emitted_pod_ids [Action.pod 1 1 2] = [1] ∧
      ∀ hypot : Int → Int → ℚ,
        ∃ s, main_turn hypot initial_globals short_pod_line_input = .ok s ∧
          s.actions = [Action.pod 1 1 2].map Action.render := by
  refine ⟨⟨[1, 0], by simp [short_pod_line_input], rfl⟩, ?_, by decide, rfl,
    fun hypot => short_pod_line_turn hypot⟩
  rintro ⟨parts, hm, hlen, _⟩
  simp only [short_pod_line_input, List.mem_singleton] at hm
  rw [hm] at hlen
  exact absurd hlen (by decide)

/-- C14, the claim as written fails, in two ways.  In the two-turn run whose first input
lists the pod 1 on the link 1-2 and whose second input lists the same link and no pod, the
first turn prints nothing and the second turn prints the action `POD 1 1 2 1 2 1 2 1 2`,
whose vehicle identifier 1 was present in the input of the earlier turn.  And in the turn
whose input holds the pod line `1 0`, of fewer than three tokens, the same action is printed
although the identifier 1 is in the input of that very turn. -/
theorem pod_id_of_earlier_turn_reused :
    InputPodId pod_present_input 1 ∧
      (Action.pod 1 1 2).render = "POD 1 1 2 1 2 1 2 1 2" ∧
      emitted_pod_ids [Action.pod 1 1 2] = [1] ∧
      (∀ hypot : Int → Int → ℚ, ∃ g,
        run_turns hypot [pod_present_input, pod_absent_input] initial_globals =
          .ok ([[], [(Action.pod 1 1 2).render]], g)) ∧
      ListedPodId short_pod_line_input 1 ∧
      ∀ hypot : Int → Int → ℚ,
        ∃ s, main_turn hypot initial_globals short_pod_line_input = .ok s ∧
          s.actions = [(Action.pod 1 1 2).render] := by
  refine ⟨⟨[1, 3, 1, 2, 1], by simp [pod_present_input], by decide, rfl⟩, by decide, rfl, ?_,
    ⟨[1, 0], by simp [short_pod_line_input], rfl⟩, fun hypot => short_pod_line_turn hypot⟩
  intro hypot
  obtain ⟨g, hg⟩ : ∃ g : Globals, g =
      { building_positions := [(1, (0, 0)), (2, (10, 0))]
        building_type := [(1, "landing"), (2, "module")]
        module_type := [(2, 7)]
        landing_astronaut_types := [(1, [7])]
        all_buildings := [1, 2]
        turn_number := 1 } := ⟨_, rfl⟩
  obtain ⟨l, hl⟩ : ∃ l : TurnLocals, l =
      { routes := [(1, 2, 1)]
        existing_tubes := [(1, 2)]
        degree := [(1, 1), (2, 1)]
        existing_pod_ids := [1]
        existing_pod_routes := [(1, [1, 2, 1])]
        new_buildings := [1, 2] } := ⟨_, rfl⟩
  have hr : read_input initial_globals pod_present_input = (g, l) := by
    rw [hg, hl]
    decide
  have he : estimate_astronaut_flow g (build_adjacency g.all_buildings l.routes) =
      .ok ([((1, 2), 1)], g) := by
    rw [hg, hl]
    rfl
  have hb : find_bottleneck_tubes l.routes [((1, 2), 1)] = [] := by
    rw [hl]
    show find_bottleneck_tubes [(1, 2, 1)] [((1, 2), 1)] = []
    rw [find_bottleneck_tubes_cons]
    rfl
  have hc : collect_candidates hypot g l 1000 (build_adjacency g.all_buildings l.routes) [] =
      .ok ([], g) := by
    rw [hg, hl]
    rfl
  have hp : ∃ s, commit_passes l.existing_pod_ids l.routes l.existing_pod_routes
      l.new_buildings []
      (turn_start g l.existing_tubes l.degree 1000 (next_pod_id l.existing_pod_ids 1)) =
        .ok s ∧ s.actions = [] ∧ s.g = g := by
    rw [hg, hl]
    exact ⟨_, rfl, by decide, by decide⟩
  obtain ⟨s, hs, ha, hsg⟩ := hp
  have h1 : main_turn hypot initial_globals pod_present_input = .ok s := by
    unfold main_turn
    rw [hr]
    unfold plan_turn
    have hres : pod_present_input.resources = 1000 := rfl
    simp only [he, hb, hres, hc, hs]
  obtain ⟨g2, hg2⟩ : ∃ g2 : Globals, g2 =
      { building_positions := [(1, (0, 0)), (2, (10, 0))]
        building_type := [(1, "landing"), (2, "module")]
        module_type := [(2, 7)]
        landing_astronaut_types := [(1, [7])]
        all_buildings := [1, 2]
        turn_number := 2 } := ⟨_, rfl⟩
  obtain ⟨l2, hl2⟩ : ∃ l2 : TurnLocals, l2 =
      { routes := [(1, 2, 1)]
        existing_tubes := [(1, 2)]
        degree := [(1, 1), (2, 1)]
        existing_pod_ids := []
        existing_pod_routes := []
        new_buildings := [] } := ⟨_, rfl⟩
  have hr2 : read_input s.g pod_absent_input = (g2, l2) := by
    rw [hsg, hg, hg2, hl2]
    decide
  have he2 : estimate_astronaut_flow g2 (build_adjacency g2.all_buildings l2.routes) =
      .ok ([((1, 2), 1)], g2) := by
    rw [hg2, hl2]
    rfl
  have hb2 : find_bottleneck_tubes l2.routes [((1, 2), 1)] = [] := by
    rw [hl2]
    show find_bottleneck_tubes [(1, 2, 1)] [((1, 2), 1)] = []
    rw [find_bottleneck_tubes_cons]
    rfl
  have hc2 : collect_candidates hypot g2 l2 1000 (build_adjacency g2.all_buildings l2.routes)
      [] =
      .ok ([{ type := "POD"
              action := "POD \x7bpod_id\x7d 1 2 1 2 1 2 1 2"
              score := ((610 : Int) : ℚ)
              cost := 1000
              buildings := (1, 2) }], g2) := by
    rw [hg2, hl2]
    rfl
  have hp2 : ∃ s2, commit_passes l2.existing_pod_ids l2.routes l2.existing_pod_routes
      l2.new_buildings
      [{ type := "POD"
         action := "POD \x7bpod_id\x7d 1 2 1 2 1 2 1 2"
         score := ((610 : Int) : ℚ)
         cost := 1000
         buildings := (1, 2) }]
      (turn_start g2 l2.existing_tubes l2.degree 1000 (next_pod_id l2.existing_pod_ids 1)) =
        .ok s2 ∧ s2.actions = [(Action.pod 1 1 2).render] := by
    rw [hg2, hl2]
    exact ⟨_, rfl, by decide⟩
  obtain ⟨s2, hs2, ha2⟩ := hp2
  have h2 : main_turn hypot s.g pod_absent_input = .ok s2 := by
    unfold main_turn
    rw [hr2]
    unfold plan_turn
    have hres : pod_absent_input.resources = 1000 := rfl
    simp only [he2, hb2, hres, hc2, hs2]
  refine ⟨s2.g, ?_⟩
  simp only [run_turns, h1, h2, ha, ha2]

/-- C20, the claim as written fails: on a first turn whose input registers the node 5 both as
a landing pad and as a module of the type it demands, and gives it four links, every degree
counter of the input is at most 5, the turn commits the link `TUBE 5 5`, and the degree
counter of node 5, bumped once for each endpoint of that link, ends at 6. -/
theorem self_link_breaks_degree_bound :
    (∀ v, UMap.val (read_input initial_globals self_link_input).2.degree v ≤ 5) ∧
      ∀ hypot : Int → Int → ℚ, ∃ s,
        main_turn hypot initial_globals self_link_input = .ok s ∧
          s.actions = ["TUBE 5 5"] ∧ UMap.val s.degree 5 = 6 := by
  have hr : read_input initial_globals self_link_input =
      (self_link_globals, self_link_locals) := by decide
  constructor
  · intro v
    rw [hr]
    simp only [self_link_locals, UMap.val, UMap.find, List.find?]
    by_cases h5 : v = 5
    · subst h5
      decide
    by_cases h1 : v = 1
    · subst h1
      decide
    by_cases h2 : v = 2
    · subst h2
      decide
    by_cases h3 : v = 3
    · subst h3
      decide
    by_cases h4 : v = 4
    · subst h4
      decide
    simp [Ne.symm h5, Ne.symm h1, Ne.symm h2, Ne.symm h3, Ne.symm h4]
  · intro hypot
    have he : estimate_astronaut_flow self_link_globals
        (build_adjacency self_link_globals.all_buildings self_link_locals.routes) =
        .ok ([((5, 5), 1)], self_link_globals) := rfl
    have hb : find_bottleneck_tubes self_link_locals.routes [((5, 5), 1)] = [] := by
      show find_bottleneck_tubes [(5, 1, 1), (5, 2, 1), (5, 3, 1), (5, 4, 1)] [((5, 5), 1)] = []
      simp only [find_bottleneck_tubes_cons]
      rfl
    have hc : ∃ c : Candidate,
        collect_candidates hypot self_link_globals self_link_locals 2000
          (build_adjacency self_link_globals.all_buildings self_link_locals.routes) [] =
          .ok ([c], self_link_globals) ∧ c.type = "TUBE" ∧ c.action = "TUBE 5 5" ∧
          c.cost = 0 ∧ c.buildings = (5, 5) := ⟨_, rfl, rfl, rfl, rfl, rfl⟩
    obtain ⟨⟨ty, act, score, cost, bld⟩, hc, ht, hact, hcost, hbld⟩ := hc
    simp only at ht hact hcost hbld
    subst ht hact hcost hbld
    have hp : ∃ s, commit_passes self_link_locals.existing_pod_ids self_link_locals.routes
        self_link_locals.existing_pod_routes self_link_locals.new_buildings
        [{ type := "TUBE", action := "TUBE 5 5", score := score, cost := 0,
           buildings := (5, 5) }]
        (turn_start self_link_globals self_link_locals.existing_tubes self_link_locals.degree
          2000 (next_pod_id self_link_locals.existing_pod_ids 1)) =
          .ok s ∧ s.actions = ["TUBE 5 5"] ∧ UMap.val s.degree 5 = 6 := by
      rw [← commit_passes_ignores_score]
      simp only [List.map]
      exact ⟨_, rfl, by decide, by decide⟩
    obtain ⟨s, hs, ha, hd⟩ := hp
    refine ⟨s, ?_, ha, hd⟩
    unfold main_turn
    rw [hr]
    unfold plan_turn
    have hres : self_link_input.resources = 2000 := rfl
    simp only [he, hb, hres, hc, hs]

/-! ### Idempotence of the generators -/

theorem mem_build_existing_set (p : Int × Int) :
    ∀ (et acc : List (Int × Int)),
      p ∈ build_existing_set et acc ↔
        p ∈ acc ∨ ∃ e ∈ et, p = (e.1, e.2) ∨ p = (e.2, e.1)
  | [], acc => by simp [build_existing_set]
  | e :: rest, acc => by
    rw [build_existing_set, mem_build_existing_set p rest, mem_uset_insert, mem_uset_insert]
    constructor
    · rintro (((h | h) | h) | ⟨e', he', h⟩)
      · exact Or.inl h
      · exact Or.inr ⟨e, List.mem_cons_self _ _, Or.inl h⟩
      · exact Or.inr ⟨e, List.mem_cons_self _ _, Or.inr h⟩
      · exact Or.inr ⟨e', List.mem_cons_of_mem _ he', h⟩
    · rintro (h | ⟨e', he', h⟩)
      · exact Or.inl (Or.inl (Or.inl h))
      · rcases List.mem_cons.1 he' with e1 | e1
        · subst e1
          rcases h with h | h
          · exact Or.inl (Or.inl (Or.inr h))
          · exact Or.inl (Or.inr h)
        · exact Or.inr ⟨e', e1, h⟩

/-- With the iteration bound of a turn the deque search returns a map in which every node of
`start :: ab` has an entry, and the entry of a node is at most the cost of every walk from
`start` to it, when the entries of the adjacency map have weights 0 and 1 and start at nodes
of `start :: ab`. -/
theorem bfs_distances_from_lower (ab : List Int) (start : Int)
    (adj : UMap Int (List (Int × Int)))
    (hw : ∀ x e, e ∈ nbrs_of adj x → e.2 = 0 ∨ e.2 = 1)
    (hS : ∀ x e, e ∈ nbrs_of adj x → x ∈ start :: ab) :
    ∃ dist, bfs_distances_from ab (bfs_fuel ab) start adj = some dist ∧
      (∀ b ∈ start :: ab, UMap.find dist b = some (UMap.val dist b)) ∧
      ∀ b c, AdjWalk adj start b c → UMap.val dist b ≤ c := by
  have c0 := BfsCore.init_state adj ab start
  have r0 := Relaxed.init_relaxed adj ab start hw hS
  have hp := potential_le (start :: ab) c0.le_inf
  have hm : 2 * potential (start :: ab) (bfs_init_dist ab start) +
      (([start] : List Int).length : Int) ≤ (bfs_fuel ab : Nat) := by
    unfold bfs_fuel
    simp only [List.length_singleton, List.length_cons, List.length_nil] at hp ⊢
    push_cast at hp ⊢
    omega
  obtain ⟨dist, hd, core, hr⟩ := bfs_loop_inv adj start (start :: ab) hw (bfs_fuel ab) _ _ c0 hm
  have rel := hr r0
  have hrel : ∀ x y w, (y, w) ∈ nbrs_of adj x → UMap.val dist y ≤ UMap.val dist x + w := by
    intro x y w he
    rcases rel x y w he with h1 | h2 | ⟨_, h4⟩
    · exact absurd h1 (List.not_mem_nil _)
    · exact h2
    · exact absurd h4 (List.not_mem_nil _)
  refine ⟨dist, hd, core.keys, ?_⟩
  intro b c hwalk
  induction hwalk with
  | nil => rw [core.start0]
  | step _ he ih =>
    have := hrel _ _ _ he
    omega

/-- C18, the claim as written fails: the landing pad 1 demands type 7 and is linked to the
module 2 of type 7, the only link carries a pod and is no bottleneck under the estimated
flow, so the state has no bottleneck, a link from every landing pad to a module of each
demanded type, and full pod coverage; yet `generate_tube_candidates` returns a candidate,
the link `TUBE 1 3` to the other module of type 7. -/
theorem second_sink_still_proposed :
    estimate_astronaut_flow two_sinks_scenario
        (build_adjacency two_sinks_scenario.all_buildings served_link_locals.routes) =
        .ok ([((1, 2), 1)], two_sinks_scenario) ∧
      find_bottleneck_tubes served_link_locals.routes [((1, 2), 1)] = [] ∧
      (∀ L types, (L, types) ∈ two_sinks_scenario.landing_astronaut_types → ∀ t ∈ types,
        ∃ M, IsModuleOfType two_sinks_scenario M t ∧
          (L, M) ∈ served_link_locals.existing_tubes) ∧
      (∀ b1 b2 cap, (b1, b2, cap) ∈ served_link_locals.routes → cap > 0 →
        (min b1 b2, max b1 b2) ∈
          build_covered_tubes served_link_locals.existing_pod_routes []) ∧
      ∀ hypot : Int → Int → ℚ, ∃ cands,
        generate_tube_candidates hypot two_sinks_scenario 1000 served_link_locals.degree
            served_link_locals.existing_tubes = .ok (cands, two_sinks_scenario) ∧
          ∃ c ∈ cands, c.type = "TUBE" ∧ c.action = "TUBE 1 3" ∧ c.buildings = (1, 3) := by
  refine ⟨rfl, ?_, ?_, ?_, ?_⟩
  · show find_bottleneck_tubes [(1, 2, 1)] [((1, 2), 1)] = []
    rw [find_bottleneck_tubes_cons]
    rfl
  · intro L types hm t ht
    simp only [two_sinks_scenario, List.mem_singleton, Prod.mk.injEq] at hm
    obtain ⟨e1, e2⟩ := hm
    subst e1 e2
    rw [List.mem_singleton] at ht
    subst ht
    exact ⟨2, ⟨by decide, by decide⟩, by decide⟩
  · intro b1 b2 cap hm _
    simp only [served_link_locals, List.mem_singleton, Prod.mk.injEq] at hm
    obtain ⟨e1, e2, _⟩ := hm
    subst e1 e2
    decide
  · intro hypot
    have hv : ValidLink two_sinks_scenario 1 3 served_link_locals.existing_tubes
        served_link_locals.degree 5 := by
      obtain ⟨r, hr, hrv⟩ := tube_is_geometrically_valid_spec two_sinks_scenario 1 3
        served_link_locals.existing_tubes served_link_locals.degree 5
      have e : tube_is_geometrically_valid two_sinks_scenario 1 3
          served_link_locals.existing_tubes served_link_locals.degree 5 =
          .ok (true, two_sinks_scenario) := rfl
      rw [e] at hr
      cases hr
      exact hrv.1 rfl
    have f1 : UMap.find two_sinks_scenario.building_positions 1 = some (0, 0) := by decide
    have f3 : UMap.find two_sinks_scenario.building_positions 3 = some (0, 10) := by decide
    have hc : (tube_construction_cost two_sinks_scenario 1 3).1 = 100 := by
      have h : double_to_int (double_times_ten (double_hypot (wrap32 (0 - 0))
          (wrap32 (10 - 0)))) = 100 := by decide
      unfold tube_construction_cost
      simp only [f1, f3, reduceCtorEq, or_self, if_false, Globals.position_of_find f1,
        Globals.position_of_find f3, h]
    obtain ⟨cands, e, c, hc1, hc2⟩ := generate_tube_candidates_complete hypot
      two_sinks_scenario 1000 served_link_locals.degree served_link_locals.existing_tubes
      1 [7] 7 3 (by decide)
      (by
        intro h
        rw [UMap.count_eq_zero_iff, f1] at h
        exact Option.noConfusion h)
      (by decide) ⟨by decide, by decide⟩ (by decide) hv (by rw [hc]; decide)
    exact ⟨cands, e, c, hc1, hc2.1, hc2.2.1, hc2.2.2.1⟩
theorem UMap.mem_of_find {K V : Type} [DecidableEq K] :
    ∀ (m : UMap K V) (k : K) (v : V), UMap.find m k = some v → (k, v) ∈ m
  | [], _, _, h => by simp [UMap.find] at h
  | (k', v') :: rest, k, v, h => by
    unfold UMap.find at h
    by_cases hk : k' = k
    · rw [if_pos hk] at h
      cases h
      subst hk
      exact List.mem_cons_self _ _
    · rw [if_neg hk] at h
      exact List.mem_cons_of_mem _ (UMap.mem_of_find rest k v h)

/-- A positive number of matching astronauts gives a demanded type of which the module is a
Sink. -/
theorem matching_astronauts_pos (g : Globals) (landing mod : Int)
    (hm : UMap.find g.building_type mod = some "module")
    (h : 0 < matching_astronauts g landing mod) :
    ∃ types t, (landing, types) ∈ g.landing_astronaut_types ∧ t ∈ types ∧
      SinkOfType g mod t := by
  unfold matching_astronauts at h
  cases hl : UMap.find g.landing_astronaut_types landing with
  | none =>
    rw [hl] at h
    exact absurd h (lt_irrefl 0)
  | some types =>
    rw [hl] at h
    simp only [Nat.cast_pos, List.count_pos_iff] at h
    refine ⟨types, _, UMap.mem_of_find _ _ _ hl, h, UMap.mem_of_find _ _ _ hm, ?_⟩
    cases hmt : UMap.find g.module_type mod with
    | none => exact Or.inr ⟨rfl, rfl⟩
    | some t => exact Or.inl rfl

/-- C18, amended to a link from every landing pad to every module of each demanded type: in
a state whose working links are routes and whose route endpoints are registered nodes, with
no bottleneck under the flow table, every landing pad linked to every Sink of each astronaut
type it demands, and every capacity-bearing route covered by a pod itinerary, the four
generators return, each with an empty candidate list. -/
theorem generators_idle_when_fully_served (hypot : Int → Int → ℚ) (g : Globals)
    (l : TurnLocals) (R : Int) (tube_flow : UMap (Int × Int) Int)
    (hlinks : ∀ e ∈ l.existing_tubes, ∃ cap, (e.1, e.2, cap) ∈ l.routes)
    (hreg : ∀ t ∈ l.routes, t.1 ∈ g.all_buildings ∧ t.2.1 ∈ g.all_buildings)
    (hbott : find_bottleneck_tubes l.routes tube_flow = [])
    (hconn : ∀ L types, (L, types) ∈ g.landing_astronaut_types → ∀ t ∈ types, ∀ M,
      SinkOfType g M t → (L, M) ∈ l.existing_tubes ∨ (M, L) ∈ l.existing_tubes)
    (hcov : ∀ b1 b2 cap, (b1, b2, cap) ∈ l.routes → cap > 0 →
      (min b1 b2, max b1 b2) ∈ build_covered_tubes l.existing_pod_routes []) :
    generate_tube_candidates hypot g R l.degree l.existing_tubes = .ok ([], g) ∧
      generate_upgrade_candidates R (find_bottleneck_tubes l.routes tube_flow) g [] =
        ([], g) ∧
      (generate_pod_candidates g R l.routes l.existing_pod_routes).1 = [] ∧
      generate_teleport_candidates g R l.routes
        (build_adjacency g.all_buildings l.routes) = .ok ([], g) := by
  refine ⟨?_, ?_, ?_, ?_⟩
  · obtain ⟨cands, e, hall⟩ := generate_tube_candidates_spec hypot g R l.degree
      l.existing_tubes
    have hnil : cands = [] := by
      apply List.eq_nil_iff_forall_not_mem.2
      intro c hc
      obtain ⟨L, types, hL, _, t, ht, M, hM, hT⟩ := hall c hc
      apply hT.2.2.2.2.2.1
      rw [mem_build_existing_set]
      refine Or.inr ?_
      rcases hconn L types hL t ht M ⟨hM.1, Or.inl hM.2⟩ with h | h
      · exact ⟨(L, M), h, Or.inl rfl⟩
      · exact ⟨(M, L), h, Or.inr rfl⟩
    rw [e, hnil]
  · rw [hbott]
    rfl
  · apply List.eq_nil_iff_forall_not_mem.2
    intro c hc
    obtain ⟨_, b1, b2, cap, hr, hcap, hn, _⟩ :=
      (generate_pod_candidates_spec g R l.routes l.existing_pod_routes).2 c hc
    exact hn (hcov b1 b2 cap hr hcap)
  · have hw : ∀ x e, e ∈ nbrs_of (build_adjacency g.all_buildings l.routes) x →
        e.2 = 0 ∨ e.2 = 1 := by
      intro x e he
      obtain ⟨t, _, _, hw⟩ := (build_adjacency_edges g.all_buildings l.routes x e.1 e.2).1 he
      rw [hw]
      split_ifs
      · exact Or.inr rfl
      · exact Or.inl rfl
    obtain ⟨cands, e, hall⟩ := generate_teleport_candidates_spec g R l.routes
      (build_adjacency g.all_buildings l.routes) hw
    have hnil : cands = [] := by
      apply List.eq_nil_iff_forall_not_mem.2
      intro c hc
      obtain ⟨_, landing, mod, distmap, hla, _, hma, hmt, _, _, hd, hT⟩ := hall c hc
      obtain ⟨_, _, _, _, _, hhop, hscore, hpos⟩ := hT
      have hS : ∀ x e, e ∈ nbrs_of (build_adjacency g.all_buildings l.routes) x →
          x ∈ landing :: g.all_buildings := by
        intro x e he
        obtain ⟨t, ht, hd, _⟩ :=
          (build_adjacency_edges g.all_buildings l.routes x e.1 e.2).1 he
        obtain ⟨r1, r2⟩ := hreg t ht
        rcases hd with ⟨h1, _⟩ | ⟨_, h2⟩
        · exact List.mem_cons_of_mem _ (h1 ▸ r1)
        · exact List.mem_cons_of_mem _ (h2 ▸ r2)
      obtain ⟨dist, hd', hkeys, hlow⟩ := bfs_distances_from_lower g.all_buildings landing
        (build_adjacency g.all_buildings l.routes) hw hS
      rw [hd] at hd'
      cases hd'
      have hmatch : 0 < matching_astronauts g landing mod := by
        by_contra hle
        have hle' : matching_astronauts g landing mod ≤ 0 := not_lt.1 hle
        have h2 : (0 : ℚ) ≤ ((hop_distance distmap mod - 1 : Int) : ℚ) := by
          have : (0 : Int) ≤ hop_distance distmap mod - 1 := by omega
          exact_mod_cast this
        have h3 : ((matching_astronauts g landing mod : Int) : ℚ) ≤ 0 := by
          exact_mod_cast hle'
        rw [hscore] at hpos
        nlinarith [mul_nonneg h2 (neg_nonneg.2 h3)]
      obtain ⟨types, t, hL, ht, hsink⟩ := matching_astronauts_pos g landing mod hmt hmatch
      have hwalk : ∃ c, c ≤ 1 ∧ RouteWalk l.routes landing mod c := by
        rcases hconn landing types hL t ht mod hsink with h | h
        · obtain ⟨cap, hr⟩ := hlinks _ h
          refine ⟨_, ?_, RouteWalk.forward RouteWalk.nil hr⟩
          split_ifs <;> omega
        · obtain ⟨cap, hr⟩ := hlinks _ h
          refine ⟨_, ?_, RouteWalk.backward RouteWalk.nil hr⟩
          split_ifs <;> omega
      obtain ⟨c', hc', hwk⟩ := hwalk
      have hle := hlow mod c' ((adjWalk_iff_routeWalk g.all_buildings l.routes _ _ _).2 hwk)
      have hk := hkeys mod (List.mem_cons_of_mem _ hma)
      have hcount : UMap.count distmap mod ≠ 0 := by
        intro h0
        rw [UMap.count_eq_zero_iff, hk] at h0
        exact Option.noConfusion h0
      unfold hop_distance at hhop
      rw [if_pos hcount] at hhop
      omega
    rw [e, hnil]

theorem generators_idle_when_fully_served_witness :
    generate_tube_candidates (fun _ _ => 10) (one_link_scenario 1 2 9) 20000
        served_link_locals.degree served_link_locals.existing_tubes =
        .ok ([], one_link_scenario 1 2 9) ∧
      generate_upgrade_candidates 20000
          (find_bottleneck_tubes served_link_locals.routes [((1, 2), 3)])
          (one_link_scenario 1 2 9) [] = ([], one_link_scenario 1 2 9) ∧
      (generate_pod_candidates (one_link_scenario 1 2 9) 20000 served_link_locals.routes
        served_link_locals.existing_pod_routes).1 = [] ∧
      generate_teleport_candidates (one_link_scenario 1 2 9) 20000 served_link_locals.routes
        (build_adjacency (one_link_scenario 1 2 9).all_buildings served_link_locals.routes) =
        .ok ([], one_link_scenario 1 2 9) :=
  generators_idle_when_fully_served (fun _ _ => 10) (one_link_scenario 1 2 9)
    served_link_locals 20000 [((1, 2), 3)]
    (by
      intro e he
      simp only [served_link_locals, List.mem_singleton] at he
      subst he
      exact ⟨1, by decide⟩)
    (by
      intro t ht
      simp only [served_link_locals, List.mem_singleton] at ht
      subst ht
      exact ⟨by decide, by decide⟩)
    (by
      show find_bottleneck_tubes [(1, 2, 1)] [((1, 2), 3)] = []
      rw [find_bottleneck_tubes_cons]
      rfl)
    (by
      intro L types hL t _ M hM
      simp only [one_link_scenario, List.mem_singleton, Prod.mk.injEq] at hL
      have hM1 := hM.1
      simp only [one_link_scenario, List.mem_cons, Prod.mk.injEq, List.mem_singleton,
        List.not_mem_nil, or_false] at hM1
      rcases hM1 with ⟨_, h⟩ | ⟨h, _⟩
      · exact absurd h (by decide)
      · rw [hL.1, h]
        exact Or.inl (by decide))
    (by
      intro b1 b2 cap hm _
      simp only [served_link_locals, List.mem_singleton, Prod.mk.injEq] at hm
      obtain ⟨e1, e2, _⟩ := hm
      subst e1 e2
      decide)

/-- The loop over the routes keeps the two consistency conditions of a turn state: every
working link is a route, and both endpoints of every route are registered nodes. -/
theorem read_routes_links (rs : List (Int × Int × Int)) :
    ∀ (g : Globals) (l : TurnLocals),
      (∀ e ∈ l.existing_tubes, ∃ cap, (e.1, e.2, cap) ∈ l.routes) →
      (∀ t ∈ l.routes, t.1 ∈ g.all_buildings ∧ t.2.1 ∈ g.all_buildings) →
      (∀ e ∈ (read_routes rs g l).2.existing_tubes,
          ∃ cap, (e.1, e.2, cap) ∈ (read_routes rs g l).2.routes) ∧
        (∀ t ∈ (read_routes rs g l).2.routes,
          t.1 ∈ (read_routes rs g l).1.all_buildings ∧
            t.2.1 ∈ (read_routes rs g l).1.all_buildings) ∧
        (read_routes rs g l).2.existing_pod_routes = l.existing_pod_routes := by
  induction rs with
  | nil =>
    intro g l h1 h2
    exact ⟨h1, h2, rfl⟩
  | cons r rest ih =>
    intro g l h1 h2
    obtain ⟨b1, b2, capacity⟩ := r
    unfold read_routes
    apply ih
    · intro e he
      simp only at he ⊢
      by_cases hc : capacity > 0
      · rw [if_pos hc, List.mem_append, List.mem_singleton] at he
        rcases he with he | he
        · obtain ⟨cap, hcap⟩ := h1 e he
          exact ⟨cap, List.mem_append_left _ hcap⟩
        · subst he
          exact ⟨capacity, List.mem_append_right _ (List.mem_singleton.2 rfl)⟩
      · rw [if_neg hc] at he
        obtain ⟨cap, hcap⟩ := h1 e he
        exact ⟨cap, List.mem_append_left _ hcap⟩
    · intro t ht
      simp only [List.mem_append, List.mem_singleton] at ht
      simp only [mem_uset_insert]
      rcases ht with ht | ht
      · obtain ⟨r1, r2⟩ := h2 t ht
        exact ⟨Or.inl (Or.inl r1), Or.inl (Or.inl r2)⟩
      · subst ht
        exact ⟨Or.inl (Or.inr rfl), Or.inr rfl⟩

theorem read_pods_links (ps : List (List Int)) :
    ∀ l : TurnLocals, (read_pods ps l).routes = l.routes ∧
      (read_pods ps l).existing_tubes = l.existing_tubes := by
  induction ps with
  | nil =>
    intro l
    exact ⟨rfl, rfl⟩
  | cons parts rest ih =>
    intro l
    unfold read_pods
    split
    · exact ih _
    · exact ih l

theorem read_buildings_links (bs : List (List Int)) :
    ∀ (g : Globals) (l : TurnLocals),
      (read_buildings bs g l).2.routes = l.routes ∧
        (read_buildings bs g l).2.existing_tubes = l.existing_tubes ∧
        ∀ x ∈ g.all_buildings, x ∈ (read_buildings bs g l).1.all_buildings := by
  induction bs with
  | nil =>
    intro g l
    exact ⟨rfl, rfl, fun x hx => hx⟩
  | cons ints rest ih =>
    intro g l
    unfold read_buildings
    split
    · split_ifs
      · obtain ⟨i1, i2, i3⟩ := ih _ _
        refine ⟨i1, i2, ?_⟩
        intro x hx
        exact i3 x ((mem_uset_insert _ _ _).2 (Or.inl hx))
      · obtain ⟨i1, i2, i3⟩ := ih _ _
        refine ⟨i1, i2, ?_⟩
        intro x hx
        exact i3 x ((mem_uset_insert _ _ _).2 (Or.inl hx))
      · exact ih g l
    · exact ih g l

/-- Every state that the input reader leaves satisfies the two consistency conditions: its
working links are routes of the turn and the endpoints of its routes are registered
nodes. -/
theorem read_input_links (g : Globals) (inp : TurnInput) :
    (∀ e ∈ (read_input g inp).2.existing_tubes,
        ∃ cap, (e.1, e.2, cap) ∈ (read_input g inp).2.routes) ∧
      ∀ t ∈ (read_input g inp).2.routes,
        t.1 ∈ (read_input g inp).1.all_buildings ∧
          t.2.1 ∈ (read_input g inp).1.all_buildings := by
  unfold read_input
  simp only
  obtain ⟨h1, h2, _⟩ := read_routes_links inp.routes
    { g with turn_number := g.turn_number + 1 }
    { routes := [], existing_tubes := [], degree := [], existing_pod_ids := [],
      existing_pod_routes := [], new_buildings := [] }
    (fun e he => absurd he (List.not_mem_nil _)) (fun t ht => absurd ht (List.not_mem_nil _))
  obtain ⟨p1, p2⟩ := read_pods_links inp.pod_lines (read_routes inp.routes
    { g with turn_number := g.turn_number + 1 }
    { routes := [], existing_tubes := [], degree := [], existing_pod_ids := [],
      existing_pod_routes := [], new_buildings := [] }).2
  obtain ⟨b1, b2, b3⟩ := read_buildings_links inp.building_lines (read_routes inp.routes
    { g with turn_number := g.turn_number + 1 }
    { routes := [], existing_tubes := [], degree := [], existing_pod_ids := [],
      existing_pod_routes := [], new_buildings := [] }).1 (read_pods inp.pod_lines
      (read_routes inp.routes
    { g with turn_number := g.turn_number + 1 }
    { routes := [], existing_tubes := [], degree := [], existing_pod_ids := [],
      existing_pod_routes := [], new_buildings := [] }).2)
  rw [b1, b2, p1, p2]
  exact ⟨h1, fun t ht => ⟨b3 _ (h2 t ht).1, b3 _ (h2 t ht).2⟩⟩

/-! ### Exactness of `point_on_segment` -/

/-- C28 (counterexample): the point `(0, 1)` is the midpoint of the segment from
`(-2000000000, 0)` to `(2000000000, 2)`, yet `point_on_segment` returns `false`: the `int`
difference `bx - ax` of the collinearity test wraps. -/
theorem point_on_segment_misses_wide_midpoint :
    point_on_segment 0 1 (-2000000000) 0 2000000000 2 = false ∧
      ∃ t : ℚ, 0 ≤ t ∧ t ≤ 1 ∧ ((0 : Int) : ℚ) = (-2000000000 : Int) +
          t * ((2000000000 : Int) - (-2000000000 : Int)) ∧
        ((1 : Int) : ℚ) = (0 : Int) + t * ((2 : Int) - (0 : Int)) := by
  refine ⟨by decide, 1 / 2, ?_⟩
  norm_num

/-- C28 (amended): for all integer points `p = (px, py)`, `a = (ax, ay)`, `b = (bx, by_)`
with coordinates in `[-2^30, 2^30 - 1]`, the degenerate case `a = b` included,
`point_on_segment` returns `true` if and only if `p` lies on the closed segment from `a` to
`b`, i.e. there is a rational `t` in `[0, 1]` with `p = a + t (b - a)`; in the degenerate
case this says `p = a`. -/
theorem point_on_segment_exact (px py ax ay bx by_ : Int) (hp : SmallPoint (px, py))
    (ha : SmallPoint (ax, ay)) (hb : SmallPoint (bx, by_)) :
    (point_on_segment px py ax ay bx by_ = true ↔
        ∃ t : ℚ, 0 ≤ t ∧ t ≤ 1 ∧ (px : ℚ) = ax + t * (bx - ax) ∧
          (py : ℚ) = ay + t * (by_ - ay)) ∧
      (point_on_segment px py ax ay ax ay = true ↔ px = ax ∧ py = ay) := by
  refine ⟨point_on_segment_iff (px, py) (ax, ay) (bx, by_) hp ha hb, ?_⟩
  rw [point_on_segment_iff (px, py) (ax, ay) (ax, ay) hp ha ha]
  constructor
  · rintro ⟨t, _, _, hx, hy⟩
    simp only [sub_self, mul_zero, add_zero] at hx hy
    exact ⟨by exact_mod_cast hx, by exact_mod_cast hy⟩
  · rintro ⟨hx, hy⟩
    exact ⟨0, le_refl _, zero_le_one, by simp [hx], by simp [hy]⟩

theorem point_on_segment_exact_witness :
    (point_on_segment 2 2 0 0 4 4 = true ↔
        ∃ t : ℚ, 0 ≤ t ∧ t ≤ 1 ∧ ((2 : Int) : ℚ) = (0 : Int) + t * ((4 : Int) - (0 : Int)) ∧
          ((2 : Int) : ℚ) = (0 : Int) + t * ((4 : Int) - (0 : Int))) ∧
      (point_on_segment 2 2 0 0 0 0 = true ↔ (2 : Int) = 0 ∧ (2 : Int) = 0) :=
  point_on_segment_exact 2 2 0 0 4 4 (by decide) (by decide) (by decide)

/-! ### The generators, claim by claim -/

/-- C23: `generate_tube_candidates` returns, with the registries unchanged, and every
candidate of its list is a `TUBE` candidate for a pair `(landing_id, mod)` where `landing_id`
has an entry in `landing_astronaut_types` and a registered position, `mod` is a module whose
type is one of the astronaut types waiting at `landing_id`, neither `(landing_id, mod)` nor
`(mod, landing_id)` is in the existing link list, `tube_is_geometrically_valid` accepts the
pair against the given link list and degree map, and the cost of the candidate is
`tube_construction_cost` of the pair and at most the remaining budget passed in. -/
theorem tube_candidates_are_sound (hypot : Int → Int → ℚ) (g : Globals) (R : Int)
    (degree : UMap Int Int) (et : List (Int × Int)) :
    ∃ cands, generate_tube_candidates hypot g R degree et = .ok (cands, g) ∧
      ∀ c ∈ cands, ∃ landing_id astro_types wanted mod,
        c.type = "TUBE" ∧ c.buildings = (landing_id, mod) ∧
        (landing_id, astro_types) ∈ g.landing_astronaut_types ∧
        UMap.count g.building_positions landing_id ≠ 0 ∧
        wanted ∈ astro_types ∧ IsModuleOfType g mod wanted ∧
        (landing_id, mod) ∉ et ∧ (mod, landing_id) ∉ et ∧
        tube_is_geometrically_valid g landing_id mod et degree 5 = .ok (true, g) ∧
        c.cost = (tube_construction_cost g landing_id mod).1 ∧ c.cost ≤ R := by
  obtain ⟨cands, e, hall⟩ := generate_tube_candidates_spec hypot g R degree et
  refine ⟨cands, e, ?_⟩
  intro c hc
  obtain ⟨l, types, hl, hp, w, hw, m, hm, ht, _, hb, hcost, hR, hes, hv⟩ := hall c hc
  refine ⟨l, types, w, m, ht, hb, hl, hp, hw, hm, ?_, ?_, ?_, hcost, hR⟩
  · intro h
    exact hes ((mem_build_existing_set _ et []).2 (Or.inr ⟨(l, m), h, Or.inl rfl⟩))
  · intro h
    exact hes ((mem_build_existing_set _ et []).2 (Or.inr ⟨(m, l), h, Or.inr rfl⟩))
  · obtain ⟨r, hr, hrv⟩ := tube_is_geometrically_valid_spec g l m et degree 5
    have : r = true := hrv.2 hv
    rw [this] at hr
    exact hr

theorem generate_upgrade_candidates_eq (R : Int) (g : Globals) :
    ∀ (l : List (Int × Int × Int × Int)) (cands : List Candidate),
      (∀ b ∈ l, InInt32 (b.2.2.1 + 1) ∧
        InInt32 ((tube_construction_cost g b.1 b.2.1).1 * (b.2.2.1 + 1))) →
      generate_upgrade_candidates R l g cands =
        (cands ++ (l.filter (fun b =>
          decide ((tube_construction_cost g b.1 b.2.1).1 * (b.2.2.1 + 1) ≤ R))).map
            (upgrade_candidate_of g), g)
  | [], cands, _ => by simp [generate_upgrade_candidates]
  | (b1, b2, cap, flow) :: rest, cands, hfit => by
    have hrest : ∀ b ∈ rest, InInt32 (b.2.2.1 + 1) ∧
        InInt32 ((tube_construction_cost g b.1 b.2.1).1 * (b.2.2.1 + 1)) :=
      fun b hb => hfit b (List.mem_cons_of_mem _ hb)
    obtain ⟨f1, f2⟩ := hfit (b1, b2, cap, flow) (List.mem_cons_self _ _)
    simp only [] at f1 f2
    unfold generate_upgrade_candidates
    simp only [tube_construction_cost_snd, wrap32_eq_self f1, wrap32_eq_self f2]
    by_cases h : (tube_construction_cost g b1 b2).1 * (cap + 1) > R
    · rw [if_pos h, generate_upgrade_candidates_eq R g rest cands hrest]
      have h' : ¬ (tube_construction_cost g b1 b2).1 * (cap + 1) ≤ R := not_le.2 h
      simp [List.filter_cons, h']
    · rw [if_neg h, generate_upgrade_candidates_eq R g rest _ hrest]
      have h' : (tube_construction_cost g b1 b2).1 * (cap + 1) ≤ R := not_lt.1 h
      simp [List.filter_cons, h', upgrade_candidate_of]

/-- C24 (counterexample): for the bottleneck `(1, 99, 2, 150)` whose second node is not
registered and a remaining budget of 10000, the upgrade cost `1000000000 * (2 + 1)` exceeds
the budget, yet `generate_upgrade_candidates` returns a candidate: the `int` product wraps
to -1294967296, which passes the budget test. -/
theorem wrapped_upgrade_cost_passes_budget :
    (tube_construction_cost crossing_scenario 1 99).1 * ((2 : Int) + 1) = 3000000000 ∧
      ¬ ((3000000000 : Int) ≤ 10000) ∧
      ∃ c, generate_upgrade_candidates 10000 [(1, 99, 2, 150)] crossing_scenario [] =
          ([c], crossing_scenario) ∧ c.type = "UPGRADE" ∧ c.buildings = (1, 99) ∧
        c.cost = -1294967296 := by
  refine ⟨by decide, by decide, _, rfl, by decide, by decide, by decide⟩

/-- C24 (amended): when, for every bottleneck, `cap + 1` and the upgrade cost
`tube_construction_cost(b1, b2) * (cap + 1)` are `int` values, `generate_upgrade_candidates`
returns, with the registries unchanged, the list obtained from the bottleneck list, in input
order, by dropping the bottlenecks whose upgrade cost exceeds the remaining budget and
turning each other bottleneck `(b1, b2, cap, flow)` into one `UPGRADE` candidate with that
cost and score `flow * 10 - cost * 0.1`; so an empty bottleneck list gives an empty
candidate list. -/
theorem upgrade_candidates_exact (R : Int) (g : Globals)
    (bottlenecks : List (Int × Int × Int × Int))
    (hfit : ∀ b ∈ bottlenecks, InInt32 (b.2.2.1 + 1) ∧
      InInt32 ((tube_construction_cost g b.1 b.2.1).1 * (b.2.2.1 + 1))) :
    generate_upgrade_candidates R bottlenecks g [] =
        ((bottlenecks.filter (fun b =>
          decide ((tube_construction_cost g b.1 b.2.1).1 * (b.2.2.1 + 1) ≤ R))).map
            (upgrade_candidate_of g), g) ∧
      (∀ b, (upgrade_candidate_of g b).cost =
          (tube_construction_cost g b.1 b.2.1).1 * (b.2.2.1 + 1) ∧
        (upgrade_candidate_of g b).score =
          (b.2.2.2 : ℚ) * 10 - ((upgrade_candidate_of g b).cost : ℚ) * (1 / 10) ∧
        (upgrade_candidate_of g b).type = "UPGRADE" ∧
        (upgrade_candidate_of g b).buildings = (b.1, b.2.1)) ∧
      generate_upgrade_candidates R [] g [] = ([], g) := by
  refine ⟨?_, fun b => ⟨rfl, rfl, rfl, rfl⟩, rfl⟩
  rw [generate_upgrade_candidates_eq R g bottlenecks [] hfit]
  simp

theorem upgrade_candidates_exact_witness :
    (∀ b ∈ [((1 : Int), (2 : Int), (2 : Int), (150 : Int)), (1, 99, 1, 7)],
        InInt32 (b.2.2.1 + 1) ∧
          InInt32 ((tube_construction_cost crossing_scenario b.1 b.2.1).1 * (b.2.2.1 + 1))) ∧
      (generate_upgrade_candidates 10000 [(1, 2, 2, 150), (1, 99, 1, 7)] crossing_scenario [] =
          (([((1 : Int), (2 : Int), (2 : Int), (150 : Int)), (1, 99, 1, 7)].filter (fun b =>
            decide ((tube_construction_cost crossing_scenario b.1 b.2.1).1 * (b.2.2.1 + 1) ≤
              10000))).map (upgrade_candidate_of crossing_scenario), crossing_scenario) ∧
        (∀ b, (upgrade_candidate_of crossing_scenario b).cost =
            (tube_construction_cost crossing_scenario b.1 b.2.1).1 * (b.2.2.1 + 1) ∧
          (upgrade_candidate_of crossing_scenario b).score =
            (b.2.2.2 : ℚ) * 10 -
              ((upgrade_candidate_of crossing_scenario b).cost : ℚ) * (1 / 10) ∧
          (upgrade_candidate_of crossing_scenario b).type = "UPGRADE" ∧
          (upgrade_candidate_of crossing_scenario b).buildings = (b.1, b.2.1)) ∧
        generate_upgrade_candidates 10000 [] crossing_scenario [] = ([], crossing_scenario)) :=
  ⟨by decide, upgrade_candidates_exact 10000 crossing_scenario
    [(1, 2, 2, 150), (1, 99, 1, 7)] (by decide)⟩

theorem mem_cover_route (p : Int × Int) :
    ∀ (route : List Int) (covered : List (Int × Int)),
      p ∈ cover_route route covered ↔
        p ∈ covered ∨ ∃ (pre post : List Int) (a b : Int), route = pre ++ a :: b :: post ∧
          p = (min a b, max a b)
  | [], covered => by
    simp [cover_route]
  | [a], covered => by
    simp only [cover_route]
    constructor
    · exact fun h => Or.inl h
    · rintro (h | ⟨pre, post, x, y, h, _⟩)
      · exact h
      · exfalso
        have := congrArg List.length h
        simp at this
        omega
  | a :: b :: rest, covered => by
    rw [cover_route, mem_cover_route p (b :: rest), mem_uset_insert]
    constructor
    · rintro ((h | h) | ⟨pre, post, x, y, h, hp⟩)
      · exact Or.inl h
      · exact Or.inr ⟨[], rest, a, b, rfl, h⟩
      · exact Or.inr ⟨a :: pre, post, x, y, by rw [h]; rfl, hp⟩
    · rintro (h | ⟨pre, post, x, y, h, hp⟩)
      · exact Or.inl (Or.inl h)
      · cases pre with
        | nil =>
          simp only [List.nil_append, List.cons.injEq] at h
          obtain ⟨e1, e2, _⟩ := h
          subst e1 e2
          exact Or.inl (Or.inr hp)
        | cons c pre' =>
          simp only [List.cons_append, List.cons.injEq] at h
          exact Or.inr ⟨pre', post, x, y, h.2, hp⟩

theorem mem_build_covered_tubes (p : Int × Int) :
    ∀ (pods : UMap Int (List Int)) (covered : List (Int × Int)),
      p ∈ build_covered_tubes pods covered ↔
        p ∈ covered ∨ ∃ pr ∈ pods, ∃ (pre post : List Int) (a b : Int),
          pr.2 = pre ++ a :: b :: post ∧ p = (min a b, max a b)
  | [], covered => by simp [build_covered_tubes]
  | pr :: rest, covered => by
    rw [build_covered_tubes, mem_build_covered_tubes p rest, mem_cover_route]
    constructor
    · rintro ((h | ⟨pre, post, a, b, h, hp⟩) | ⟨pr', hm, h⟩)
      · exact Or.inl h
      · exact Or.inr ⟨pr, List.mem_cons_self _ _, pre, post, a, b, h, hp⟩
      · exact Or.inr ⟨pr', List.mem_cons_of_mem _ hm, h⟩
    · rintro (h | ⟨pr', hm, pre, post, a, b, h, hp⟩)
      · exact Or.inl (Or.inl h)
      · rcases List.mem_cons.1 hm with e | e
        · subst e
          exact Or.inl (Or.inr ⟨pre, post, a, b, h, hp⟩)
        · exact Or.inr ⟨pr', e, pre, post, a, b, h, hp⟩

theorem min_max_pair_eq (x y a b : Int) :
    (min x y, max x y) = (min a b, max a b) ↔ (a = x ∧ b = y) ∨ (a = y ∧ b = x) := by
  simp only [Prod.mk.injEq]
  constructor
  · rintro ⟨h1, h2⟩
    rcases le_total x y with hxy | hxy <;> rcases le_total a b with hab | hab
    · rw [min_eq_left hxy, min_eq_left hab] at h1
      rw [max_eq_right hxy, max_eq_right hab] at h2
      exact Or.inl ⟨h1.symm, h2.symm⟩
    · rw [min_eq_left hxy, min_eq_right hab] at h1
      rw [max_eq_right hxy, max_eq_left hab] at h2
      exact Or.inr ⟨h2.symm, h1.symm⟩
    · rw [min_eq_right hxy, min_eq_left hab] at h1
      rw [max_eq_left hxy, max_eq_right hab] at h2
      exact Or.inr ⟨h1.symm, h2.symm⟩
    · rw [min_eq_right hxy, min_eq_right hab] at h1
      rw [max_eq_left hxy, max_eq_left hab] at h2
      exact Or.inl ⟨h2.symm, h1.symm⟩
  · rintro (⟨rfl, rfl⟩ | ⟨rfl, rfl⟩)
    · exact ⟨rfl, rfl⟩
    · exact ⟨min_comm _ _, max_comm _ _⟩

/-- A link is covered exactly when its two endpoints are consecutive stops of an itinerary. -/
theorem covered_iff_consecutive_stops (pods : UMap Int (List Int)) (x y : Int) :
    (min x y, max x y) ∈ build_covered_tubes pods [] ↔ ConsecutiveStops pods x y := by
  rw [mem_build_covered_tubes]
  unfold ConsecutiveStops
  constructor
  · rintro (h | ⟨pr, hm, pre, post, a, b, h, hp⟩)
    · exact absurd h (List.not_mem_nil _)
    · exact ⟨pr, hm, pre, post, a, b, h, (min_max_pair_eq x y a b).1 hp⟩
  · rintro ⟨pr, hm, pre, post, a, b, h, hp⟩
    exact Or.inr ⟨pr, hm, pre, post, a, b, h, (min_max_pair_eq x y a b).2 hp⟩

theorem waiting_count_astronauts_at (g : Globals) (b b' : Int) :
    waiting_count (g.astronauts_at b).2 b' = waiting_count g b' := by
  unfold waiting_count Globals.astronauts_at
  simp only [UMap.find_index_snd]
  cases h : UMap.find g.landing_astronaut_types b' with
  | some l => rfl
  | none =>
    by_cases hb : b = b'
    · simp [hb]
      rfl
    · simp [hb]

/-- The score increment of one endpoint, and what the reads leave of the registries. -/
theorem pod_endpoint_score_eq (g : Globals) (b : Int) :
    (pod_endpoint_score g b).1 =
        (if UMap.find g.building_type b = some "landing" then 500 + 10 * waiting_count g b
          else 0) ∧
      (pod_endpoint_score g b).2.building_type = g.building_type ∧
      ∀ b', waiting_count (pod_endpoint_score g b).2 b' = waiting_count g b' := by
  unfold pod_endpoint_score
  simp only [Globals.type_is_snd]
  by_cases h : (g.type_is b "landing").1 = true
  · rw [if_pos h, if_pos ((Globals.type_is_fst g b "landing").1 h)]
    refine ⟨?_, rfl, fun b' => waiting_count_astronauts_at g b b'⟩
    simp only [Globals.astronauts_at, waiting_count]
    unfold UMap.index
    cases hf : UMap.find g.landing_astronaut_types b with
    | some l =>
      simp only
      ring
    | none =>
      simp only
      rfl
  · rw [if_neg h, if_neg (fun e => h ((Globals.type_is_fst g b "landing").2 e))]
    exact ⟨rfl, rfl, fun _ => rfl⟩

theorem pod_score_congr (g g' : Globals) (hb : g'.building_type = g.building_type)
    (hw : ∀ b, waiting_count g' b = waiting_count g b) (b1 b2 : Int) :
    pod_score g' b1 b2 = pod_score g b1 b2 := by
  unfold pod_score
  rw [hb, hw b1, hw b2]

theorem generate_pod_candidates_loop_eq (covered : List (Int × Int)) (g : Globals) :
    ∀ (routes : List (Int × Int × Int)) (g' : Globals) (cands : List Candidate),
      g'.building_type = g.building_type → (∀ b, waiting_count g' b = waiting_count g b) →
      (generate_pod_candidates_loop covered routes g' cands).1 =
        cands ++ (routes.filter (fun r =>
          decide (r.2.2 > 0 ∧ (min r.1 r.2.1, max r.1 r.2.1) ∉ covered))).map
            (pod_candidate_of g)
  | [], g', cands, _, _ => by simp [generate_pod_candidates_loop]
  | (b1, b2, cap) :: rest, g', cands, hb, hw => by
    unfold generate_pod_candidates_loop
    by_cases h1 : cap ≤ 0
    · rw [if_pos h1, generate_pod_candidates_loop_eq covered g rest g' cands hb hw]
      have : ¬ cap > 0 := not_lt.2 h1
      simp [List.filter_cons, this]
    rw [if_neg h1]
    by_cases h2 : (min b1 b2, max b1 b2) ∈ covered
    · rw [if_pos h2, generate_pod_candidates_loop_eq covered g rest g' cands hb hw]
      simp [List.filter_cons, h2]
    rw [if_neg h2]
    obtain ⟨s1, t1, w1⟩ := pod_endpoint_score_eq g' b1
    obtain ⟨s2, t2, w2⟩ := pod_endpoint_score_eq (pod_endpoint_score g' b1).2 b2
    simp only
    rw [generate_pod_candidates_loop_eq covered g rest _ _ (by rw [t2, t1, hb])
      (fun b => by rw [w2, w1, hw])]
    have hcap : cap > 0 := not_le.1 h1
    have hscore : 100 + (pod_endpoint_score g' b1).1 +
        (pod_endpoint_score (pod_endpoint_score g' b1).2 b2).1 = pod_score g b1 b2 := by
      rw [s1, s2, t1, w1, ← pod_score_congr g g' hb hw]
      rfl
    simp [List.filter_cons, h2, hcap, pod_candidate_of, hscore]

/-- C21: with a remaining budget of at least 1000, `generate_pod_candidates` returns the list
obtained from the input routes, in input order, by keeping the routes with capacity > 0
whose pair `(min, max)` of endpoints is not covered and turning each of them into one `POD`
candidate; a pair is covered exactly when its two endpoints are consecutive stops, in either
order, of an existing itinerary; each candidate has cost 1000 and score 100 plus, for each
endpoint that `building_type` labels `landing`, 500 and ten per astronaut waiting there.
With a remaining budget below 1000 it returns no candidate. -/
theorem pod_candidates_exact (g : Globals) (R : Int) (routes : List (Int × Int × Int))
    (pods : UMap Int (List Int)) :
    (1000 ≤ R →
      (generate_pod_candidates g R routes pods).1 =
        (routes.filter (fun r =>
          decide (r.2.2 > 0 ∧
            (min r.1 r.2.1, max r.1 r.2.1) ∉ build_covered_tubes pods []))).map
          (pod_candidate_of g)) ∧
      (∀ x y, (min x y, max x y) ∈ build_covered_tubes pods [] ↔ ConsecutiveStops pods x y) ∧
      (∀ r, (pod_candidate_of g r).cost = 1000 ∧ (pod_candidate_of g r).type = "POD" ∧
        (pod_candidate_of g r).buildings = (r.1, r.2.1) ∧
        (pod_candidate_of g r).score =
          ((100 +
            (if UMap.find g.building_type r.1 = some "landing" then
              500 + 10 * waiting_count g r.1 else 0) +
            (if UMap.find g.building_type r.2.1 = some "landing" then
              500 + 10 * waiting_count g r.2.1 else 0) : Int) : ℚ)) ∧
      (R < 1000 → (generate_pod_candidates g R routes pods).1 = []) := by
  refine ⟨?_, covered_iff_consecutive_stops pods, fun r => ⟨rfl, rfl, rfl, rfl⟩, ?_⟩
  · intro hR
    unfold generate_pod_candidates
    rw [if_neg (not_lt.2 hR), generate_pod_candidates_loop_eq _ g routes g [] rfl (fun _ => rfl)]
    simp
  · intro hR
    unfold generate_pod_candidates
    rw [if_pos hR]

/-! ### The Coverage Sweep -/

theorem build_tubes_needing_pods_eq (covered : List (Int × Int)) (g : Globals) :
    ∀ routes : List (Int × Int × Int),
      (build_tubes_needing_pods covered routes g).1 =
        (routes.filter (fun r =>
          decide (r.2.2 > 0 ∧ (min r.1 r.2.1, max r.1 r.2.1) ∉ covered))).map
            (fun r => (link_priority g r.1 r.2.1, r.1, r.2.1))
  | [] => rfl
  | (b1, b2, cap) :: rest => by
    unfold build_tubes_needing_pods
    by_cases h1 : cap > 0
    · rw [if_pos h1]
      by_cases h2 : (min b1 b2, max b1 b2) ∉ covered
      · rw [if_pos h2]
        simp only [Globals.type_is_snd]
        rw [build_tubes_needing_pods_eq covered g rest]
        have hp : (if (g.type_is b1 "landing").1 = true then (100 : Int) else 0) +
            (if (g.type_is b2 "landing").1 = true then 100 else 0) =
            link_priority g b1 b2 := by
          unfold link_priority
          simp only [Globals.type_is_fst]
          split_ifs <;> rfl
        simp [List.filter_cons, h1, h2, hp]
      · rw [if_neg h2, build_tubes_needing_pods_eq covered g rest]
        simp [List.filter_cons, h2]
    · rw [if_neg h1, build_tubes_needing_pods_eq covered g rest]
      simp [List.filter_cons, h1]

theorem sort_by_priority_sorted (l : List (Int × Int × Int)) :
    (sort_by_priority l).Pairwise (fun a b => a.1 ≥ b.1) := by
  have : IsTotal (Int × Int × Int) (fun a b => a.1 ≥ b.1) := ⟨fun a b => le_total b.1 a.1⟩
  have : IsTrans (Int × Int × Int) (fun a b => a.1 ≥ b.1) :=
    ⟨fun a b c h1 h2 => le_trans h2 h1⟩
  exact List.sorted_insertionSort (fun a b => a.1 ≥ b.1) l

/-- The sweep loop commits a prefix of its work list. -/
theorem coverage_sweep_loop_prefix (ids : List Int) :
    ∀ (work : List (Int × Int × Int)) (s : TurnState),
      ∃ done rest, work = done ++ rest ∧
        (coverage_sweep_loop ids work s).actions =
          s.actions ++ sweep_actions ids done s.pod_id_counter ∧
        (rest ≠ [] → UMap.val (coverage_sweep_loop ids work s).actions_count "POD" ≥ 6 ∨
          (coverage_sweep_loop ids work s).remaining_resources < 1000)
  | [], s => ⟨[], [], rfl, by simp [coverage_sweep_loop, sweep_actions], fun h => absurd rfl h⟩
  | (p, b1, b2) :: work, s => by
    unfold coverage_sweep_loop
    simp only [UMap.index_fst]
    by_cases hq : UMap.val s.actions_count "POD" ≥ 6
    · rw [if_pos hq]
      refine ⟨[], (p, b1, b2) :: work, rfl, by simp [sweep_actions], fun _ => Or.inl ?_⟩
      simp only [UMap.val_index_snd]
      exact hq
    rw [if_neg hq]
    by_cases hr : s.remaining_resources < 1000
    · rw [if_pos hr]
      exact ⟨[], (p, b1, b2) :: work, rfl, by simp [sweep_actions], fun _ => Or.inr hr⟩
    rw [if_neg hr]
    obtain ⟨done, rest, e1, e2, e3⟩ := coverage_sweep_loop_prefix ids work
      (sweep_commit ids { s with actions_count := (UMap.index s.actions_count "POD").2 } b1 b2)
    refine ⟨(p, b1, b2) :: done, rest, by rw [e1]; rfl, ?_, e3⟩
    rw [e2]
    simp [sweep_commit, sweep_actions, route_str]

/-- The work list of the Coverage Sweep holds one entry `(priority, b1, b2)` for each
input route with capacity > 0 whose pair `(min, max)` of endpoints is not in `covered_tubes`,
with priority 100 times the number of its endpoints that `building_type` labels `landing`,
arranged in non-increasing order of priority; the sweep commits a vehicle for the entries of
a prefix `done` of that list, in order, and for no other; so every entry it commits has a
priority at least that of every entry it leaves out, and it leaves entries out only when the
count of `POD` actions has reached 6 or the remaining budget is below 1000. -/
theorem sweep_commits_by_priority (ids : List Int) (routes : List (Int × Int × Int))
    (pods : UMap Int (List Int)) (s : TurnState) :
    List.Perm (sweep_start routes pods s).1
        ((routes.filter (fun r =>
          decide (r.2.2 > 0 ∧
            (min r.1 r.2.1, max r.1 r.2.1) ∉ build_covered_tubes pods []))).map
          (fun r => (link_priority s.g r.1 r.2.1, r.1, r.2.1))) ∧
      (sweep_start routes pods s).1.Pairwise (fun a b => a.1 ≥ b.1) ∧
      ∃ done rest, (sweep_start routes pods s).1 = done ++ rest ∧
        (coverage_sweep_loop ids (sweep_start routes pods s).1
            (sweep_start routes pods s).2).actions =
          s.actions ++ sweep_actions ids done s.pod_id_counter ∧
        (∀ x ∈ done, ∀ y ∈ rest, x.1 ≥ y.1) ∧
        (rest ≠ [] →
          UMap.val (coverage_sweep_loop ids (sweep_start routes pods s).1
            (sweep_start routes pods s).2).actions_count "POD" ≥ 6 ∨
          (coverage_sweep_loop ids (sweep_start routes pods s).1
            (sweep_start routes pods s).2).remaining_resources < 1000) := by
  have hsorted := sort_by_priority_sorted
    (build_tubes_needing_pods (build_covered_tubes pods []) routes s.g).1
  have hw : (sweep_start routes pods s).1 = sort_by_priority
      (build_tubes_needing_pods (build_covered_tubes pods []) routes s.g).1 := rfl
  refine ⟨?_, by rw [hw]; exact hsorted, ?_⟩
  · rw [hw, ← build_tubes_needing_pods_eq]
    exact List.perm_insertionSort _ _
  · obtain ⟨done, rest, e1, e2, e3⟩ := coverage_sweep_loop_prefix ids
      (sweep_start routes pods s).1 (sweep_start routes pods s).2
    refine ⟨done, rest, e1, e2, ?_, e3⟩
    intro x hx y hy
    rw [← hw, e1] at hsorted
    exact (List.pairwise_append.1 hsorted).2.2 x hx y hy

/-- C27, evaluation at the failing input: on a first turn with budget 2200 whose input lists
the landing pad 1, the modules 2, 3 and 4, the link 3-4 and no pod, the turn runs to completion
and prints `POD 1 3 4 3 4 3 4 3 4` (Greedy Selector), `TUBE 1 2` (Fallback Connector) and
`POD 2 3 4 3 4 3 4 3 4` (Coverage Sweep).  The sweep commits a vehicle for the link 3-4, of
priority 0 and already served by the vehicle 1, and none for the link 1-2, which is in the
working link list, is served by no vehicle and has priority 100: its work list is built from
the routes and the itineraries of the input alone. -/
theorem sweep_serves_lower_priority_link :
    link_priority sweep_priority_globals 1 2 = 100 ∧
      link_priority sweep_priority_globals 3 4 = 0 ∧
      ∀ hypot : Int → Int → ℚ,
        ∃ s, main_turn hypot initial_globals sweep_priority_input = .ok s ∧
          s.actions = ["POD 1 3 4 3 4 3 4 3 4", "TUBE 1 2", "POD 2 3 4 3 4 3 4 3 4"] ∧
          s.g = sweep_priority_globals ∧ (1, 2) ∈ s.existing_tubes := by
  refine ⟨by decide, by decide, fun hypot => ?_⟩
  have hr : read_input initial_globals sweep_priority_input =
      (sweep_priority_globals, sweep_priority_locals) := by decide
  have he : estimate_astronaut_flow sweep_priority_globals
      (build_adjacency sweep_priority_globals.all_buildings sweep_priority_locals.routes) =
      .ok ([], sweep_priority_globals) := by
    rfl
  have hb : find_bottleneck_tubes sweep_priority_locals.routes [] = [] := by
    show find_bottleneck_tubes [(3, 4, 1)] [] = []
    rw [find_bottleneck_tubes_cons]
    rfl
  have hc : collect_candidates hypot sweep_priority_globals sweep_priority_locals 2200
      (build_adjacency sweep_priority_globals.all_buildings sweep_priority_locals.routes) [] =
      .ok ([{ type := "POD"
              action := "POD \x7bpod_id\x7d 3 4 3 4 3 4 3 4"
              score := ((100 : Int) : ℚ)
              cost := 1000
              buildings := (3, 4) }], sweep_priority_globals) := by
    rfl
  have hp : ∃ s, commit_passes sweep_priority_locals.existing_pod_ids
      sweep_priority_locals.routes sweep_priority_locals.existing_pod_routes
      sweep_priority_locals.new_buildings
      [{ type := "POD"
         action := "POD \x7bpod_id\x7d 3 4 3 4 3 4 3 4"
         score := ((100 : Int) : ℚ)
         cost := 1000
         buildings := (3, 4) }]
      (turn_start sweep_priority_globals sweep_priority_locals.existing_tubes
        sweep_priority_locals.degree 2200
        (next_pod_id sweep_priority_locals.existing_pod_ids 1)) = .ok s ∧
        s.actions = ["POD 1 3 4 3 4 3 4 3 4", "TUBE 1 2", "POD 2 3 4 3 4 3 4 3 4"] ∧
        s.g = sweep_priority_globals ∧ (1, 2) ∈ s.existing_tubes := by
    exact ⟨_, rfl, by decide, rfl, by decide⟩
  obtain ⟨s, hs, ha⟩ := hp
  refine ⟨s, ?_, ha⟩
  unfold main_turn
  rw [hr]
  unfold plan_turn
  have hres : sweep_priority_input.resources = 2200 := rfl
  simp only [he, hb, hres, hc, hs]

/-! ### The Fallback Connector -/

theorem wrap64_eq_self {x : Int} (h1 : -9223372036854775808 ≤ x)
    (h2 : x ≤ 9223372036854775807) : wrap64 x = x := by
  unfold wrap64
  omega

/-- When the registered positions are small, the value `dist2` that the Fallback Connector
computes is the squared Euclidean distance. -/
theorem fallback_dist2_eq_squared_distance {g : Globals} (hs : SmallPositions g)
    (b other : Int) : fallback_dist2 g b other = squared_distance g b other := by
  unfold fallback_dist2 squared_distance
  cases hb : UMap.find g.building_positions b with
  | none => rfl
  | some pb =>
    cases ho : UMap.find g.building_positions other with
    | none => rfl
    | some po =>
      obtain ⟨⟨b1, b2⟩, ⟨b3, b4⟩⟩ := hs.point hb
      obtain ⟨⟨o1, o2⟩, ⟨o3, o4⟩⟩ := hs.point ho
      simp only []
      rw [wrap32_sub_small (hs.point ho).1 (hs.point hb).1,
        wrap32_sub_small (hs.point ho).2 (hs.point hb).2]
      apply wrap64_eq_self
      · nlinarith [mul_self_nonneg (po.1 - pb.1), mul_self_nonneg (po.2 - pb.2)]
      · have h1 : (po.1 - pb.1) * (po.1 - pb.1) ≤ 4611686014132420609 := by nlinarith
        have h2 : (po.2 - pb.2) * (po.2 - pb.2) ≤ 4611686014132420609 := by nlinarith
        omega

/-- A step of the passes with no candidate and no sweep work is a step of the Fallback
Connector, and it keeps `existing_set` within the two orientations of the working links. -/
theorem fallback_step_of_pass_step {nb : List Int} {s s' : TurnState}
    (hs : SmallPositions s.g)
    (hinv : ∀ p ∈ s.existing_set, p ∈ s.existing_tubes ∨ (p.2, p.1) ∈ s.existing_tubes)
    (h : PassStep [] [] nb [] s s') :
    FallbackStep nb s s' ∧
      ∀ p ∈ s'.existing_set, p ∈ s'.existing_tubes ∨ (p.2, p.1) ∈ s'.existing_tubes := by
  cases h with
  | read_counters t => exact ⟨FallbackStep.idle _ _ rfl rfl rfl rfl rfl, hinv⟩
  | read_count t => exact ⟨FallbackStep.idle _ _ rfl rfl rfl rfl rfl, hinv⟩
  | declare_existing_set =>
    refine ⟨FallbackStep.idle _ _ rfl rfl rfl rfl rfl, ?_⟩
    intro p hp
    simp only [fallback_start] at hp ⊢
    rcases (mem_build_existing_set p _ _).1 hp with h | ⟨e, he, h | h⟩
    · exact absurd h (List.not_mem_nil _)
    · rw [h]
      exact Or.inl he
    · rw [h]
      exact Or.inr he
  | declare_covered_tubes c => exact ⟨FallbackStep.idle _ _ rfl rfl rfl rfl rfl, hinv⟩
  | greedy c hc => exact absurd hc (List.not_mem_nil _)
  | sweep p b1 b2 hw => exact absurd hw (List.not_mem_nil _)
  | fallback b best hb hq hr hp hcon hbn hm hel hbc hbd hall =>
    obtain ⟨e1, e2, e3, e4, e5⟩ := hel
    constructor
    · rw [fallback_dist2_eq_squared_distance hs] at hbd
      refine FallbackStep.link s b best hb hp hcon hq hr
        ⟨hm, e1, e2, fun h => (hcon _ h).1 rfl, fun h => (hcon _ h).2 rfl, e4, e5⟩ hbc hbd ?_
      intro other ⟨o1, o2, o3, _, _, o6, o7⟩
      rw [← hbd, ← fallback_dist2_eq_squared_distance hs b other]
      refine hall other o1 ⟨o2, o3, ?_, o6, o7⟩
      intro hes
      rcases hinv _ hes with h | h
      · exact (hcon _ h).1 rfl
      · exact (hcon _ h).2 rfl
    · intro p hp
      simp only [fallback_commit, mem_uset_insert, List.mem_append, List.mem_singleton] at hp ⊢
      rcases hp with (h | h) | h
      · rcases hinv p h with h' | h'
        · exact Or.inl (Or.inl h')
        · exact Or.inr (Or.inl h')
      · exact Or.inl (Or.inr h)
      · rw [h]
        exact Or.inr (Or.inr rfl)

theorem fallback_trace_of_reach {nb : List Int} {s s' : TurnState}
    (hs : SmallPositions s.g)
    (hr : Reach [] [] nb [] s s')
    (h0 : ∀ p ∈ s.existing_set, p ∈ s.existing_tubes ∨ (p.2, p.1) ∈ s.existing_tubes) :
    Relation.ReflTransGen (FallbackStep nb) s s' ∧
      ∀ p ∈ s'.existing_set, p ∈ s'.existing_tubes ∨ (p.2, p.1) ∈ s'.existing_tubes := by
  induction hr with
  | refl => exact ⟨Relation.ReflTransGen.refl, h0⟩
  | tail hprev hstep ih =>
    obtain ⟨t1, t2⟩ := ih
    have hg := Reach.registries_eq hprev
    obtain ⟨f1, f2⟩ := fallback_step_of_pass_step (by rw [hg]; exact hs) t2 hstep
    exact ⟨Relation.ReflTransGen.tail t1 f1, f2⟩

/-- C26 (counterexample): in the registry of the wide gap, with no link and a budget of
10000, the Fallback Connector links the new node 1 to node 2, although node 3 passes every
test of the scan (it is registered, not linked to node 1, accepted by the validator, and its
link costs 50) and is nearer: its squared distance to node 1 is 26, that of node 2 is
`4294967295^2`.  The `int` difference of line 547 wraps to -1 for node 2. -/
theorem fallback_links_far_node :
    FallbackNeighbour (fallback_start (turn_start wide_gap_scenario [] [] 10000 1)) 1 3 ∧
      squared_distance wide_gap_scenario 1 3 = 26 ∧
      squared_distance wide_gap_scenario 1 2 = 18446744065119617025 ∧
      ∃ s2, fallback_connector [1] (fallback_start (turn_start wide_gap_scenario [] [] 10000 1)) =
          .ok s2 ∧ s2.actions = ["TUBE 1 2"] ∧ s2.existing_tubes = [(1, 2)] := by
  refine ⟨⟨by decide, by decide, by decide, by decide, by decide, ?_, by decide⟩, by decide,
    by decide, _, rfl, rfl, rfl⟩
  obtain ⟨r, hr, hrv⟩ := tube_is_geometrically_valid_spec wide_gap_scenario 1 3 [] [] 5
  have e : tube_is_geometrically_valid wide_gap_scenario 1 3 [] [] 5 =
      .ok (true, wide_gap_scenario) := rfl
  rw [e] at hr
  cases hr
  exact hrv.1 rfl

/-- C26 (amended): when every registered position has its coordinates in
`[-2^30, 2^30 - 1]`: from the state in which `existing_set` has been declared, the Fallback
Connector runs to completion through steps of two kinds only: steps that leave the working
state and the action list as they are, and commits of a link from a new node `b` with a
registered position and no link in the working link list (the links committed earlier in the
turn included) to the neighbour `best_neighbor`; at each commit the neighbour is a
registered node other than `b`, not already linked to `b`, accepted by the validator against
the working state, with a link cost within the remaining budget, and its squared distance to
`b` is least among all such nodes. -/
theorem fallback_links_nearest_neighbour (nb : List Int) (s1 : TurnState)
    (hs : SmallPositions s1.g) :
    ∃ s2, fallback_connector nb (fallback_start s1) = .ok s2 ∧
      Relation.ReflTransGen (FallbackStep nb) (fallback_start s1) s2 := by
  obtain ⟨s2, e, hr⟩ := fallback_connector_reach [] [] nb [] nb (fun _ h => h)
    (fallback_start s1)
  refine ⟨s2, e, ?_⟩
  have h0 : ∀ p ∈ (fallback_start s1).existing_set,
      p ∈ (fallback_start s1).existing_tubes ∨ (p.2, p.1) ∈ (fallback_start s1).existing_tubes := by
    intro p hp
    simp only [fallback_start] at hp ⊢
    rcases (mem_build_existing_set p _ _).1 hp with h | ⟨e, he, h | h⟩
    · exact absurd h (List.not_mem_nil _)
    · rw [h]
      exact Or.inl he
    · rw [h]
      exact Or.inr he
  have hs' : SmallPositions (fallback_start s1).g := hs
  exact (fallback_trace_of_reach hs' hr h0).1

theorem fallback_links_nearest_neighbour_witness :
    ∃ s2, fallback_connector [7]
        (fallback_start (turn_start crossing_scenario [(1, 2)] [(1, 1), (2, 1)] 10000 1)) =
        .ok s2 ∧
      Relation.ReflTransGen (FallbackStep [7])
        (fallback_start (turn_start crossing_scenario [(1, 2)] [(1, 1), (2, 1)] 10000 1)) s2 :=
  fallback_links_nearest_neighbour [7]
    (turn_start crossing_scenario [(1, 2)] [(1, 1), (2, 1)] 10000 1) (by decide)

/-! ### The shortcut generator, exact form -/

theorem split_landings_modules_eq (ht : List Int) (g : Globals) :
    ∀ (l : List Int) (acc : List Int × List Int),
      split_landings_modules ht l g acc =
        ((acc.1 ++ l.filter (fun b =>
            decide (UMap.find g.building_type b = some "landing" ∧ b ∉ ht)),
          acc.2 ++ l.filter (fun b =>
            decide (UMap.find g.building_type b = some "module" ∧ b ∉ ht))), g)
  | [], acc => by simp [split_landings_modules]
  | a :: rest, (landings, modules) => by
    unfold split_landings_modules
    simp only [Globals.type_is_snd]
    rw [split_landings_modules_eq ht g rest]
    simp only [Globals.type_is_fst]
    by_cases h1 : UMap.find g.building_type a = some "landing" ∧ a ∉ ht <;>
      by_cases h2 : UMap.find g.building_type a = some "module" ∧ a ∉ ht <;>
      simp [List.filter_cons, h1, h2]

theorem teleport_candidates_for_landing_eq (landing : Int) (distmap : UMap Int Int)
    (g : Globals) (hl : UMap.count g.building_positions landing ≠ 0) :
    ∀ (mods : List Int) (cands : List Candidate),
      teleport_candidates_for_landing landing distmap mods g cands =
        (cands ++ (mods.filter (fun mod =>
          decide (UMap.count g.building_positions mod ≠ 0 ∧ hop_distance distmap mod ≥ 3 ∧
            0 < teleport_score g distmap landing mod))).map
              (teleport_candidate_of g distmap landing), g)
  | [], cands => by simp [teleport_candidates_for_landing]
  | mod :: rest, cands => by
    unfold teleport_candidates_for_landing
    by_cases h1 : UMap.count g.building_positions mod = 0
    · rw [if_pos h1, teleport_candidates_for_landing_eq landing distmap g hl rest]
      simp [List.filter_cons, h1]
    rw [if_neg h1]
    have hd : (if UMap.count distmap mod ≠ 0 then (UMap.index distmap mod).1
        else 1000000000) = hop_distance distmap mod := by
      unfold hop_distance
      rw [UMap.index_fst]
    simp only [hd]
    by_cases h2 : hop_distance distmap mod ≥ 3
    · rw [if_pos h2]
      obtain ⟨pl, hpl⟩ := UMap.find_of_count_ne_zero hl
      obtain ⟨pm, hpm⟩ := UMap.find_of_count_ne_zero h1
      simp only [Globals.position_of_find hpl, Globals.position_of_find hpm, teleport_reads]
      have hs : ((hop_distance distmap mod - 1 : Int) : ℚ) *
          ((matching_astronauts g landing mod : Int) : ℚ) * 50 - 5000 * (1 / 100) =
          teleport_score g distmap landing mod := by
        unfold teleport_score
        norm_num
      rw [hs]
      by_cases h3 : teleport_score g distmap landing mod > 0
      · rw [if_pos h3, teleport_candidates_for_landing_eq landing distmap g hl rest]
        have h3' : 0 < teleport_score g distmap landing mod := h3
        simp [List.filter_cons, h1, h2, h3', teleport_candidate_of]
      · rw [if_neg h3, teleport_candidates_for_landing_eq landing distmap g hl rest]
        have h3' : ¬ 0 < teleport_score g distmap landing mod := h3
        simp [List.filter_cons, h3']
    · rw [if_neg h2, teleport_candidates_for_landing_eq landing distmap g hl rest]
      simp [List.filter_cons, h2]

theorem generate_teleport_candidates_loop_eq (adj : UMap Int (List (Int × Int)))
    (hw : ∀ x e, e ∈ nbrs_of adj x → e.2 = 0 ∨ e.2 = 1) (modules : List Int) (g : Globals) :
    ∀ (l : List Int) (cands : List Candidate),
      generate_teleport_candidates_loop adj modules l g cands =
        .ok (cands ++ ((l.filter (fun landing =>
            decide (UMap.count g.building_positions landing ≠ 0))).map
          (fun landing => (modules.filter (fun mod =>
            decide (UMap.count g.building_positions mod ≠ 0 ∧
              hop_distance (turn_distmap g adj landing) mod ≥ 3 ∧
              0 < teleport_score g (turn_distmap g adj landing) landing mod))).map
                (teleport_candidate_of g (turn_distmap g adj landing) landing))).flatten, g)
  | [], cands => by simp [generate_teleport_candidates_loop]
  | landing :: rest, cands => by
    unfold generate_teleport_candidates_loop
    by_cases h1 : UMap.count g.building_positions landing = 0
    · rw [if_pos h1, generate_teleport_candidates_loop_eq adj hw modules g rest]
      simp [List.filter_cons, h1]
    rw [if_neg h1]
    obtain ⟨dist, hd, _⟩ := bfs_distances_from_returns g.all_buildings landing adj hw
    have htd : turn_distmap g adj landing = dist := by
      unfold turn_distmap
      rw [hd]
    simp only [hd]
    rw [teleport_candidates_for_landing_eq landing dist g h1 modules cands]
    simp only
    rw [generate_teleport_candidates_loop_eq adj hw modules g rest]
    simp [List.filter_cons, h1, htd]

theorem matching_astronauts_nonneg (g : Globals) (landing mod : Int) :
    0 ≤ matching_astronauts g landing mod := by
  unfold matching_astronauts
  cases UMap.find g.landing_astronaut_types landing with
  | none => exact le_refl _
  | some l => exact Int.natCast_nonneg _

/-- At hop distance 3 or more the score is positive exactly when an astronaut matches. -/
theorem teleport_score_pos_iff (g : Globals) (distmap : UMap Int Int) (landing mod : Int)
    (h : hop_distance distmap mod ≥ 3) :
    0 < teleport_score g distmap landing mod ↔ 1 ≤ matching_astronauts g landing mod := by
  unfold teleport_score
  have hm := matching_astronauts_nonneg g landing mod
  have h2 : (2 : ℚ) ≤ ((hop_distance distmap mod - 1 : Int) : ℚ) := by
    have : (2 : Int) ≤ hop_distance distmap mod - 1 := by omega
    exact_mod_cast this
  constructor
  · intro hpos
    by_contra hlt
    have h0 : matching_astronauts g landing mod = 0 := by omega
    rw [h0] at hpos
    norm_num at hpos
  · intro h1
    have h1' : (1 : ℚ) ≤ ((matching_astronauts g landing mod : Int) : ℚ) := by
      exact_mod_cast h1
    nlinarith [mul_le_mul h2 h1' (by norm_num) (by linarith)]

/-- The members of the list that `generate_teleport_candidates` returns. -/
theorem generate_teleport_candidates_mem (g : Globals) (R : Int)
    (routes : List (Int × Int × Int)) (adj : UMap Int (List (Int × Int)))
    (hw : ∀ x e, e ∈ nbrs_of adj x → e.2 = 0 ∨ e.2 = 1) (hR : 5000 ≤ R) :
    ∃ cands, generate_teleport_candidates g R routes adj = .ok (cands, g) ∧
      ∀ c, c ∈ cands ↔ ∃ landing mod,
        landing ∈ g.all_buildings ∧ UMap.find g.building_type landing = some "landing" ∧
        ¬ TouchesShortcut routes landing ∧ UMap.count g.building_positions landing ≠ 0 ∧
        mod ∈ g.all_buildings ∧ UMap.find g.building_type mod = some "module" ∧
        ¬ TouchesShortcut routes mod ∧ UMap.count g.building_positions mod ≠ 0 ∧
        hop_distance (turn_distmap g adj landing) mod ≥ 3 ∧
        0 < teleport_score g (turn_distmap g adj landing) landing mod ∧
        c = teleport_candidate_of g (turn_distmap g adj landing) landing mod := by
  have hht : ∀ b, b ∈ build_has_teleport routes [] ↔ TouchesShortcut routes b := by
    intro b
    rw [mem_build_has_teleport]
    unfold TouchesShortcut
    simp
  unfold generate_teleport_candidates
  rw [if_neg (not_lt.2 hR)]
  simp only [split_landings_modules_eq, List.nil_append]
  rw [generate_teleport_candidates_loop_eq adj hw]
  refine ⟨_, rfl, ?_⟩
  intro c
  rw [List.nil_append, List.mem_flatten]
  constructor
  · rintro ⟨l, hl, hc⟩
    obtain ⟨L, hLm, rfl⟩ := List.mem_map.1 hl
    obtain ⟨M, hMm, rfl⟩ := List.mem_map.1 hc
    simp only [List.mem_filter, decide_eq_true_eq, hht] at hLm hMm
    obtain ⟨⟨hL1, hL2, hL3⟩, hL4⟩ := hLm
    obtain ⟨⟨hM1, hM2, hM3⟩, hM4, hM5, hM6⟩ := hMm
    exact ⟨L, M, hL1, hL2, hL3, hL4, hM1, hM2, hM3, hM4, hM5, hM6, rfl⟩
  · rintro ⟨L, M, hL1, hL2, hL3, hL4, hM1, hM2, hM3, hM4, hM5, hM6, rfl⟩
    refine ⟨_, List.mem_map.2 ⟨L, ?_, rfl⟩, List.mem_map.2 ⟨M, ?_, rfl⟩⟩
    · simp only [List.mem_filter, decide_eq_true_eq, hht]
      exact ⟨⟨hL1, hL2, hL3⟩, hL4⟩
    · simp only [List.mem_filter, decide_eq_true_eq, hht]
      exact ⟨⟨hM1, hM2, hM3⟩, hM4, hM5, hM6⟩

/-- C22: on an adjacency map with weights 0 and 1, `generate_teleport_candidates` returns
with the registries unchanged; with a remaining budget of at least 5000, for every landing
pad and every module of `all_buildings` that both have registered positions, the list
holds a candidate for the pair if and only if neither node is an endpoint of a route of
capacity 0, the hop distance from the pad to the module is at least 3 (the sentinel
1000000000 of an unreached module included), and at least one astronaut waiting at the pad
has the type of the module; every candidate of the list has cost 5000 and the strictly
positive score `(hop distance - 1) * matching astronauts * 50 - 50` of its pair; with a
budget below 5000 the list is empty. -/
theorem teleport_candidates_exact (g : Globals) (R : Int) (routes : List (Int × Int × Int))
    (adj : UMap Int (List (Int × Int)))
    (hw : ∀ x e, e ∈ nbrs_of adj x → e.2 = 0 ∨ e.2 = 1) :
    ∃ cands, generate_teleport_candidates g R routes adj = .ok (cands, g) ∧
      (R < 5000 → cands = []) ∧
      (5000 ≤ R → ∀ landing mod,
        landing ∈ g.all_buildings → UMap.find g.building_type landing = some "landing" →
        mod ∈ g.all_buildings → UMap.find g.building_type mod = some "module" →
        UMap.count g.building_positions landing ≠ 0 →
        UMap.count g.building_positions mod ≠ 0 →
        ((∃ c ∈ cands, c.buildings = (landing, mod)) ↔
          ¬ TouchesShortcut routes landing ∧ ¬ TouchesShortcut routes mod ∧
            hop_distance (turn_distmap g adj landing) mod ≥ 3 ∧
            1 ≤ matching_astronauts g landing mod)) ∧
      ∀ c ∈ cands, c.type = "TELEPORT" ∧ c.cost = 5000 ∧ 0 < c.score ∧
        c.score =
          ((hop_distance (turn_distmap g adj c.buildings.1) c.buildings.2 - 1 : Int) : ℚ) *
            ((matching_astronauts g c.buildings.1 c.buildings.2 : Int) : ℚ) * 50 - 50 := by
  by_cases hR : R < 5000
  · refine ⟨[], ?_, fun _ => rfl, fun h => absurd hR (not_lt.2 h), ?_⟩
    · unfold generate_teleport_candidates
      rw [if_pos hR]
    · intro c hc
      exact absurd hc (List.not_mem_nil _)
  obtain ⟨cands, e, hmem⟩ := generate_teleport_candidates_mem g R routes adj hw (not_lt.1 hR)
  refine ⟨cands, e, fun h => absurd h hR, ?_, ?_⟩
  · intro _ landing mod hL1 hL2 hM1 hM2 hL4 hM4
    constructor
    · rintro ⟨c, hc, hb⟩
      obtain ⟨L, M, _, _, l3, _, _, _, m3, _, h5, h6, rfl⟩ := (hmem c).1 hc
      simp only [teleport_candidate_of, Prod.mk.injEq] at hb
      obtain ⟨rfl, rfl⟩ := hb
      exact ⟨l3, m3, h5, (teleport_score_pos_iff g _ L M h5).1 h6⟩
    · rintro ⟨l3, m3, h5, h6⟩
      exact ⟨_, (hmem _).2 ⟨landing, mod, hL1, hL2, l3, hL4, hM1, hM2, m3, hM4, h5,
        (teleport_score_pos_iff g _ landing mod h5).2 h6, rfl⟩, rfl⟩
  · intro c hc
    obtain ⟨L, M, _, _, _, _, _, _, _, _, _, h6, rfl⟩ := (hmem c).1 hc
    exact ⟨rfl, rfl, h6, rfl⟩

theorem teleport_candidates_exact_witness :
    ∃ cands, generate_teleport_candidates far_module_scenario 20000 far_module_routes
        (build_adjacency far_module_scenario.all_buildings far_module_routes) =
        .ok (cands, far_module_scenario) ∧
      ((20000 : Int) < 5000 → cands = []) ∧
      ((5000 : Int) ≤ 20000 → ∀ landing mod,
        landing ∈ far_module_scenario.all_buildings →
        UMap.find far_module_scenario.building_type landing = some "landing" →
        mod ∈ far_module_scenario.all_buildings →
        UMap.find far_module_scenario.building_type mod = some "module" →
        UMap.count far_module_scenario.building_positions landing ≠ 0 →
        UMap.count far_module_scenario.building_positions mod ≠ 0 →
        ((∃ c ∈ cands, c.buildings = (landing, mod)) ↔
          ¬ TouchesShortcut far_module_routes landing ∧
            ¬ TouchesShortcut far_module_routes mod ∧
            hop_distance (turn_distmap far_module_scenario
              (build_adjacency far_module_scenario.all_buildings far_module_routes)
              landing) mod ≥ 3 ∧
            1 ≤ matching_astronauts far_module_scenario landing mod)) ∧
      ∀ c ∈ cands, c.type = "TELEPORT" ∧ c.cost = 5000 ∧ 0 < c.score ∧
        c.score =
          ((hop_distance (turn_distmap far_module_scenario
              (build_adjacency far_module_scenario.all_buildings far_module_routes)
              c.buildings.1) c.buildings.2 - 1 : Int) : ℚ) *
            ((matching_astronauts far_module_scenario c.buildings.1 c.buildings.2 : Int) : ℚ) *
              50 - 50 :=
  teleport_candidates_exact far_module_scenario 20000 far_module_routes
    (build_adjacency far_module_scenario.all_buildings far_module_routes)
    (build_adjacency_weights _ _)

/-! ### Termination of the deque search -/

theorem potential_ge (S : List Int) {d : UMap Int Int}
    (h : ∀ v, -2147483648 ≤ UMap.val d v) :
    -2147483648 * (S.length : Int) ≤ potential S d := by
  unfold potential
  have h1 := Finset.card_nsmul_le_sum S.toFinset (fun x => UMap.val d x) (-2147483648)
    (fun x _ => h x)
  have h2 : (S.toFinset.card : Int) ≤ (S.length : Int) := by
    exact_mod_cast List.toFinset_card_le S
  rw [nsmul_eq_mul] at h1
  nlinarith

/-- Processing the neighbours of a popped node keeps the bounds on the recorded distances
and does not increase the measure `2 * potential + deque length`: every push lowers a
recorded distance, and the wrapped sum is never below the least `int`. -/
theorem bfs_relax_measure (S : List Int) (u : Int) :
    ∀ (nbrs : List (Int × Int)) (d : UMap Int Int) (q : List Int),
      (∀ e ∈ nbrs, e.1 ∈ S) → DistBounded S d →
      DistBounded S (bfs_relax u nbrs d q).1 ∧
        2 * potential S (bfs_relax u nbrs d q).1 + ((bfs_relax u nbrs d q).2.length : Int) ≤
          2 * potential S d + (q.length : Int) := by
  intro nbrs
  induction nbrs with
  | nil =>
    intro d q _ h
    exact ⟨h, le_refl _⟩
  | cons e rest ih =>
    intro d q hin h
    obtain ⟨v, w⟩ := e
    have hvS : v ∈ S := hin (v, w) (List.mem_cons_self _ _)
    have hin' : ∀ e ∈ rest, e.1 ∈ S := fun e he => hin e (List.mem_cons_of_mem _ he)
    have hv2 : ∀ x, UMap.val (UMap.index (UMap.index d u).2 v).2 x = UMap.val d x := by
      intro x
      rw [UMap.val_index_snd, UMap.val_index_snd]
    rw [bfs_relax_cons_wrap]
    have hnd := (wrap32_in_range (UMap.val d u + w)).1
    generalize wrap32 (UMap.val d u + w) = nd at hnd ⊢
    by_cases hlt : nd < UMap.val d v
    · rw [if_pos hlt]
      have hv1 : ∀ x, UMap.val (UMap.set (UMap.index (UMap.index d u).2 v).2 v nd) x =
          if x = v then nd else UMap.val d x := by
        intro x
        rw [UMap.val_set, hv2]
      have hb : DistBounded S (UMap.set (UMap.index (UMap.index d u).2 v).2 v nd) := by
        constructor
        · intro x
          rw [hv1]
          by_cases e : x = v
          · simp only [e, if_true]
            exact hnd
          · simp only [e, if_false]
            exact h.1 x
        · intro x hn
          rw [hv1]
          have e : ¬ x = v := fun e => hn (e ▸ hvS)
          simp only [e, if_false]
          exact h.2 x hn
      have hp : potential S (UMap.set (UMap.index (UMap.index d u).2 v).2 v nd) + 1 ≤
          potential S d := by
        unfold potential
        have hmem : v ∈ S.toFinset := List.mem_toFinset.2 hvS
        rw [← Finset.add_sum_erase _ _ hmem,
          ← Finset.add_sum_erase _ (fun x => UMap.val d x) hmem]
        have e1 : UMap.val (UMap.set (UMap.index (UMap.index d u).2 v).2 v nd) v = nd := by
          rw [hv1]
          simp
        have e2 : (S.toFinset.erase v).sum (fun x => UMap.val (UMap.set
            (UMap.index (UMap.index d u).2 v).2 v nd) x) =
            (S.toFinset.erase v).sum (fun x => UMap.val d x) := by
          apply Finset.sum_congr rfl
          intro x hx
          rw [hv1]
          have : ¬ x = v := (Finset.mem_erase.1 hx).1
          simp [this]
        rw [e1, e2]
        omega
      by_cases hz : w = 0
      · rw [if_pos hz]
        obtain ⟨c2, p2⟩ := ih _ (v :: q) hin' hb
        refine ⟨c2, ?_⟩
        simp only [List.length_cons] at p2
        push_cast at p2
        omega
      · rw [if_neg hz]
        obtain ⟨c2, p2⟩ := ih _ (q ++ [v]) hin' hb
        refine ⟨c2, ?_⟩
        simp only [List.length_append, List.length_singleton] at p2
        push_cast at p2
        omega
    · rw [if_neg hlt]
      have hb : DistBounded S (UMap.index (UMap.index d u).2 v).2 :=
        ⟨fun x => by rw [hv2]; exact h.1 x, fun x hn => by rw [hv2]; exact h.2 x hn⟩
      obtain ⟨c2, p2⟩ := ih _ q hin' hb
      refine ⟨c2, ?_⟩
      rw [potential_congr hv2] at p2
      exact p2

/-- The loop returns as soon as its iteration bound is at least
`2 * (potential + 2147483648 * number of nodes) + deque length`. -/
theorem bfs_loop_terminates (adj : UMap Int (List (Int × Int))) (S : List Int)
    (hin : ∀ x e, e ∈ nbrs_of adj x → e.1 ∈ S) (fuel : Nat) :
    ∀ (d : UMap Int Int) (q : List Int), DistBounded S d →
      2 * (potential S d + 2147483648 * (S.length : Int)) + (q.length : Int) ≤ fuel →
      ∃ d', bfs_loop adj fuel d q = some d' := by
  induction fuel with
  | zero =>
    intro d q h hm
    cases q with
    | nil => exact ⟨d, rfl⟩
    | cons u rest =>
      exfalso
      have := potential_ge S h.1
      simp only [List.length_cons] at hm
      push_cast at hm
      omega
  | succ fuel ih =>
    intro d q h hm
    cases q with
    | nil => exact ⟨d, bfs_loop_nil adj _ d⟩
    | cons u rest =>
      rw [bfs_loop_succ]
      obtain ⟨c1, p1⟩ := bfs_relax_measure S u (nbrs_of adj u) d rest
        (fun e he => hin u e he) h
      apply ih _ _ c1
      simp only [List.length_cons] at hm
      push_cast at hm
      omega

theorem mem_adjacency_targets (adj : UMap Int (List (Int × Int))) (x : Int)
    (e : Int × Int) (he : e ∈ nbrs_of adj x) : e.1 ∈ adjacency_targets adj := by
  unfold nbrs_of at he
  cases hf : UMap.find adj x with
  | none =>
    rw [hf] at he
    exact absurd he (List.not_mem_nil _)
  | some l =>
    rw [hf] at he
    simp only [] at he
    unfold adjacency_targets
    rw [List.mem_flatten]
    exact ⟨l.map (fun e => e.1), List.mem_map.2 ⟨(x, l), UMap.mem_of_find _ _ _ hf, rfl⟩,
      List.mem_map.2 ⟨e, he, rfl⟩⟩

theorem bfs_init_dist_bounded (S ab : List Int) (start : Int)
    (hS : ∀ v, v = start ∨ v ∈ ab → v ∈ S) :
    DistBounded S (bfs_init_dist ab start) ∧
      ∀ v, UMap.val (bfs_init_dist ab start) v ≤ 1000000000 := by
  refine ⟨⟨?_, ?_⟩, ?_⟩
  · intro v
    rw [val_init]
    split_ifs <;> decide
  · intro v hv
    rw [val_init]
    have h1 : ¬ v = start := fun e => hv (hS v (Or.inl e))
    have h2 : v ∉ ab := fun e => hv (hS v (Or.inr e))
    simp [h1, h2]
  · intro v
    rw [val_init]
    split_ifs <;> decide

/-- C29: for every adjacency map (cycles, parallel entries, self-loops, cycles of weight 0
and weights of either sign included), every node list and every start node, the deque loop
of `bfs_distances_from` terminates: it returns a map within `deque_fuel`, that is
`6294967296 * (number of listed nodes + number of neighbour entries + 1) + 1`, iterations,
because a node is pushed only when its recorded distance, an `int`, strictly decreases. -/
theorem deque_loop_terminates (all_buildings : List Int) (start : Int)
    (adj : UMap Int (List (Int × Int))) :
    ∀ fuel : Nat, deque_fuel all_buildings adj ≤ fuel →
      ∃ dist, bfs_distances_from all_buildings fuel start adj = some dist := by
  intro fuel hfuel
  obtain ⟨hb, hle⟩ := bfs_init_dist_bounded
    (start :: (all_buildings ++ adjacency_targets adj)) all_buildings start
    (by
      intro v hv
      rcases hv with e | e
      · rw [e]; exact List.mem_cons_self _ _
      · exact List.mem_cons_of_mem _ (List.mem_append_left _ e))
  have hp := potential_le (start :: (all_buildings ++ adjacency_targets adj)) hle
  unfold bfs_distances_from
  apply bfs_loop_terminates adj (start :: (all_buildings ++ adjacency_targets adj))
    (fun x e he => List.mem_cons_of_mem _
      (List.mem_append_right _ (mem_adjacency_targets adj x e he))) fuel _ _ hb
  have hf : (deque_fuel all_buildings adj : Int) ≤ fuel := by exact_mod_cast hfuel
  unfold deque_fuel at hf
  simp only [List.length_singleton, List.length_cons, List.length_append,
    List.length_nil] at hp ⊢
  push_cast at hp hf ⊢
  omega

theorem deque_loop_terminates_witness :
    ∃ dist, bfs_distances_from [0] (deque_fuel [0] negative_loop_adj) 0 negative_loop_adj =
      some dist :=
  deque_loop_terminates [0] 0 negative_loop_adj (deque_fuel [0] negative_loop_adj)
    (le_refl _)

/-! ## The flow estimator: conservation of the counted passengers -/

theorem UMap.wsum_append_single {K : Type} (p : K → Bool) (m : UMap K Int) (k : K) (v : Int) :
    UMap.wsum p (m ++ [(k, v)]) = UMap.wsum p m + if p k = true then v else 0 := by
  unfold UMap.wsum
  simp [List.map_append, List.sum_append]

theorem UMap.wsum_set {K : Type} [DecidableEq K] (p : K → Bool) (m : UMap K Int) (k : K)
    (v : Int) :
    UMap.wsum p (UMap.set m k v) =
      UMap.wsum p m + if p k = true then v - UMap.val m k else 0 := by
  induction m with
  | nil =>
    simp [UMap.set, UMap.wsum, UMap.val, UMap.find]
  | cons e rest ih =>
    obtain ⟨k', v'⟩ := e
    unfold UMap.set
    by_cases h : k' = k
    · subst h
      simp only [if_true]
      simp only [UMap.wsum, UMap.val, UMap.find, List.map_cons, List.sum_cons, if_true]
      by_cases hp : p k' = true
      · simp only [hp, if_true]; ring
      · simp only [hp]; simp
    · simp only [if_neg h]
      have hv : UMap.val ((k', v') :: rest) k = UMap.val rest k := by
        simp only [UMap.val, UMap.find, if_neg h]
      rw [hv]
      have e1 : ∀ (x : K × Int) (l : UMap K Int),
          UMap.wsum p (x :: l) = (if p x.1 = true then x.2 else 0) + UMap.wsum p l := by
        intro x l
        simp only [UMap.wsum, List.map_cons, List.sum_cons]
      rw [e1, e1, ih]
      ring

theorem UMap.wsum_index_snd {K : Type} [DecidableEq K] (p : K → Bool) (m : UMap K Int)
    (k : K) : UMap.wsum p (UMap.index m k).2 = UMap.wsum p m := by
  unfold UMap.index
  cases h : UMap.find m k with
  | some v => rfl
  | none =>
    simp only [UMap.wsum_append_single]
    have : (default : Int) = 0 := rfl
    simp [this]

/-- The statement `m[k] += c` adds `c` to the weighted sum when `k` is counted. -/
theorem UMap.wsum_add_at {K : Type} [DecidableEq K] (p : K → Bool) (m : UMap K Int) (k : K)
    (c : Int) :
    UMap.wsum p (UMap.set (UMap.index m k).2 k ((UMap.index m k).1 + c)) =
      UMap.wsum p m + if p k = true then c else 0 := by
  rw [UMap.wsum_set, UMap.wsum_index_snd, UMap.index_fst, UMap.val_index_snd]
  by_cases hp : p k = true
  · simp only [hp, if_true]; ring
  · simp only [hp]; simp

theorem UMap.total_eq_wsum {K : Type} (m : UMap K Int) :
    UMap.total m = UMap.wsum (fun _ => true) m := by
  unfold UMap.total UMap.wsum
  simp

theorem UMap.total_add_at {K : Type} [DecidableEq K] (m : UMap K Int) (k : K) (c : Int) :
    UMap.total (UMap.set (UMap.index m k).2 k ((UMap.index m k).1 + c)) =
      UMap.total m + c := by
  rw [UMap.total_eq_wsum, UMap.total_eq_wsum, UMap.wsum_add_at]
  simp

theorem UMap.wsum_foldl_increment {K : Type} [DecidableEq K] (p : K → Bool) (l : List K) :
    ∀ acc : UMap K Int,
      UMap.wsum p (l.foldl UMap.increment acc) =
        UMap.wsum p acc + ((l.filter p).length : Int) := by
  induction l with
  | nil => intro acc; simp
  | cons t rest ih =>
    intro acc
    rw [List.foldl_cons, ih]
    unfold UMap.increment
    rw [UMap.wsum_add_at]
    by_cases hp : p t = true
    · simp only [hp, if_true, List.filter_cons_of_pos, List.length_cons]
      push_cast; ring
    · rw [List.filter_cons_of_neg hp, if_neg hp, add_zero]

theorem UMap.mem_set_key {K V : Type} [DecidableEq K] (m : UMap K V) (k : K) (v : V)
    (x : K × V) (h : x ∈ UMap.set m k v) : x.1 = k ∨ ∃ v', (x.1, v') ∈ m := by
  induction m with
  | nil =>
    simp only [UMap.set, List.mem_singleton] at h
    exact Or.inl (by rw [h])
  | cons e rest ih =>
    obtain ⟨k', v'⟩ := e
    unfold UMap.set at h
    by_cases hk : k' = k
    · rw [if_pos hk] at h
      rcases List.mem_cons.1 h with h | h
      · exact Or.inl (by rw [h]; exact hk)
      · exact Or.inr ⟨x.2, List.mem_cons_of_mem _ h⟩
    · rw [if_neg hk] at h
      rcases List.mem_cons.1 h with h | h
      · exact Or.inr ⟨v', by rw [h]; exact List.mem_cons_self _ _⟩
      · rcases ih h with h | ⟨w, hw⟩
        · exact Or.inl h
        · exact Or.inr ⟨w, List.mem_cons_of_mem _ hw⟩

theorem UMap.mem_index_snd_key {K V : Type} [DecidableEq K] [Inhabited V] (m : UMap K V)
    (k : K) (x : K × V) (h : x ∈ (UMap.index m k).2) : x.1 = k ∨ x ∈ m := by
  unfold UMap.index at h
  cases hf : UMap.find m k with
  | some v => rw [hf] at h; exact Or.inr h
  | none =>
    rw [hf] at h
    rcases List.mem_append.1 h with h | h
    · exact Or.inr h
    · exact Or.inl (by rw [List.mem_singleton.1 h])

theorem UMap.mem_add_at_key {K : Type} [DecidableEq K] (m : UMap K Int) (k : K) (c : Int)
    (x : K × Int) (h : x ∈ UMap.set (UMap.index m k).2 k ((UMap.index m k).1 + c)) :
    x.1 = k ∨ ∃ v', (x.1, v') ∈ m := by
  rcases UMap.mem_set_key _ _ _ _ h with h | ⟨w, hw⟩
  · exact Or.inl h
  · rcases UMap.mem_index_snd_key _ _ _ hw with h | h
    · exact Or.inl h
    · exact Or.inr ⟨w, h⟩

theorem UMap.mem_foldl_increment_key {K : Type} [DecidableEq K] (l : List K) :
    ∀ (acc : UMap K Int) (x : K × Int), x ∈ l.foldl UMap.increment acc →
      x.1 ∈ l ∨ ∃ v', (x.1, v') ∈ acc := by
  induction l with
  | nil => intro acc x h; exact Or.inr ⟨x.2, h⟩
  | cons t rest ih =>
    intro acc x h
    rw [List.foldl_cons] at h
    rcases ih _ x h with h | ⟨w, hw⟩
    · exact Or.inl (List.mem_cons_of_mem _ h)
    · unfold UMap.increment at hw
      rcases UMap.mem_add_at_key _ _ _ _ hw with h | h
      · exact Or.inl (by rw [show x.1 = t from h]; exact List.mem_cons_self _ _)
      · exact Or.inr h

/-- The module selected by the scan of lines 174-179: it is the starting pair, or a member of
the list with an entry in the distance map, at its recorded distance, which is below that of
the starting pair; its distance is at most that of every member with an entry. -/
theorem nearest_module_spec (dist : UMap Int Int) (mods : List Int) :
    ∀ best : Int × Int,
      (nearest_module dist mods best = best ∨
        ((nearest_module dist mods best).1 ∈ mods ∧
          UMap.count dist (nearest_module dist mods best).1 ≠ 0 ∧
          (nearest_module dist mods best).2 =
            UMap.val dist (nearest_module dist mods best).1 ∧
          (nearest_module dist mods best).2 < best.2)) ∧
      (nearest_module dist mods best).2 ≤ best.2 ∧
      ∀ m ∈ mods, UMap.count dist m ≠ 0 →
        (nearest_module dist mods best).2 ≤ UMap.val dist m := by
  induction mods with
  | nil =>
    intro best
    exact ⟨Or.inl rfl, le_refl _, fun m hm => absurd hm (List.not_mem_nil _)⟩
  | cons m rest ih =>
    intro best
    unfold nearest_module
    by_cases h : UMap.count dist m ≠ 0 ∧ (UMap.index dist m).1 < best.2
    · rw [if_pos h]
      obtain ⟨h1, h2, h3⟩ := ih (m, (UMap.index dist m).1)
      have hv : (UMap.index dist m).1 = UMap.val dist m := UMap.index_fst dist m
      refine ⟨Or.inr ?_, ?_, ?_⟩
      · rcases h1 with h1 | ⟨a, b, c, d⟩
        · rw [h1]
          exact ⟨List.mem_cons_self _ _, h.1, hv, h.2⟩
        · exact ⟨List.mem_cons_of_mem _ a, b, c, lt_trans d h.2⟩
      · exact le_of_lt (lt_of_le_of_lt h2 h.2)
      · intro m' hm' hc
        rcases List.mem_cons.1 hm' with e | e
        · rw [e, ← hv]; exact h2
        · exact h3 m' e hc
    · rw [if_neg h]
      obtain ⟨h1, h2, h3⟩ := ih best
      refine ⟨?_, h2, ?_⟩
      · rcases h1 with h1 | ⟨a, b, c, d⟩
        · exact Or.inl h1
        · exact Or.inr ⟨List.mem_cons_of_mem _ a, b, c, d⟩
      · intro m' hm' hc
        rcases List.mem_cons.1 hm' with e | e
        · rw [e]
          have : ¬ (UMap.index dist m).1 < best.2 := fun hlt => h ⟨by rw [← e]; exact hc, hlt⟩
          rw [UMap.index_fst] at this
          exact le_trans h2 (not_lt.1 this)
        · exact h3 m' e hc

theorem type_is_served_iff (g : Globals) (adj : UMap Int (List (Int × Int)))
    (landing t : Int) :
    type_is_served g adj landing t = true ↔
      ∃ m, IsModuleOfType g m t ∧
        hop_distance (turn_distmap g adj landing) m < 1000000000 := by
  unfold type_is_served IsModuleOfType
  rw [List.any_eq_true]
  constructor
  · rintro ⟨⟨m, ty⟩, hmem, hd⟩
    rw [decide_eq_true_iff] at hd
    obtain ⟨h1, h2, h3⟩ := hd
    simp only at h1 h2 h3
    exact ⟨m, ⟨by rw [← h1]; exact hmem, h2⟩, h3⟩
  · rintro ⟨m, ⟨hmem, h2⟩, h3⟩
    exact ⟨(m, "module"), hmem, by rw [decide_eq_true_iff]; exact ⟨rfl, h2, h3⟩⟩

theorem UMap.wsum_cons {K : Type} (p : K → Bool) (x : K × Int) (l : UMap K Int) :
    UMap.wsum p (x :: l) = (if p x.1 = true then x.2 else 0) + UMap.wsum p l := by
  simp only [UMap.wsum, List.map_cons, List.sum_cons]

/-- The loop over the type counts of one landing pad returns; when no module has the
identifier -1, the sum of the table grows by the counts of the served types, and every new
key is the ordered pair of the pad and a nearest module of a counted type. -/
theorem flow_of_landing_conserves (g : Globals) (adj : UMap Int (List (Int × Int)))
    (hw : ∀ x e, e ∈ nbrs_of adj x → e.2 = 0 ∨ e.2 = 1)
    (hid : ∀ t, ¬ IsModuleOfType g (-1) t) (landing : Int) (tc : List (Int × Int)) :
    ∀ tf, ∃ tf',
      flow_of_landing g adj (get_modules_by_type g).1 landing tc tf = .ok tf' ∧
      UMap.total tf' = UMap.total tf + UMap.wsum (type_is_served g adj landing) tc ∧
      ∀ x ∈ tf', (∃ v', (x.1, v') ∈ tf) ∨
        ∃ t c m, (t, c) ∈ tc ∧ IsModuleOfType g m t ∧
          x.1 = (min landing m, max landing m) ∧
          hop_distance (turn_distmap g adj landing) m < 1000000000 ∧
          ∀ m', IsModuleOfType g m' t →
            hop_distance (turn_distmap g adj landing) m ≤
              hop_distance (turn_distmap g adj landing) m' := by
  induction tc with
  | nil =>
    intro tf
    refine ⟨tf, rfl, ?_, fun x hx => Or.inl ⟨x.2, hx⟩⟩
    simp [UMap.wsum]
  | cons e rest ih =>
    intro tf
    obtain ⟨atype, count⟩ := e
    unfold flow_of_landing
    rw [UMap.wsum_cons]
    cases hm : UMap.find (get_modules_by_type g).1 atype with
    | none =>
      have hns : ¬ type_is_served g adj landing atype = true := by
        intro hs
        obtain ⟨m, hmod, _⟩ := (type_is_served_iff g adj landing atype).1 hs
        obtain ⟨mods, hf, _⟩ := get_modules_by_type_complete g atype m hmod
        rw [hm] at hf
        exact Option.noConfusion hf
      obtain ⟨tf', h1, h2, h3⟩ := ih tf
      refine ⟨tf', h1, ?_, ?_⟩
      · rw [h2]; simp only [hns]; simp
      · intro x hx
        rcases h3 x hx with h | ⟨t, c, m, hmem, hrest⟩
        · exact Or.inl h
        · exact Or.inr ⟨t, c, m, List.mem_cons_of_mem _ hmem, hrest⟩
    | some mods =>
      obtain ⟨dist, hd, _⟩ := bfs_distances_from_returns g.all_buildings landing adj hw
      have htd : turn_distmap g adj landing = dist := by
        unfold turn_distmap; rw [hd]
      simp only [hd]
      obtain ⟨s1, s2, s3⟩ := nearest_module_spec dist mods (-1, 1000000000)
      have hle : ∀ m', IsModuleOfType g m' atype →
          (nearest_module dist mods (-1, 1000000000)).2 ≤ hop_distance dist m' := by
        intro m' hmod
        obtain ⟨mods', hf, hmem⟩ := get_modules_by_type_complete g atype m' hmod
        rw [hm] at hf
        have hmm : m' ∈ mods := by rw [Option.some.inj hf]; exact hmem
        unfold hop_distance
        by_cases hc : UMap.count dist m' ≠ 0
        · rw [if_pos hc]; exact s3 m' hmm hc
        · rw [if_neg hc]; exact s2
      by_cases hc : (nearest_module dist mods (-1, 1000000000)).1 ≠ -1 ∧
          (nearest_module dist mods (-1, 1000000000)).2 < 1000000000
      · rw [if_pos hc]
        have hsel : (nearest_module dist mods (-1, 1000000000)).1 ∈ mods ∧
            UMap.count dist (nearest_module dist mods (-1, 1000000000)).1 ≠ 0 ∧
            (nearest_module dist mods (-1, 1000000000)).2 =
              UMap.val dist (nearest_module dist mods (-1, 1000000000)).1 := by
          rcases s1 with s1 | ⟨a, b, c, _⟩
          · exact absurd (congrArg Prod.fst s1) hc.1
          · exact ⟨a, b, c⟩
        have hmod : IsModuleOfType g (nearest_module dist mods (-1, 1000000000)).1 atype :=
          get_modules_by_type_mem g atype mods hm _ hsel.1
        have hhop : hop_distance dist (nearest_module dist mods (-1, 1000000000)).1 =
            (nearest_module dist mods (-1, 1000000000)).2 := by
          unfold hop_distance
          rw [if_pos hsel.2.1, hsel.2.2]
        have hs : type_is_served g adj landing atype = true :=
          (type_is_served_iff g adj landing atype).2
            ⟨_, hmod, by rw [htd, hhop]; exact hc.2⟩
        obtain ⟨tf', h1, h2, h3⟩ := ih (UMap.set
          (UMap.index tf (min landing (nearest_module dist mods (-1, 1000000000)).1,
            max landing (nearest_module dist mods (-1, 1000000000)).1)).2
          (min landing (nearest_module dist mods (-1, 1000000000)).1,
            max landing (nearest_module dist mods (-1, 1000000000)).1)
          ((UMap.index tf (min landing (nearest_module dist mods (-1, 1000000000)).1,
            max landing (nearest_module dist mods (-1, 1000000000)).1)).1 + count))
        refine ⟨tf', h1, ?_, ?_⟩
        · rw [h2, UMap.total_add_at]
          simp only [hs, if_true]
          ring
        · intro x hx
          rcases h3 x hx with ⟨v', hv'⟩ | ⟨t, c, m, hmem, hrest⟩
          · rcases UMap.mem_add_at_key _ _ _ _ hv' with h | h
            · refine Or.inr ⟨atype, count, _, List.mem_cons_self _ _, hmod, h, ?_, ?_⟩
              · rw [htd, hhop]; exact hc.2
              · intro m' hm'
                rw [htd, hhop]
                exact hle m' hm'
            · exact Or.inl h
          · exact Or.inr ⟨t, c, m, List.mem_cons_of_mem _ hmem, hrest⟩
      · rw [if_neg hc]
        have hns : ¬ type_is_served g adj landing atype = true := by
          intro hs
          obtain ⟨m, hmod, hlt⟩ := (type_is_served_iff g adj landing atype).1 hs
          rw [htd] at hlt
          have hb : (nearest_module dist mods (-1, 1000000000)).2 < 1000000000 :=
            lt_of_le_of_lt (hle m hmod) hlt
          rcases s1 with s1 | ⟨a, _, _, _⟩
          · rw [s1] at hb
            exact absurd hb (lt_irrefl _)
          · have h1 : (nearest_module dist mods (-1, 1000000000)).1 = -1 := by
              by_contra hne
              exact hc ⟨hne, hb⟩
            rw [h1] at a
            exact hid atype (get_modules_by_type_mem g atype mods hm _ a)
        obtain ⟨tf', h1, h2, h3⟩ := ih tf
        refine ⟨tf', h1, ?_, ?_⟩
        · rw [h2]; simp only [hns]; simp
        · intro x hx
          rcases h3 x hx with h | ⟨t, c, m, hmem, hrest⟩
          · exact Or.inl h
          · exact Or.inr ⟨t, c, m, List.mem_cons_of_mem _ hmem, hrest⟩

/-- The loop over the landing pads returns; when no module has the identifier -1, the sum of
the table grows by the number of served astronauts of the pads with a registered position,
and every new key is a flow key of one of the pads gone through. -/
theorem estimate_astronaut_flow_loop_conserves (g : Globals)
    (adj : UMap Int (List (Int × Int)))
    (hw : ∀ x e, e ∈ nbrs_of adj x → e.2 = 0 ∨ e.2 = 1)
    (hid : ∀ t, ¬ IsModuleOfType g (-1) t) (l : List (Int × List Int)) :
    ∀ tf, ∃ tf',
      estimate_astronaut_flow_loop g adj (get_modules_by_type g).1 l tf = .ok tf' ∧
      UMap.total tf' = UMap.total tf +
        ((l.filter (fun e => decide (UMap.count g.building_positions e.1 ≠ 0))).map
          (fun e => ((e.2.filter (type_is_served g adj e.1)).length : Int))).sum ∧
      ∀ x ∈ tf', (∃ v', (x.1, v') ∈ tf) ∨
        ∃ landing types t m, (landing, types) ∈ l ∧
          UMap.count g.building_positions landing ≠ 0 ∧ t ∈ types ∧ IsModuleOfType g m t ∧
          x.1 = (min landing m, max landing m) ∧
          hop_distance (turn_distmap g adj landing) m < 1000000000 ∧
          ∀ m', IsModuleOfType g m' t →
            hop_distance (turn_distmap g adj landing) m ≤
              hop_distance (turn_distmap g adj landing) m' := by
  induction l with
  | nil =>
    intro tf
    exact ⟨tf, rfl, by simp, fun x hx => Or.inl ⟨x.2, hx⟩⟩
  | cons e rest ih =>
    intro tf
    obtain ⟨landing, types⟩ := e
    unfold estimate_astronaut_flow_loop
    by_cases h : UMap.count g.building_positions landing = 0
    · rw [if_pos h]
      obtain ⟨tf', h1, h2, h3⟩ := ih tf
      refine ⟨tf', h1, ?_, ?_⟩
      · rw [h2, List.filter_cons_of_neg (by simp [h])]
      · intro x hx
        rcases h3 x hx with h | ⟨L, ty, t, m, hmem, hrest⟩
        · exact Or.inl h
        · exact Or.inr ⟨L, ty, t, m, List.mem_cons_of_mem _ hmem, hrest⟩
    · rw [if_neg h]
      obtain ⟨tf1, f1, f2, f3⟩ := flow_of_landing_conserves g adj hw hid landing
        (types.foldl UMap.increment []) tf
      simp only [f1]
      obtain ⟨tf', h1, h2, h3⟩ := ih tf1
      refine ⟨tf', h1, ?_, ?_⟩
      · rw [h2, f2, UMap.wsum_foldl_increment, List.filter_cons_of_pos (by simp [h]),
          List.map_cons, List.sum_cons]
        simp only [UMap.wsum, List.map_nil, List.sum_nil]
        ring
      · intro x hx
        rcases h3 x hx with ⟨v', hv'⟩ | ⟨L, ty, t, m, hmem, hrest⟩
        · rcases f3 _ hv' with h' | ⟨t, c, m, hmem, hrest⟩
          · exact Or.inl h'
          · refine Or.inr ⟨landing, types, t, m, List.mem_cons_self _ _, h, ?_, hrest⟩
            rcases UMap.mem_foldl_increment_key types [] (t, c) hmem with h' | ⟨_, h'⟩
            · exact h'
            · exact absurd h' (List.not_mem_nil _)
        · exact Or.inr ⟨L, ty, t, m, List.mem_cons_of_mem _ hmem, hrest⟩

/-- C25 (counterexample): with the landing pad 1 holding one astronaut of type 7 and the
module -1 of type 7 one hop away, `estimate_astronaut_flow` returns the empty table, whose
values sum to 0, although one waiting astronaut has a module of its type within reach. -/
theorem module_minus_one_not_counted :
    estimate_astronaut_flow minus_one_scenario
        (build_adjacency minus_one_scenario.all_buildings minus_one_routes) =
      .ok ([], minus_one_scenario) ∧
    UMap.total ([] : UMap (Int × Int) Int) = 0 ∧
    served_passengers minus_one_scenario
        (build_adjacency minus_one_scenario.all_buildings minus_one_routes) = 1 ∧
    UMap.count minus_one_scenario.building_positions 1 ≠ 0 ∧
    IsModuleOfType minus_one_scenario (-1) 7 ∧
    hop_distance (turn_distmap minus_one_scenario
      (build_adjacency minus_one_scenario.all_buildings minus_one_routes) 1) (-1) = 1 := by
  refine ⟨rfl, rfl, ?_, by decide, ⟨by decide, rfl⟩, ?_⟩
  · decide
  · decide

/-- C25 (amended): on an adjacency map with weights 0 and 1, when no module has the
identifier -1, `estimate_astronaut_flow` returns a table whose values sum to the number of
waiting astronauts, over the landing pads with a registered position, whose type has a module
of that type at hop distance below 1000000000 from the pad; every key of the table is the
ordered pair (min, max) of such a pad and a module of a type demanded there whose hop distance
is least among the modules of that type. -/
theorem flow_table_conserves_served_passengers (g : Globals)
    (adj : UMap Int (List (Int × Int)))
    (hw : ∀ x e, e ∈ nbrs_of adj x → e.2 = 0 ∨ e.2 = 1)
    (hid : ∀ t, ¬ IsModuleOfType g (-1) t) :
    ∃ tube_flow, estimate_astronaut_flow g adj = .ok (tube_flow, g) ∧
      UMap.total tube_flow = served_passengers g adj ∧
      ∀ key v, (key, v) ∈ tube_flow → FlowKey g adj key := by
  obtain ⟨tf, h1, h2, h3⟩ := estimate_astronaut_flow_loop_conserves g adj hw hid
    g.landing_astronaut_types []
  refine ⟨tf, ?_, ?_, ?_⟩
  · unfold estimate_astronaut_flow
    simp only [get_modules_by_type_snd, h1]
  · rw [h2]
    unfold served_passengers
    simp [UMap.total]
  · intro key v hmem
    rcases h3 (key, v) hmem with ⟨_, h⟩ | h
    · exact absurd h (List.not_mem_nil _)
    · exact h

theorem flow_table_conserves_served_passengers_witness :
    ∃ tube_flow, estimate_astronaut_flow crowded_pad_scenario
        (build_adjacency crowded_pad_scenario.all_buildings crowded_pad_routes) =
        .ok (tube_flow, crowded_pad_scenario) ∧
      UMap.total tube_flow = served_passengers crowded_pad_scenario
        (build_adjacency crowded_pad_scenario.all_buildings crowded_pad_routes) ∧
      ∀ key v, (key, v) ∈ tube_flow → FlowKey crowded_pad_scenario
        (build_adjacency crowded_pad_scenario.all_buildings crowded_pad_routes) key :=
  flow_table_conserves_served_passengers crowded_pad_scenario
    (build_adjacency crowded_pad_scenario.all_buildings crowded_pad_routes)
    (build_adjacency_weights _ _) (fun _ h => absurd h.1 (by decide))

/-! ### The budget of a turn -/

theorem spent_take_all (l : List (String × Int)) : spent (l.take l.length) = spent l := by
  rw [List.take_length]

/-- A commit guarded by the test `c ≤ remaining_resources` lowers the exact difference
between the budget and the logged costs by `c` and keeps it non-negative. -/
theorem wrap32_guard (D c : Int) (h0 : 0 ≤ D) (hc : c ≤ wrap32 D) :
    0 ≤ D - c ∧ wrap32 (wrap32 D - c) = wrap32 (D - c) := by
  unfold wrap32 at hc ⊢
  constructor <;> omega

theorem BudgetInv.unspent {B : Int} {s s' : TurnState} (h : BudgetInv B s)
    (hl : s'.committed = s.committed)
    (hr : s'.remaining_resources = s.remaining_resources) : BudgetInv B s' where
  rem := by rw [hr, hl]; exact h.rem
  within := by rw [hl]; exact h.within

/-- A commit of a cost that passed the test `c ≤ remaining_resources` keeps the budget
invariant, whatever the sign of the cost. -/
theorem BudgetInv.commit {B : Int} {s s' : TurnState} (h : BudgetInv B s) (t : String)
    (c : Int) (hcost : c ≤ s.remaining_resources)
    (hl : s'.committed = s.committed ++ [(t, c)])
    (hr : s'.remaining_resources = wrap32 (s.remaining_resources - c)) : BudgetInv B s' := by
  have hsp : spent s.committed ≤ B := by
    have := h.within s.committed.length
    rwa [spent_take_all] at this
  have hrem := h.rem
  rw [hrem] at hcost
  obtain ⟨g1, g2⟩ := wrap32_guard (B - spent s.committed) c (by omega) hcost
  exact
    { rem := by
        rw [hr, hrem, g2, hl, spent_append]
        congr 1
        omega
      within := by
        intro k
        rw [hl]
        by_cases hk : k ≤ s.committed.length
        · rw [List.take_append_of_le_length hk]
          exact h.within k
        · rw [List.take_of_length_le (by simp; omega), spent_append]
          omega }

/-- Every step of the passes keeps the budget invariant. -/
theorem BudgetInv.pass {B : Int} {ids : List Int} {cands : List Candidate} {nb : List Int}
    {work : List (Int × Int × Int)} {s s' : TurnState} (h : BudgetInv B s)
    (hst : PassStep ids cands nb work s s') : BudgetInv B s' := by
  cases hst with
  | read_counters t => exact h.unspent rfl rfl
  | read_count t => exact h.unspent rfl rfl
  | declare_existing_set => exact h.unspent rfl rfl
  | declare_covered_tubes c => exact h.unspent rfl rfl
  | greedy c hmem _ _ hcost _ =>
    exact h.commit c.type c.cost hcost (greedy_commit_committed _ _ _)
      (greedy_commit_remaining_resources _ _ _)
  | fallback b best _ _ _ _ _ _ _ hel hbc _ _ =>
    refine h.commit "TUBE" best.best_cost ?_ rfl rfl
    rw [hbc]
    exact hel.2.2.2.2
  | sweep p b1 b2 _ _ hr =>
    have hw : wrap32 (s.remaining_resources - 1000) = s.remaining_resources - 1000 := by
      have h1 := wrap32_in_range (B - spent s.committed)
      rw [← h.rem] at h1
      obtain ⟨h2, h3⟩ := h1
      exact wrap32_eq_self ⟨by omega, by omega⟩
    exact h.commit "POD" 1000 hr rfl hw.symm

/-- C8 (counterexample): in the first turn with a budget of 10000, the route
`1 2 21474836` and two modules at `(0, 0)` and `(10, 0)`, the turn commits the single action
`UPGRADE 1 2` at the cost -2147483596 (the `int` products `cap * 10 * 20` and
`cost * (cap + 1)` wrap), and `remaining_resources` is -2147473700 after that commit: it is
negative and differs from the budget minus the committed cost, which is 2147493596. -/
theorem wrapped_upgrade_breaks_budget :
    (0 : Int) ≤ wide_capacity_input.resources ∧
      ∀ hypot : Int → Int → ℚ,
        ∃ s, main_turn hypot initial_globals wide_capacity_input = .ok s ∧
          s.actions = ["UPGRADE 1 2"] ∧ s.committed = [("UPGRADE", -2147483596)] ∧
          s.remaining_resources = -2147473700 ∧ s.remaining_resources < 0 ∧
          wide_capacity_input.resources - spent s.committed = 2147493596 := by
  refine ⟨by decide, fun hypot => ?_⟩
  have hr : read_input initial_globals wide_capacity_input =
      (wide_capacity_globals, wide_capacity_locals) := by decide
  have he : estimate_astronaut_flow wide_capacity_globals
      (build_adjacency wide_capacity_globals.all_buildings wide_capacity_locals.routes) =
      .ok ([], wide_capacity_globals) := rfl
  have hb : find_bottleneck_tubes wide_capacity_locals.routes [] = [(1, 2, 21474836, 0)] := by
    show find_bottleneck_tubes [(1, 2, 21474836)] [] = [(1, 2, 21474836, 0)]
    rw [find_bottleneck_tubes_cons, if_neg (by decide), if_pos (by decide)]
    rfl
  have hc : ∃ sc1 sc2 : ℚ,
      collect_candidates hypot wide_capacity_globals wide_capacity_locals 10000
        (build_adjacency wide_capacity_globals.all_buildings wide_capacity_locals.routes)
        [(1, 2, 21474836, 0)] =
      .ok ([{ type := "UPGRADE", action := "UPGRADE 1 2", score := sc1,
              cost := -2147483596, buildings := (1, 2) },
            { type := "POD", action := "POD \x7bpod_id\x7d 1 2 1 2 1 2 1 2", score := sc2,
              cost := 1000, buildings := (1, 2) }], wide_capacity_globals) := by
    have h1 : generate_tube_candidates hypot wide_capacity_globals 10000
        wide_capacity_locals.degree wide_capacity_locals.existing_tubes =
        .ok ([], wide_capacity_globals) := rfl
    have h2 : generate_upgrade_candidates 10000 [(1, 2, 21474836, 0)] wide_capacity_globals
        [] =
        ([{ type := "UPGRADE", action := "UPGRADE 1 2",
            score := ((0 : Int) : ℚ) * 10 - ((-2147483596 : Int) : ℚ) * (1 / 10),
            cost := -2147483596, buildings := (1, 2) }], wide_capacity_globals) := rfl
    have h3 : generate_pod_candidates wide_capacity_globals 10000
        wide_capacity_locals.routes wide_capacity_locals.existing_pod_routes =
        ([{ type := "POD", action := "POD \x7bpod_id\x7d 1 2 1 2 1 2 1 2",
            score := ((100 : Int) : ℚ), cost := 1000, buildings := (1, 2) }],
          wide_capacity_globals) := rfl
    have ht : ¬ (wide_capacity_globals.turn_number > 8 ∧ (10000 : Int) > 5000 * 2) := by
      decide
    refine ⟨((0 : Int) : ℚ) * 10 - ((-2147483596 : Int) : ℚ) * (1 / 10), ((100 : Int) : ℚ), ?_⟩
    unfold collect_candidates
    simp only [h1, h2, h3, if_neg ht, List.nil_append, List.singleton_append]
    have hs : ((100 : Int) : ℚ) ≤ ((0 : Int) : ℚ) * 10 - ((-2147483596 : Int) : ℚ) * (1 / 10) := by
      norm_num
    simp only [sort_by_score, List.insertionSort, List.orderedInsert, ge_iff_le, hs, if_true]
  obtain ⟨sc1, sc2, hc⟩ := hc
  have hp : ∃ s, commit_passes wide_capacity_locals.existing_pod_ids
      wide_capacity_locals.routes wide_capacity_locals.existing_pod_routes
      wide_capacity_locals.new_buildings
      [{ type := "UPGRADE", action := "UPGRADE 1 2", score := sc1, cost := -2147483596,
         buildings := (1, 2) },
       { type := "POD", action := "POD \x7bpod_id\x7d 1 2 1 2 1 2 1 2", score := sc2,
         cost := 1000, buildings := (1, 2) }]
      (turn_start wide_capacity_globals wide_capacity_locals.existing_tubes
        wide_capacity_locals.degree 10000
        (next_pod_id wide_capacity_locals.existing_pod_ids 1)) = .ok s ∧
      s.actions = ["UPGRADE 1 2"] ∧ s.committed = [("UPGRADE", -2147483596)] ∧
      s.remaining_resources = -2147473700 := by
    rw [← commit_passes_ignores_score]
    simp only [List.map]
    exact ⟨_, rfl, by decide, by decide, by decide⟩
  obtain ⟨s, hs, ha, hcm, hrem⟩ := hp
  refine ⟨s, ?_, ha, hcm, hrem, by rw [hrem]; decide, by rw [hcm]; decide⟩
  unfold main_turn
  rw [hr]
  unfold plan_turn
  have hres : wide_capacity_input.resources = 10000 := rfl
  simp only [he, hb, hres, hc, hs]

/-- C8 (amended): in a turn whose starting budget is a non-negative `int`, the three passes
(Greedy Selector, Fallback Connector, Coverage Sweep) run to completion, and at every moment
of the turn the sum of the costs of the actions committed so far is at most the starting
budget: every prefix of the commit log costs at most `resources`.  When no committed cost is
negative, the running budget is `resources` minus the committed costs and is not negative. -/
theorem committed_cost_within_budget (ids : List Int) (routes : List (Int × Int × Int))
    (pods : UMap Int (List Int)) (nb : List Int) (cands : List Candidate)
    (g : Globals) (et : List (Int × Int)) (degree : UMap Int Int) (resources counter : Int)
    (h : 0 ≤ resources) (hfit : resources ≤ 2147483647) :
    ∃ s, commit_passes ids routes pods nb cands (turn_start g et degree resources counter) =
        .ok s ∧
      s.actions.length = s.committed.length ∧
      (∀ k, spent (s.committed.take k) ≤ resources) ∧
      ((∀ e ∈ s.committed, 0 ≤ e.2) →
        (∀ k, 0 ≤ spent (s.committed.take k)) ∧
        s.remaining_resources = resources - spent s.committed ∧
        0 ≤ s.remaining_resources) := by
  obtain ⟨s, hs, hr⟩ := commit_passes_reach ids routes pods nb cands
    (turn_start g et degree resources counter)
  have hcount : TurnInv s :=
    Reach.invariant TurnInv (fun _ _ hp hst => TurnInv.count_step hp hst) hr
      (TurnInv.start _ _ _ _ _)
  have h0 : BudgetInv resources (turn_start g et degree resources counter) :=
    { rem := by
        simp only [turn_start, spent, List.map_nil, List.sum_nil, sub_zero]
        exact (wrap32_eq_self ⟨by omega, hfit⟩).symm
      within := fun k => by simpa [turn_start, spent] using h }
  have hb := Reach.invariant (BudgetInv resources)
    (fun _ _ hp hst => BudgetInv.pass hp hst) hr h0
  refine ⟨s, hs, hcount.len, hb.within, fun hnn => ?_⟩
  have hpre : ∀ k, 0 ≤ spent (s.committed.take k) := by
    intro k
    unfold spent
    apply List.sum_nonneg
    intro x hx
    obtain ⟨e, he, rfl⟩ := List.mem_map.1 hx
    exact hnn e (List.mem_of_mem_take he)
  have h1 := hb.within s.committed.length
  have h2 := hpre s.committed.length
  rw [spent_take_all] at h1 h2
  have hw : wrap32 (resources - spent s.committed) = resources - spent s.committed :=
    wrap32_eq_self ⟨by omega, by omega⟩
  refine ⟨hpre, by rw [hb.rem, hw], by rw [hb.rem, hw]; omega⟩

theorem committed_cost_within_budget_witness :
    ((0 : Int) ≤ 2500 ∧ (2500 : Int) ≤ 2147483647) ∧
    ∃ s, commit_passes [4] [(1, 2, 1), (5, 6, 2)] [(4, [1, 2])] [7, 8]
        [{ type := "POD", action := "POD \x7bpod_id\x7d 5 6 5 6 5 6 5 6", score := 100,
           cost := 1000, buildings := (5, 6) }]
        (turn_start crossing_scenario [(1, 2), (5, 6)] [(1, 1), (2, 1), (5, 1), (6, 1)]
          2500 1) = .ok s ∧
      s.actions.length = s.committed.length ∧
      (∀ k, spent (s.committed.take k) ≤ 2500) ∧
      ((∀ e ∈ s.committed, 0 ≤ e.2) →
        (∀ k, 0 ≤ spent (s.committed.take k)) ∧
        s.remaining_resources = 2500 - spent s.committed ∧
        0 ≤ s.remaining_resources) :=
  ⟨by decide, committed_cost_within_budget [4] [(1, 2, 1), (5, 6, 2)] [(4, [1, 2])] [7, 8]
    [{ type := "POD", action := "POD \x7bpod_id\x7d 5 6 5 6 5 6 5 6", score := 100,
       cost := 1000, buildings := (5, 6) }]
    crossing_scenario [(1, 2), (5, 6)] [(1, 1), (2, 1), (5, 1), (6, 1)] 2500 1 (by decide)
    (by decide)⟩

end V3

namespace Lunar

/-! ### Vehicle identifiers of `lunar.cpp` -/

theorem ids_from_self (n0 : Int) : ids_from n0 n0 = [] := by
  simp [ids_from]

theorem ids_from_succ (n0 n : Int) (h : n0 ≤ n) :
    ids_from n0 (n + 1) = ids_from n0 n ++ [n] := by
  unfold ids_from
  have e : (n + 1 - n0).toNat = (n - n0).toNat + 1 := by omega
  rw [e, List.range_succ, List.map_append, List.map_singleton]
  congr 2
  omega

theorem mem_ids_from (n0 n y : Int) : y ∈ ids_from n0 n ↔ n0 ≤ y ∧ y < n := by
  unfold ids_from
  simp only [List.mem_map, List.mem_range]
  constructor
  · rintro ⟨i, hi, rfl⟩
    omega
  · intro h
    refine ⟨(y - n0).toNat, ?_, ?_⟩ <;> omega

theorem ids_from_pairwise (n0 n : Int) : (ids_from n0 n).Pairwise (fun a b => a < b) := by
  unfold ids_from
  rw [List.pairwise_map]
  apply List.Pairwise.imp _ (List.pairwise_lt_range _)
  intro a b hab
  omega

theorem ids_from_append (n0 n1 n2 : Int) (h1 : n0 ≤ n1) (h2 : n1 ≤ n2) :
    ids_from n0 n2 = ids_from n0 n1 ++ ids_from n1 n2 := by
  obtain ⟨k, rfl⟩ : ∃ k : Nat, n2 = n1 + k := ⟨(n2 - n1).toNat, by omega⟩
  clear h2
  induction k with
  | zero => simp [ids_from_self]
  | succ k ih =>
    have e : n1 + ((k + 1 : Nat) : Int) = (n1 + (k : Int)) + 1 := by push_cast; ring
    rw [e, ids_from_succ n0 _ (by omega), ids_from_succ n1 _ (by omega), ih,
      List.append_assoc]

theorem emitted_ids_of_append (a b : List Action) :
    emitted_pod_ids (a ++ b) = emitted_pod_ids a ++ emitted_pod_ids b := by
  unfold emitted_pod_ids
  exact List.filterMap_append _ _ _

theorem wrap32_of_fits (x : Int) (h1 : -2147483648 ≤ x) (h2 : x ≤ 2147483647) :
    wrap32 x = x := by
  unfold wrap32
  omega

theorem wrap32_fits (x : Int) : -2147483648 ≤ wrap32 x ∧ wrap32 x ≤ 2147483647 := by
  unfold wrap32
  omega

theorem wrap32_succ (x : Int) (k : Nat) :
    wrap32 (wrap32 (x + (k : Int)) + 1) = wrap32 (x + ((k + 1 : Nat) : Int)) := by
  unfold wrap32
  push_cast
  omega

theorem wrapped_ids_succ (n0 : Int) (k : Nat) :
    wrapped_ids n0 (k + 1) = wrapped_ids n0 k ++ [wrap32 (n0 + (k : Int))] := by
  unfold wrapped_ids
  rw [List.range_succ, List.map_append, List.map_singleton]

theorem wrapped_ids_exact (n0 : Int) (k : Nat) (h1 : -2147483648 ≤ n0)
    (h2 : n0 + (k : Int) ≤ 2147483648) :
    wrapped_ids n0 k = ids_from n0 (n0 + (k : Int)) := by
  unfold wrapped_ids ids_from
  have e : (n0 + (k : Int) - n0).toNat = k := by omega
  rw [e]
  apply List.map_congr_left
  intro i hi
  have := List.mem_range.1 hi
  exact wrap32_of_fits _ (by omega) (by omega)

/-- One pass of the body of the loop over the astronaut types keeps the invariant. -/
theorem plan_type_inv (F : FloatOps) (padId : Int) (pad : House) (pods : OMap Pod)
    (type : Int) (n0 : Int) (s : TurnState) (h : PodIdsInv n0 s) :
    PodIdsInv n0 (plan_type F padId pad pods type s) := by
  unfold plan_type
  cases hm : findModulesOfType type s.buildings with
  | nil => exact h
  | cons m0 rest =>
    simp only
    have key : ∀ s1 : TurnState, PodIdsInv n0 s1 → ∀ (c : Prop) [Decidable c] (a b : Int),
        PodIdsInv n0 (if c then
          { s1 with
            actions := s1.actions ++ [Action.pod s1.nextPodId a b]
            resources := wrap32 (s1.resources - 1000)
            nextPodId := wrap32 (s1.nextPodId + 1) }
          else s1) := by
      intro s1 h1 c _ a b
      by_cases hc : c
      · rw [if_pos hc]
        have hl : emitted_pod_ids (s1.actions ++ [Action.pod s1.nextPodId a b]) =
            emitted_pod_ids s1.actions ++ [s1.nextPodId] := by
          rw [emitted_ids_of_append]
          rfl
        refine ⟨?_, ?_⟩
        · simp only
          rw [hl, List.length_append, List.length_singleton, wrapped_ids_succ, ← h1.1, h1.2]
        · simp only
          rw [hl, List.length_append, List.length_singleton, h1.2, wrap32_succ]
      · rw [if_neg hc]
        exact h1
    have tube : ∀ (s0 : TurnState) (a b : Int),
        emitted_pod_ids (s0.actions ++ [Action.tube a b]) = emitted_pod_ids s0.actions := by
      intro s0 a b
      rw [emitted_ids_of_append]
      simp [emitted_pod_ids, Action.pod_id]
    apply key
    split_ifs
    · exact h
    · refine ⟨?_, ?_⟩
      · simp only
        rw [tube]
        exact h.1
      · simp only
        rw [tube]
        exact h.2
    · exact h
    · exact h

theorem plan_types_inv (F : FloatOps) (padId : Int) (pad : House) (pods : OMap Pod)
    (n0 : Int) (types : List Int) :
    ∀ s : TurnState, PodIdsInv n0 s → PodIdsInv n0 (plan_types F padId pad pods types s) := by
  induction types with
  | nil => exact fun s h => h
  | cons t rest ih =>
    intro s h
    exact ih _ (plan_type_inv F padId pad pods t n0 s h)

theorem plan_pads_inv (F : FloatOps) (pods : OMap Pod) (n0 : Int) (pads : List Int) :
    ∀ s : TurnState, PodIdsInv n0 s → PodIdsInv n0 (plan_pads F pods pads s) := by
  induction pads with
  | nil => exact fun s h => h
  | cons p rest ih =>
    intro s h
    unfold plan_pads
    exact ih _ (plan_types_inv F p _ pods n0 _ _ h)

/-- The loop over the pod lines leaves `nextPodId` at or above its old value and within the
`int` range. -/
theorem read_pods_fits (lines : List PodLine) :
    ∀ (pods : OMap Pod) (n : Int), -2147483648 ≤ n → n ≤ 2147483647 →
      n ≤ (read_pods lines pods n).2 ∧ (read_pods lines pods n).2 ≤ 2147483647 := by
  induction lines with
  | nil =>
    intro pods n _ h2
    exact ⟨le_refl _, h2⟩
  | cons l rest ih =>
    intro pods n h1 h2
    unfold read_pods
    have hw := wrap32_fits (l.id + 1)
    obtain ⟨a1, a2⟩ := ih (OMap.set pods l.id { id := l.id, itinerary := l.itinerary })
      (max n (wrap32 (l.id + 1))) (le_trans h1 (le_max_left _ _)) (max_le h2 hw.2)
    exact ⟨le_trans (le_max_left _ _) a1, a2⟩

/-- When every identifier read is an `int` below the bound `B`, the loop over the pod lines
leaves `nextPodId` above every identifier it has read, and at most `B` when it started at most
`B`. -/
theorem read_pods_bound (B : Int) (hB : B ≤ 2147483647) (lines : List PodLine) :
    ∀ (pods : OMap Pod) (n : Int), n ≤ B →
      (∀ p ∈ lines, -2147483648 ≤ p.id ∧ p.id < B) →
      (read_pods lines pods n).2 ≤ B ∧ ∀ p ∈ lines, p.id < (read_pods lines pods n).2 := by
  induction lines with
  | nil =>
    intro pods n hn _
    exact ⟨hn, fun p hp => absurd hp (List.not_mem_nil _)⟩
  | cons l rest ih =>
    intro pods n hn hl
    unfold read_pods
    obtain ⟨l1, l2⟩ := hl l (List.mem_cons_self _ _)
    have hw : wrap32 (l.id + 1) = l.id + 1 := wrap32_of_fits _ (by omega) (by omega)
    rw [hw]
    obtain ⟨h1, h2⟩ := ih (OMap.set pods l.id { id := l.id, itinerary := l.itinerary })
      (max n (l.id + 1)) (max_le hn (by omega)) (fun p hp => hl p (List.mem_cons_of_mem _ hp))
    refine ⟨h1, ?_⟩
    intro p hp
    rcases List.mem_cons.1 hp with e | e
    · subst e
      have a1 := le_max_right n (p.id + 1)
      have a2 := (read_pods_fits rest
        (OMap.set pods p.id { id := p.id, itinerary := p.itinerary })
        (max n (p.id + 1)) (le_trans (by omega) a1) (max_le (by omega) (by omega))).1
      omega
    · exact h2 p e

/-- One turn, whatever the input: the identifiers emitted are the values that the successive
increments produced from the value `n0` of `nextPodId` after the pod lines were read. -/
theorem main_turn_wrapped_ids (F : FloatOps) (st : RunState) (inp : TurnInput)
    (h1 : -2147483648 ≤ st.nextPodId) (h2 : st.nextPodId ≤ 2147483647) :
    emitted_pod_ids (main_turn F st inp).1 =
        wrapped_ids (read_pods inp.pod_lines [] st.nextPodId).2
          (emitted_pod_ids (main_turn F st inp).1).length ∧
      (main_turn F st inp).2.nextPodId =
        wrap32 ((read_pods inp.pod_lines [] st.nextPodId).2 +
          ((emitted_pod_ids (main_turn F st inp).1).length : Int)) := by
  obtain ⟨a1, a2⟩ := read_pods_fits inp.pod_lines [] st.nextPodId h1 h2
  unfold main_turn
  simp only
  refine plan_pads_inv F _ _ _ _ ⟨by simp [emitted_pod_ids, wrapped_ids], ?_⟩
  simp only [emitted_pod_ids, List.filterMap_nil, List.length_nil, Nat.cast_zero, add_zero]
  exact (wrap32_of_fits _ (by omega) a2).symm

/-- One turn in which the counter stays an `int`: the identifiers emitted are the consecutive
integers from some `n0` up to the new `nextPodId - 1`, where `n0` is at least the old
`nextPodId` and above every identifier of the input of the turn. -/
theorem main_turn_ids (F : FloatOps) (st : RunState) (inp : TurnInput) (B : Int)
    (hlo : -2147483648 ≤ st.nextPodId) (hst : st.nextPodId ≤ B)
    (hin : ∀ x ∈ input_pod_ids inp, -2147483648 ≤ x ∧ x < B)
    (hB : B + ((emitted_pod_ids (main_turn F st inp).1).length : Int) ≤ 2147483647) :
    ∃ n0, st.nextPodId ≤ n0 ∧ n0 ≤ B ∧ (∀ x ∈ input_pod_ids inp, x < n0) ∧
      (main_turn F st inp).2.nextPodId =
        n0 + ((emitted_pod_ids (main_turn F st inp).1).length : Int) ∧
      emitted_pod_ids (main_turn F st inp).1 = ids_from n0 (main_turn F st inp).2.nextPodId := by
  have hB' : B ≤ 2147483647 := by omega
  have hl : ∀ p ∈ inp.pod_lines, -2147483648 ≤ p.id ∧ p.id < B := by
    intro p hp
    exact hin p.id (List.mem_map.2 ⟨p, hp, rfl⟩)
  obtain ⟨b1, b2⟩ := read_pods_bound B hB' inp.pod_lines [] st.nextPodId hst hl
  obtain ⟨c1, _⟩ := read_pods_fits inp.pod_lines [] st.nextPodId hlo (by omega)
  obtain ⟨d1, d2⟩ := main_turn_wrapped_ids F st inp hlo (by omega)
  have hn : (main_turn F st inp).2.nextPodId =
      (read_pods inp.pod_lines [] st.nextPodId).2 +
        ((emitted_pod_ids (main_turn F st inp).1).length : Int) := by
    rw [d2]
    exact wrap32_of_fits _ (by omega) (by omega)
  refine ⟨(read_pods inp.pod_lines [] st.nextPodId).2, c1, b1, ?_, hn, ?_⟩
  · intro x hx
    unfold input_pod_ids at hx
    obtain ⟨p, hp, rfl⟩ := List.mem_map.1 hx
    exact b2 p hp
  · rw [hn, ← wrapped_ids_exact _ _ (by omega) (by omega)]
    exact d1

theorem pods_emitted_cons (a : List Action) (rest : List (List Action)) :
    pods_emitted (a :: rest) = (emitted_pod_ids a).length + pods_emitted rest := by
  simp [pods_emitted]

theorem closest_module_single (F : FloatOps) (pad : House) (m : Int) (b : OMap House)
    (best : Int × ℚ) (hb : best.1 = m) :
    (closest_module F pad [m] b best).1.1 = m ∧
      (closest_module F pad [m] b best).2 = (OMap.index b m).2 := by
  unfold closest_module
  simp only
  split_ifs <;> simp [closest_module, hb]

/-- The planning part of a turn on the registry of `largest_id_input` with budget 1000, when
no pod of the input visits both the pad 1 and the module 2: the link 1-2 exists, so no tube
is built, and one pod is emitted under the current `nextPodId`. -/
theorem three_node_plan (F : FloatOps) (pods : OMap Pod) (n : Int)
    (hpods : (pods.any fun pod =>
      decide (1 ∈ pod.2.itinerary) && decide (2 ∈ pod.2.itinerary)) = false) :
    (plan_pads F pods [1]
      { buildings := three_node_registry, tubes := three_node_tubes, resources := 1000,
        actions := [], nextPodId := n }).actions = [Action.pod n 1 2] := by
  have hi : OMap.index three_node_registry 1 =
      ({ id := 1, type := 0, x := 0, y := 0, astronautTypes := [1] },
        three_node_registry) := by decide
  have hu : uniqueTypes [1] = [1] := by decide
  have hm : findModulesOfType 1 three_node_registry = [2] := by decide
  obtain ⟨e1, e2⟩ := closest_module_single F
    { id := 1, type := 0, x := 0, y := 0, astronautTypes := [1] } 2 three_node_registry
    (2, 1000000000) rfl
  have htube : (three_node_tubes.any fun tube =>
      decide (tube.bId1 = 1) && decide (tube.bId2 = 2) ||
        decide (tube.bId1 = 2) && decide (tube.bId2 = 1)) = true := by decide
  simp only [plan_pads, hi, hu, plan_types, plan_type, hm, e1, e2]
  rw [if_pos htube, if_pos ⟨hpods, show (1000 : Int) ≥ 1000 from le_refl _⟩]
  rfl

/-- The turn of `largest_id_input` from the initial state: `nextPodId` is still 1 after the
pod line is read, and the turn emits the pod 1. -/
theorem largest_id_turn (F : FloatOps) :
    (main_turn F initial_state largest_id_input).1 = [Action.pod 1 1 2] := by
  have hreg : read_buildings largest_id_input.building_lines initial_state.buildings =
      three_node_registry := by decide
  have hp : read_pods largest_id_input.pod_lines [] initial_state.nextPodId =
      ([(2147483647, { id := 2147483647, itinerary := [2, 3, 2] })], 1) := by decide
  have ht : read_routes largest_id_input.routes [] = three_node_tubes := by decide
  have hl : findLandingPads three_node_registry = [1] := by decide
  have hres : largest_id_input.resources = 1000 := rfl
  unfold main_turn
  simp only [hreg, hp, ht, hl, hres]
  exact three_node_plan F _ 1 (by decide)

/-- The turn of `small_id_input` from the initial state: `nextPodId` is 6 after the pod line
is read, and the turn emits the pod 6. -/
theorem small_id_turn (F : FloatOps) :
    (main_turn F initial_state small_id_input).1 = [Action.pod 6 1 2] := by
  have hreg : read_buildings small_id_input.building_lines initial_state.buildings =
      three_node_registry := by decide
  have hp : read_pods small_id_input.pod_lines [] initial_state.nextPodId =
      ([(5, { id := 5, itinerary := [2, 3, 2] })], 6) := by decide
  have ht : read_routes small_id_input.routes [] = three_node_tubes := by decide
  have hl : findLandingPads three_node_registry = [1] := by decide
  have hres : small_id_input.resources = 1000 := rfl
  unfold main_turn
  simp only [hreg, hp, ht, hl, hres]
  exact three_node_plan F _ 6 (by decide)

/-- C16 (counterexample): in the first turn of a run whose input lists the pod 2147483647,
the program emits the action `POD 1 1 2 1`, whose vehicle identifier 1 is not greater than
the identifier 2147483647 of the input: `p.id + 1` wraps to -2147483648, so `nextPodId` stays
at 1. -/
theorem pod_id_below_largest_input_id :
    input_pod_ids largest_id_input = [2147483647] ∧
      (Action.pod 1 1 2).render = "POD 1 1 2 1" ∧
      ∀ F : FloatOps, (main_turn F initial_state largest_id_input).1 = [Action.pod 1 1 2] :=
  ⟨rfl, by decide, fun F => largest_id_turn F⟩

/-- The run invariant behind the claim on the vehicle identifiers, for every start state and
bound. -/
theorem pod_ids_run_aux (F : FloatOps) (inputs : List TurnInput) :
    ∀ (st : RunState) (B : Int), -2147483648 ≤ st.nextPodId → st.nextPodId ≤ B →
      (∀ inp ∈ inputs, ∀ x ∈ input_pod_ids inp, -2147483648 ≤ x ∧ x < B) →
      B + (pods_emitted (run_turns F inputs st).1 : Int) ≤ 2147483647 →
      (((run_turns F inputs st).1.map emitted_pod_ids).flatten).Pairwise (fun a b => a < b) ∧
      (∀ y ∈ ((run_turns F inputs st).1.map emitted_pod_ids).flatten,
        st.nextPodId ≤ y ∧ y < (run_turns F inputs st).2.nextPodId) ∧
      st.nextPodId ≤ (run_turns F inputs st).2.nextPodId ∧
      ∀ pre inp post, inputs = pre ++ inp :: post →
        ∀ x ∈ ((pre ++ [inp]).map input_pod_ids).flatten,
          ∀ y ∈ (((run_turns F inputs st).1.drop pre.length).map emitted_pod_ids).flatten,
            x < y := by
  induction inputs with
  | nil =>
    intro st B _ _ _ _
    refine ⟨by simp [run_turns], by simp [run_turns], le_refl _, ?_⟩
    intro pre inp post h
    exact absurd h (by simp)
  | cons i rest ih =>
    intro st B hlo hst hin hB
    have hrun : run_turns F (i :: rest) st =
        ((main_turn F st i).1 :: (run_turns F rest (main_turn F st i).2).1,
          (run_turns F rest (main_turn F st i).2).2) := rfl
    rw [hrun] at hB ⊢
    simp only [pods_emitted_cons] at hB
    push_cast at hB
    obtain ⟨n0, a1, a0, a2, a3', a4⟩ := main_turn_ids F st i B hlo hst
      (hin i (List.mem_cons_self _ _)) (by omega)
    have a3 : n0 ≤ (main_turn F st i).2.nextPodId := by omega
    obtain ⟨b1, b2, b3, b4⟩ := ih (main_turn F st i).2
      (B + ((emitted_pod_ids (main_turn F st i).1).length : Int)) (by omega) (by omega)
      (fun inp hinp x hx => by
        have := hin inp (List.mem_cons_of_mem _ hinp) x hx
        omega) (by omega)
    simp only [List.map_cons, List.flatten_cons]
    have hfirst : ∀ y ∈ emitted_pod_ids (main_turn F st i).1,
        n0 ≤ y ∧ y < (main_turn F st i).2.nextPodId := by
      intro y hy
      rw [a4] at hy
      exact (mem_ids_from _ _ _).1 hy
    refine ⟨?_, ?_, le_trans (le_trans a1 a3) b3, ?_⟩
    · rw [List.pairwise_append]
      refine ⟨?_, b1, ?_⟩
      · rw [a4]
        exact ids_from_pairwise _ _
      · intro a ha b hb
        have := (hfirst a ha).2
        have := (b2 b hb).1
        omega
    · intro y hy
      rcases List.mem_append.1 hy with h | h
      · have := hfirst y h
        omega
      · have := b2 y h
        omega
    · intro pre inp post hdec x hx y hy
      cases pre with
      | nil =>
        simp only [List.nil_append, List.cons.injEq] at hdec
        obtain ⟨e1, _⟩ := hdec
        subst e1
        simp only [List.nil_append, List.map_cons, List.map_nil, List.flatten_cons, List.flatten_nil,
          List.append_nil] at hx
        have hx' := a2 x hx
        simp only [List.length_nil, List.drop_zero, List.map_cons, List.flatten_cons] at hy
        rcases List.mem_append.1 hy with h | h
        · have := hfirst y h
          omega
        · have := b2 y h
          omega
      | cons p pre' =>
        simp only [List.cons_append, List.cons.injEq] at hdec
        obtain ⟨e1, e2⟩ := hdec
        subst e1
        simp only [List.length_cons, List.drop_succ_cons] at hy
        simp only [List.cons_append, List.map_cons, List.flatten_cons] at hx
        rcases List.mem_append.1 hx with h | h
        · have hx' := a2 x h
          have hy' : y ∈ ((run_turns F rest (main_turn F st i).2).1.map emitted_pod_ids).flatten := by
            rw [List.mem_flatten] at hy ⊢
            obtain ⟨l, hl, hyl⟩ := hy
            obtain ⟨o, ho, rfl⟩ := List.mem_map.1 hl
            exact ⟨_, List.mem_map.2 ⟨o, List.mem_of_mem_drop ho, rfl⟩, hyl⟩
          have := b2 y hy'
          omega
        · exact b4 pre' inp post e2 x h y hy

/-- C16 (amended): for every sequence of turn inputs of lunar.cpp and whatever the float
computations return, when the counter stays an `int`, that is, when the starting `nextPodId`
is an `int` at most `B`, every vehicle identifier of the inputs is an `int` below `B`, and `B`
plus the number of `POD` actions of the run is at most 2147483647: the vehicle identifiers of
the `POD` actions emitted over the whole run are strictly increasing in emission order; each
lies at or above the starting `nextPodId` and below the final one, so `nextPodId` never ends
below its starting value; and every identifier emitted in a turn, or in a later turn, is
strictly greater than every vehicle identifier present in the input of that turn or of an
earlier turn. -/
theorem pod_ids_increase_over_run (F : FloatOps) (inputs : List TurnInput) (st : RunState)
    (B : Int) (hlo : -2147483648 ≤ st.nextPodId) (hst : st.nextPodId ≤ B)
    (hin : ∀ inp ∈ inputs, ∀ x ∈ input_pod_ids inp, -2147483648 ≤ x ∧ x < B)
    (hB : B + (pods_emitted (run_turns F inputs st).1 : Int) ≤ 2147483647) :
    (((run_turns F inputs st).1.map emitted_pod_ids).flatten).Pairwise (fun a b => a < b) ∧
      (∀ y ∈ ((run_turns F inputs st).1.map emitted_pod_ids).flatten,
        st.nextPodId ≤ y ∧ y < (run_turns F inputs st).2.nextPodId) ∧
      st.nextPodId ≤ (run_turns F inputs st).2.nextPodId ∧
      ∀ pre inp post, inputs = pre ++ inp :: post →
        ∀ x ∈ ((pre ++ [inp]).map input_pod_ids).flatten,
          ∀ y ∈ (((run_turns F inputs st).1.drop pre.length).map emitted_pod_ids).flatten,
            x < y :=
  pod_ids_run_aux F inputs st B hlo hst hin hB

theorem small_id_run :
    (run_turns constant_float_ops [small_id_input] initial_state).1 = [[Action.pod 6 1 2]] := by
  show [(main_turn constant_float_ops initial_state small_id_input).1] = _
  rw [small_id_turn]

theorem pod_ids_increase_over_run_witness :
    ((-2147483648 : Int) ≤ initial_state.nextPodId ∧ initial_state.nextPodId ≤ 6 ∧
      (∀ inp ∈ [small_id_input], ∀ x ∈ input_pod_ids inp, -2147483648 ≤ x ∧ x < 6) ∧
      (6 : Int) +
        (pods_emitted (run_turns constant_float_ops [small_id_input] initial_state).1 : Int) ≤
          2147483647) ∧
      ((((run_turns constant_float_ops [small_id_input] initial_state).1.map
          emitted_pod_ids).flatten).Pairwise (fun a b => a < b) ∧
        (∀ y ∈ ((run_turns constant_float_ops [small_id_input] initial_state).1.map
            emitted_pod_ids).flatten,
          initial_state.nextPodId ≤ y ∧
            y < (run_turns constant_float_ops [small_id_input] initial_state).2.nextPodId) ∧
        initial_state.nextPodId ≤
          (run_turns constant_float_ops [small_id_input] initial_state).2.nextPodId ∧
        ∀ pre inp post, [small_id_input] = pre ++ inp :: post →
          ∀ x ∈ ((pre ++ [inp]).map input_pod_ids).flatten,
            ∀ y ∈ (((run_turns constant_float_ops [small_id_input] initial_state).1.drop
                pre.length).map emitted_pod_ids).flatten,
              x < y) :=
  ⟨⟨by decide, by decide, by decide, by rw [small_id_run]; decide⟩,
    pod_ids_increase_over_run constant_float_ops [small_id_input] initial_state 6
      (by decide) (by decide) (by decide) (by rw [small_id_run]; decide)⟩

end Lunar
